import Mathlib

/-!
# Zn interpreter: value core and big-decimal arithmetic

A shallow embedding of the value and arithmetic core of the Zn interpreter
(`exec/arith.go`, `exec/zn_decimal.go`, `exec/eval.go`, `exec/vars.go`,
`error/*.go`) together with theorems about it.

Conventions of the embedding

* `*big.Int` is `Int`; Go `int` is `Int` together with `wrapInt`, the
  two's-complement wrap-around of the 64-bit targets, applied wherever the
  source adds or subtracts machine integers that a program can drive out of
  range (the exponents of decimals).
* `string` / `[]rune` is `List Char`.
* A function returning `(value, *error.Error)` returns `Except Error value`.
* Loops whose termination depends on the data take a fuel argument and return
  `none` when it runs out.
* `map[string]ZnValue` is an association list; where the source ranges over a
  map, the model ranges over the list in its order.
-/

namespace Zn

/-! ## error/error.go -/

/-- The part of `error.Error` that the evaluator inspects: code and text. -/
structure Error where
  code : Nat
  text : List Char
deriving DecidableEq, Repr

/-- The `errorClass` record: the class prefix (display mask left out). -/
structure errorClass where
  prefixCode : Nat
deriving DecidableEq, Repr

/-- `errorClass.NewError`: `code = prefix * 256 + subcode` in `uint16`. -/
def errorClass.NewError (ec : errorClass) (subcode : Nat) (text : List Char) : Error :=
  { code := (ec.prefixCode % 65536 * 256 + subcode) % 65536, text := text }

def ArithErrorClass : Nat := 0x26

def arithError : errorClass := { prefixCode := ArithErrorClass }

/-- `error.ArithDivZeroError`. -/
def ArithDivZeroError : Error :=
  arithError.NewError 0x01 "被除数不得为0".toList

/-- `error.ParseFromStringError`. -/
def ParseFromStringError (raw : List Char) : Error :=
  arithError.NewError 0x02 ("解析「".toList ++ raw ++ "」错误".toList)

/-! ## Machine integers -/

/-- Two's-complement wrap-around of a Go `int` (64 bits). -/
def wrapInt (x : Int) : Int := Int.bmod x (2 ^ 64)

/-- `big.Int.Exp(x, y, nil)`: `x ^ y`, and `1` when `y ≤ 0`. -/
def bigExp (x y : Int) : Int := if y ≤ 0 then 1 else x ^ y.toNat

/-- `big.Int.Exp(x, y, m)` with a modulus: `x ^ y mod |m|`, and the plain power
when `m = 0`. -/
def bigExpMod (x y m : Int) : Int :=
  if m = 0 then bigExp x y else bigExp x y % |m|

/-! ## exec/vars.go, exec/zn_decimal.go: values -/

/-- A `*ClassRef`, identified by its name and the names of its getters and
methods. -/
structure ClassRef where
  Name : List Char
  GetterList : List (List Char)
  MethodList : List (List Char)
deriving DecidableEq, Repr

/-- A `*ClosureRef`, identified by its name. -/
structure ClosureRef where
  Name : List Char
deriving DecidableEq, Repr

/-- `ZnDecimal`: the embedded `*ZnObject` (`none` is the nil pointer, `some c`
an object of class `c` with an empty property list), coefficient and exponent. -/
structure ZnDecimal where
  ZnObject : Option ClassRef
  co : Int
  exp : Int
deriving DecidableEq, Repr

/-- `ZnValue`: the tagged union behind the Go interface. Every primitive carries
its embedded `*ZnObject`. -/
inductive ZnValue where
  | decimal (d : ZnDecimal)
  | string (obj : Option ClassRef) (Value : List Char)
  | bool (obj : Option ClassRef) (Value : Bool)
  | null (obj : Option ClassRef)
  | array (obj : Option ClassRef) (Value : List ZnValue)
  | hashmap (obj : Option ClassRef) (Value : List (List Char × ZnValue))
      (KeyOrder : List (List Char))
  | function (obj : Option ClassRef) (closure : Option ClosureRef)
  | object (classRef : Option ClassRef) (PropList : List (List Char × ZnValue))

/-! ## exec/eval.go: duplicateValue -/

mutual
/-- `duplicateValue`: a fresh copy of a value, containers copied item by item,
functions and null returned as they are. -/
def duplicateValue : ZnValue → ZnValue
  | .bool obj v => .bool obj v
  | .string obj v => .string obj v
  | .decimal d => .decimal { ZnObject := d.ZnObject, co := d.co, exp := d.exp }
  | .null obj => .null obj
  | .array obj vs => .array obj (duplicateItems vs)
  | .hashmap obj m ko => .hashmap obj (duplicateEntries m) (copyKeys ko)
  | .function obj c => .function obj c
  | .object cls props => .object cls (duplicateEntries props)
/-- The loop `for _, val := range v.Value { newArr = append(newArr, duplicateValue(val)) }`. -/
def duplicateItems : List ZnValue → List ZnValue
  | [] => []
  | v :: vs => duplicateValue v :: duplicateItems vs
/-- The loop `for key, val := range m { new[key] = duplicateValue(val) }`. -/
def duplicateEntries : List (List Char × ZnValue) → List (List Char × ZnValue)
  | [] => []
  | (k, v) :: es => (k, duplicateValue v) :: duplicateEntries es
/-- The loop `for _, keyItem := range v.KeyOrder { newKeyOrder = append(newKeyOrder, keyItem) }`. -/
def copyKeys : List (List Char) → List (List Char)
  | [] => []
  | k :: ks => k :: copyKeys ks
end

/-- `copyZnDecimal`: `duplicateValue(old).(*ZnDecimal)`. -/
def copyZnDecimal (old : ZnDecimal) : ZnDecimal :=
  match duplicateValue (.decimal old) with
  | .decimal d => d
  | _ => { ZnObject := none, co := 0, exp := 0 }

/-! ## exec/arith.go -/

/-- `rescalePair`: bring two decimals to the smaller of their exponents. -/
def rescalePair (d1 d2 : ZnDecimal) : ZnDecimal × ZnDecimal :=
  if d1.exp = d2.exp then (d1, d2)
  else if d1.exp > d2.exp then
    let diff := wrapInt (d1.exp - d2.exp)
    let expVal := bigExp 10 diff
    ({ ZnObject := none, co := d1.co * expVal, exp := d2.exp }, d2)
  else
    let diff := wrapInt (d2.exp - d1.exp)
    let expVal := bigExp 10 diff
    (d1, { ZnObject := none, co := d2.co * expVal, exp := d1.exp })

/-- `Arith`: the arithmetic instance with its precision. -/
structure Arith where
  precision : Int
deriving DecidableEq, Repr

def NewArith (precision : Int) : Arith := { precision := precision }

def defaultPrecision : Int := 8

/-- One round of the loop of `Arith.Add`. -/
def Arith.addStep (result item : ZnDecimal) : ZnDecimal :=
  let r := rescalePair result item
  { result with co := r.1.co + r.2.co, exp := r.1.exp }

/-- `Arith.Add`: `A + B + C + ...`. -/
def Arith.Add (_ai : Arith) (decimal1 : ZnDecimal) (others : List ZnDecimal) : ZnDecimal :=
  let result := copyZnDecimal decimal1
  if others.length = 0 then result
  else others.foldl Arith.addStep result

/-- One round of the loop of `Arith.Sub`. -/
def Arith.subStep (result item : ZnDecimal) : ZnDecimal :=
  let r := rescalePair result item
  { result with co := r.1.co - r.2.co, exp := r.1.exp }

/-- `Arith.Sub`: `A - B - C - ...`. -/
def Arith.Sub (_ai : Arith) (decimal1 : ZnDecimal) (others : List ZnDecimal) : ZnDecimal :=
  let result := copyZnDecimal decimal1
  if others.length = 0 then result
  else others.foldl Arith.subStep result

/-- One round of the loop of `Arith.Mul`. -/
def Arith.mulStep (result item : ZnDecimal) : ZnDecimal :=
  { result with co := result.co * item.co, exp := wrapInt (result.exp + item.exp) }

/-- `Arith.Mul`: `A * B * C * ...`. -/
def Arith.Mul (_ai : Arith) (decimal1 : ZnDecimal) (others : List ZnDecimal) : ZnDecimal :=
  let result := copyZnDecimal decimal1
  if others.length = 0 then result
  else others.foldl Arith.mulStep result

/-! ## exec/eval.go: compareValues -/

def CmpEq : Nat := 1
def CmpLt : Nat := 2
def CmpGt : Nat := 3

def TypeErrorClass : Nat := 0x23
def InternalErrorClass : Nat := 0x60

def typeError : errorClass := { prefixCode := TypeErrorClass }
def internalError : errorClass := { prefixCode := InternalErrorClass }

/-- `error.InvalidCompareLType("decimal", "string", "bool", "array", "hashmap")`. -/
def InvalidCompareLType : Error :=
  typeError.NewError 0x04 "比较值的类型应为「数值」、「文本」、「二象」、「元组」、「列表」".toList

/-- `error.InvalidCompareRType("decimal")`. -/
def InvalidCompareRType : Error :=
  typeError.NewError 0x05 "被比较值的类型应为「数值」".toList

/-- `error.UnExpectedCase("比较原语", strconv.Itoa(int(verb)))`. -/
def UnExpectedCase (tag value : List Char) : Error :=
  internalError.NewError 0x01
    ("未定义的条件项：「".toList ++ tag ++ "」的值为「".toList ++ value ++ "」".toList)

/-- The `*ZnDecimal` case of `compareValues` once the right value is a decimal. -/
def compareDecimals (vl vr : ZnDecimal) (verb : Nat) : Except Error Bool :=
  let r := rescalePair vl vr
  if verb = CmpEq then .ok (decide (r.1.co = r.2.co))
  else if verb = CmpLt then .ok (decide (r.1.co < r.2.co))
  else if verb = CmpGt then .ok (decide (r.1.co > r.2.co))
  else .error (UnExpectedCase "比较原语".toList (Nat.toDigits 10 verb))

/-- `vr.Value[idx]` on a map: the value and whether the key is present. -/
def mapGet : List (List Char × ZnValue) → List Char → Option ZnValue
  | [], _ => none
  | (k, v) :: es, key => if k = key then some v else mapGet es key

mutual
/-- `compareValues`: compare two values under a verb (`CmpEq`, `CmpLt`, `CmpGt`). -/
def compareValues : ZnValue → ZnValue → Nat → Except Error Bool
  | .null _, right, _ =>
    match right with
    | .null _ => .ok true
    | _ => .ok false
  | .decimal vl, right, verb =>
    match right with
    | .decimal vr => compareDecimals vl vr verb
    | _ => if verb = CmpEq then .ok false else .error InvalidCompareRType
  | .string _ vl, right, verb =>
    if verb ≠ CmpEq then .error InvalidCompareLType
    else match right with
      | .string _ vr => .ok (decide (vl = vr))
      | _ => .ok false
  | .bool _ vl, right, verb =>
    if verb ≠ CmpEq then .error InvalidCompareLType
    else match right with
      | .bool _ vr => .ok (decide (vl = vr))
      | _ => .ok false
  | .array _ vl, right, verb =>
    if verb ≠ CmpEq then .error InvalidCompareLType
    else match right with
      | .array _ vr =>
        if vl.length ≠ vr.length then .ok false
        else compareItems vl vr
      | _ => .ok false
  | .hashmap _ vl _, right, verb =>
    if verb ≠ CmpEq then .error InvalidCompareLType
    else match right with
      | .hashmap _ vr _ =>
        if vl.length ≠ vr.length then .ok false
        else compareEntries vl vr
      | _ => .ok false
  | .function _ _, _, _ => .error InvalidCompareLType
  | .object _ _, _, _ => .error InvalidCompareLType
/-- The loop `for idx := range vl.Value` of the array case: its first round
returns, so only index 0 is compared. -/
def compareItems : List ZnValue → List ZnValue → Except Error Bool
  | l0 :: _, r0 :: _ => compareValues l0 r0 CmpEq
  | _, _ => .ok true
/-- The loop `for idx := range vl.Value` of the hashmap case: its first round
returns, so only the first key met is compared. -/
def compareEntries : List (List Char × ZnValue) → List (List Char × ZnValue) → Except Error Bool
  | (k, v) :: _, vr =>
    match mapGet vr k with
    | none => .ok false
    | some vrr => compareValues v vrr CmpEq
  | [], _ => .ok true
end

/-! ## exec/zn_decimal.go -/

def maxDigitCount : Int := 18
def maxLeadDecimalZero : Int := 6
def maxSciDigitCount : Int := 8

/-- `fmt.Sprintf("%d", n)` for a machine integer. -/
def formatInt (n : Int) : List Char :=
  if n < 0 then '-' :: Nat.toDigits 10 n.natAbs else Nat.toDigits 10 n.natAbs

/-- `ZnDecimal.String`: the display string of a decimal. -/
def ZnDecimal.String (zd : ZnDecimal) : List Char :=
  let sflag : List Char := if zd.co < 0 then ['-'] else []
  let txt := Nat.toDigits 10 zd.co.natAbs
  let digitCount : Int := txt.length
  let pointPos := wrapInt (zd.exp + digitCount)
  -- CASE I: no decimal point
  if digitCount ≤ pointPos ∧ pointPos ≤ maxDigitCount then
    if zd.exp > 0 then sflag ++ txt ++ List.replicate zd.exp.toNat '0'
    else sflag ++ txt
  -- CASE II: with decimal point
  else if pointPos ≤ maxDigitCount ∧ pointPos < digitCount ∧ pointPos > 0
      ∧ digitCount ≤ maxDigitCount then
    sflag ++ txt.take pointPos.toNat ++ ['.'] ++ txt.drop pointPos.toNat
  -- CASE III: lead 0. 0s
  else if pointPos ≤ 0 ∧ pointPos > -maxLeadDecimalZero then
    sflag ++ ['0', '.'] ++ List.replicate (-pointPos).toNat '0' ++ txt
  -- CASE IV: sci format
  else if digitCount > maxSciDigitCount then
    sflag ++ txt.take 1 ++ ['.'] ++ (txt.take (maxSciDigitCount + 1).toNat).drop 1
      ++ ['⏨'] ++ formatInt (wrapInt (pointPos - 1))
  else if digitCount > 1 then
    sflag ++ txt.take 1 ++ ['.'] ++ txt.drop 1 ++ ['⏨'] ++ formatInt (wrapInt (pointPos - 1))
  else
    sflag ++ txt.take 1 ++ ['⏨'] ++ formatInt (wrapInt (pointPos - 1))

/-- The value written by a run of ASCII digits, most significant first. -/
def digitsValue (ds : List Char) : Nat :=
  ds.foldl (fun acc c => acc * 10 + (c.toNat - 48)) 0

/-- An optional leading sign split off: whether it is `-`, and the rest. -/
def splitSign : List Char → Bool × List Char
  | '-' :: r => (true, r)
  | '+' :: r => (false, r)
  | s => (false, s)

/-- `big.Int.SetString(s, 10)`: an optional sign and at least one ASCII digit,
nothing else; `none` when the string is refused. -/
def bigIntSetString (s : List Char) : Option Int :=
  let p := splitSign s
  if p.2 = [] ∨ ¬ p.2.all Char.isDigit then none
  else if p.1 then some (-(digitsValue p.2 : Int)) else some (digitsValue p.2 : Int)

/-- `strconv.Atoi`: as `SetString`, and refused when the value leaves the range
of `int`. -/
def strconvAtoi (s : List Char) : Option Int :=
  let p := splitSign s
  if p.2 = [] ∨ ¬ p.2.all Char.isDigit then none
  else if p.1 then
    (if (digitsValue p.2 : Int) > 2 ^ 63 then none else some (-(digitsValue p.2 : Int)))
  else
    (if (digitsValue p.2 : Int) ≥ 2 ^ 63 then none else some (digitsValue p.2 : Int))

def sBegin : Nat := 1
def sIntNum : Nat := 3
def sDotNum : Nat := 6
def sExpNum : Nat := 7

/-- The locals of `setValue` that the scanning loop updates. -/
structure scanVars where
  intValS : List Char
  expValS : List Char
  dotNum : Int
deriving DecidableEq, Repr

/-- The scanning loop of `setValue`. `rest` is `rawR[idx:]`; one round reads
`x = rawR[idx]` and goes on at `idx + 1`, or past an exponent mark at `idx + 2`
(`*^`) or `idx + 4` (`*10^`). The look-ahead `rawR[idx+1]` is a run-time panic
when `*` is the last rune: the result is then `none`. Every round moves `idx`
forward, so `rest.length` rounds of fuel are enough. -/
def scanLoop : Nat → Nat → List Char → scanVars → Option scanVars
  | 0, _, _, v => some v
  | _ + 1, _, [], v => some v
  | fuel + 1, state, x :: rest, v =>
    if x = '_' then scanLoop fuel state rest v
    else if state = sBegin then
      if x = '+' then scanLoop fuel sIntNum rest v
      else if x = '-' then scanLoop fuel sIntNum rest { v with intValS := v.intValS ++ ['-'] }
      else if x = '.' then scanLoop fuel sDotNum rest v
      else scanLoop fuel sIntNum rest { v with intValS := v.intValS ++ [x] }
    else if state = sIntNum then
      if x = '.' then scanLoop fuel sDotNum rest v
      else if x = '*' then
        match rest with
        | [] => none
        | y :: rest' =>
          if y = '^' then scanLoop fuel sExpNum rest' v
          else scanLoop fuel sExpNum (rest.drop 3) v
      else if x = 'E' ∨ x = 'e' then scanLoop fuel sExpNum rest v
      else scanLoop fuel sIntNum rest { v with intValS := v.intValS ++ [x] }
    else if state = sDotNum then
      if x = '*' then
        match rest with
        | [] => none
        | y :: rest' =>
          if y = '^' then scanLoop fuel sExpNum rest' v
          else scanLoop fuel sExpNum (rest.drop 3) v
      else if x = 'E' ∨ x = 'e' then scanLoop fuel sExpNum rest v
      else scanLoop fuel sDotNum rest
        { v with intValS := v.intValS ++ [x], dotNum := v.dotNum + 1 }
    else if state = sExpNum then
      scanLoop fuel sExpNum rest { v with expValS := v.expValS ++ [x] }
    else scanLoop fuel state rest v

/-- `ZnDecimal.setValue`: read a number literal into a decimal. The outer
`Option` is `none` on a run-time panic; the receiver is passed and returned. -/
def ZnDecimal.setValue (zd : ZnDecimal) (raw : List Char) : Option (Except Error ZnDecimal) :=
  match scanLoop raw.length sBegin raw { intValS := [], expValS := [], dotNum := 0 } with
  | none => none
  | some v =>
    match bigIntSetString v.intValS with
    | none => some (.error (ParseFromStringError raw))
    | some co =>
      if v.expValS.length > 0 then
        match strconvAtoi v.expValS with
        | none => some (.error (ParseFromStringError raw))
        | some data => some (.ok { zd with co := co, exp := wrapInt (data - v.dotNum) })
      else some (.ok { zd with co := co, exp := wrapInt (0 - v.dotNum) })

/-- The class shared by all decimals (`defaultDecimalClassRef`). -/
def defaultDecimalClassRef : ClassRef :=
  { Name := "数值".toList, GetterList := ["文本".toList], MethodList := [] }

/-- `NewZnDecimal`: a decimal from a number literal. -/
def NewZnDecimal (value : List Char) : Option (Except Error ZnDecimal) :=
  ZnDecimal.setValue { ZnObject := some defaultDecimalClassRef, co := 0, exp := 0 } value

/-- `NewZnDecimalFromInt`. -/
def NewZnDecimalFromInt (value : Int) (exp : Int) : ZnDecimal :=
  { ZnObject := some defaultDecimalClassRef, co := value, exp := exp }

/-! ## exec/arith.go: Div

`Div` works on pointers: it copies the dividend, but multiplies the coefficient
of a divisor in place while aligning it. The embedding therefore passes the
operands as addresses into a heap of decimals and returns the heap it leaves
behind. -/

/-- The decimals that the operands of a call point to, by address. -/
abbrev Heap := Nat → ZnDecimal

/-- `p.co = v` for the decimal stored at `addr`, every other cell kept. -/
def Heap.setCo (h : Heap) (addr : Nat) (v : Int) : Heap :=
  fun q => if q = addr then { h addr with co := v } else h q

/-- The loop of the branch `result.co < item.co`: multiply the dividend by ten
until `item.co ≤ result.co < c2_10x`. Returns the dividend and the count. -/
def alignDividend : Nat → Int → Int → Int → Int → Option (Int × Int)
  | 0, _, _, _, _ => none
  | fuel + 1, resultCo, itemCo, c2_10x, adjust =>
    if resultCo ≥ itemCo ∧ resultCo < c2_10x then some (resultCo, adjust)
    else alignDividend fuel (resultCo * 10) itemCo c2_10x (adjust + 1)

/-- The loop of the other branch: multiply the divisor by ten until
`result.co ≤ item.co < c1_10x`. Returns the divisor and the count. -/
def alignDivisor : Nat → Int → Int → Int → Int → Option (Int × Int)
  | 0, _, _, _, _ => none
  | fuel + 1, resultCo, itemCo, c1_10x, adjust =>
    if itemCo ≥ resultCo ∧ itemCo < c1_10x then some (itemCo, adjust)
    else alignDivisor fuel resultCo (itemCo * 10) c1_10x (adjust - 1)

/-- `int64(math.Pow10(n))`: `10 ^ n` for `0 ≤ n ≤ 18`, and `0` for a negative
`n` (the fraction is truncated). `Div` calls it with `n ≤ 17` only. -/
def pow10Int64 (n : Int) : Int := if n < 0 then 0 else 10 ^ n.toNat

/-- The rounds of `Div` for one divisor once it is known to be non-zero: the
alignment, the scaled division and the rounding. Returns the new `result` and
the coefficient the divisor is left with; `none` when an alignment loop does
not come to an end within `fuel` rounds. The counter `adjust` is not wrapped:
it changes by one per multiplication by ten. -/
def Arith.divStep (ai : Arith) (fuel : Nat) (result item : ZnDecimal) :
    Option (ZnDecimal × Int) :=
  let aligned : Option (Int × Int × Int) :=
    if result.co < item.co then
      (alignDividend fuel result.co item.co (item.co * 10) 0).map
        (fun p => (p.1, item.co, p.2))
    else
      (alignDivisor fuel result.co item.co (result.co * 10) 0).map
        (fun p => (result.co, p.1, p.2))
  match aligned with
  | none => none
  | some (resultCo, itemCo, adjust) =>
    let precFactor := if adjust < 0 then ai.precision else wrapInt (ai.precision - 1)
    let exp10x :=
      if ai.precision ≥ 18 then bigExpMod 10 10 (wrapInt (precFactor - 1))
      else pow10Int64 precFactor
    let mul10x := resultCo * exp10x
    let xq := Int.ediv mul10x itemCo
    let xr := Int.emod mul10x itemCo
    let xq := if xr * 2 > itemCo then xq + 1 else xq
    some ({ result with
              co := xq,
              exp := wrapInt (wrapInt (wrapInt (result.exp - item.exp) - adjust) - precFactor) },
          itemCo)

/-- The loop `for _, item := range others` of `Div`. -/
def Arith.divLoop (ai : Arith) (fuel : Nat) :
    Heap → ZnDecimal → List Nat → Option (Heap × Except Error ZnDecimal)
  | h, result, [] => some (h, .ok result)
  | h, result, p :: ps =>
    if (h p).co = 0 then some (h, .error ArithDivZeroError)
    else
      match ai.divStep fuel result (h p) with
      | none => none
      | some (result', itemCo) => Arith.divLoop ai fuel (h.setCo p itemCo) result' ps

/-- `Arith.Div`: `A / B / C / ...` on the decimals at `decimal1` and `others`.
Returns the heap after the call and the result or error; `none` when the call
does not return within `fuel` rounds of an alignment loop. -/
def Arith.Div (ai : Arith) (fuel : Nat) (h : Heap) (decimal1 : Nat) (others : List Nat) :
    Option (Heap × Except Error ZnDecimal) :=
  let result := copyZnDecimal (h decimal1)
  if others.length = 0 then some (h, .ok result)
  else if (h decimal1).co = 0 then some (h, .ok result)
  else ai.divLoop fuel h result others

/-! ## Denotation -/

/-- The number a decimal stands for: `coefficient × 10 ^ exp`. -/
def ZnDecimal.value (d : ZnDecimal) : ℚ := (d.co : ℚ) * (10 : ℚ) ^ d.exp

/-! ## Vocabulary for the scan of a literal -/

/-- The runes that are kept: a literal with its underscores removed. -/
def stripUnderscores (l : List Char) : List Char := l.filter (fun c => decide (c ≠ '_'))

/-- One round of `scanLoop` on a rune other than `*` (the rounds without
look-ahead): the next state and locals. -/
def scanStep (p : Nat × scanVars) (x : Char) : Nat × scanVars :=
  if x = '_' then p
  else if p.1 = sBegin then
    if x = '+' then (sIntNum, p.2)
    else if x = '-' then (sIntNum, { p.2 with intValS := p.2.intValS ++ ['-'] })
    else if x = '.' then (sDotNum, p.2)
    else (sIntNum, { p.2 with intValS := p.2.intValS ++ [x] })
  else if p.1 = sIntNum then
    if x = '.' then (sDotNum, p.2)
    else if x = 'E' ∨ x = 'e' then (sExpNum, p.2)
    else (sIntNum, { p.2 with intValS := p.2.intValS ++ [x] })
  else if p.1 = sDotNum then
    if x = 'E' ∨ x = 'e' then (sExpNum, p.2)
    else (sDotNum, { p.2 with intValS := p.2.intValS ++ [x], dotNum := p.2.dotNum + 1 })
  else if p.1 = sExpNum then
    (sExpNum, { p.2 with expValS := p.2.expValS ++ [x] })
  else p

/-! ## Sample operands -/

/-- The operands `3` (address `0`) and `1` (every other address). -/
def heapThreeOne : Heap := fun p => if p = 0 then NewZnDecimalFromInt 3 0 else NewZnDecimalFromInt 1 0

/-- The operands `1` (address `0`) and `3` (every other address). -/
def heapOneThree : Heap := fun p => if p = 0 then NewZnDecimalFromInt 1 0 else NewZnDecimalFromInt 3 0

/-- The operands `5` (address `0`) and `0` (every other address). -/
def heapFiveZero : Heap := fun p => if p = 0 then NewZnDecimalFromInt 5 0 else NewZnDecimalFromInt 0 0

/-! ## exec/vars.go: display strings -/

/-- `strings.Join(strs, sep)`. -/
def joinStrings (sep : List Char) : List (List Char) → List Char
  | [] => []
  | [s] => s
  | s :: t :: rest => s ++ sep ++ joinStrings sep (t :: rest)

/-- The loop of `ZnHashMap.String`: for every key of `KeyOrder` the text
`key == value.String()`, where `rendered` holds `value.String()` for the entries
of `Value`. `none` is the nil dereference on a key that `Value` does not hold
(or on a value whose own `String` panics). -/
def stringPairs (rendered : List (List Char × Option (List Char))) :
    List (List Char) → Option (List (List Char))
  | [] => some []
  | key :: keys =>
    match rendered.lookup key with
    | some (some s) =>
      match stringPairs rendered keys with
      | some strs => some ((key ++ " == ".toList ++ s) :: strs)
      | none => none
    | _ => none

mutual
/-- `String()` of a value (`exec/vars.go`, `exec/zn_decimal.go`); `none` is a
nil-pointer panic. -/
def ZnValue.String : ZnValue → Option (List Char)
  | .decimal d => some d.String
  | .string _ v => some ("「".toList ++ v ++ "」".toList)
  | .bool _ v => some (if v = false then "假".toList else "真".toList)
  | .null _ => some "空".toList
  | .array _ vs =>
    match stringItems vs with
    | some strs => some ("【".toList ++ joinStrings "，".toList strs ++ "】".toList)
    | none => none
  | .hashmap _ m ko =>
    match stringPairs (stringEntries m) ko with
    | some strs => some ("【".toList ++ joinStrings "，".toList strs ++ "】".toList)
    | none => none
  | .function _ c =>
    match c with
    | some cr => some ("方法： ".toList ++ cr.Name)
    | none => none
  | .object _ _ => some "[Object]".toList
/-- The loop `for _, item := range za.Value { strs = append(strs, item.String()) }`. -/
def stringItems : List ZnValue → Option (List (List Char))
  | [] => some []
  | v :: vs =>
    match ZnValue.String v, stringItems vs with
    | some s, some strs => some (s :: strs)
    | _, _ => none
/-- The display string of every entry of a map, by key. -/
def stringEntries : List (List Char × ZnValue) → List (List Char × Option (List Char))
  | [] => []
  | (k, v) :: es => (k, ZnValue.String v) :: stringEntries es
end

/-- `KVPair`: a key-value pair for `NewZnHashMap`. -/
structure KVPair where
  Key : List Char
  Value : ZnValue

/-- The assignment `m[key] = value` on a map. -/
def mapSet : List (List Char × ZnValue) → List Char → ZnValue → List (List Char × ZnValue)
  | [], key, value => [(key, value)]
  | (k, v) :: es, key, value =>
    if k = key then (k, value) :: es else (k, v) :: mapSet es key value

/-- The loop of `NewZnHashMap`: `hm.Value[kvPair.Key] = kvPair.Value` and
`hm.KeyOrder = append(hm.KeyOrder, kvPair.Key)` for every pair. -/
def NewZnHashMap.loop :
    List KVPair → List (List Char × ZnValue) → List (List Char) →
      List (List Char × ZnValue) × List (List Char)
  | [], value, keyOrder => (value, keyOrder)
  | kv :: kvs, value, keyOrder =>
    NewZnHashMap.loop kvs (mapSet value kv.Key kv.Value) (keyOrder ++ [kv.Key])

/-- `NewZnHashMap`: the map and the key order built from a list of pairs. -/
def NewZnHashMap (kvPairs : List KVPair) : ZnValue :=
  let r := NewZnHashMap.loop kvPairs [] []
  .hashmap none r.1 r.2

/-- The field `KeyOrder` of a hashmap value (empty for any other value). -/
def ZnValue.KeyOrder : ZnValue → List (List Char)
  | .hashmap _ _ ko => ko
  | _ => []

/-- The keys of the field `Value` of a hashmap value (empty for any other value). -/
def ZnValue.mapKeys : ZnValue → List (List Char)
  | .hashmap _ m _ => m.map Prod.fst
  | _ => []

/-! ## lex/lexer.go: tokens -/

/-- `TokenRange`: the absolute position of a token. -/
structure TokenRange where
  StartLine : Int
  StartIdx : Int
  EndLine : Int
  EndIdx : Int
deriving DecidableEq, Repr

/-- `Token`; the field `Type` of the source is `TokenType` here. -/
structure Token where
  TokenType : Nat
  Literal : List Char
  Range : TokenRange
deriving DecidableEq, Repr

def TypeEOF : Nat := 0
def TypeSpace : Nat := 1
def TypeString : Nat := 2
def TypeVarQuote : Nat := 3
def TypeNumber : Nat := 4
def TypeIdentifier : Nat := 5
def TypeComment : Nat := 10
def TypeCommaSep : Nat := 11
def TypeStmtSep : Nat := 12
def TypeFuncCall : Nat := 13
def TypeFuncDeclare : Nat := 14
def TypeObjRef : Nat := 15
def TypeMustT : Nat := 16
def TypeAnnoT : Nat := 17
def TypeMapHash : Nat := 18
def TypeMoreParam : Nat := 19
def TypeArrayQuoteL : Nat := 20
def TypeArrayQuoteR : Nat := 21
def TypeFuncQuoteL : Nat := 22
def TypeFuncQuoteR : Nat := 23
def TypeMapData : Nat := 24
def TypeStmtQuoteL : Nat := 25
def TypeStmtQuoteR : Nat := 26
def TypeMapQHash : Nat := 27

/-! ## syntax/parser.go: the statement line-break -/

/-- `Parser.meetStmtLineBreak` on the `current` and `peek` slots of the token
buffer (`none` is the nil token). -/
def meetStmtLineBreak (current peek : Option Token) : Bool :=
  let exceptCurrentTokenTypes : List Nat :=
    [TypeCommaSep, TypeStmtQuoteL, TypeArrayQuoteL, TypeFuncCall, TypeFuncDeclare]
  let exceptFollowingTokenTypes : List Nat := [TypeArrayQuoteR, TypeStmtQuoteR]
  match current, peek with
  | some current, some peek =>
    if current.TokenType = TypeEOF ∨ peek.TokenType = TypeEOF then false
    else if peek.Range.StartLine > current.Range.EndLine then
      if exceptCurrentTokenTypes.contains current.TokenType then false
      else if exceptFollowingTokenTypes.contains peek.TokenType then false
      else true
    else false
  | _, _ => false

/-! ## exec/scope.go, exec/eval.go: scopes and symbols

A scope is given as its chain of block scopes, the current scope first and the
root scope last: `GetParent` is the tail of the list and the `nil` parent is the
empty list. `symbolMap` and `ctx.globals` are association lists. The type `V` of
the values held by the symbols is a parameter. The functions that write a symbol
return the chain after the call next to the Go result. -/

def NameErrorClass : Nat := 0x25
def IndexErrorClass : Nat := 0x24

def nameError : errorClass := { prefixCode := NameErrorClass }
def indexError : errorClass := { prefixCode := IndexErrorClass }

/-- `error.NameNotDefined`. -/
def NameNotDefined (name : List Char) : Error :=
  nameError.NewError 0x01 ("标识「".toList ++ name ++ "」未有定义".toList)

/-- `error.NameRedeclared`. -/
def NameRedeclared (name : List Char) : Error :=
  nameError.NewError 0x02 ("标识「".toList ++ name ++ "」被重复定义".toList)

/-- `error.AssignToConstant`. -/
def AssignToConstant : Error :=
  nameError.NewError 0x03 "不允许赋值给常变量".toList

/-- `error.IndexOutOfRange`. -/
def IndexOutOfRange : Error :=
  indexError.NewError 0x01 "索引超出此对象可用范围".toList

/-- `error.InvalidExprType("integer")`. -/
def InvalidExprTypeInteger : Error :=
  typeError.NewError 0x01 "表达式不符合期望之「整数」类型".toList

/-- `error.InvalidExprType("array", "hashmap")`. -/
def InvalidExprTypeArrayHashmap : Error :=
  typeError.NewError 0x01 "表达式不符合期望之「元组」、「列表」类型".toList

/-- `error.ToIntegerError`. -/
def ToIntegerError (raw : List Char) : Error :=
  arithError.NewError 0x03 ("转换 ".toList ++ raw ++ " 成整数错误".toList)

/-- `SymbolInfo`: a value and the flag that makes the symbol a constant. -/
structure SymbolInfo (V : Type) where
  Value : V
  IsConstant : Bool

/-- `BlockScope`: the symbol map of one scope (the parent is the rest of the
chain). -/
structure BlockScope (V : Type) where
  symbolMap : List (List Char × SymbolInfo V)

/-- Lookup in a Go map given as an association list: `v, ok := m[key]`. -/
def goMapGet {α : Type} : List (List Char × α) → List Char → Option α
  | [], _ => none
  | (k, v) :: es, key => if k = key then some v else goMapGet es key

/-- Store in a Go map given as an association list: `m[key] = value`. -/
def goMapSet {α : Type} : List (List Char × α) → List Char → α → List (List Char × α)
  | [], key, value => [(key, value)]
  | (k, v) :: es, key, value =>
    if k = key then (k, value) :: es else (k, v) :: goMapSet es key value

/-- `BlockScope.GetSymbol`. -/
def BlockScope.GetSymbol {V : Type} (sb : BlockScope V) (name : List Char) :
    Option (SymbolInfo V) :=
  goMapGet sb.symbolMap name

/-- `BlockScope.SetSymbol`. -/
def BlockScope.SetSymbol {V : Type} (sb : BlockScope V) (name : List Char) (value : V)
    (isConstant : Bool) : BlockScope V :=
  { symbolMap := goMapSet sb.symbolMap name { Value := value, IsConstant := isConstant } }

/-- The loop of `getValue` over the scope chain. -/
def getValueLoop {V : Type} (name : List Char) : List (BlockScope V) → Except Error V
  | [] => .error (NameNotDefined name)
  | sp :: parent =>
    match sp.GetSymbol name with
    | some sym => .ok sym.Value
    | none => getValueLoop name parent

/-- `getValue`: globals first, then the scope chain. -/
def getValue {V : Type} (globals : List (List Char × V)) (scope : List (BlockScope V))
    (name : List Char) : Except Error V :=
  match goMapGet globals name with
  | some symVal => .ok symVal
  | none => getValueLoop name scope

/-- The loop of `setValue` over the scope chain: the chain after the call and
the returned error (`none` is `nil`). -/
def setValueLoop {V : Type} (name : List Char) (value : V) :
    List (BlockScope V) → List (BlockScope V) × Option Error
  | [] => ([], some (NameNotDefined name))
  | sp :: parent =>
    match sp.GetSymbol name with
    | some sym =>
      if sym.IsConstant then (sp :: parent, some AssignToConstant)
      else (sp.SetSymbol name value false :: parent, none)
    | none =>
      let r := setValueLoop name value parent
      (sp :: r.1, r.2)

/-- `setValue`. -/
def setValue {V : Type} (globals : List (List Char × V)) (scope : List (BlockScope V))
    (name : List Char) (value : V) : List (BlockScope V) × Option Error :=
  match goMapGet globals name with
  | some _ => (scope, some (NameRedeclared name))
  | none => setValueLoop name value scope

/-- `bindValue`, on a chain with a current scope. -/
def bindValue {V : Type} (globals : List (List Char × V)) (scope : BlockScope V)
    (parent : List (BlockScope V)) (name : List Char) (value : V) (isConstatnt : Bool) :
    List (BlockScope V) × Option Error :=
  match goMapGet globals name with
  | some _ => (scope :: parent, some (NameRedeclared name))
  | none =>
    match scope.GetSymbol name with
    | some _ => (scope :: parent, some (NameRedeclared name))
    | none => (scope.SetSymbol name value isConstatnt :: parent, none)

/-- The nearest binding of a name in a scope chain: the symbol of the first
scope, from the current one outwards, that has the name. -/
def nearestBinding {V : Type} (name : List Char) : List (BlockScope V) → Option (SymbolInfo V)
  | [] => none
  | sp :: parent =>
    match sp.GetSymbol name with
    | some sym => some sym
    | none => nearestBinding name parent

/-- No symbol of the chain has the name of a global. `bindValue` and `setValue`
are the only writers of symbols and both keep this. -/
def scopesAvoidGlobals {V : Type} (globals : List (List Char × V))
    (scope : List (BlockScope V)) : Prop :=
  ∀ sp ∈ scope, ∀ name : List Char,
    (sp.GetSymbol name).isSome = true → goMapGet globals name = none

/-! ## exec/iv.go: index assignment, with arrays held by pointer

`ZnArrayIV.Reduce` writes through the `*ZnArray` it holds, and the same pointer
is what a symbol of the scope holds. Here an array value is the address of its
`Value` slice in a store of array objects (the address is the position in the
store; the `ZnObject` field of an array plays no part and is left out), and a
decimal is carried by value. -/

/-- A `ZnValue` as the interpreter passes it around: a decimal, or the pointer
to an array object. -/
inductive ZnRef where
  | decimal (d : ZnDecimal)
  | array (addr : Nat)
deriving DecidableEq, Repr

/-- The `Value` slices of the array objects allocated so far. -/
abbrev ArrayStore := List (List ZnRef)

/-- Allocation of an array object: `&ZnArray{Value: values}`. -/
def allocArray (store : ArrayStore) (values : List ZnRef) : ArrayStore × ZnRef :=
  (store ++ [values], .array store.length)

/-- The loop `newArr = append(newArr, duplicateValue(val))` of `duplicateValue`,
over a given duplicator. -/
def duplicateRefItems (dup : ArrayStore → ZnRef → Option (ArrayStore × ZnRef)) :
    ArrayStore → List ZnRef → Option (ArrayStore × List ZnRef)
  | store, [] => some (store, [])
  | store, val :: vals =>
    match dup store val with
    | none => none
    | some (s1, v1) =>
      match duplicateRefItems dup s1 vals with
      | none => none
      | some (s2, vs1) => some (s2, v1 :: vs1)

/-- `duplicateValue` on decimals and arrays held by pointer. The fuel bounds the
nesting depth; `none` is fuel exhausted or a dangling address. -/
def duplicateValueRef : Nat → ArrayStore → ZnRef → Option (ArrayStore × ZnRef)
  | _, store, .decimal d => some (store, .decimal (copyZnDecimal d))
  | 0, _, .array _ => none
  | fuel + 1, store, .array addr =>
    match store[addr]? with
    | none => none
    | some items =>
      match duplicateRefItems (duplicateValueRef fuel) store items with
      | none => none
      | some (s1, newArr) => some (allocArray s1 newArr)

/-- `ZnDecimal.asInteger`: the coefficient as a machine int; the exponent is
only tested for its sign. -/
def ZnDecimal.asInteger (zd : ZnDecimal) : Except Error Int :=
  if zd.exp < 0 then .error (ToIntegerError zd.String)
  else if ¬ (-(2 : Int) ^ 63 ≤ zd.co ∧ zd.co < (2 : Int) ^ 63) then
    .error (ToIntegerError zd.String)
  else .ok zd.co

/-- `ZnArrayIV.Reduce` for the IV `{List, Index}`: the store after the call and
the Go result; `none` is a dangling address. -/
def ZnArrayIV.Reduce (store : ArrayStore) (List : Nat) (Index : ZnDecimal) (input : ZnRef)
    (lhs : Bool) : Option (ArrayStore × Except Error ZnRef) :=
  match Index.asInteger with
  | .error _ => some (store, .error InvalidExprTypeInteger)
  | .ok idx =>
    match store[List]? with
    | none => none
    | some value =>
      if idx < 0 ∨ idx ≥ (value.length : Int) then some (store, .error IndexOutOfRange)
      else if lhs = true then
        some (store.set List (value.set idx.toNat input), .ok input)
      else
        match value[idx.toNat]? with
        | some v => some (store, .ok v)
        | none => none

/-- The `MemberIndex` case of `getMemberExprIV` followed by `iv.Reduce`, for a
root value and an index value that `evalExpression` has produced. -/
def reduceMemberIndex (store : ArrayStore) (valRoot idx : ZnRef) (input : ZnRef) (lhs : Bool) :
    Option (ArrayStore × Except Error ZnRef) :=
  match valRoot with
  | .array v =>
    match idx with
    | .decimal vr => ZnArrayIV.Reduce store v vr input lhs
    | _ => some (store, .error InvalidExprTypeInteger)
  | _ => some (store, .error InvalidExprTypeArrayHashmap)

/-- The state of a run: the array objects and the scope chain. -/
structure RunState where
  store : ArrayStore
  scope : List (BlockScope ZnRef)

/-- The loop of `evalVarDeclareStmt` over the variables of one pair
`A，B 为 C` / `A，B 恒为 C`, with `obj` the value of `C`: each variable is bound
to `duplicateValue(obj)`. The source tests the stale `err` after `bindValue`, so
the result of `bindValue` is dropped. -/
def evalVarDeclareStmt.bindVars (fuel : Nat) (globals : List (List Char × ZnRef))
    (obj : ZnRef) (isConst : Bool) : List (List Char) → RunState → Option RunState
  | [], st => some st
  | vtag :: rest, st =>
    match duplicateValueRef fuel st.store obj with
    | none => none
    | some (s1, finalObj) =>
      match st.scope with
      | [] => none
      | sp :: parent =>
        evalVarDeclareStmt.bindVars fuel globals obj isConst rest
          { store := s1, scope := (bindValue globals sp parent vtag finalObj isConst).1 }

/-- `evalVarAssignExpr` for the target `root#index 为 ...` where `root` is the
identifier `rootName` and the index and the assigned value are already
evaluated: `getValue` of the root, then `getMemberExprIV` and `Reduce` on the
left-hand side. -/
def evalVarAssignExpr.index (globals : List (List Char × ZnRef)) (st : RunState)
    (rootName : List Char) (idx val : ZnRef) : Option (RunState × Except Error ZnRef) :=
  match getValue globals st.scope rootName with
  | .error e => some (st, .error e)
  | .ok valRoot =>
    match reduceMemberIndex st.store valRoot idx val true with
    | none => none
    | some (s1, r) => some ({ st with store := s1 }, r)

/-- Evaluation of the expression `root#index` on the right-hand side. -/
def evalMemberIndex (globals : List (List Char × ZnRef)) (st : RunState)
    (rootName : List Char) (idx : ZnRef) : Option (Except Error ZnRef) :=
  match getValue globals st.scope rootName with
  | .error e => some (.error e)
  | .ok valRoot =>
    match reduceMemberIndex st.store valRoot idx (.decimal (NewZnDecimalFromInt 0 0)) false with
    | none => none
    | some (_, r) => some r

/-- The state after `令A恒为【1，2】` in a new root scope: the array literal is
allocated and `A` is bound, as a constant, to its duplicate. -/
def declareConstArray : Option RunState :=
  let lit := allocArray [] [.decimal (NewZnDecimalFromInt 1 0), .decimal (NewZnDecimalFromInt 2 0)]
  evalVarDeclareStmt.bindVars 2 [] lit.2 true ["A".toList]
    { store := lit.1, scope := [{ symbolMap := [] }] }

/-! ## exec/eval.go: evalIterateStmt

The statement block of the loop is a parameter `evalStmtBlock`: a function on
the state an iteration can see. That state holds the scope chain with the
iterate scope first, the current index and value of the iterate scope, the
`Value` of the array or hashmap under iteration (the block may write it through
another pointer) and the rest of the interpreter state `W`. A value slot holds
`Option ZnValue`, `none` being the `nil` that `tv.Value[key]` gives for a key
that is not stored. -/

def ParamErrorClass : Nat := 0x27

def paramError : errorClass := { prefixCode := ParamErrorClass }

/-- `error.MostParamsError(2)`. -/
def MostParamsError2 : Error :=
  paramError.NewError 0x03 "至多需要2个参数".toList

def ContinueBreakSignal : Nat := 0x5002
def BreakBreakSignal : Nat := 0x5003

/-- `NewZnString`. -/
def NewZnString (value : List Char) : ZnValue := .string none value

/-- `NewZnNull`. -/
def NewZnNull : ZnValue := .null none

/-- What an iteration of `evalIterateStmt` reads and writes. -/
structure IterState (W : Type) where
  world : W
  scope : List (BlockScope (Option ZnValue))
  currentIndex : Option ZnValue
  currentValue : Option ZnValue
  items : List ZnValue
  entries : List (List Char × ZnValue)

/-- The closure `execIterationBlockFn` of `evalIterateStmt`: `setCurrentKV`, then
`setValue` on the declared slots, then the block. `IndexNames` has at most two
names when the closure is called. -/
def execIterationBlockFn {W : Type} (globals : List (List Char × Option ZnValue))
    (evalStmtBlock : IterState W → IterState W × Option Error)
    (IndexNames : List (List Char)) (st : IterState W) (key val : Option ZnValue) :
    IterState W × Option Error :=
  let st1 : IterState W := { st with currentIndex := key, currentValue := val }
  match IndexNames with
  | [valueSlot] =>
    let r := setValue globals st1.scope valueSlot val
    match r.2 with
    | some err => ({ st1 with scope := r.1 }, some err)
    | none => evalStmtBlock { st1 with scope := r.1 }
  | [keySlot, valueSlot] =>
    let r := setValue globals st1.scope keySlot key
    match r.2 with
    | some err => ({ st1 with scope := r.1 }, some err)
    | none =>
      let r2 := setValue globals r.1 valueSlot val
      match r2.2 with
      | some err => ({ st1 with scope := r2.1 }, some err)
      | none => evalStmtBlock { st1 with scope := r2.1 }
  | _ => evalStmtBlock st1

/-- The loop of the `*ZnHashMap` case: `for _, key := range tv.KeyOrder`. -/
def iterateHashMap {W : Type}
    (exec : IterState W → Option ZnValue → Option ZnValue → IterState W × Option Error) :
    List (List Char) → IterState W → IterState W × Option Error
  | [], st => (st, none)
  | key :: rest, st =>
    let val := (goMapGet st.entries key)
    let keyVar := NewZnString key
    match exec st (some keyVar) val with
    | (st1, none) => iterateHashMap exec rest st1
    | (st1, some err) =>
      if err.code = ContinueBreakSignal then iterateHashMap exec rest st1
      else if err.code = BreakBreakSignal then (st1, none)
      else (st1, some err)

/-- The loop of the `*ZnArray` case: `for idx, val := range tv.Value`, from
index `idx` for `n` more rounds. -/
def iterateArray {W : Type}
    (exec : IterState W → Option ZnValue → Option ZnValue → IterState W × Option Error) :
    Nat → Nat → IterState W → IterState W × Option Error
  | 0, _, st => (st, none)
  | n + 1, idx, st =>
    let val := st.items[idx]?
    let idxVar := ZnValue.decimal (NewZnDecimalFromInt idx 0)
    match exec st (some idxVar) val with
    | (st1, none) => iterateArray exec n (idx + 1) st1
    | (st1, some err) =>
      if err.code = ContinueBreakSignal then iterateArray exec n (idx + 1) st1
      else if err.code = BreakBreakSignal then (st1, none)
      else (st1, some err)

/-- The binding of the index variables at the start of `evalIterateStmt`, in the
new iterate scope on top of `scope`: the chain after it and the error. -/
def bindIndexNames (globals : List (List Char × Option ZnValue))
    (scope : List (BlockScope (Option ZnValue))) (IndexNames : List (List Char)) :
    List (BlockScope (Option ZnValue)) × Option Error :=
  match IndexNames with
  | [] => ({ symbolMap := [] } :: scope, none)
  | [valueSlot] => bindValue globals { symbolMap := [] } scope valueSlot (some NewZnNull) false
  | [keySlot, valueSlot] =>
    match bindValue globals { symbolMap := [] } scope keySlot (some NewZnNull) false with
    | (chain, some err) => (chain, some err)
    | (sp :: parent, none) => bindValue globals sp parent valueSlot (some NewZnNull) false
    | ([], none) => ([], none)
  | _ => ({ symbolMap := [] } :: scope, some MostParamsError2)

/-- `evalIterateStmt`, with `targetExpr` the value of the iterated expression:
the state after the statement and the returned error. -/
def evalIterateStmt {W : Type} (globals : List (List Char × Option ZnValue))
    (evalStmtBlock : IterState W → IterState W × Option Error)
    (world : W) (scope : List (BlockScope (Option ZnValue)))
    (IndexNames : List (List Char)) (targetExpr : ZnValue) :
    IterState W × Option Error :=
  let b := bindIndexNames globals scope IndexNames
  let st0 : IterState W :=
    { world := world, scope := b.1, currentIndex := none, currentValue := none,
      items := [], entries := [] }
  match b.2 with
  | some err => (st0, some err)
  | none =>
    match targetExpr with
    | .array _ vs =>
      iterateArray (execIterationBlockFn globals evalStmtBlock IndexNames) vs.length 0
        { st0 with items := vs }
    | .hashmap _ m ko =>
      iterateHashMap (execIterationBlockFn globals evalStmtBlock IndexNames) ko
        { st0 with entries := m }
    | _ => (st0, some InvalidExprTypeArrayHashmap)

/-- The claim's account of an iteration over the keys: the body is run once per
key, in the order of the list, on the key as a string and the value stored under
the key; `none` as soon as a run breaks or fails. -/
def runPerKey {W : Type}
    (body : IterState W → Option ZnValue → Option ZnValue → IterState W × Option Error) :
    List (List Char) → IterState W → Option (IterState W)
  | [], st => some st
  | key :: rest, st =>
    let r := body st (some (.string none key)) (goMapGet st.entries key)
    match r.2 with
    | none => runPerKey body rest r.1
    | some err =>
      if err.code = ContinueBreakSignal then runPerKey body rest r.1 else none

/-- A block that records the current index, the current value and the values of
the variables `K` and `V` in the world. -/
def recordBlock (st : IterState (List (List (Option ZnValue)))) :
    IterState (List (List (Option ZnValue))) × Option Error :=
  ({ st with world := st.world ++
      [[st.currentIndex, st.currentValue,
        (getValue [] st.scope "K".toList).toOption.join,
        (getValue [] st.scope "V".toList).toOption.join]] }, none)

/-! ## syntax/parser.go: the parser state and Parse

The lexer state `L`, `NextToken`, `GetLineIndent` and `ParseBlockStmt` are
parameters. A call that may panic has an `Outcome`; a panic value of type
`*error.Error` is a non-nil error, as at every `panic` of parser.go. -/

def SyntaxErrorClass : Nat := 0x22

def syntaxError : errorClass := { prefixCode := SyntaxErrorClass }

/-- `error.UnexpectedEOF`. -/
def UnexpectedEOF : Error :=
  syntaxError.NewError 0x54 "仍有语句在最后未被解析".toList

/-- How a call ends: it returns, it panics with a `*error.Error`, or it panics
with any other value. -/
inductive Outcome (σ α : Type) where
  | returns (s : σ) (a : α)
  | panicError (s : σ) (e : Error)
  | panicOther

/-- `Parser`: the lexer, the three-token window and the line-termination flag. -/
structure Parser (L : Type) where
  Lexer : L
  tokens0 : Option Token
  tokens1 : Option Token
  tokens2 : Option Token
  lineTermFlag : Bool

/-- `NewParser`. -/
def NewParser {L : Type} (l : L) : Parser L :=
  { Lexer := l, tokens0 := none, tokens1 := none, tokens2 := none, lineTermFlag := false }

/-- `Parser.current`. -/
def Parser.current {L : Type} (p : Parser L) : Option Token := p.tokens0

/-- `Parser.peek`. -/
def Parser.peek {L : Type} (p : Parser L) : Option Token := p.tokens1

/-- `Parser.next`: one more token from the lexer, shifted into the window; a
lexer error is a panic. `NextToken` gives `none` when it does not return. -/
def Parser.next {L : Type} (NextToken : L → Option (L × Except Error Token)) (p : Parser L) :
    Outcome (Parser L) (Option Token) :=
  match NextToken p.Lexer with
  | none => .panicOther
  | some (l, .error err) => .panicError { p with Lexer := l } err
  | some (l, .ok tk) =>
    .returns { p with Lexer := l, tokens0 := p.tokens1, tokens1 := p.tokens2, tokens2 := some tk }
      p.tokens1

/-- `Parser.Parse`: the parser after the call, the block and the error; `none`
when the call does not return (a panic that is not a `*error.Error` is raised
again, and so is the nil dereference of a missing peek token).
`handleDeferError` only sets the cursor of a non-nil error, which `Error` does
not carry here. -/
def Parser.Parse {L B : Type} (NextToken : L → Option (L × Except Error Token))
    (GetLineIndent : L → Int → Int)
    (ParseBlockStmt : Parser L → Int → Outcome (Parser L) B) (p : Parser L) :
    Option (Parser L × Option B × Option Error) :=
  match p.next NextToken with
  | .panicOther => none
  | .panicError p1 err => some (p1, none, some err)
  | .returns p1 _ =>
    match p1.next NextToken with
    | .panicOther => none
    | .panicError p2 err => some (p2, none, some err)
    | .returns p2 _ =>
      match p2.peek with
      | none => none
      | some pk =>
        let peekIndent := GetLineIndent p2.Lexer pk.Range.StartLine
        match ParseBlockStmt p2 peekIndent with
        | .panicOther => none
        | .panicError p3 err => some (p3, none, some err)
        | .returns p3 block =>
          match p3.peek with
          | none => none
          | some pk3 =>
            if pk3.TokenType ≠ TypeEOF then some (p3, some block, some UnexpectedEOF)
            else some (p3, some block, none)

/-- A lexer that hands out the tokens of a list and then EOF tokens. -/
def listNextToken : List Token → Option (List Token × Except Error Token)
  | [] => some ([], .ok ⟨TypeEOF, [], ⟨1, 0, 1, 0⟩⟩)
  | tk :: rest => some (rest, .ok tk)

/-- A stand-in for `ParseBlockStmt` that takes one token as the whole block. -/
def oneTokenBlock (p : Parser (List Token)) (_ : Int) : Outcome (Parser (List Token)) Unit :=
  match p.next listNextToken with
  | .returns p1 _ => .returns p1 ()
  | .panicError p1 err => .panicError p1 err
  | .panicOther => .panicOther

/-- The parser state after `1` has been parsed as a one-token block. -/
def parsedOne : Parser (List Token) :=
  { Lexer := [], tokens0 := some ⟨TypeNumber, "1".toList, ⟨1, 0, 1, 1⟩⟩,
    tokens1 := some ⟨TypeEOF, [], ⟨1, 0, 1, 0⟩⟩,
    tokens2 := some ⟨TypeEOF, [], ⟨1, 0, 1, 0⟩⟩, lineTermFlag := false }

/-! ## lex/lexer.go, lex/line_stack.go, lex/keyword.go, lex/input.go: the lexer

A rune is a `Char`. The input stream is the list of the rune blocks that the
successive calls of `InputStream.Read` deliver (valid UTF-8 and no I/O error are
assumed, so `Read` never fails); the read after the last block delivers nothing
and sets `readEnd`. The cursor and the line numbers are `Int`. Every loop takes
fuel, and `none` is fuel exhausted. A `panic(err)` inside `NextToken` is
recovered there, so the functions that panic return an `Except` here.
`handleDeferError` only attaches a cursor to the error, which `Error` does not
carry. `getChar` is total: the cursor never goes below -1 and no index below 0
is read. -/

def LexErrorClass : Nat := 0x20

def lexError : errorClass := { prefixCode := LexErrorClass }

/-- `error.InvalidSingleEllipsis`. -/
def InvalidSingleEllipsis : Error :=
  lexError.NewError 0x01 "未能识别单个「…」字符，或许应该是「……」？".toList

/-- `error.InvalidSingleEqual`. -/
def InvalidSingleEqual : Error :=
  lexError.NewError 0x02 "未能识别单个「=」字符，或许应该是「==」？".toList

/-- The local `findName` of `error.InvalidIndentType`. -/
def indentTypeName (idetType : Nat) : List Char :=
  if idetType = 9 then "「TAB」".toList else "「空格」".toList

/-- `error.InvalidIndentType`. -/
def InvalidIndentType (expect got : Nat) : Error :=
  lexError.NewError 0x21 ("此行现行缩进类型为".toList ++ indentTypeName got
    ++ "，与前设缩进类型".toList ++ indentTypeName expect ++ "不符".toList)

/-- `error.InvalidIndentSpaceCount`. -/
def InvalidIndentSpaceCount (count : Int) : Error :=
  lexError.NewError 0x22
    ("当缩进类型为「空格」，其所列字符数应为4之倍数：当前空格字符数为".toList ++ formatInt count)

/-- `error.QuoteStackFull`. -/
def QuoteStackFull (maxSize : Int) : Error :=
  lexError.NewError 0x23
    ("在文本中嵌套过多引号：最大可以嵌套".toList ++ formatInt maxSize ++ "层".toList)

/-- `error.InvalidIdentifier`. -/
def InvalidIdentifier : Error :=
  lexError.NewError 0x24 "标识符不符合规范".toList

/-- `error.IdentifierExceedLength`. -/
def IdentifierExceedLength (maxLen : Int) : Error :=
  lexError.NewError 0x25
    ("标识符长度超过限制：最大可用长度为".toList ++ formatInt maxLen ++ "个字元".toList)

/-- `error.InvalidChar`. -/
def InvalidChar (ch : Char) : Error :=
  lexError.NewError 0x26 ("未能识别字元「".toList ++ [ch] ++ "」".toList)

def EOF : Char := Char.ofNat 0

def Comma : Char := Char.ofNat 0xFF0C
def Colon : Char := Char.ofNat 0xFF1A
def Semicolon : Char := Char.ofNat 0xFF1B
def QuestionMark : Char := Char.ofNat 0xFF1F
def RefMark : Char := Char.ofNat 0x0026
def BangMark : Char := Char.ofNat 0xFF01
def AnnotationMark : Char := Char.ofNat 0x0040
def HashMark : Char := Char.ofNat 0x0023
def EllipsisMark : Char := Char.ofNat 0x2026
def LeftBracket : Char := Char.ofNat 0x3010
def RightBracket : Char := Char.ofNat 0x3011
def LeftParen : Char := Char.ofNat 0xFF08
def RightParen : Char := Char.ofNat 0xFF09
def Equal : Char := Char.ofNat 0x003D
def DoubleArrow : Char := Char.ofNat 0x27FA
def LeftCurlyBracket : Char := Char.ofNat 0x007B
def RightCurlyBracket : Char := Char.ofNat 0x007D

def MarkLeads : List Char :=
  [Comma, Colon, Semicolon, QuestionMark, RefMark, BangMark,
   AnnotationMark, HashMark, EllipsisMark, LeftBracket,
   RightBracket, LeftParen, RightParen, Equal, DoubleArrow,
   LeftCurlyBracket, RightCurlyBracket]

def SP : Char := Char.ofNat 0x0020
def TAB : Char := Char.ofNat 0x0009
def CR : Char := Char.ofNat 0x000D
def LF : Char := Char.ofNat 0x000A

def WhiteSpaces : List Char :=
  [Char.ofNat 0x0009, Char.ofNat 0x000B, Char.ofNat 0x000C, Char.ofNat 0x0020,
   Char.ofNat 0x00A0, Char.ofNat 0x2000, Char.ofNat 0x2001, Char.ofNat 0x2002,
   Char.ofNat 0x2003, Char.ofNat 0x2004, Char.ofNat 0x2005, Char.ofNat 0x2006,
   Char.ofNat 0x2007, Char.ofNat 0x2008, Char.ofNat 0x2009, Char.ofNat 0x200A,
   Char.ofNat 0x200B, Char.ofNat 0x202F, Char.ofNat 0x205F, Char.ofNat 0x3000]

/-- `util.Contains`. -/
def Contains (ch : Char) (list : List Char) : Bool := list.contains ch

def isWhiteSpace (ch : Char) : Bool := Contains ch WhiteSpaces

def LeftQuoteI : Char := Char.ofNat 0x300A
def RightQuoteI : Char := Char.ofNat 0x300B
def LeftQuoteII : Char := Char.ofNat 0x300C
def RightQuoteII : Char := Char.ofNat 0x300D
def LeftQuoteIII : Char := Char.ofNat 0x300E
def RightQuoteIII : Char := Char.ofNat 0x300F
def LeftQuoteIV : Char := Char.ofNat 0x201C
def RightQuoteIV : Char := Char.ofNat 0x201D
def LeftQuoteV : Char := Char.ofNat 0x2018
def RightQuoteV : Char := Char.ofNat 0x2019

def LeftQuotes : List Char :=
  [LeftQuoteI, LeftQuoteII, LeftQuoteIII, LeftQuoteIV, LeftQuoteV]

def RightQuotes : List Char :=
  [RightQuoteI, RightQuoteII, RightQuoteIII, RightQuoteIV, RightQuoteV]

/-- `QuoteMatchMap[ch]`; a rune that is not a key gives the zero rune. -/
def QuoteMatchMap (ch : Char) : Char :=
  if ch = LeftQuoteI then RightQuoteI
  else if ch = LeftQuoteII then RightQuoteII
  else if ch = LeftQuoteIII then RightQuoteIII
  else if ch = LeftQuoteIV then RightQuoteIV
  else if ch = LeftQuoteV then RightQuoteV
  else Char.ofNat 0

def MiddleDot : Char := Char.ofNat 0x00B7

def isNumber (ch : Char) : Bool := decide ('0' ≤ ch ∧ ch ≤ '9')

def maxIdentifierLength : Int := 32

def isIdentifierChar (ch : Char) (isFirst : Bool) : Bool :=
  if ch.toNat ≥ 0x4E00 ∧ ch.toNat ≤ 0x9FFF then true
  else if ch.toNat = 0x3007 ∨ ch = '_' then true
  else if ch ≥ 'A' ∧ ch ≤ 'Z' then true
  else if ch ≥ 'a' ∧ ch ≤ 'z' then true
  else if ¬ isFirst then
    if ch ≥ '0' ∧ ch ≤ '9' then true
    else if Contains ch ['*', '+', '-', '/'] then true
    else false
  else false

def GlyphBU : Char := Char.ofNat 0x4E0D
def GlyphQIE : Char := Char.ofNat 0x4E14
def GlyphWEI : Char := Char.ofNat 0x4E3A
def GlyphYIy : Char := Char.ofNat 0x4E49
def GlyphZHI : Char := Char.ofNat 0x4E4B
def GlyphYU : Char := Char.ofNat 0x4E8E
def GlyphLING : Char := Char.ofNat 0x4EE4
def GlyphYIi : Char := Char.ofNat 0x4EE5
def GlyphHE : Char := Char.ofNat 0x4F55
def GlyphQI : Char := Char.ofNat 0x5176
def GlyphZAI : Char := Char.ofNat 0x518D
def GlyphZE : Char := Char.ofNat 0x5219
def GlyphLI : Char := Char.ofNat 0x5386
def GlyphFOU : Char := Char.ofNat 0x5426
def GlyphHUI : Char := Char.ofNat 0x56DE
def GlyphDA : Char := Char.ofNat 0x5927
def GlyphRU : Char := Char.ofNat 0x5982
def GlyphDING : Char := Char.ofNat 0x5B9A
def GlyphXIAO : Char := Char.ofNat 0x5C0F
def GlyphYI : Char := Char.ofNat 0x5DF2
def GlyphDANG : Char := Char.ofNat 0x5F53
def GlyphHENG : Char := Char.ofNat 0x6052
def GlyphCHENG : Char := Char.ofNat 0x6210
def GlyphHUO : Char := Char.ofNat 0x6216
def GlyphSHI : Char := Char.ofNat 0x662F
def GlyphGUO : Char := Char.ofNat 0x679C
def GlyphCI : Char := Char.ofNat 0x6B64
def GlyphMEI : Char := Char.ofNat 0x6BCF
def GlyphZHU : Char := Char.ofNat 0x6CE8
def GlyphZHIy : Char := Char.ofNat 0x77E5
def GlyphDENG : Char := Char.ofNat 0x7B49
def GlyphFAN : Char := Char.ofNat 0x8FD4
def GlyphBIAN : Char := Char.ofNat 0x904D

def TypeDeclareW : Nat := 40
def TypeLogicYesW : Nat := 41
def TypeAssignConstW : Nat := 42
def TypeCondOtherW : Nat := 43
def TypeCondW : Nat := 44
def TypeFuncW : Nat := 45
def TypeGetterW : Nat := 46
def TypeParamAssignW : Nat := 47
def TypeReturnW : Nat := 48
def TypeLogicNotW : Nat := 49
def TypeLogicNotEqW : Nat := 51
def TypeLogicLteW : Nat := 52
def TypeLogicGteW : Nat := 53
def TypeLogicLtW : Nat := 54
def TypeLogicGtW : Nat := 55
def TypeVarOneW : Nat := 56
def TypeCondElseW : Nat := 59
def TypeWhileLoopW : Nat := 60
def TypeObjNewW : Nat := 61
def TypeObjDefineW : Nat := 63
def TypeObjThisW : Nat := 65
def TypeLogicOrW : Nat := 69
def TypeLogicAndW : Nat := 70
def TypeObjDotW : Nat := 71
def TypeObjConstructW : Nat := 73
def TypeLogicEqualW : Nat := 74
def TypeStaticSelfW : Nat := 75
def TypeIteratorW : Nat := 76

def KeywordTypeMap : List (Nat × List Char) :=
  [(TypeDeclareW, [GlyphLING]),
   (TypeLogicYesW, [GlyphWEI]),
   (TypeAssignConstW, [GlyphHENG, GlyphWEI]),
   (TypeCondOtherW, [GlyphZAI, GlyphRU]),
   (TypeCondW, [GlyphRU, GlyphGUO]),
   (TypeFuncW, [GlyphRU, GlyphHE]),
   (TypeGetterW, [GlyphHE, GlyphWEI]),
   (TypeParamAssignW, [GlyphYI, GlyphZHIy]),
   (TypeReturnW, [GlyphFAN, GlyphHUI]),
   (TypeLogicNotW, [GlyphBU, GlyphWEI]),
   (TypeLogicNotEqW, [GlyphBU, GlyphDENG, GlyphYU]),
   (TypeLogicLteW, [GlyphBU, GlyphDA, GlyphYU]),
   (TypeLogicGteW, [GlyphBU, GlyphXIAO, GlyphYU]),
   (TypeLogicLtW, [GlyphXIAO, GlyphYU]),
   (TypeLogicGtW, [GlyphDA, GlyphYU]),
   (TypeVarOneW, [GlyphYIi]),
   (TypeCondElseW, [GlyphFOU, GlyphZE]),
   (TypeWhileLoopW, [GlyphMEI, GlyphDANG]),
   (TypeObjNewW, [GlyphCHENG, GlyphWEI]),
   (TypeObjDefineW, [GlyphDING, GlyphYIy]),
   (TypeObjThisW, [GlyphQI]),
   (TypeLogicOrW, [GlyphHUO]),
   (TypeLogicAndW, [GlyphQIE]),
   (TypeObjDotW, [GlyphZHI]),
   (TypeObjConstructW, [GlyphSHI, GlyphWEI]),
   (TypeLogicEqualW, [GlyphDENG, GlyphYU]),
   (TypeStaticSelfW, [GlyphCI, GlyphZHI]),
   (TypeIteratorW, [GlyphBIAN, GlyphLI])]

def IdetUnknown : Nat := 0
def IdetTab : Nat := 9
def IdetSpace : Nat := 32

def scanInit : Nat := 0
def scanIndent : Nat := 1
def scanEnd : Nat := 2

/-- `LineInfo`: indents and the start and end index of a line in the buffer. -/
structure LineInfo where
  indents : Int
  startIdx : Int
  endIdx : Int
deriving DecidableEq, Repr

/-- `Lexer` with its embedded `InputStream` (`blocks`, `readEnd`) and `LineStack`
(`IndentType` to `lineBuffer`, the `scanCursor` fields inlined); the quote stack
is a list with the top first, of at most 32 runes. -/
structure Lexer where
  blocks : List (List Char)
  readEnd : Bool
  IndentType : Nat
  CurrentLine : Int
  lines : List LineInfo
  startIdx : Int
  indents : Int
  scanState : Nat
  lineBuffer : List Char
  quoteStack : List Char
  chBuffer : List Char
  cursor : Int
  beginLex : Bool
deriving DecidableEq, Repr

/-- `NewLexer` on a stream that will deliver the given blocks. -/
def NewLexer (blocks : List (List Char)) : Lexer :=
  { blocks := blocks, readEnd := false, IndentType := IdetUnknown, CurrentLine := 1,
    lines := [], startIdx := 0, indents := 0, scanState := scanIndent, lineBuffer := [],
    quoteStack := [], chBuffer := [], cursor := -1, beginLex := true }

/-- `newTokenRange`. -/
def newTokenRange (l : Lexer) : TokenRange :=
  { StartLine := l.CurrentLine, StartIdx := l.cursor,
    EndLine := l.CurrentLine, EndIdx := l.cursor }

/-- `TokenRange.setRangeEnd`. -/
def TokenRange.setRangeEnd (r : TokenRange) (l : Lexer) : TokenRange :=
  { r with EndLine := l.CurrentLine, EndIdx := l.cursor + 1 }

/-- `LineStack.getChar`. -/
def Lexer.getChar (l : Lexer) (idx : Int) : Char :=
  if idx ≥ (l.lineBuffer.length : Int) then EOF else l.lineBuffer.getD idx.toNat EOF

/-- `InputStream.Read`: the next block, or nothing and `readEnd` at the end. -/
def Lexer.Read (l : Lexer) : List Char × Lexer :=
  match l.blocks with
  | [] => ([], { l with readEnd := true })
  | b :: rest => (b, { l with blocks := rest })

/-- `Lexer.next`. -/
def Lexer.next (l : Lexer) : Char × Lexer :=
  let l1 := { l with cursor := l.cursor + 1 }
  let l2 :=
    if l1.cursor + 2 ≥ (l1.lineBuffer.length : Int) then
      if l1.readEnd = false then
        let r := l1.Read
        { r.2 with lineBuffer := r.2.lineBuffer ++ r.1 }
      else l1
    else l1
  (l2.getChar l2.cursor, l2)

/-- `Lexer.peek`. -/
def Lexer.peek (l : Lexer) : Char := l.getChar (l.cursor + 1)

/-- `Lexer.peek2`. -/
def Lexer.peek2 (l : Lexer) : Char := l.getChar (l.cursor + 2)

/-- `Lexer.rebase`. -/
def Lexer.rebase (l : Lexer) (cursor : Int) : Lexer := { l with cursor := cursor }

def Lexer.clearBuffer (l : Lexer) : Lexer := { l with chBuffer := [] }

def Lexer.pushBuffer (l : Lexer) (ch : List Char) : Lexer :=
  { l with chBuffer := l.chBuffer ++ ch }

/-- `RuneStack.Push` on the quote stack (`maxSize` 32): the result and the stack. -/
def Lexer.quotePush (l : Lexer) (item : Char) : Bool × Lexer :=
  if l.quoteStack.length = 32 then (false, l)
  else (true, { l with quoteStack := item :: l.quoteStack })

/-- `RuneStack.Pop` on the quote stack. -/
def Lexer.quotePop (l : Lexer) : Lexer := { l with quoteStack := l.quoteStack.tail }

/-- `RuneStack.Current` on the quote stack; the zero rune when empty. -/
def Lexer.quoteCurrent (l : Lexer) : Char := l.quoteStack.headD (Char.ofNat 0)

/-- The end of `LineStack.SetIndent`: the indent number and the scan cursor. -/
def Lexer.setScanCursor (l : Lexer) (count : Int) : Lexer :=
  let indentNum := if l.IndentType = IdetSpace then Int.tdiv count 4 else count
  { l with indents := indentNum, scanState := scanIndent, startIdx := l.startIdx + count }

/-- `LineStack.SetIndent`: the returned error (`none` is `nil`) and the lexer
after the call. -/
def Lexer.SetIndent (l : Lexer) (count : Int) (t : Nat) : Option Error × Lexer :=
  if t = IdetUnknown then
    if count > 0 ∧ l.IndentType ≠ t then (some (InvalidIndentType l.IndentType t), l)
    else (none, l.setScanCursor count)
  else if t = IdetSpace ∨ t = IdetTab then
    let l1 : Lexer := if l.IndentType = IdetUnknown then { l with IndentType := t } else l
    if t = IdetSpace ∧ Int.tmod count 4 ≠ 0 then (some (InvalidIndentSpaceCount count), l1)
    else if l1.IndentType ≠ t then (some (InvalidIndentType l1.IndentType t), l1)
    else (none, l1.setScanCursor count)
  else (none, l.setScanCursor count)

/-- `LineStack.PushLine`. -/
def Lexer.PushLine (l : Lexer) (lastIndex : Int) : Lexer :=
  { l with
    lines := l.lines ++ [{ indents := l.indents, startIdx := l.startIdx, endIdx := lastIndex }],
    scanState := scanEnd }

/-- `LineStack.NewLine`. -/
def Lexer.NewLine (l : Lexer) (index : Int) : Lexer :=
  { l with startIdx := index, indents := 0, scanState := scanInit,
           CurrentLine := l.CurrentLine + 1 }

/-- `LineStack.onIndentStage`. -/
def Lexer.onIndentStage (l : Lexer) : Bool := decide (l.scanState = scanInit)

/-- `NewTokenEOF`. -/
def NewTokenEOF (line col : Int) : Token :=
  { TokenType := TypeEOF, Literal := [],
    Range := { StartLine := line, StartIdx := col, EndLine := line, EndIdx := col } }

/-- `NewStringToken`. -/
def NewStringToken (buf : List Char) (quoteType : Char) (rg : TokenRange) : Token :=
  let literal := [quoteType] ++ buf
  let literal :=
    if quoteType = LeftQuoteI then literal ++ [RightQuoteI]
    else if quoteType = LeftQuoteII then literal ++ [RightQuoteII]
    else if quoteType = LeftQuoteIII then literal ++ [RightQuoteIII]
    else if quoteType = LeftQuoteIV then literal ++ [RightQuoteIV]
    else if quoteType = LeftQuoteV then literal ++ [RightQuoteV]
    else literal
  { TokenType := TypeString, Literal := literal, Range := rg }

/-- `NewVarQuoteToken`. -/
def NewVarQuoteToken (buf : List Char) (rg : TokenRange) : Token :=
  { TokenType := TypeVarQuote, Literal := buf, Range := rg }

/-- `NewCommentToken`. -/
def NewCommentToken (buf note : List Char) (rg : TokenRange) : Token :=
  { TokenType := TypeComment, Literal := [GlyphZHU] ++ note ++ [Colon] ++ buf, Range := rg }

/-- `NewNumberToken`. -/
def NewNumberToken (buf : List Char) (rg : TokenRange) : Token :=
  { TokenType := TypeNumber, Literal := buf, Range := rg }

/-- `NewMarkToken`. -/
def NewMarkToken (buf : List Char) (t : Nat) (startR : TokenRange) (num : Int) : Token :=
  { TokenType := t, Literal := buf,
    Range := { startR with EndLine := startR.StartLine, EndIdx := startR.StartIdx + num } }

/-- `NewIdentifierToken`. -/
def NewIdentifierToken (buf : List Char) (rg : TokenRange) : Token :=
  { TokenType := TypeIdentifier, Literal := buf, Range := rg }

/-- `KeywordTypeMap[t]` as `NewKeywordToken` reads it: no entry gives the empty
literal. -/
def keywordLiteral (t : Nat) : List Char :=
  match KeywordTypeMap.lookup t with
  | some item => item
  | none => []

/-- The loop of `parseIndents`: `for l.peek() == ch { count++; l.next() }`. -/
def Lexer.countIndents (ch : Char) : Nat → Int → Lexer → Option (Int × Lexer)
  | 0, _, _ => none
  | fuel + 1, count, l =>
    if l.peek = ch then Lexer.countIndents ch fuel (count + 1) l.next.2
    else some (count, l)

/-- `Lexer.parseIndents`; the error is the one it panics with. -/
def Lexer.parseIndents (fuel : Nat) (l : Lexer) (ch : Char) : Option (Option Error × Lexer) :=
  match Lexer.countIndents ch fuel 1 l with
  | none => none
  | some (count, l1) =>
    let indentType :=
      if ch = TAB then IdetTab else if ch = SP then IdetSpace else IdetUnknown
    some (l1.SetIndent count indentType)

/-- `Lexer.parseCRLF`: the error it panics with, or the newline runes, and the
lexer after the call. -/
def Lexer.parseCRLF (l : Lexer) (ch : Char) : Except Error (List Char) × Lexer :=
  let p := l.peek
  let r : List Char × Lexer :=
    if (ch = CR ∧ p = LF) ∨ (ch = LF ∧ p = CR) then
      let l1 := l.next.2
      ([ch, p], l1.PushLine (l1.cursor - 1))
    else
      ([ch], l.PushLine l.cursor)
  let l2 := r.2.NewLine (r.2.cursor + 1)
  if ¬ Contains l2.peek [SP, TAB, EOF] then
    match l2.SetIndent 0 IdetUnknown with
    | (some err, l3) => (.error err, l3)
    | (none, l3) => (.ok r.1, l3)
  else (.ok r.1, l2)

/-- `Lexer.validateComment`: `(isValid, isMultiLine, note)` and the lexer; the
note so far is an argument of the loop. -/
def Lexer.validateComment : Nat → List Char → Lexer → Option ((Bool × Bool × List Char) × Lexer)
  | 0, _, _ => none
  | fuel + 1, note, l =>
    let ch := l.next.1
    let l1 := l.next.2
    if ch = Colon then
      if Contains l1.peek [LeftQuoteIV, LeftQuoteII] then
        some ((true, true, note), l1.next.2)
      else some ((true, false, note), l1)
    else if isNumber ch ∨ isWhiteSpace ch then
      Lexer.validateComment fuel (note ++ [ch]) l1
    else some ((false, false, note), l1)

/-- The loop of `parseComment`. -/
def Lexer.parseCommentLoop ( isMultiLine : Bool) (note : List Char) :
    Nat → TokenRange → Lexer → Option (Except Error Token × Lexer)
  | 0, _, _ => none
  | fuel + 1, rg, l =>
    let ch := l.next.1
    let l1 := l.next.2
    if ch = EOF then
      let l2 := l1.rebase (l1.cursor - 1)
      let rg1 := rg.setRangeEnd l2
      some (.ok (NewCommentToken l2.chBuffer note rg1), l2)
    else if ch = CR ∨ ch = LF then
      match l1.parseCRLF ch with
      | (.error err, l2) => some (.error err, l2)
      | (.ok nl, l2) =>
        if isMultiLine = false then some (.ok (NewCommentToken l2.chBuffer note rg), l2)
        else
          let l3 := l2.pushBuffer nl
          match l3.SetIndent 0 IdetUnknown with
          | (some err, l4) => some (.error err, l4)
          | (none, l4) => Lexer.parseCommentLoop isMultiLine note fuel rg l4
    else
      if isMultiLine = true then
        let pushed : Bool × Lexer :=
          if Contains ch LeftQuotes then l1.quotePush ch else (true, l1)
        if pushed.1 = false then some (.error (QuoteStackFull 32), pushed.2)
        else
          let l2 := pushed.2
          if Contains ch RightQuotes then
            let l3 := if QuoteMatchMap l2.quoteCurrent = ch then l2.quotePop else l2
            if l3.quoteStack.length = 0 then
              let rg1 := rg.setRangeEnd l3
              let l4 := l3.pushBuffer [ch]
              some (.ok (NewCommentToken l4.chBuffer note rg1), l4)
            else
              let l4 := l3.pushBuffer [ch]
              Lexer.parseCommentLoop isMultiLine note fuel (rg.setRangeEnd l4) l4
          else
            let l4 := l2.pushBuffer [ch]
            Lexer.parseCommentLoop isMultiLine note fuel (rg.setRangeEnd l4) l4
      else
        let l4 := l1.pushBuffer [ch]
        Lexer.parseCommentLoop isMultiLine note fuel (rg.setRangeEnd l4) l4

/-- `Lexer.parseComment`. -/
def Lexer.parseComment (fuel : Nat) (l : Lexer) (ch : Char) ( isMultiLine : Bool)
    (note : List Char) (rg : TokenRange) : Option (Except Error Token × Lexer) :=
  let l1 := l.clearBuffer
  if isMultiLine = true then
    let pushed := l1.quotePush ch
    if pushed.1 = false then some (.error (QuoteStackFull 32), pushed.2)
    else Lexer.parseCommentLoop isMultiLine note fuel rg (pushed.2.pushBuffer [ch])
  else Lexer.parseCommentLoop isMultiLine note fuel rg l1

/-- The loop of `parseString`. -/
def Lexer.parseStringLoop (firstChar : Char) (rg : TokenRange) :
    Nat → Lexer → Option (Except Error Token × Lexer)
  | 0, _ => none
  | fuel + 1, l =>
    let ch := l.next.1
    let l1 := l.next.2
    if ch = EOF then
      let l2 := l1.rebase (l1.cursor - 1)
      some (.ok (NewStringToken l2.chBuffer firstChar (rg.setRangeEnd l2)), l2)
    else if Contains ch LeftQuotes then
      let l2 := l1.pushBuffer [ch]
      let pushed := l2.quotePush ch
      if pushed.1 = false then some (.error (QuoteStackFull 32), pushed.2)
      else Lexer.parseStringLoop firstChar rg fuel pushed.2
    else if Contains ch RightQuotes then
      let l2 := if QuoteMatchMap l1.quoteCurrent = ch then l1.quotePop else l1
      if l2.quoteStack.length = 0 then
        some (.ok (NewStringToken l2.chBuffer firstChar (rg.setRangeEnd l2)), l2)
      else Lexer.parseStringLoop firstChar rg fuel (l2.pushBuffer [ch])
    else if ch = CR ∨ ch = LF then
      match l1.parseCRLF ch with
      | (.error err, l2) => some (.error err, l2)
      | (.ok nl, l2) =>
        let l3 := l2.pushBuffer nl
        match l3.SetIndent 0 IdetUnknown with
        | (some err, l4) => some (.error err, l4)
        | (none, l4) => Lexer.parseStringLoop firstChar rg fuel l4
    else Lexer.parseStringLoop firstChar rg fuel (l1.pushBuffer [ch])

/-- `Lexer.parseString`. -/
def Lexer.parseString (fuel : Nat) (l : Lexer) (ch : Char) :
    Option (Except Error Token × Lexer) :=
  let l1 := (l.clearBuffer.quotePush ch).2
  Lexer.parseStringLoop ch (newTokenRange l1) fuel l1

/-- The loop of `parseVarQuote`. -/
def Lexer.parseVarQuoteLoop (rg : TokenRange) :
    Nat → Int → Lexer → Option (Except Error Token × Lexer)
  | 0, _, _ => none
  | fuel + 1, count, l =>
    let ch := l.next.1
    let l1 := l.next.2
    if ch = EOF then
      let l2 := l1.rebase (l1.cursor - 1)
      some (.ok (NewVarQuoteToken l2.chBuffer (rg.setRangeEnd l2)), l2)
    else if ch = MiddleDot then
      some (.ok (NewVarQuoteToken l1.chBuffer (rg.setRangeEnd l1)), l1)
    else if isWhiteSpace ch then Lexer.parseVarQuoteLoop rg fuel count l1
    else if isIdentifierChar ch (decide (count = 0)) then
      let l2 := l1.pushBuffer [ch]
      if count + 1 > maxIdentifierLength then
        some (.error (IdentifierExceedLength maxIdentifierLength), l2)
      else Lexer.parseVarQuoteLoop rg fuel (count + 1) l2
    else some (.error InvalidIdentifier, l1)

/-- `Lexer.parseVarQuote`. -/
def Lexer.parseVarQuote (fuel : Nat) (l : Lexer) (_ : Char) :
    Option (Except Error Token × Lexer) :=
  let l1 := l.clearBuffer
  Lexer.parseVarQuoteLoop (newTokenRange l1) fuel 0 l1

def parseNumber.sBegin : Nat := 1
def parseNumber.sDot : Nat := 2
def parseNumber.sIntEnd : Nat := 3
def parseNumber.sIntPMFlag : Nat := 5
def parseNumber.sDotDecEnd : Nat := 6
def parseNumber.sEFlag : Nat := 7
def parseNumber.sSFlag : Nat := 8
def parseNumber.sExpPMFlag : Nat := 9
def parseNumber.sSciI : Nat := 10
def parseNumber.sSciEndFlag : Nat := 11
def parseNumber.sExpEnd : Nat := 12
def parseNumber.sSciII : Nat := 13

def parseNumber.endStates : List Nat :=
  [parseNumber.sIntEnd, parseNumber.sDotDecEnd, parseNumber.sExpEnd]

/-- The digit cases shared by `'0'` to `'9'` in the switch of `parseNumber`. -/
def parseNumber.digitState (state : Nat) : Option Nat :=
  if state = parseNumber.sBegin ∨ state = parseNumber.sIntEnd
      ∨ state = parseNumber.sIntPMFlag then some parseNumber.sIntEnd
  else if state = parseNumber.sDot ∨ state = parseNumber.sDotDecEnd then
    some parseNumber.sDotDecEnd
  else if state = parseNumber.sExpPMFlag ∨ state = parseNumber.sSciEndFlag
      ∨ state = parseNumber.sExpEnd then some parseNumber.sExpEnd
  else none

/-- The switch on `ch` in the loop of `parseNumber`, for a rune other than EOF
and `_`: the next state, or `none` for `goto end`. -/
def parseNumber.transition (state : Nat) (ch : Char) : Option Nat :=
  if ch = 'e' ∨ ch = 'E' then
    if state = parseNumber.sDotDecEnd ∨ state = parseNumber.sIntEnd then
      some parseNumber.sEFlag
    else none
  else if ch = '.' then
    if state = parseNumber.sBegin ∨ state = parseNumber.sIntPMFlag
        ∨ state = parseNumber.sIntEnd then some parseNumber.sDot
    else none
  else if ch = '-' ∨ ch = '+' then
    if state = parseNumber.sBegin then some parseNumber.sIntPMFlag
    else if state = parseNumber.sEFlag ∨ state = parseNumber.sSciEndFlag then
      some parseNumber.sExpPMFlag
    else none
  else if ch = '*' then
    if state = parseNumber.sDotDecEnd ∨ state = parseNumber.sIntEnd then
      some parseNumber.sSFlag
    else none
  else if ch = '1' then
    if state = parseNumber.sSFlag then some parseNumber.sSciI
    else parseNumber.digitState state
  else if ch = '0' then
    if state = parseNumber.sSciI then some parseNumber.sSciII
    else parseNumber.digitState state
  else if ch = '2' ∨ ch = '3' ∨ ch = '4' ∨ ch = '5' ∨ ch = '6' ∨ ch = '7' ∨ ch = '8'
      ∨ ch = '9' then parseNumber.digitState state
  else if ch = '^' then
    if state = parseNumber.sSFlag ∨ state = parseNumber.sSciII then
      some parseNumber.sSciEndFlag
    else none
  else none

/-- The loop of `parseNumber`: the state, the rune and the lexer at `end`. -/
def Lexer.parseNumberLoop : Nat → Nat → Char → Lexer → Option (Nat × Char × Lexer)
  | 0, _, _, _ => none
  | fuel + 1, state, ch, l =>
    if ch = EOF then some (state, ch, l)
    else if ch = '_' then Lexer.parseNumberLoop fuel state l.next.1 l.next.2
    else
      match parseNumber.transition state ch with
      | none => some (state, ch, l)
      | some state1 =>
        Lexer.parseNumberLoop fuel state1 (l.pushBuffer [ch]).next.1 (l.pushBuffer [ch]).next.2

/-- `Lexer.parseNumber`. -/
def Lexer.parseNumber (fuel : Nat) (l : Lexer) (ch : Char) :
    Option (Except Error Token × Lexer) :=
  let l1 := l.clearBuffer
  let rg := newTokenRange l1
  match Lexer.parseNumberLoop fuel parseNumber.sBegin ch l1 with
  | none => none
  | some (state, ch1, l2) =>
    if parseNumber.endStates.contains state then
      let l3 := l2.rebase (l2.cursor - 1)
      some (.ok (NewNumberToken l3.chBuffer (rg.setRangeEnd l3)), l3)
    else some (.error (InvalidChar ch1), l2)

/-- `Lexer.parseMarkers`. -/
def Lexer.parseMarkers (l : Lexer) (ch : Char) : Except Error Token × Lexer :=
  let l1 := l.clearBuffer.pushBuffer [ch]
  let startR := newTokenRange l1
  if ch = Comma then (.ok (NewMarkToken l1.chBuffer TypeCommaSep startR 1), l1)
  else if ch = Colon then (.ok (NewMarkToken l1.chBuffer TypeFuncCall startR 1), l1)
  else if ch = Semicolon then (.ok (NewMarkToken l1.chBuffer TypeStmtSep startR 1), l1)
  else if ch = QuestionMark then (.ok (NewMarkToken l1.chBuffer TypeFuncDeclare startR 1), l1)
  else if ch = RefMark then (.ok (NewMarkToken l1.chBuffer TypeObjRef startR 1), l1)
  else if ch = BangMark then (.ok (NewMarkToken l1.chBuffer TypeMustT startR 1), l1)
  else if ch = AnnotationMark then (.ok (NewMarkToken l1.chBuffer TypeAnnoT startR 1), l1)
  else if ch = HashMark then
    if l1.peek = LeftCurlyBracket then
      let l2 := l1.next.2.pushBuffer [l1.next.1]
      (.ok (NewMarkToken l2.chBuffer TypeMapQHash startR 2), l2)
    else (.ok (NewMarkToken l1.chBuffer TypeMapHash startR 1), l1)
  else if ch = EllipsisMark then
    if l1.peek = EllipsisMark then
      let l2 := l1.next.2.pushBuffer [l1.next.1]
      (.ok (NewMarkToken l2.chBuffer TypeMoreParam startR 2), l2)
    else (.error InvalidSingleEllipsis, l1)
  else if ch = LeftBracket then (.ok (NewMarkToken l1.chBuffer TypeArrayQuoteL startR 1), l1)
  else if ch = RightBracket then (.ok (NewMarkToken l1.chBuffer TypeArrayQuoteR startR 1), l1)
  else if ch = LeftParen then (.ok (NewMarkToken l1.chBuffer TypeFuncQuoteL startR 1), l1)
  else if ch = RightParen then (.ok (NewMarkToken l1.chBuffer TypeFuncQuoteR startR 1), l1)
  else if ch = LeftCurlyBracket then
    (.ok (NewMarkToken l1.chBuffer TypeStmtQuoteL startR 1), l1)
  else if ch = RightCurlyBracket then
    (.ok (NewMarkToken l1.chBuffer TypeStmtQuoteR startR 1), l1)
  else if ch = Equal then
    if l1.peek = Equal then
      let l2 := l1.next.2.pushBuffer [l1.next.1]
      (.ok (NewMarkToken l2.chBuffer TypeMapData startR 2), l2)
    else (.error InvalidSingleEqual, l1)
  else if ch = DoubleArrow then (.ok (NewMarkToken l1.chBuffer TypeMapData startR 1), l1)
  else (.error (InvalidChar ch), l1)

/-- The switch of `parseKeyword`: the word length and the token type of the
keyword that starts with `ch` at the cursor, if there is one. -/
def Lexer.matchKeyword (l : Lexer) (ch : Char) : Option (Int × Nat) :=
  if ch = GlyphBU then
    if l.peek = GlyphWEI then some (2, TypeLogicNotW)
    else if l.peek = GlyphXIAO ∧ l.peek2 = GlyphYU then some (3, TypeLogicGteW)
    else if l.peek = GlyphDA ∧ l.peek2 = GlyphYU then some (3, TypeLogicLteW)
    else if l.peek = GlyphDENG ∧ l.peek2 = GlyphYU then some (3, TypeLogicNotEqW)
    else none
  else if ch = GlyphQIE then some (1, TypeLogicAndW)
  else if ch = GlyphWEI then some (1, TypeLogicYesW)
  else if ch = GlyphZHI then some (1, TypeObjDotW)
  else if ch = GlyphLING then some (1, TypeDeclareW)
  else if ch = GlyphYIi then some (1, TypeVarOneW)
  else if ch = GlyphHE then
    if l.peek = GlyphWEI then some (2, TypeGetterW) else none
  else if ch = GlyphQI then some (1, TypeObjThisW)
  else if ch = GlyphZAI then
    if l.peek = GlyphRU then some (2, TypeCondOtherW) else none
  else if ch = GlyphFOU then
    if l.peek = GlyphZE then some (2, TypeCondElseW) else none
  else if ch = GlyphDA then
    if l.peek = GlyphYU then some (2, TypeLogicGtW) else none
  else if ch = GlyphRU then
    if l.peek = GlyphHE then some (2, TypeFuncW)
    else if l.peek = GlyphGUO then some (2, TypeCondW)
    else none
  else if ch = GlyphDING then
    if l.peek = GlyphYIy then some (2, TypeObjDefineW) else none
  else if ch = GlyphXIAO then
    if l.peek = GlyphYU then some (2, TypeLogicLtW) else none
  else if ch = GlyphYI then
    if l.peek = GlyphZHIy then some (2, TypeParamAssignW) else none
  else if ch = GlyphHENG then
    if l.peek = GlyphWEI then some (2, TypeAssignConstW) else none
  else if ch = GlyphCHENG then
    if l.peek = GlyphWEI then some (2, TypeObjNewW) else none
  else if ch = GlyphHUO then some (1, TypeLogicOrW)
  else if ch = GlyphSHI then
    if l.peek = GlyphWEI then some (2, TypeObjConstructW) else none
  else if ch = GlyphCI then
    if l.peek = GlyphZHI then some (2, TypeStaticSelfW) else none
  else if ch = GlyphMEI then
    if l.peek = GlyphDANG then some (2, TypeWhileLoopW) else none
  else if ch = GlyphDENG then
    if l.peek = GlyphYU then some (2, TypeLogicEqualW) else none
  else if ch = GlyphFAN then
    if l.peek = GlyphHUI then some (2, TypeReturnW) else none
  else if ch = GlyphBIAN then
    if l.peek = GlyphLI then some (2, TypeIteratorW) else none
  else none

/-- `Lexer.parseKeyword`: the keyword token (`none` for `false, nil`) and the
lexer after the call. -/
def Lexer.parseKeyword (l : Lexer) (ch : Char) (moveForward : Bool) : Option Token × Lexer :=
  let rg := newTokenRange l
  match l.matchKeyword ch with
  | none => (none, l)
  | some (wordLen, t) =>
    let l1 : Lexer :=
      if moveForward = true then
        if wordLen = 1 then l.pushBuffer [ch]
        else if wordLen = 2 then l.next.2.pushBuffer [ch, l.next.1]
        else if wordLen = 3 then
          l.next.2.next.2.pushBuffer [ch, l.next.1, l.next.2.next.1]
        else l
      else l
    (some { TokenType := t, Literal := keywordLiteral t,
            Range := { rg with EndLine := rg.StartLine, EndIdx := rg.StartIdx + wordLen } }, l1)

/-- `Lexer.consumeWhiteSpace`. -/
def Lexer.consumeWhiteSpace : Nat → Lexer → Option Lexer
  | 0, _ => none
  | fuel + 1, l =>
    if isWhiteSpace l.peek then Lexer.consumeWhiteSpace fuel l.next.2 else some l

/-- The `terminators` of `parseIdentifier`. -/
def terminators : List Char :=
  [EOF, CR, LF, LeftQuoteI, LeftQuoteII, LeftQuoteIII, LeftQuoteIV, LeftQuoteV, MiddleDot]
    ++ MarkLeads

/-- The loop of `parseIdentifier`. -/
def Lexer.parseIdentifierLoop :
    Nat → Int → TokenRange → Lexer → Option (Except Error Token × Lexer)
  | 0, _, _, _ => none
  | fuel + 1, count, rg, l =>
    let prev := l.cursor
    let ch := l.next.1
    let l1 := l.next.2
    if isWhiteSpace ch then Lexer.parseIdentifierLoop fuel count rg l1
    else
      let kw := l1.parseKeyword ch false
      if kw.1.isSome then
        let l2 := kw.2.rebase prev
        some (.ok (NewIdentifierToken l2.chBuffer (rg.setRangeEnd l2)), l2)
      else
        let zhu : Option (Bool × Lexer) :=
          if ch = GlyphZHU then
            match Lexer.validateComment fuel [] kw.2 with
            | none => none
            | some (r, l2) => some (r.1, l2)
          else some (false, kw.2)
        match zhu with
        | none => none
        | some (true, l2) =>
          let l3 := l2.rebase prev
          some (.ok (NewIdentifierToken l3.chBuffer (rg.setRangeEnd l3)), l3)
        | some (false, l2) =>
          let l3 := if ch = GlyphZHU then l2.rebase (prev + 1) else l2
          if Contains ch terminators then
            let l4 := l3.rebase prev
            some (.ok (NewIdentifierToken l4.chBuffer rg), l4)
          else if isIdentifierChar ch false then
            if count ≥ maxIdentifierLength then
              some (.error (IdentifierExceedLength maxIdentifierLength), l3)
            else
              let l4 := l3.pushBuffer [ch]
              Lexer.parseIdentifierLoop fuel (count + 1) (rg.setRangeEnd l4) l4
          else some (.error (InvalidChar ch), l3)

/-- `Lexer.parseIdentifier`. -/
def Lexer.parseIdentifier (fuel : Nat) (l : Lexer) (ch : Char) :
    Option (Except Error Token × Lexer) :=
  let l1 := l.clearBuffer
  if isIdentifierChar ch true = false then some (.error InvalidIdentifier, l1)
  else
    let rg := (newTokenRange l1).setRangeEnd l1
    Lexer.parseIdentifierLoop fuel 1 rg (l1.pushBuffer [ch])

/-- The part of `NextToken` from the label `head`. -/
def Lexer.nextTokenHead : Nat → Lexer → Option (Except Error Token × Lexer)
  | 0, _ => none
  | fuel + 1, l0 =>
    let ch := l0.next.1
    let l := l0.next.2
    if ch = EOF then
      let l1 := l.PushLine l.cursor
      some (.ok (NewTokenEOF l1.CurrentLine l1.cursor), l1)
    else if ch = SP ∨ ch = TAB then
      if l.onIndentStage then
        match l.parseIndents fuel ch with
        | none => none
        | some (some err, l1) => some (.error err, l1)
        | some (none, l1) => Lexer.nextTokenHead fuel l1
      else
        match Lexer.consumeWhiteSpace fuel l with
        | none => none
        | some l1 => Lexer.nextTokenHead fuel l1
    else if ch = CR ∨ ch = LF then
      match l.parseCRLF ch with
      | (.error err, l1) => some (.error err, l1)
      | (.ok _, l1) => Lexer.nextTokenHead fuel l1
    else if ch = GlyphZHU then
      let cursor := l.cursor
      let rg := newTokenRange l
      match Lexer.validateComment fuel [] l with
      | none => none
      | some ((isComment, isMultiLine, note), l1) =>
        if isComment = true then
          l1.parseComment fuel (l1.getChar l1.cursor) isMultiLine note rg
        else (l1.rebase cursor).parseIdentifier fuel ch
    else if Contains ch LeftQuotes then l.parseString fuel ch
    else if ch = MiddleDot then l.parseVarQuote fuel ch
    else if isWhiteSpace ch then
      match Lexer.consumeWhiteSpace fuel l with
      | none => none
      | some l1 => Lexer.nextTokenHead fuel l1
    else if isNumber ch ∨ Contains ch ['.', '+', '-'] then l.parseNumber fuel ch
    else if Contains ch MarkLeads then some (l.parseMarkers ch)
    else
      match l.parseKeyword ch true with
      | (some tk, l1) => some (.ok tk, l1)
      | (none, l1) => l1.parseIdentifier fuel ch

/-- `Lexer.NextToken`. -/
def Lexer.NextToken (fuel : Nat) (l : Lexer) : Option (Except Error Token × Lexer) :=
  if l.beginLex = true then
    let l1 := { l with beginLex := false }
    if ¬ Contains l1.peek [SP, TAB, EOF] then
      match l1.SetIndent 0 IdetUnknown with
      | (some err, l2) => some (.error err, l2)
      | (none, l2) => Lexer.nextTokenHead fuel l2
    else Lexer.nextTokenHead fuel l1
  else Lexer.nextTokenHead fuel l

/-- `n` calls of `NextToken` in a row, as `Parser.next` makes them: the tokens
and the lexer after the last call; `none` if a call fails or runs out of fuel. -/
def Lexer.nextTokens (fuel : Nat) : Nat → Lexer → Option (List Token × Lexer)
  | 0, l => some ([], l)
  | n + 1, l =>
    match l.NextToken fuel with
    | some (.ok tk, l1) =>
      match Lexer.nextTokens fuel n l1 with
      | some (tks, l2) => some (tk :: tks, l2)
      | none => none
    | _ => none

/-- The order of the line table: every entry ends no later than the next one
starts. -/
def linesOrdered : List LineInfo → Bool
  | [] => true
  | [_] => true
  | prev :: next :: rest => decide (prev.endIdx ≤ next.startIdx) && linesOrdered (next :: rest)

/-- The states the loop of `parseNumber` goes through on a list of runes, `_`
skipped: the state after the last rune, or `none` when the switch says
`goto end` before. -/
def parseNumber.run : Nat → List Char → Option Nat
  | state, [] => some state
  | state, ch :: rest =>
    if ch = '_' then parseNumber.run state rest
    else
      match parseNumber.transition state ch with
      | none => none
      | some state1 => parseNumber.run state1 rest

/-- All runes of the source: those in the line buffer and those still to be
read. -/
def Lexer.source (l : Lexer) : List Char := l.lineBuffer ++ l.blocks.flatten

/-- The reading invariant of the lexer: no block of the stream is empty, the
stream is drained once `readEnd` is set, and the rune after the cursor is in the
line buffer unless the stream is drained. -/
def Lexer.buffered (l : Lexer) : Prop :=
  (∀ b ∈ l.blocks, b ≠ []) ∧ (l.readEnd = true → l.blocks = [])
    ∧ (l.cursor + 1 ≤ (l.lineBuffer.length : Int) ∨ l.blocks = [])

/-- An optional sign taken off the front. -/
def dropOptSign : List Char → List Char
  | '+' :: r => r
  | '-' :: r => r
  | r => r

/-- The exponent part of the number expression of the specification:
`((E[+-]?|\*10\^[+-]?|\*\^[+-]?)\d+)?` up to the end of the text. -/
def specExponent (r : List Char) : Bool :=
  match r with
  | [] => true
  | 'E' :: r1 => (dropOptSign r1 ≠ []) && (dropOptSign r1).all Char.isDigit
  | '*' :: '1' :: '0' :: '^' :: r1 => (dropOptSign r1 ≠ []) && (dropOptSign r1).all Char.isDigit
  | '*' :: '^' :: r1 => (dropOptSign r1 ≠ []) && (dropOptSign r1).all Char.isDigit
  | _ => false

/-- The number expression of the specification, matched against a whole text:
`^[+-]?(\d+\.?\d*|\.\d+)((E[+-]?|\*10\^[+-]?|\*\^[+-]?)\d+)?$`. -/
def specNumberRegex (s : List Char) : Bool :=
  let s1 := dropOptSign s
  let d1 := s1.takeWhile Char.isDigit
  let r1 := s1.dropWhile Char.isDigit
  if d1 ≠ [] then
    match r1 with
    | '.' :: r2 => specExponent (r2.dropWhile Char.isDigit)
    | _ => specExponent r1
  else
    match r1 with
    | '.' :: r2 => (r2.takeWhile Char.isDigit ≠ []) && specExponent (r2.dropWhile Char.isDigit)
    | _ => false

/-- The range property: the start line is not after the end line, and on one
line the start index is not after the end index. -/
def TokenRange.ordered (r : TokenRange) : Prop :=
  r.StartLine ≤ r.EndLine ∧ (r.StartLine = r.EndLine → r.StartIdx ≤ r.EndIdx)

/-- The lexer stands at or after the start of the range. -/
def TokenRange.startsBefore (r : TokenRange) (l : Lexer) : Prop :=
  r.StartLine < l.CurrentLine ∨ (r.StartLine = l.CurrentLine ∧ r.StartIdx ≤ l.cursor)

/-! ## exec/defaults.go, exec/eval.go: built-in names and variable declaration -/

/-- The `predefinedValues` of `exec/defaults.go`, the `ctx.globals` of every
context: a native function is given by the name of its closure. -/
def predefinedValues : List (List Char × ZnValue) :=
  [("真".toList, .bool none true),
   ("假".toList, .bool none false),
   ("空".toList, .null none),
   ("显示".toList, .function none (some { Name := "显示".toList })),
   ("X+Y".toList, .function none (some { Name := "X+Y".toList })),
   ("求和".toList, .function none (some { Name := "X+Y".toList })),
   ("X-Y".toList, .function none (some { Name := "X-Y".toList })),
   ("求差".toList, .function none (some { Name := "X-Y".toList })),
   ("X*Y".toList, .function none (some { Name := "X*Y".toList })),
   ("求积".toList, .function none (some { Name := "X*Y".toList })),
   ("X/Y".toList, .function none (some { Name := "X/Y".toList })),
   ("求商".toList, .function none (some { Name := "X/Y".toList })),
   ("__probe".toList, .function none (some { Name := "__probe".toList }))]

/-- The loop `for _, v := range vpair.Variables` of `evalVarDeclareStmt`: each
variable is bound to `duplicateValue(obj)`, given as `dup obj`. The `if` after
`bindValue` tests the `err` of `evalExpression`, which is `nil` there, so the
result of `bindValue` is dropped and the loop never returns. `none` is the nil
scope. -/
def evalVarDeclareStmt.bindEach {V : Type} (dup : V → V) (globals : List (List Char × V))
    (obj : V) (isConst : Bool) : List (List Char) → List (BlockScope V) →
    Option (List (BlockScope V))
  | [], scope => some scope
  | vtag :: rest, scope =>
    match scope with
    | [] => none
    | sp :: parent =>
      evalVarDeclareStmt.bindEach dup globals obj isConst rest
        (bindValue globals sp parent vtag (dup obj) isConst).1

/-- The case `VDTypeAssign, VDTypeAssignConst` of `evalVarDeclareStmt` for one
pair `A，B 为 C` / `A，B 恒为 C`, with `r` what `evalExpression` returned for `C`:
the scope chain after the pair and the error returned from inside the case
(`none`: the statement goes on to the next pair and, after the last one,
returns `nil`). -/
def evalVarDeclareStmt.assignPair {E V : Type} (dup : V → V) (globals : List (List Char × V))
    (r : Except E V) (isConst : Bool) (Variables : List (List Char))
    (scope : List (BlockScope V)) : Option (List (BlockScope V) × Option E) :=
  match r with
  | .error err => some (scope, some err)
  | .ok obj =>
    match evalVarDeclareStmt.bindEach dup globals obj isConst Variables scope with
    | none => none
    | some scope1 => some (scope1, none)

/-! ## exec/eval.go: assignment to an identifier, with arrays held by pointer -/

/-- `evalVarAssignExpr` for an identifier target `vtag 为 ...`, with `r` what
`evalExpression` returned for the right side: `setValue(ctx, scope, vtag, val)`
on the value as it was returned, then `return val, err2`. -/
def evalVarAssignExpr.ID (globals : List (List Char × ZnRef)) (st : RunState)
    (vtag : List Char) (r : Except Error ZnRef) : RunState × Except Error ZnRef :=
  match r with
  | .error err => (st, .error err)
  | .ok val =>
    let w := setValue globals st.scope vtag val
    ({ st with scope := w.1 },
      match w.2 with
      | some err2 => .error err2
      | none => .ok val)

/-- The state after `令Y为【1，2】；令X为【0】` in a new root scope: each literal is
allocated and the variable is bound to its duplicate. -/
def declareTwoArrays : Option RunState :=
  let litY := allocArray [] [.decimal (NewZnDecimalFromInt 1 0), .decimal (NewZnDecimalFromInt 2 0)]
  match evalVarDeclareStmt.bindVars 2 [] litY.2 false ["Y".toList]
      { store := litY.1, scope := [{ symbolMap := [] }] } with
  | none => none
  | some st =>
    let litX := allocArray st.store [.decimal (NewZnDecimalFromInt 0 0)]
    evalVarDeclareStmt.bindVars 2 [] litX.2 false ["X".toList] { st with store := litX.1 }

/-! ## exec/eval.go, exec/exec_ref.go, exec/scope.go, exec/iv.go: statements and calls

The tree-walking evaluator over a scope chain. The node types of the package
`syntax` are given by the fields the evaluator reads. Expressions that need the
class model or a member of a value (`MemberExpr` with an expression or `其` as
its root, an assignment to such a member, array and hashmap literals) are an
opaque node, evaluated by a function of the context; so are the `成为` part of a
declaration and the native executors.

A scope chain is the list of its block scopes, the current scope first, next to
the list of what each scope is beside its symbols (`ScopeExt`). The root scope
is the last of the chain; its `lastValue` and `classRefMap` are fields of the
state. `SetCurrentLine` only feeds the cursor of an error and is left out.
Values are held by value. Every evaluator returns the state after the call next
to the Go result; `none` is fuel exhausted or a Go panic (a nil scope, a nil
value). -/

def BreakErrorClass : Nat := 0x50

def breakError : errorClass := { prefixCode := BreakErrorClass }

def ReturnBreakSignal : Nat := 0x5001

/-- `error.InvalidExprType("bool")`. -/
def InvalidExprTypeBool : Error :=
  typeError.NewError 0x01 "表达式不符合期望之「二象」类型".toList

/-- `error.InvalidFuncVariable`. -/
def InvalidFuncVariable (tag : List Char) : Error :=
  typeError.NewError 0x02 ("「".toList ++ tag ++ "」须为一个方法".toList)

/-- `error.MismatchParamLengthError`. -/
def MismatchParamLengthError (expect got : Nat) : Error :=
  paramError.NewError 0x02
    ("此方法定义了".toList ++ Nat.toDigits 10 expect ++ "个参数，而实际输入".toList
      ++ Nat.toDigits 10 got ++ "个参数".toList)

/-- `error.NewErrorSLOT`. -/
def NewErrorSLOT (text : List Char) : Error := { code := 0xFFFE, text := text }

/-- An `*error.Error` as the evaluator passes it on: code and text, and the
`extra` data (`none` is nil). -/
structure EvalError (V : Type) where
  err : Error
  extra : Option V

/-- `Error.GetCode`. -/
def EvalError.GetCode {V : Type} (e : EvalError V) : Nat := e.err.code

/-- An error made without `extra`. -/
def EvalError.plain {V : Type} (err : Error) : EvalError V := { err := err, extra := none }

/-- `error.ReturnBreakError`. -/
def ReturnBreakError {V : Type} (extra : V) : EvalError V :=
  { err := breakError.NewError 0x01 "未处理之「返回」中断".toList, extra := some extra }

/-- `error.ContinueBreakError`. -/
def ContinueBreakError {V : Type} : EvalError V :=
  EvalError.plain (breakError.NewError 0x02 "未处理之「继续」中断".toList)

/-- `error.BreakBreakError`. -/
def BreakBreakError {V : Type} : EvalError V :=
  EvalError.plain (breakError.NewError 0x03 "未处理之「结束」中断".toList)

/-- `syntax.LogicTypeE`. -/
inductive LogicTypeE where
  | LogicEQ
  | LogicNEQ
  | LogicAND
  | LogicOR
  | LogicGT
  | LogicGTE
  | LogicLT
  | LogicLTE
deriving DecidableEq, Repr

/-- `syntax.Expression`. `VarAssignExpr` is the assignment to an identifier;
`ScopeMember` and `ScopeMethod` are the `MemberExpr` with root `此之` and a
member that is an identifier or a method call; `other` is any other expression
node. -/
inductive Expression (X : Type) where
  | Number (Literal : List Char)
  | String (Literal : List Char)
  | ID (Literal : List Char)
  | LogicExpr (LogicType : LogicTypeE) (LeftExpr RightExpr : Expression X)
  | VarAssignExpr (TargetVar : List Char) (AssignExpr : Expression X)
  | FuncCallExpr (FuncName : List Char) (Params : List (Expression X))
  | ScopeMember (MemberID : List Char)
  | ScopeMethod (FuncName : List Char) (Params : List (Expression X))
  | other (node : X)

/-- `syntax.VDAssignPair`: `A，B 为 C` and `A，B 恒为 C` (`assign`), or
`A，B 成为 X：P1，P2` (`objNew`, opaque). -/
inductive VDAssignPair (X : Type) where
  | assign (isConst : Bool) (Variables : List (List Char)) (AssignExpr : Expression X)
  | objNew (node : X)

/-- `syntax.Statement`; a `*BlockStmt` is the list of its `Children`. -/
inductive Statement (X : Type) where
  | VarDeclareStmt (AssignPair : List (VDAssignPair X))
  | WhileLoopStmt (TrueExpr : Expression X) (LoopBlock : List (Statement X))
  | BranchStmt (IfTrueExpr : Expression X) (IfTrueBlock : List (Statement X))
      (OtherExprs : List (Expression X)) (OtherBlocks : List (List (Statement X)))
      (HasElse : Bool) (IfFalseBlock : List (Statement X))
  | EmptyStmt
  | FunctionDeclareStmt (FuncName : List Char) (ParamList : List (List Char))
      (ExecBlock : List (Statement X))
  | ClassDeclareStmt (ClassName : List Char) (node : X)
  | IterateStmt (IndexNames : List (List Char)) (IterateExpr : Expression X)
      (IterateBlock : List (Statement X))
  | FunctionReturnStmt (ReturnExpr : Expression X)
  | Expression (v : Expression X)

/-- A `*ClosureRef` of the evaluator: made by `NewClosureRef` from a name, the
parameter tags and a statement block, or by `NewNativeClosureRef`. -/
inductive EvalClosure (X : Type) where
  | closure (Name : List Char) (paramTags : List (List Char)) (stmtBlock : List (Statement X))
  | native (Name : List Char)

/-- A value of the evaluator: the `*ZnFunction` that `NewZnFunction` makes from
a `FunctionDeclareStmt`, or any other value (a native function among them, by
the name of its closure). -/
inductive EvalValue (X : Type) where
  | value (v : ZnValue)
  | function (FuncName : List Char) (ParamList : List (List Char))
      (ExecBlock : List (Statement X))

/-- The type assertion `val.(*ZnFunction)` followed by `.ClosureRef`. -/
def EvalValue.ClosureRef {X : Type} : EvalValue X → Option (EvalClosure X)
  | .function name params block => some (.closure name params block)
  | .value (.function _ (some c)) => some (.native c.Name)
  | .value _ => none

/-- The type assertion `val.(*ZnBool)` followed by `.Value`. -/
def EvalValue.asBool {X : Type} : EvalValue X → Option Bool
  | .value (.bool _ b) => some b
  | _ => none

/-- The value as `compareValues` sees it: of a `*ZnFunction` only the type. -/
def EvalValue.toZnValue {X : Type} : EvalValue X → ZnValue
  | .value v => v
  | .function name _ _ => .function none (some { Name := name })

/-- `duplicateValue`: a function is returned as it is. -/
def EvalValue.duplicateValue {X : Type} : EvalValue X → EvalValue X
  | .value v => .value (Zn.duplicateValue v)
  | .function name params block => .function name params block

/-- What a scope is beside its symbols: `*RootScope`, `*FuncScope` with its
`targetThis` (`none` is nil) and `returnValue`, `*WhileScope`, `*IterateScope`
with its `currentIndex` and `currentValue`. -/
inductive ScopeExt (V : Type) where
  | RootScope
  | FuncScope (targetThis : Option V) (returnValue : V)
  | WhileScope
  | IterateScope (currentIndex currentValue : Option V)

/-- The state of an evaluation: the scope chain, the fields of its root scope,
and `world`, whatever else the opaque parts read and write. -/
structure EvalState (X W : Type) where
  scope : List (BlockScope (EvalValue X))
  ext : List (ScopeExt (EvalValue X))
  lastValue : EvalValue X
  classRefMap : List (List Char × X)
  world : W

/-- What the evaluation of an expression gives. -/
abbrev ExprResult (X W : Type) : Type :=
  Option (EvalState X W × Except (EvalError (EvalValue X)) (EvalValue X))

/-- What the evaluation of a statement gives. -/
abbrev StmtResult (X W : Type) : Type :=
  Option (EvalState X W × Option (EvalError (EvalValue X)))

/-- `Context`: `ctx.globals`, and the parts of the evaluator that are left
open: the evaluation of an opaque expression node, `evalNewObjectPart`, the
native executors (by the name of the closure) and `GetMethod` on a value. -/
structure Context (X W : Type) where
  globals : List (List Char × EvalValue X)
  evalOther : EvalState X W → X → ExprResult X W
  evalNewObjectPart : EvalState X W → X → StmtResult X W
  execNative : List Char → EvalState X W → List (EvalValue X) → ExprResult X W
  GetMethod : EvalValue X → List Char → Option (EvalClosure X)

/-- `NewRootScope`, in a state. -/
def NewRootScope {X W : Type} (world : W) : EvalState X W :=
  { scope := [{ symbolMap := [] }], ext := [.RootScope], lastValue := .value NewZnNull,
    classRefMap := [], world := world }

/-- A new scope with `scope` as its parent becomes the current scope. -/
def EvalState.push {X W : Type} (st : EvalState X W) (e : ScopeExt (EvalValue X)) :
    EvalState X W :=
  { st with scope := { symbolMap := [] } :: st.scope, ext := e :: st.ext }

/-- The current scope is left for its parent. -/
def EvalState.pop {X W : Type} (st : EvalState X W) : EvalState X W :=
  { st with scope := st.scope.tail, ext := st.ext.tail }

/-- `NewFuncScope(scope, targetThis)` becomes the current scope: the receiver is
inherited when the parent is a `*FuncScope` and none is given. -/
def NewFuncScope {X W : Type} (st : EvalState X W) (targetThis : Option (EvalValue X)) :
    EvalState X W :=
  let this : Option (EvalValue X) :=
    match st.ext.head?, targetThis with
    | some (.FuncScope parentThis _), none => parentThis
    | _, t => t
  st.push (.FuncScope this (.value NewZnNull))

/-- `scope.(*RootScope)` succeeds. -/
def EvalState.isRootScope {X W : Type} (st : EvalState X W) : Bool :=
  match st.ext.head? with
  | some .RootScope => true
  | _ => false

/-- `bindValue` on the current scope. -/
def EvalState.bindValue {X W : Type} (st : EvalState X W)
    (globals : List (List Char × EvalValue X)) (name : List Char) (value : EvalValue X)
    (isConstatnt : Bool) : Option (EvalState X W × Option Error) :=
  match st.scope with
  | [] => none
  | sp :: parent =>
    let r := Zn.bindValue globals sp parent name value isConstatnt
    some ({ st with scope := r.1 }, r.2)

/-- `bindClassRef` on the root scope. -/
def bindClassRef {X W : Type} (st : EvalState X W) (name : List Char) (node : X) :
    EvalState X W × Option Error :=
  match goMapGet st.classRefMap name with
  | some _ => (st, some (NameRedeclared name))
  | none => ({ st with classRefMap := goMapSet st.classRefMap name node }, none)

/-- The walk of `evalStatement` that stores the value of an expression
statement: in the nearest `*FuncScope` (`SetReturnValue`) or in the root scope
(`SetLastValue`, the second component). -/
def setLastValueLoop {V : Type} (val : V) : List (ScopeExt V) → List (ScopeExt V) × Option V
  | [] => ([], none)
  | .RootScope :: rest => (.RootScope :: rest, some val)
  | .FuncScope this _ :: rest => (.FuncScope this val :: rest, none)
  | e :: rest =>
    let r := setLastValueLoop val rest
    (e :: r.1, r.2)

/-- The state after that walk. -/
def EvalState.setLastValue {X W : Type} (st : EvalState X W) (val : EvalValue X) :
    EvalState X W :=
  let r := setLastValueLoop val st.ext
  { st with ext := r.1, lastValue := r.2.getD st.lastValue }

/-- The deferred call of `evalStatement`: `scope.GetRoot().SetLastValue(NewZnNull())`. -/
def EvalState.resetLastValue {X W : Type} (st : EvalState X W) : EvalState X W :=
  { st with lastValue := .value NewZnNull }

/-- `exprsToValues`. -/
def exprsToValues {X W : Type} (ev : EvalState X W → Expression X → ExprResult X W) :
    List (Expression X) → EvalState X W →
    Option (EvalState X W × Except (EvalError (EvalValue X)) (List (EvalValue X)))
  | [], st => some (st, .ok [])
  | paramExpr :: rest, st =>
    match ev st paramExpr with
    | none => none
    | some (st1, .error err) => some (st1, .error err)
    | some (st1, .ok pval) =>
      match exprsToValues ev rest st1 with
      | none => none
      | some (st2, .error err) => some (st2, .error err)
      | some (st2, .ok params) => some (st2, .ok (pval :: params))

/-- A loop `for _, stmt := range block.Children` that returns the first error,
over a given evaluator of one statement. -/
def evalStmtBlock.each {X W : Type} (f : EvalState X W → Statement X → StmtResult X W) :
    List (Statement X) → EvalState X W → StmtResult X W
  | [], st => some (st, none)
  | stmt :: rest, st =>
    match f st stmt with
    | none => none
    | some (st1, some err) => some (st1, some err)
    | some (st1, none) => evalStmtBlock.each f rest st1

/-- ROUND I of `evalStmtBlock`: the function and class declarations of the
block are bound first. -/
def Context.roundI {X W : Type} (ctx : Context X W) :
    List (Statement X) → EvalState X W → StmtResult X W
  | [], st => some (st, none)
  | stmtI :: rest, st =>
    match stmtI with
    | .FunctionDeclareStmt name params block =>
      match st.bindValue ctx.globals name (.function name params block) false with
      | none => none
      | some (st1, some err) => some (st1, some (EvalError.plain err))
      | some (st1, none) => ctx.roundI rest st1
    | .ClassDeclareStmt name node =>
      match bindClassRef st name node with
      | (st1, some err) => some (st1, some (EvalError.plain err))
      | (st1, none) => ctx.roundI rest st1
    | _ => ctx.roundI rest st

/-- The statement that ROUND II of `evalStmtBlock` skips. -/
def Statement.isDeclare {X : Type} : Statement X → Bool
  | .FunctionDeclareStmt _ _ _ => true
  | .ClassDeclareStmt _ _ => true
  | _ => false

/-- `evalStmtBlock`, over a given `evalStatement`: in the root scope the
declarations are hoisted (ROUND I) and the other statements are evaluated in
order (ROUND II); in any other scope all statements are evaluated in order. -/
def Context.evalStmtBlock {X W : Type} (ctx : Context X W)
    (evalStatement : EvalState X W → Statement X → StmtResult X W)
    (st : EvalState X W) (block : List (Statement X)) : StmtResult X W :=
  if st.isRootScope then
    match ctx.roundI block st with
    | none => none
    | some (st1, some err) => some (st1, some err)
    | some (st1, none) =>
      evalStmtBlock.each
        (fun s stmtII => if stmtII.isDeclare then some (s, none) else evalStatement s stmtII)
        block st1
  else
    evalStmtBlock.each evalStatement block st

/-- The loop of `evalVarDeclareStmt` over the pairs. -/
def Context.evalVarDeclareStmt {X W : Type} (ctx : Context X W)
    (ev : EvalState X W → Expression X → ExprResult X W) :
    List (VDAssignPair X) → EvalState X W → StmtResult X W
  | [], st => some (st, none)
  | vpair :: rest, st =>
    match vpair with
    | .assign isConst vars assignExpr =>
      match ev st assignExpr with
      | none => none
      | some (st1, r) =>
        match evalVarDeclareStmt.assignPair EvalValue.duplicateValue ctx.globals r isConst vars
            st1.scope with
        | none => none
        | some (scope1, some err) => some ({ st1 with scope := scope1 }, some err)
        | some (scope1, none) => ctx.evalVarDeclareStmt ev rest { st1 with scope := scope1 }
    | .objNew node =>
      match ctx.evalNewObjectPart st node with
      | none => none
      | some (st1, some err) => some (st1, some err)
      | some (st1, none) => ctx.evalVarDeclareStmt ev rest st1

/-- The loop of `evalBranchStmt` over the else-if branches: the block to
evaluate, if a condition is true. -/
def evalBranchStmt.others {X W : Type} (ev : EvalState X W → Expression X → ExprResult X W) :
    List (Expression X) → List (List (Statement X)) → EvalState X W →
    Option (EvalState X W × Except (EvalError (EvalValue X)) (Option (List (Statement X))))
  | [], _, st => some (st, .ok none)
  | otherExpr :: rest, blocks, st =>
    match ev st otherExpr with
    | none => none
    | some (st1, .error err) => some (st1, .error err)
    | some (st1, .ok otherExprI) =>
      match otherExprI.asBool with
      | none => some (st1, .error (EvalError.plain InvalidExprTypeBool))
      | some true =>
        match blocks with
        | [] => none
        | block :: _ => some (st1, .ok (some block))
      | some false => evalBranchStmt.others ev rest blocks.tail st1

/-- The conditions of `evalBranchStmt`: the block of the branch that is taken
(`none`: no branch is). -/
def evalBranchStmt.select {X W : Type} (ev : EvalState X W → Expression X → ExprResult X W)
    (st : EvalState X W) (IfTrueExpr : Expression X) (IfTrueBlock : List (Statement X))
    (OtherExprs : List (Expression X)) (OtherBlocks : List (List (Statement X)))
    (HasElse : Bool) (IfFalseBlock : List (Statement X)) :
    Option (EvalState X W × Except (EvalError (EvalValue X)) (Option (List (Statement X)))) :=
  match ev st IfTrueExpr with
  | none => none
  | some (st1, .error err) => some (st1, .error err)
  | some (st1, .ok ifExpr) =>
    match ifExpr.asBool with
    | none => some (st1, .error (EvalError.plain InvalidExprTypeBool))
    | some true => some (st1, .ok (some IfTrueBlock))
    | some false =>
      match evalBranchStmt.others ev OtherExprs OtherBlocks st1 with
      | none => none
      | some (st2, .error err) => some (st2, .error err)
      | some (st2, .ok (some block)) => some (st2, .ok (some block))
      | some (st2, .ok none) =>
        if HasElse then some (st2, .ok (some IfFalseBlock)) else some (st2, .ok none)

/-- `evalBranchStmt`: the block of the branch taken is evaluated in the scope of
the statement. -/
def evalBranchStmt {X W : Type} (ev : EvalState X W → Expression X → ExprResult X W)
    (evalBlock : EvalState X W → List (Statement X) → StmtResult X W)
    (st : EvalState X W) (IfTrueExpr : Expression X) (IfTrueBlock : List (Statement X))
    (OtherExprs : List (Expression X)) (OtherBlocks : List (List (Statement X)))
    (HasElse : Bool) (IfFalseBlock : List (Statement X)) : StmtResult X W :=
  match evalBranchStmt.select ev st IfTrueExpr IfTrueBlock OtherExprs OtherBlocks HasElse
      IfFalseBlock with
  | none => none
  | some (st1, .error err) => some (st1, some err)
  | some (st1, .ok none) => some (st1, none)
  | some (st1, .ok (some block)) => evalBlock st1 block

/-- The `for` loop of `evalWhileLoopStmt`, in the while scope. -/
def evalWhileLoopStmt.loop {X W : Type} (ev : EvalState X W → Expression X → ExprResult X W)
    (evalBlock : EvalState X W → List (Statement X) → StmtResult X W)
    (TrueExpr : Expression X) (LoopBlock : List (Statement X)) :
    Nat → EvalState X W → StmtResult X W
  | 0, _ => none
  | fuel + 1, st =>
    match ev st TrueExpr with
    | none => none
    | some (st1, .error err) => some (st1, some err)
    | some (st1, .ok trueExpr) =>
      match trueExpr.asBool with
      | none => some (st1, some (EvalError.plain InvalidExprTypeBool))
      | some false => some (st1, none)
      | some true =>
        match evalBlock st1 LoopBlock with
        | none => none
        | some (st2, none) => evalWhileLoopStmt.loop ev evalBlock TrueExpr LoopBlock fuel st2
        | some (st2, some err) =>
          if err.GetCode = ContinueBreakSignal then
            evalWhileLoopStmt.loop ev evalBlock TrueExpr LoopBlock fuel st2
          else if err.GetCode = BreakBreakSignal then some (st2, none)
          else some (st2, some err)

/-- `evalWhileLoopStmt`: the loop runs in a new while scope. -/
def evalWhileLoopStmt {X W : Type} (ev : EvalState X W → Expression X → ExprResult X W)
    (evalBlock : EvalState X W → List (Statement X) → StmtResult X W) (fuel : Nat)
    (st : EvalState X W) (TrueExpr : Expression X) (LoopBlock : List (Statement X)) :
    StmtResult X W :=
  match evalWhileLoopStmt.loop ev evalBlock TrueExpr LoopBlock fuel (st.push .WhileScope) with
  | none => none
  | some (st1, r) => some (st1.pop, r)

/-- `IterateScope.setCurrentKV` on the current scope. -/
def EvalState.setCurrentKV {X W : Type} (st : EvalState X W) (index value : EvalValue X) :
    EvalState X W :=
  match st.ext with
  | .IterateScope _ _ :: rest => { st with ext := .IterateScope (some index) (some value) :: rest }
  | _ => st

/-- `setValue` from the current scope. -/
def EvalState.setValue {X W : Type} (st : EvalState X W)
    (globals : List (List Char × EvalValue X)) (name : List Char) (value : EvalValue X) :
    EvalState X W × Option Error :=
  let r := Zn.setValue globals st.scope name value
  ({ st with scope := r.1 }, r.2)

/-- The first part of the closure `execIterationBlockFn` of `evalIterateStmt`:
`setCurrentKV`, then `setValue` on the declared index variables. -/
def Context.setIterationSlots {X W : Type} (ctx : Context X W)
    (IndexNames : List (List Char)) (st : EvalState X W) (key val : EvalValue X) :
    EvalState X W × Option Error :=
  let st1 := st.setCurrentKV key val
  match IndexNames with
  | [valueSlot] => st1.setValue ctx.globals valueSlot val
  | [keySlot, valueSlot] =>
    match st1.setValue ctx.globals keySlot key with
    | (st2, some err) => (st2, some err)
    | (st2, none) => st2.setValue ctx.globals valueSlot val
  | _ => (st1, none)

/-- The closure `execIterationBlockFn` of `evalIterateStmt`: the slots are set
and the block is evaluated in the iterate scope. -/
def Context.execIterationBlockFn {X W : Type} (ctx : Context X W)
    (evalBlock : EvalState X W → List (Statement X) → StmtResult X W)
    (IndexNames : List (List Char)) (IterateBlock : List (Statement X))
    (st : EvalState X W) (key val : EvalValue X) : StmtResult X W :=
  match ctx.setIterationSlots IndexNames st key val with
  | (st1, some err) => some (st1, some (EvalError.plain err))
  | (st1, none) => evalBlock st1 IterateBlock

/-- The declaration of the index variables in the iterate scope. -/
def Context.bindIndexNames {X W : Type} (ctx : Context X W) (st : EvalState X W)
    (IndexNames : List (List Char)) : StmtResult X W :=
  match IndexNames with
  | [] => some (st, none)
  | [valueSlot] =>
    match st.bindValue ctx.globals valueSlot (.value NewZnNull) false with
    | none => none
    | some (st1, some err) => some (st1, some (EvalError.plain err))
    | some (st1, none) => some (st1, none)
  | [keySlot, valueSlot] =>
    match st.bindValue ctx.globals keySlot (.value NewZnNull) false with
    | none => none
    | some (st1, some err) => some (st1, some (EvalError.plain err))
    | some (st1, none) =>
      match st1.bindValue ctx.globals valueSlot (.value NewZnNull) false with
      | none => none
      | some (st2, some err) => some (st2, some (EvalError.plain err))
      | some (st2, none) => some (st2, none)
  | _ => some (st, some (EvalError.plain MostParamsError2))

/-- The rounds of the two `range` loops of `evalIterateStmt`: for an array the
indexes with the items, for a hashmap the keys of `KeyOrder` with `Value[key]`
(`none` when the key is not stored); `none` for any other value. -/
def iterateRounds {X : Type} : EvalValue X →
    Option (List (EvalValue X × Option (EvalValue X)))
  | .value (.array _ vs) =>
    some (vs.enum.map (fun p =>
      (.value (.decimal (NewZnDecimalFromInt p.1 0)), some (.value p.2))))
  | .value (.hashmap _ m ko) =>
    some (ko.map (fun key =>
      (.value (NewZnString key), (mapGet m key).map EvalValue.value)))
  | _ => none

/-- The `range` loop of `evalIterateStmt` over its rounds. -/
def evalIterateStmt.loop {X W : Type}
    (exec : EvalState X W → EvalValue X → EvalValue X → StmtResult X W) :
    List (EvalValue X × Option (EvalValue X)) → EvalState X W → StmtResult X W
  | [], st => some (st, none)
  | (_, none) :: _, _ => none
  | (key, some val) :: rest, st =>
    match exec st key val with
    | none => none
    | some (st1, none) => evalIterateStmt.loop exec rest st1
    | some (st1, some err) =>
      if err.GetCode = ContinueBreakSignal then evalIterateStmt.loop exec rest st1
      else if err.GetCode = BreakBreakSignal then some (st1, none)
      else some (st1, some err)

/-- What `evalIterateStmt` does in the iterate scope, once the iterated
expression has its value. -/
def Context.iterate {X W : Type} (ctx : Context X W)
    (evalBlock : EvalState X W → List (Statement X) → StmtResult X W)
    (IndexNames : List (List Char)) (IterateBlock : List (Statement X))
    (targetExpr : EvalValue X) (st : EvalState X W) : StmtResult X W :=
  match ctx.bindIndexNames st IndexNames with
  | none => none
  | some (st1, some err) => some (st1, some err)
  | some (st1, none) =>
    match iterateRounds targetExpr with
    | none => some (st1, some (EvalError.plain InvalidExprTypeArrayHashmap))
    | some rounds =>
      evalIterateStmt.loop (ctx.execIterationBlockFn evalBlock IndexNames IterateBlock)
        rounds st1

/-- `evalIterateStmt`: the iterated expression is evaluated in the scope of the
statement, the rest runs in a new iterate scope. -/
def Context.evalIterateStmt {X W : Type} (ctx : Context X W)
    (ev : EvalState X W → Expression X → ExprResult X W)
    (evalBlock : EvalState X W → List (Statement X) → StmtResult X W)
    (st : EvalState X W) (IndexNames : List (List Char)) (IterateExpr : Expression X)
    (IterateBlock : List (Statement X)) : StmtResult X W :=
  match ev st IterateExpr with
  | none => none
  | some (st1, .error err) => some (st1, some err)
  | some (st1, .ok targetExpr) =>
    match ctx.iterate evalBlock IndexNames IterateBlock targetExpr
        (st1.push (.IterateScope none none)) with
    | none => none
    | some (st2, r) => some (st2.pop, r)

/-- The `switch` of `evalStatement` and its deferred reset of the last value,
over the evaluators of an expression and of a block. -/
def Context.evalStatement.switch {X W : Type} (ctx : Context X W)
    (ev : EvalState X W → Expression X → ExprResult X W)
    (evalBlock : EvalState X W → List (Statement X) → StmtResult X W) (fuel : Nat)
    (st : EvalState X W) (stmt : Statement X) : StmtResult X W :=
  let deferred (r : StmtResult X W) : StmtResult X W :=
    match r with
    | none => none
    | some (st1, err) => some (st1.resetLastValue, err)
  match stmt with
  | .VarDeclareStmt pairs => deferred (ctx.evalVarDeclareStmt ev pairs st)
  | .WhileLoopStmt trueExpr loopBlock =>
    deferred (evalWhileLoopStmt ev evalBlock fuel st trueExpr loopBlock)
  | .BranchStmt ifTrueExpr ifTrueBlock otherExprs otherBlocks hasElse ifFalseBlock =>
    deferred (evalBranchStmt ev evalBlock st ifTrueExpr ifTrueBlock otherExprs otherBlocks
      hasElse ifFalseBlock)
  | .EmptyStmt => deferred (some (st, none))
  | .FunctionDeclareStmt name params block =>
    deferred
      (match st.bindValue ctx.globals name (.function name params block) false with
       | none => none
       | some (st1, err) => some (st1, err.map EvalError.plain))
  | .ClassDeclareStmt name node =>
    deferred
      (if st.isRootScope then
        some ((bindClassRef st name node).1, (bindClassRef st name node).2.map EvalError.plain)
       else some (st, some (EvalError.plain (NewErrorSLOT "只能在RootScope使用类定义".toList))))
  | .IterateStmt indexNames iterateExpr iterateBlock =>
    deferred (ctx.evalIterateStmt ev evalBlock st indexNames iterateExpr iterateBlock)
  | .FunctionReturnStmt returnExpr =>
    deferred
      (match ev st returnExpr with
       | none => none
       | some (st1, .error err) => some (st1, some err)
       | some (st1, .ok val) => some (st1, some (ReturnBreakError val)))
  | .Expression v =>
    match ev st v with
    | none => none
    | some (st1, .error err) => some (st1, some err)
    | some (st1, .ok val) => some (st1.setLastValue val, none)

/-- `evalStatement`, over the evaluator of an expression. The fuel bounds the
nesting depth of the blocks and the rounds of a while loop. -/
def Context.evalStatement {X W : Type} (ctx : Context X W)
    (ev : EvalState X W → Expression X → ExprResult X W) :
    Nat → EvalState X W → Statement X → StmtResult X W
  | 0, _, _ => none
  | fuel + 1, st, stmt =>
    Context.evalStatement.switch ctx ev (ctx.evalStmtBlock (ctx.evalStatement ev fuel)) fuel
      st stmt

/-- The parameter handler of `NewClosureRef`: the loop that binds the
parameters in the function scope. -/
def Context.bindParams {X W : Type} (ctx : Context X W) :
    List (List Char) → List (EvalValue X) → EvalState X W → StmtResult X W
  | paramTag :: tags, param :: params, st =>
    match st.bindValue ctx.globals paramTag param false with
    | none => none
    | some (st1, some err) => some (st1, some (EvalError.plain err))
    | some (st1, none) => ctx.bindParams tags params st1
  | _, _, st => some (st, none)

/-- The `paramHandler` of `NewClosureRef`. -/
def Context.paramHandler {X W : Type} (ctx : Context X W) (paramTags : List (List Char))
    (st : EvalState X W) (params : List (EvalValue X)) : StmtResult X W :=
  if params.length ≠ paramTags.length then
    some (st, some (EvalError.plain (MismatchParamLengthError paramTags.length params.length)))
  else ctx.bindParams paramTags params st

/-- Round I of the executor of `NewClosureRef`: function hoisting. -/
def Context.executor.roundI {X W : Type} (ctx : Context X W) :
    List (Statement X) → EvalState X W → StmtResult X W
  | [], st => some (st, none)
  | stmtI :: rest, st =>
    match stmtI with
    | .FunctionDeclareStmt name params block =>
      match st.bindValue ctx.globals name (.function name params block) false with
      | none => none
      | some (st1, some err) => some (st1, some (EvalError.plain err))
      | some (st1, none) => Context.executor.roundI ctx rest st1
    | _ => Context.executor.roundI ctx rest st

/-- The test `stmtII.(*syntax.FunctionDeclareStmt)` of round II. -/
def Statement.isFunctionDeclare {X : Type} : Statement X → Bool
  | .FunctionDeclareStmt _ _ _ => true
  | _ => false

/-- `FuncScope.GetReturnValue` on the current scope. -/
def EvalState.GetReturnValue {X W : Type} (st : EvalState X W) : Option (EvalValue X) :=
  match st.ext.head? with
  | some (.FuncScope _ returnValue) => some returnValue
  | _ => none

/-- The `executor` of `NewClosureRef`, over a given `evalStatement`, in the
function scope of the call. -/
def Context.executor {X W : Type} (ctx : Context X W)
    (evalStatement : EvalState X W → Statement X → StmtResult X W)
    (stmtBlock : List (Statement X)) (st : EvalState X W) : ExprResult X W :=
  match Context.executor.roundI ctx stmtBlock st with
  | none => none
  | some (st1, some err) => some (st1, .error err)
  | some (st1, none) =>
    match evalStmtBlock.each
        (fun s stmtII =>
          if stmtII.isFunctionDeclare then some (s, none) else evalStatement s stmtII)
        stmtBlock st1 with
    | none => none
    | some (st2, some err) =>
      if err.GetCode = ReturnBreakSignal then
        match err.extra with
        | some extra => some (st2, .ok extra)
        | none => some (st2, .error err)
      else some (st2, .error err)
    | some (st2, none) =>
      match st2.GetReturnValue with
      | none => none
      | some v => some (st2, .ok v)

/-- `ClosureRef.Exec`, in the function scope of the call. -/
def Context.Exec {X W : Type} (ctx : Context X W)
    (evalStatement : EvalState X W → Statement X → StmtResult X W)
    (cr : EvalClosure X) (st : EvalState X W) (params : List (EvalValue X)) : ExprResult X W :=
  match cr with
  | .native name => ctx.execNative name st params
  | .closure _ paramTags stmtBlock =>
    match ctx.paramHandler paramTags st params with
    | none => none
    | some (st1, some err) => some (st1, .error err)
    | some (st1, none) => ctx.executor evalStatement stmtBlock st1

/-- The first lookup of `evalFunctionCall`: when the current scope is a
`*FuncScope` with a receiver, the method of the receiver that has the name. -/
def Context.receiverMethod {X W : Type} (ctx : Context X W) (st : EvalState X W)
    (FuncName : List Char) : Option (EvalClosure X) :=
  match st.ext.head? with
  | some (.FuncScope (some targetThis) _) => ctx.GetMethod targetThis FuncName
  | _ => none

/-- The closure that `evalFunctionCall` calls: the method of the receiver, or
else the function that `getValue` finds under the name. -/
def Context.findClosure {X W : Type} (ctx : Context X W) (st : EvalState X W)
    (FuncName : List Char) : Except Error (EvalClosure X) :=
  match ctx.receiverMethod st FuncName with
  | some zf => .ok zf
  | none =>
    match getValue ctx.globals st.scope FuncName with
    | .error err => .error err
    | .ok val =>
      match val.ClosureRef with
      | none => .error (InvalidFuncVariable FuncName)
      | some zf => .ok zf

/-- `evalFunctionCall`: the closure is looked up, the parameters are evaluated
and the call runs in a new function scope. -/
def Context.evalFunctionCall {X W : Type} (ctx : Context X W)
    (ev : EvalState X W → Expression X → ExprResult X W)
    (evalStatement : EvalState X W → Statement X → StmtResult X W)
    (st : EvalState X W) (FuncName : List Char) (Params : List (Expression X)) :
    ExprResult X W :=
  match ctx.findClosure st FuncName with
  | .error err => some (st, .error (EvalError.plain err))
  | .ok zf =>
    match exprsToValues ev Params st with
    | none => none
    | some (st1, .error err) => some (st1, .error err)
    | some (st1, .ok params) =>
      match ctx.Exec evalStatement zf (NewFuncScope st1 none) params with
      | none => none
      | some (st2, r) => some (st2.pop, r)

/-- `evalLogicCombiner`. -/
def evalLogicCombiner {X W : Type} (ev : EvalState X W → Expression X → ExprResult X W)
    (st : EvalState X W) (logicType : LogicTypeE) (LeftExpr RightExpr : Expression X) :
    ExprResult X W :=
  match ev st LeftExpr with
  | none => none
  | some (st1, .error err) => some (st1, .error err)
  | some (st1, .ok left) =>
    match left.asBool with
    | none => some (st1, .error (EvalError.plain InvalidExprTypeBool))
    | some vleft =>
      if logicType = .LogicAND ∧ vleft = false then some (st1, .ok (.value (.bool none false)))
      else if logicType = .LogicOR ∧ vleft = true then some (st1, .ok (.value (.bool none true)))
      else
        match ev st1 RightExpr with
        | none => none
        | some (st2, .error err) => some (st2, .error err)
        | some (st2, .ok right) =>
          match right.asBool with
          | none => some (st2, .error (EvalError.plain InvalidExprTypeBool))
          | some vright =>
            if logicType = .LogicAND then some (st2, .ok (.value (.bool none (vleft && vright))))
            else some (st2, .ok (.value (.bool none (vleft || vright))))

/-- The comparison of `evalLogicComparator` on two values. -/
def compareByLogicType (logicType : LogicTypeE) (left right : ZnValue) : Except Error Bool :=
  match logicType with
  | .LogicEQ => compareValues left right CmpEq
  | .LogicNEQ =>
    match compareValues left right CmpEq with
    | .ok cmpRes => .ok (!cmpRes)
    | .error cmpErr => .error cmpErr
  | .LogicGT => compareValues left right CmpGt
  | .LogicGTE =>
    match compareValues left right CmpGt with
    | .error cmpErr => .error cmpErr
    | .ok cmp1 =>
      match compareValues left right CmpEq with
      | .error cmpErr => .error cmpErr
      | .ok cmp2 => .ok (cmp1 || cmp2)
  | .LogicLT => compareValues left right CmpLt
  | .LogicLTE =>
    match compareValues left right CmpLt with
    | .error cmpErr => .error cmpErr
    | .ok cmp1 =>
      match compareValues left right CmpEq with
      | .error cmpErr => .error cmpErr
      | .ok cmp2 => .ok (cmp1 || cmp2)
  | _ => .error (UnExpectedCase "比较类型".toList [])

/-- `evalLogicComparator`. -/
def evalLogicComparator {X W : Type} (ev : EvalState X W → Expression X → ExprResult X W)
    (st : EvalState X W) (logicType : LogicTypeE) (LeftExpr RightExpr : Expression X) :
    ExprResult X W :=
  match ev st LeftExpr with
  | none => none
  | some (st1, .error err) => some (st1, .error err)
  | some (st1, .ok left) =>
    match ev st1 RightExpr with
    | none => none
    | some (st2, .error err) => some (st2, .error err)
    | some (st2, .ok right) =>
      match compareByLogicType logicType left.toZnValue right.toZnValue with
      | .error cmpErr => some (st2, .error (EvalError.plain cmpErr))
      | .ok cmpRes => some (st2, .ok (.value (.bool none cmpRes)))

/-- `execSpecialMethods` of `*WhileScope` and of `*IterateScope`. -/
def execSpecialMethods {V : Type} (name : List Char) : EvalError V :=
  if name = "结束".toList then BreakBreakError
  else if name = "继续".toList then ContinueBreakError
  else EvalError.plain
    (NewErrorSLOT "no appropriate method name for while loop to execute".toList)

/-- `ZnScopeMethodIV.Reduce`. -/
def ZnScopeMethodIV.Reduce {X W : Type} (st : EvalState X W) (MethodName : List Char) :
    Except (EvalError (EvalValue X)) (EvalValue X) :=
  match st.ext.head? with
  | some .WhileScope => .error (execSpecialMethods MethodName)
  | some (.IterateScope _ _) => .error (execSpecialMethods MethodName)
  | _ => .ok (.value NewZnNull)

/-- `ZnScopeMemberIV.Reduce` on the right-hand side; `none` is a nil value. -/
def ZnScopeMemberIV.Reduce {X W : Type} (st : EvalState X W) (Member : List Char) :
    Option (Except (EvalError (EvalValue X)) (EvalValue X)) :=
  match st.ext.head? with
  | some (.IterateScope currentIndex currentValue) =>
    if Member = "值".toList then currentValue.map Except.ok
    else if Member = "索引".toList then currentIndex.map Except.ok
    else some (.error (EvalError.plain (NewErrorSLOT "no appropriate prop name to get".toList)))
  | _ => some (.ok (.value NewZnNull))

/-- The `switch` of `evalExpression`, over the evaluators of a sub-expression
and of a statement. -/
def Context.evalExpression.switch {X W : Type} (ctx : Context X W)
    (ev : EvalState X W → Expression X → ExprResult X W)
    (evalStatement : EvalState X W → Statement X → StmtResult X W)
    (st : EvalState X W) (expr : Expression X) : ExprResult X W :=
  match expr with
  | .VarAssignExpr vtag assignExpr =>
    match ev st assignExpr with
    | none => none
    | some (st1, .error err) => some (st1, .error err)
    | some (st1, .ok val) =>
      match st1.setValue ctx.globals vtag val with
      | (st2, some err2) => some (st2, .error (EvalError.plain err2))
      | (st2, none) => some (st2, .ok val)
  | .LogicExpr logicType leftExpr rightExpr =>
    if logicType = .LogicAND ∨ logicType = .LogicOR then
      evalLogicCombiner ev st logicType leftExpr rightExpr
    else evalLogicComparator ev st logicType leftExpr rightExpr
  | .ScopeMember member =>
    match ZnScopeMemberIV.Reduce st member with
    | none => none
    | some r => some (st, r)
  | .ScopeMethod funcName params =>
    match exprsToValues ev params st with
    | none => none
    | some (st1, .error err) => some (st1, .error err)
    | some (st1, .ok _) => some (st1, ZnScopeMethodIV.Reduce st1 funcName)
  | .Number literal =>
    match NewZnDecimal literal with
    | none => none
    | some (.error err) => some (st, .error (EvalError.plain err))
    | some (.ok d) => some (st, .ok (.value (.decimal d)))
  | .String literal => some (st, .ok (.value (NewZnString literal)))
  | .ID vtag =>
    match getValue ctx.globals st.scope vtag with
    | .error err => some (st, .error (EvalError.plain err))
    | .ok val => some (st, .ok val)
  | .FuncCallExpr funcName params => ctx.evalFunctionCall ev evalStatement st funcName params
  | .other node => ctx.evalOther st node

/-- `evalExpression`. The fuel bounds the nesting depth of expressions, blocks
and calls. -/
def Context.evalExpression {X W : Type} (ctx : Context X W) :
    Nat → EvalState X W → Expression X → ExprResult X W
  | 0, _, _ => none
  | fuel + 1, st, expr =>
    Context.evalExpression.switch ctx (ctx.evalExpression fuel)
      (ctx.evalStatement (ctx.evalExpression fuel) fuel) st expr

/-- `evalProgram`: the block of the program is evaluated in the root scope. -/
def Context.evalProgram {X W : Type} (ctx : Context X W) (fuel : Nat) (st : EvalState X W)
    (Content : List (Statement X)) : StmtResult X W :=
  ctx.evalStmtBlock (ctx.evalStatement (ctx.evalExpression fuel) fuel) st Content

/-- `NewContext`, for programs without opaque nodes: `ctx.globals` is
`predefinedValues`; the native executors and the class model are not part of
it (a call of a native function has no result here). -/
def NewContext : Context Empty Unit :=
  { globals := predefinedValues.map (fun p => (p.1, EvalValue.value p.2)),
    evalOther := fun _ node => node.elim,
    evalNewObjectPart := fun _ node => node.elim,
    execNative := fun _ _ _ => none,
    GetMethod := fun _ _ => none }

/-- The body of the function `测试` of the test `with return` of
`TestExecuteCode_OK` (scenario 3). -/
def scenarioThree.body : List (Statement Empty) :=
  [.BranchStmt (.LogicExpr .LogicGT (.ID "阈值".toList) (.Number "10".toList))
     [.FunctionReturnStmt (.String "大于".toList)] [] [] false [],
   .FunctionReturnStmt (.String "小于".toList),
   .Expression (.String "等于".toList)]

/-- The program of scenario 3: the declaration of `测试` with the parameter
`阈值`, and the call `（测试：6）`. -/
def scenarioThree : List (Statement Empty) :=
  [.FunctionDeclareStmt "测试".toList ["阈值".toList] scenarioThree.body,
   .Expression (.FuncCallExpr "测试".toList [.Number "6".toList])]

/-- A part of the evaluation of a function body in which a `返回` can be met: a
statement, a block, the statements of a block in order, the statements of the
body in order (round II of the executor), the rounds of a while loop that are
left, the rounds of an iteration that are left. `fuel` is the fuel of
`evalStatement` for the statements of the part. -/
inductive EvalPart (X : Type) where
  | stmt (fuel : Nat) (s : Statement X)
  | block (fuel : Nat) (blk : List (Statement X))
  | each (fuel : Nat) (blk : List (Statement X))
  | body (fuel : Nat) (blk : List (Statement X))
  | whileLoop (fuel : Nat) (rounds : Nat) (TrueExpr : Expression X)
      (LoopBlock : List (Statement X))
  | iterLoop (fuel : Nat) (IndexNames : List (List Char)) (IterateBlock : List (Statement X))
      (rounds : List (EvalValue X × Option (EvalValue X)))

/-- What the evaluator does for a part. -/
def EvalPart.eval {X W : Type} (ctx : Context X W)
    (ev : EvalState X W → Expression X → ExprResult X W) :
    EvalPart X → EvalState X W → StmtResult X W
  | .stmt fuel s, st => ctx.evalStatement ev fuel st s
  | .block fuel blk, st => ctx.evalStmtBlock (ctx.evalStatement ev fuel) st blk
  | .each fuel blk, st => evalStmtBlock.each (ctx.evalStatement ev fuel) blk st
  | .body fuel blk, st =>
    evalStmtBlock.each
      (fun s stmtII =>
        if stmtII.isFunctionDeclare then some (s, none) else ctx.evalStatement ev fuel s stmtII)
      blk st
  | .whileLoop fuel rounds trueExpr loopBlock, st =>
    evalWhileLoopStmt.loop ev (ctx.evalStmtBlock (ctx.evalStatement ev fuel)) trueExpr loopBlock
      rounds st
  | .iterLoop fuel indexNames iterateBlock rounds, st =>
    evalIterateStmt.loop
      (ctx.execIterationBlockFn (ctx.evalStmtBlock (ctx.evalStatement ev fuel)) indexNames
        iterateBlock)
      rounds st

/-- A round of a loop that lets the loop go on: the block ended without error
or with the continue signal. -/
def goesOn {V : Type} (r : Option (EvalError V)) : Prop :=
  r = none ∨ ∃ err, r = some err ∧ err.GetCode = ContinueBreakSignal

/-- The claim's account of a `返回` met at any nesting depth. `Returns ctx ev part
st st1 v`: the evaluation of `part` from the state `st` comes to a statement
`返回 E`, at any depth inside the branches and loops of the part, whose `E` has
the value `v`, and `st1` is the state then, once the scopes of the loops around
the statement are left. What is evaluated before the statement is given by the
evaluator: the conditions of the branches and loops around it (`ev`,
`evalBranchStmt.select`), the statements before it in its blocks and the
earlier rounds of the loops around it, which all end without error (or, for a
round, with the continue signal). Nothing is said on what stands after the
statement. -/
inductive Returns {X W : Type} (ctx : Context X W)
    (ev : EvalState X W → Expression X → ExprResult X W) :
    EvalPart X → EvalState X W → EvalState X W → EvalValue X → Prop where
  | ret (fuel : Nat) (st st1 : EvalState X W) (E : Expression X) (v : EvalValue X) :
    ev st E = some (st1, .ok v) →
    Returns ctx ev (.stmt (fuel + 1) (.FunctionReturnStmt E)) st st1.resetLastValue v
  | branch (fuel : Nat) (st st1 st2 : EvalState X W) (c : Expression X)
      (tb : List (Statement X)) (oe : List (Expression X)) (ob : List (List (Statement X)))
      (he : Bool) (fb blk : List (Statement X)) (v : EvalValue X) :
    evalBranchStmt.select ev st c tb oe ob he fb = some (st1, .ok (some blk)) →
    Returns ctx ev (.block fuel blk) st1 st2 v →
    Returns ctx ev (.stmt (fuel + 1) (.BranchStmt c tb oe ob he fb)) st st2.resetLastValue v
  | whileStmt (fuel : Nat) (st st1 : EvalState X W) (c : Expression X)
      (b : List (Statement X)) (v : EvalValue X) :
    Returns ctx ev (.whileLoop fuel fuel c b) (st.push .WhileScope) st1 v →
    Returns ctx ev (.stmt (fuel + 1) (.WhileLoopStmt c b)) st st1.pop.resetLastValue v
  | iterateStmt (fuel : Nat) (st st1 st2 st3 : EvalState X W) (names : List (List Char))
      (e : Expression X) (b : List (Statement X)) (target : EvalValue X)
      (rounds : List (EvalValue X × Option (EvalValue X))) (v : EvalValue X) :
    ev st e = some (st1, .ok target) →
    ctx.bindIndexNames (st1.push (.IterateScope none none)) names = some (st2, none) →
    iterateRounds target = some rounds →
    Returns ctx ev (.iterLoop fuel names b rounds) st2 st3 v →
    Returns ctx ev (.stmt (fuel + 1) (.IterateStmt names e b)) st st3.pop.resetLastValue v
  | blockIn (fuel : Nat) (st st1 : EvalState X W) (blk : List (Statement X)) (v : EvalValue X) :
    st.isRootScope = false →
    Returns ctx ev (.each fuel blk) st st1 v →
    Returns ctx ev (.block fuel blk) st st1 v
  | eachHere (fuel : Nat) (st st1 : EvalState X W) (s : Statement X)
      (rest : List (Statement X)) (v : EvalValue X) :
    Returns ctx ev (.stmt fuel s) st st1 v →
    Returns ctx ev (.each fuel (s :: rest)) st st1 v
  | eachNext (fuel : Nat) (st st1 st2 : EvalState X W) (s : Statement X)
      (rest : List (Statement X)) (v : EvalValue X) :
    ctx.evalStatement ev fuel st s = some (st1, none) →
    Returns ctx ev (.each fuel rest) st1 st2 v →
    Returns ctx ev (.each fuel (s :: rest)) st st2 v
  | bodyHere (fuel : Nat) (st st1 : EvalState X W) (s : Statement X)
      (rest : List (Statement X)) (v : EvalValue X) :
    s.isFunctionDeclare = false →
    Returns ctx ev (.stmt fuel s) st st1 v →
    Returns ctx ev (.body fuel (s :: rest)) st st1 v
  | bodySkip (fuel : Nat) (st st1 : EvalState X W) (s : Statement X)
      (rest : List (Statement X)) (v : EvalValue X) :
    s.isFunctionDeclare = true →
    Returns ctx ev (.body fuel rest) st st1 v →
    Returns ctx ev (.body fuel (s :: rest)) st st1 v
  | bodyNext (fuel : Nat) (st st1 st2 : EvalState X W) (s : Statement X)
      (rest : List (Statement X)) (v : EvalValue X) :
    s.isFunctionDeclare = false →
    ctx.evalStatement ev fuel st s = some (st1, none) →
    Returns ctx ev (.body fuel rest) st1 st2 v →
    Returns ctx ev (.body fuel (s :: rest)) st st2 v
  | whileHere (fuel rounds : Nat) (st st1 st2 : EvalState X W) (c : Expression X)
      (b : List (Statement X)) (t v : EvalValue X) :
    ev st c = some (st1, .ok t) → t.asBool = some true →
    Returns ctx ev (.block fuel b) st1 st2 v →
    Returns ctx ev (.whileLoop fuel (rounds + 1) c b) st st2 v
  | whileNext (fuel rounds : Nat) (st st1 st2 st3 : EvalState X W) (c : Expression X)
      (b : List (Statement X)) (t v : EvalValue X) (r : Option (EvalError (EvalValue X))) :
    ev st c = some (st1, .ok t) → t.asBool = some true →
    ctx.evalStmtBlock (ctx.evalStatement ev fuel) st1 b = some (st2, r) → goesOn r →
    Returns ctx ev (.whileLoop fuel rounds c b) st2 st3 v →
    Returns ctx ev (.whileLoop fuel (rounds + 1) c b) st st3 v
  | iterHere (fuel : Nat) (st st1 st2 : EvalState X W) (names : List (List Char))
      (b : List (Statement X)) (key val : EvalValue X)
      (rest : List (EvalValue X × Option (EvalValue X))) (v : EvalValue X) :
    ctx.setIterationSlots names st key val = (st1, none) →
    Returns ctx ev (.block fuel b) st1 st2 v →
    Returns ctx ev (.iterLoop fuel names b ((key, some val) :: rest)) st st2 v
  | iterNext (fuel : Nat) (st st1 st2 : EvalState X W) (names : List (List Char))
      (b : List (Statement X)) (key val : EvalValue X)
      (rest : List (EvalValue X × Option (EvalValue X))) (v : EvalValue X)
      (r : Option (EvalError (EvalValue X))) :
    ctx.execIterationBlockFn (ctx.evalStmtBlock (ctx.evalStatement ev fuel)) names b st key val
      = some (st1, r) → goesOn r →
    Returns ctx ev (.iterLoop fuel names b rest) st1 st2 v →
    Returns ctx ev (.iterLoop fuel names b ((key, some val) :: rest)) st st2 v

/-! ## util/stack.go: RuneStack -/

/-- `RuneStack`: the backing slice, the number of stored items and the capacity.
A rune is an `int32`, kept as an integer. -/
structure RuneStack where
  stack : List Int
  count : Int
  maxSize : Int
deriving DecidableEq, Repr

/-- `NewRuneStack`: `make([]rune, maxSize)` panics for a negative size (`none`). -/
def NewRuneStack (maxSize : Int) : Option RuneStack :=
  if maxSize < 0 then none
  else some { stack := List.replicate maxSize.toNat 0, count := 0, maxSize := maxSize }

/-- `RuneStack.Push`: whether the item has been pushed, and the stack after the
call; `none` is the panic of `rs.stack[rs.count]` out of range. -/
def RuneStack.Push (rs : RuneStack) (item : Int) : Option (Bool × RuneStack) :=
  if rs.count = rs.maxSize then some (false, rs)
  else if rs.count < 0 ∨ rs.count ≥ rs.stack.length then none
  else
    some (true, { rs with stack := rs.stack.set rs.count.toNat item,
                          count := wrapInt (rs.count + 1) })

/-- `RuneStack.Pop`: the item with the flag, and the stack after the call;
`none` is the panic of `rs.stack[rs.count]` out of range. -/
def RuneStack.Pop (rs : RuneStack) : Option ((Int × Bool) × RuneStack) :=
  if rs.count = 0 then some ((0, false), rs)
  else
    let rs1 := { rs with count := wrapInt (rs.count - 1) }
    if rs1.count < 0 then none
    else
      match rs1.stack[rs1.count.toNat]? with
      | none => none
      | some v => some ((v, true), rs1)

/-- `RuneStack.Current`; `none` is the panic of an index out of range. -/
def RuneStack.Current (rs : RuneStack) : Option (Int × Bool) :=
  if rs.count = 0 then some (0, false)
  else if rs.count - 1 < 0 then none
  else (rs.stack[(rs.count - 1).toNat]?).map (fun v => (v, true))

def RuneStack.IsEmpty (rs : RuneStack) : Bool := decide (rs.count = 0)

def RuneStack.IsFull (rs : RuneStack) : Bool := decide (rs.count = rs.maxSize)

def RuneStack.GetMaxSize (rs : RuneStack) : Int := rs.maxSize

/-- The items a stack stores, oldest first: the first `count` slots. -/
def RuneStack.items (rs : RuneStack) : List Int := rs.stack.take rs.count.toNat

/-- A run of calls on a stack, `some x` for `Push(x)` and `none` for `Pop()`,
whatever they return; `none` when a call panics. -/
def RuneStack.run : RuneStack → List (Option Int) → Option RuneStack
  | rs, [] => some rs
  | rs, some x :: ops =>
    match rs.Push x with
    | none => none
    | some (_, rs1) => RuneStack.run rs1 ops
  | rs, none :: ops =>
    match rs.Pop with
    | none => none
    | some (_, rs1) => RuneStack.run rs1 ops

/-! ## error/error.go: calcCursorOffset -/

/-- The table `widthBorders` of `calcCursorOffset`. -/
def calcCursorOffset.widthBorders : List Int :=
  [126, 159, 687, 710, 711, 727, 733, 879, 1154, 1161,
   4347, 4447, 7467, 7521, 8369, 8426, 9000, 9002, 11021, 12350,
   12351, 12438, 12442, 19893, 19967, 55203, 63743, 64106, 65039, 65059,
   65131, 65279, 65376, 65500, 65510, 120831, 262141, 1114109]

/-- The table `widths` of `calcCursorOffset`. -/
def calcCursorOffset.widths : List Int :=
  [1, 0, 1, 0, 1, 0, 1, 0, 1, 0,
   1, 2, 1, 0, 1, 0, 1, 2, 1, 2,
   1, 2, 0, 2, 1, 2, 1, 2, 1, 0,
   2, 1, 2, 1, 2, 1, 2, 1]

/-- The loop `for idx, b := range widthBorders` of `getOffset`, from index
`idx` on; `none` is the panic of `widths[idx]` out of range. -/
def calcCursorOffset.scan (t : Int) : List Int → Nat → Option Int
  | [], _ => some 1
  | b :: rest, idx =>
    if t ≤ b then calcCursorOffset.widths[idx]?
    else calcCursorOffset.scan t rest (idx + 1)

/-- The closure `getOffset` of `calcCursorOffset`: the display width of a rune. -/
def calcCursorOffset.getOffset (t : Int) : Option Int :=
  if t = 0xE ∨ t = 0xF then some 0
  else calcCursorOffset.scan t calcCursorOffset.widthBorders 0

/-- The loop `for _, t := range []rune(text)[:col]`, adding up the widths. -/
def calcCursorOffset.loop : List Char → Int → Option Int
  | [], offsets => some offsets
  | t :: rest, offsets =>
    match calcCursorOffset.getOffset (t.toNat : Int) with
    | none => none
    | some w => calcCursorOffset.loop rest (offsets + w)

/-- `calcCursorOffset(text, col)`, the text given as its runes; `none` is the
panic of the slice `[:col]` beyond the length of the text. -/
def calcCursorOffset (text : List Char) (col : Int) : Option Int :=
  if col < 0 then some col
  else if col > text.length then none
  else calcCursorOffset.loop (text.take col.toNat) 0

/-- The display width of a rune as the tables of `calcCursorOffset` give it. -/
def displayWidth (t : Char) : Int := (calcCursorOffset.getOffset (t.toNat : Int)).getD 1

/-! ## Sample arrays for index access -/

/-- The decimals `0, 1, ..., n - 1` as array items. -/
def countingItems (n : Nat) : List ZnRef :=
  (List.range n).map (fun k => ZnRef.decimal (NewZnDecimalFromInt (k : Int) 0))

/-! ## Sample operands with a negative coefficient or an extreme exponent -/

/-- The operands of `-1 ÷ 3`. -/
def heapMinusOneThree : Heap :=
  fun p => if p = 0 then NewZnDecimalFromInt (-1) 0 else NewZnDecimalFromInt 3 0

/-- The operands of `1 ÷ -3`. -/
def heapOneMinusThree : Heap :=
  fun p => if p = 0 then NewZnDecimalFromInt 1 0 else NewZnDecimalFromInt (-3) 0

/-- The operands of `1*^9223372036854775807 ÷ 0.00000001`. -/
def heapHugeTiny : Heap :=
  fun p => if p = 0 then ⟨none, 1, 9223372036854775807⟩ else ⟨none, 1, -8⟩

/-! ## Vocabulary for comparison -/

mutual
/-- A value in which no function and no object occurs, at any depth, and in
which no hashmap has two or more entries. -/
def plainValue : ZnValue → Bool
  | .function _ _ => false
  | .object _ _ => false
  | .array _ vs => plainItems vs
  | .hashmap _ m _ => decide (m.length ≤ 1) && plainEntries m
  | .decimal _ => true
  | .string _ _ => true
  | .bool _ _ => true
  | .null _ => true
/-- Every item is a `plainValue`. -/
def plainItems : List ZnValue → Bool
  | [] => true
  | v :: vs => plainValue v && plainItems vs
/-- Every entry holds a `plainValue`. -/
def plainEntries : List (List Char × ZnValue) → Bool
  | [] => true
  | (_, v) :: es => plainValue v && plainEntries es
end

/-! ## exec/exec_ref.go: the default constructor of a class -/

/-- `syntax.PropertyDeclareStmt`: the name of a property and the expression of
its initial value. -/
structure PropertyDeclareStmt (X : Type) where
  PropertyID : List Char
  InitValue : Expression X

/-- The `*ZnObject` a constructor returns: the name of its class and its
property map. -/
structure EvalObject (X : Type) where
  ClassName : List Char
  PropList : List (List Char × EvalValue X)

/-- The loop `for _, propPair := range classNode.PropertyList` of the default
constructor. -/
def NewClassRef.initProps {X W : Type} (ev : EvalState X W → Expression X → ExprResult X W) :
    EvalState X W → List (PropertyDeclareStmt X) → List (List Char × EvalValue X) →
    Option (EvalState X W × Except (EvalError (EvalValue X)) (List (List Char × EvalValue X)))
  | st, [], props => some (st, .ok props)
  | st, propPair :: rest, props =>
    match ev st propPair.InitValue with
    | none => none
    | some (st1, .error err) => some (st1, .error err)
    | some (st1, .ok expr) =>
      NewClassRef.initProps ev st1 rest (goMapSet props propPair.PropertyID expr)

/-- The loop `for idx, objParam := range params` of the default constructor;
`none` is the panic of `ConstructorIDList[idx]` out of range. -/
def NewClassRef.setParams {V : Type} (ConstructorIDList : List (List Char)) :
    List V → Nat → List (List Char × V) → Option (List (List Char × V))
  | [], _, props => some props
  | objParam :: rest, idx, props =>
    match ConstructorIDList[idx]? with
    | none => none
    | some propID =>
      NewClassRef.setParams ConstructorIDList rest (idx + 1) (goMapSet props propID objParam)

/-- The default constructor that `NewClassRef(name, classNode)` defines, over
the evaluator of expressions; the scope is that of the state. -/
def NewClassRef.constructor {X W : Type} (ev : EvalState X W → Expression X → ExprResult X W)
    (name : List Char) (PropertyList : List (PropertyDeclareStmt X))
    (ConstructorIDList : List (List Char)) (st : EvalState X W) (params : List (EvalValue X)) :
    Option (EvalState X W × Except (EvalError (EvalValue X)) (EvalObject X)) :=
  match NewClassRef.initProps ev st PropertyList [] with
  | none => none
  | some (st1, .error err) => some (st1, .error err)
  | some (st1, .ok props) =>
    if params.length ≠ ConstructorIDList.length then
      some (st1, .error (EvalError.plain
        (MismatchParamLengthError params.length ConstructorIDList.length)))
    else
      match NewClassRef.setParams ConstructorIDList params 0 props with
      | none => none
      | some props1 => some (st1, .ok { ClassName := name, PropList := props1 })

/-! ## exec/vars.go, exec/iv.go: the members of a value -/

/-- `error.PropertyNotFound`. -/
def PropertyNotFound (name : List Char) : Error :=
  nameError.NewError 0x04 ("未找到属性「".toList ++ name ++ "」".toList)

/-- `error.MethodNotFound`. -/
def MethodNotFound (name : List Char) : Error :=
  nameError.NewError 0x05 ("未找到方法名「".toList ++ name ++ "」".toList)

/-- `NewZnBool`: the embedded `*ZnObject` is left nil. -/
def NewZnBool (value : Bool) : ZnValue := .bool none value

/-- `defaultArrayClassRef`, by the names of its getters. -/
def defaultArrayClassRef : ClassRef :=
  { Name := "数组".toList,
    GetterList := ["和".toList, "差".toList, "积".toList, "商".toList, "首".toList,
      "尾".toList, "数目".toList],
    MethodList := [] }

/-- `NewZnArray`. -/
def NewZnArray (values : List ZnValue) : ZnValue := .array (some defaultArrayClassRef) values

/-- `NewZnNativeFunction`: the embedded `*ZnObject` is left nil. -/
def NewZnNativeFunction (name : List Char) : ZnValue := .function none (some { Name := name })

/-- The `*ZnObject` through which a value answers `GetProperty`, `SetProperty`,
`GetMethod` and `FindGetter`: `none` is the nil pointer, otherwise its
`*ClassRef` (`none` is nil) and its `PropList`. -/
def ZnValue.ZnObject : ZnValue → Option (Option ClassRef × List (List Char × ZnValue))
  | .decimal d => d.ZnObject.map (fun c => (some c, []))
  | .string obj _ => obj.map (fun c => (some c, []))
  | .bool obj _ => obj.map (fun c => (some c, []))
  | .null obj => obj.map (fun c => (some c, []))
  | .array obj _ => obj.map (fun c => (some c, []))
  | .hashmap obj _ _ => obj.map (fun c => (some c, []))
  | .function obj _ => obj.map (fun c => (some c, []))
  | .object cls props => some (cls, props)

/-- `ZnObject.GetProperty` on the object of a value; `none` is the panic of a
nil pointer dereference. -/
def ZnValue.GetProperty (v : ZnValue) (name : List Char) : Option (Except Error ZnValue) :=
  match v.ZnObject with
  | none => none
  | some (_, props) =>
    match goMapGet props name with
    | none => some (.error (PropertyNotFound name))
    | some prop => some (.ok prop)

/-- `ZnObject.SetProperty` on the object of a value: the value after the call
and the error; `none` is the panic of a nil pointer dereference. -/
def ZnValue.SetProperty (v : ZnValue) (name : List Char) (value : ZnValue) :
    Option (ZnValue × Option Error) :=
  match v.ZnObject with
  | none => none
  | some (_, props) =>
    match goMapGet props name with
    | none => some (v, some (PropertyNotFound name))
    | some _ =>
      match v with
      | .object cls ps => some (.object cls (goMapSet ps name value), none)
      | _ => some (v, none)

/-- `ZnObject.GetMethod` on the object of a value; `none` is the panic of a nil
pointer dereference. -/
def ZnValue.GetMethod (v : ZnValue) (name : List Char) : Option (Except Error ClosureRef) :=
  match v.ZnObject with
  | none => none
  | some (none, _) => none
  | some (some cls, _) =>
    if cls.MethodList.contains name then some (.ok { Name := name })
    else some (.error (MethodNotFound name))

/-- `ZnObject.FindGetter` on the object of a value; `none` is the panic of a nil
pointer dereference. -/
def ZnValue.FindGetter (v : ZnValue) (name : List Char) : Option (Bool × Option ClosureRef) :=
  match v.ZnObject with
  | none => none
  | some (none, _) => none
  | some (some cls, _) =>
    if cls.GetterList.contains name then some (true, some { Name := name })
    else some (false, none)

/-- `ZnMemberIV.Reduce` for the IV `{RootObject, Member}`, over the execution
of a getter on the root object: the root object after the call and the Go
result; `none` is a panic (or a getter that does not return). -/
def ZnMemberIV.Reduce (exec : ClosureRef → ZnValue → Option (Except Error ZnValue))
    (RootObject : ZnValue) (Member : List Char) (input : ZnValue) (lhs : Bool) :
    Option (ZnValue × Except Error ZnValue) :=
  match RootObject.FindGetter Member with
  | none => none
  | some (true, some getterRef) =>
    if lhs = true then
      some (RootObject,
        .error (NewErrorSLOT "Invalid left-hand side in assignment for getter".toList))
    else (exec getterRef RootObject).map (fun r => (RootObject, r))
  | some (true, none) => none
  | some (false, _) =>
    if lhs = true then
      match RootObject.SetProperty Member input with
      | none => none
      | some (root1, some err) => some (root1, .error err)
      | some (root1, none) => some (root1, .ok input)
    else (RootObject.GetProperty Member).map (fun r => (RootObject, r))

/-! ## lex/input.go: InputStream, over the bytes of a buffer

The stream is the one `NewBufferStream` makes: its reader hands out the bytes
of a buffer, at most `len(p)` per call, and reports `io.EOF` when none is
left. Bytes and runes are natural numbers. -/

/-- `utf8.RuneError`. -/
def RuneError : Nat := 0xFFFD

/-- `error.DecodeUTF8Fail`. -/
def DecodeUTF8Fail (ch : Nat) : Error :=
  lexError.NewError 0x20
    ("前方有无法解析成UTF-8编码之异常字符'\\x".toList ++ Nat.toDigits 16 ch
      ++ "'，请确认文件编码之正确性及完整性".toList)

/-- `utf8.DecodeRune` of Go's standard library: the first rune of `p` and its
width in bytes; `(RuneError, 0)` for no bytes and `(RuneError, 1)` for an
encoding that is invalid or cut short. -/
def DecodeRune : List Nat → Nat × Nat
  | [] => (RuneError, 0)
  | p0 :: rest =>
    if p0 < 0x80 then (p0, 1)
    else if p0 < 0xC2 ∨ 0xF4 < p0 then (RuneError, 1)
    else
      let sz := if p0 < 0xE0 then 2 else if p0 < 0xF0 then 3 else 4
      let lo := if p0 = 0xE0 then 0xA0 else if p0 = 0xF0 then 0x90 else 0x80
      let hi := if p0 = 0xED then 0x9F else if p0 = 0xF4 then 0x8F else 0xBF
      if rest.length + 1 < sz then (RuneError, 1)
      else
        match rest with
        | [] => (RuneError, 1)
        | b1 :: rest1 =>
          if b1 < lo ∨ hi < b1 then (RuneError, 1)
          else if sz ≤ 2 then (p0 % 32 * 64 + b1 % 64, 2)
          else
            match rest1 with
            | [] => (RuneError, 1)
            | b2 :: rest2 =>
              if b2 < 0x80 ∨ 0xBF < b2 then (RuneError, 1)
              else if sz ≤ 3 then (p0 % 16 * 4096 + b1 % 64 * 64 + b2 % 64, 3)
              else
                match rest2 with
                | [] => (RuneError, 1)
                | b3 :: _ =>
                  if b3 < 0x80 ∨ 0xBF < b3 then (RuneError, 1)
                  else (p0 % 8 * 262144 + b1 % 64 * 4096 + b2 % 64 * 64 + b3 % 64, 4)

/-- `InputStream`: the bytes its reader has not handed out yet, `encBuffer`
and `readEnd`. -/
structure InputStream where
  Reader : List Nat
  encBuffer : List Nat
  readEnd : Bool
deriving DecidableEq, Repr

/-- `NewBufferStream`. -/
def NewBufferStream (buf : List Nat) : InputStream :=
  { Reader := buf, encBuffer := [], readEnd := false }

/-- The loop `for len(is.encBuffer) > 0` of `Read`: the runes and the bytes
left in `encBuffer`; `none` when it has not ended within `fuel` rounds. -/
def InputStream.decodeLoop : Nat → List Nat → List Nat → Option (List Nat × List Nat)
  | _, [], rs => some (rs, [])
  | 0, _ :: _, _ => none
  | fuel + 1, b :: bs, rs =>
    let d := DecodeRune (b :: bs)
    if d.1 = RuneError then some (rs, b :: bs)
    else InputStream.decodeLoop fuel ((b :: bs).drop d.2) (rs ++ [d.1])

/-- `InputStream.Read(n)`: the runes, the error and the stream after the call;
`none` is the panic of `make([]byte, n)` with a negative `n`. -/
def InputStream.Read (is : InputStream) (n : Int) :
    Option ((List Nat × Option Error) × InputStream) :=
  if n < 0 then none
  else
    let p := is.Reader.take n.toNat
    let t := p.length
    if t = 0 then
      let is1 := { is with readEnd := true }
      match is1.encBuffer with
      | ch :: _ => some (([], some (DecodeUTF8Fail ch)), is1)
      | [] => some (([], none), is1)
    else
      let buf := is.encBuffer ++ p
      match InputStream.decodeLoop buf.length buf [] with
      | none => none
      | some (rs, rest) =>
        some ((rs, none), { is with Reader := is.Reader.drop t, encBuffer := rest })

/-- `InputStream.End`. -/
def InputStream.End (is : InputStream) : Bool := is.readEnd

/-- The loop of the repository's tests: `Read(n)` until `End()` or an error;
the rune slices returned without error, and the error that ended the loop. -/
def InputStream.readAll : Nat → Int → InputStream → List (List Nat) →
    Option (List (List Nat) × Option Error)
  | 0, _, _, _ => none
  | fuel + 1, n, is, dataList =>
    if is.End = true then some (dataList, none)
    else
      match is.Read n with
      | none => none
      | some ((_, some e), _) => some (dataList, some e)
      | some ((data, none), is1) => InputStream.readAll fuel n is1 (dataList ++ [data])

/-- The UTF-8 encoding of a code point (a Unicode scalar value). -/
def encodeRune (c : Nat) : List Nat :=
  if c < 0x80 then [c]
  else if c < 0x800 then [0xC0 + c / 64, 0x80 + c % 64]
  else if c < 0x10000 then [0xE0 + c / 4096, 0x80 + c / 64 % 64, 0x80 + c % 64]
  else [0xF0 + c / 262144, 0x80 + c / 4096 % 64, 0x80 + c / 64 % 64, 0x80 + c % 64]

/-- The UTF-8 encoding of a text. -/
def encodeRunes (s : List Char) : List Nat := s.flatMap (fun c => encodeRune c.toNat)

/-! ## Vocabulary for identifiers -/

/-- The significant runes of a text: the text without its whitespace. -/
def significant (s : List Char) : List Char := s.filter (fun c => !isWhiteSpace c)

/-- A keyword of `KeywordTypeMap` stands at the front of the text. -/
def startsKeyword (text : List Char) : Bool :=
  KeywordTypeMap.any (fun e => e.2.isPrefixOf text)

/-- A comment starts at the front of the text: `注`, then digits and
whitespace, then `：`. -/
def startsComment : List Char → Bool
  | [] => false
  | c :: rest =>
    c == GlyphZHU &&
      (rest.dropWhile (fun d => isNumber d || isWhiteSpace d)).head? == some Colon

/-- The rune `d`, with the text `rest` behind it, is a rune of an identifier:
an identifier character, fit for the first place when `isFirst`, at which
neither a keyword nor a comment starts. -/
def identifierRune ( isFirst : Bool) (d : Char) (rest : List Char) : Bool :=
  isIdentifierChar d isFirst && !startsKeyword (d :: rest) && !startsComment (d :: rest)

/-- The runes of a plain identifier after its first one, with the text `tail`
behind the identifier: whitespace and runes of an identifier. -/
def identifierRest : List Char → List Char → Bool
  | [], _ => true
  | d :: r, tail =>
    (isWhiteSpace d || identifierRune false d (r ++ tail)) && identifierRest r tail

/-- The text `s`, with the text `tail` behind it, is a plain identifier: a
first rune of an identifier, then runes of an identifier and whitespace between
them. Every identifier character may occur, also a glyph that keywords start
with and `注`, as long as no keyword and no comment starts there. -/
def plainIdentifier (s tail : List Char) : Bool :=
  match s with
  | [] => false
  | c :: r => identifierRune true c (r ++ tail) && identifierRest r tail

/-- The text between the `·` marks of a quoted identifier: whitespace and
identifier characters, the first significant one fit for the first place. -/
def quotedIdentifier (s : List Char) : Bool :=
  s.all (fun d => isWhiteSpace d || isIdentifierChar d false) &&
    match significant s with
    | [] => true
    | c :: _ => isIdentifierChar c true

/-! ## Vocabulary for quoted texts -/

/-- What the scan of a quoted text ends with: the closing quote of the outer
level, with the text before it; a left quote that the full stack cannot take;
or the end of the text. -/
inductive QuoteOutcome where
  | closed (body : List Char)
  | full
  | unclosed
deriving DecidableEq, Repr

/-- One more rune in front of the body. -/
def QuoteOutcome.cons (c : Char) : QuoteOutcome → QuoteOutcome
  | .closed body => .closed (c :: body)
  | .full => .full
  | .unclosed => .unclosed

/-- The nesting of quotes with a bounded stack of the open left quotes
(innermost first, at most 32): a left quote pushes, a right quote pops only
when it matches the top, every other rune is text, and the text ends where the
stack gets empty. -/
def quoteScan : List Char → List Char → QuoteOutcome
  | _, [] => .unclosed
  | stack, c :: rest =>
    if Contains c LeftQuotes then
      if stack.length = 32 then .full else (quoteScan (c :: stack) rest).cons c
    else if Contains c RightQuotes then
      if QuoteMatchMap (stack.headD (Char.ofNat 0)) = c then
        if stack.tail.length = 0 then .closed [] else (quoteScan stack.tail rest).cons c
      else
        if stack.length = 0 then .closed [] else (quoteScan stack rest).cons c
    else (quoteScan stack rest).cons c

/-- The lexer with another character buffer and another quote stack. -/
def Lexer.withQuotes (l : Lexer) (buf st : List Char) : Lexer :=
  { l with chBuffer := buf, quoteStack := st }

/-! ## The reading state of the lexer -/

/-- The lexer reads the source `src`: the reading invariant holds, the cursor
is not before `lo`, and the runes buffered and still to be read are `src`. -/
def Lexer.reads (l : Lexer) (src : List Char) (lo : Int) : Prop :=
  l.buffered ∧ lo ≤ l.cursor ∧ l.source = src

/-- No rune is left behind the cursor. -/
def Lexer.atEnd (l : Lexer) (src : List Char) : Prop := (src.length : Int) ≤ l.cursor + 1

/-! # Theorems -/

/-! ## Helper lemmas: copies, machine integers, rescaling -/

theorem copyZnDecimal_eq (d : ZnDecimal) : copyZnDecimal d = d := by
  simp [copyZnDecimal, duplicateValue]

theorem wrapInt_add_left (a b : Int) : wrapInt (wrapInt a + b) = wrapInt (a + b) := by
  unfold wrapInt; exact Int.bmod_add_bmod_congr

theorem wrapInt_add_right (a b : Int) : wrapInt (a + wrapInt b) = wrapInt (a + b) := by
  unfold wrapInt; exact Int.add_bmod_bmod

theorem wrapInt_of_range (x : Int) (h1 : -2 ^ 63 ≤ x) (h2 : x < 2 ^ 63) : wrapInt x = x := by
  unfold wrapInt Int.bmod
  simp only []
  split <;> omega

theorem bigExp_pos (d : Int) (h : 0 < d) : bigExp 10 d = 10 ^ d.toNat := by
  simp [bigExp, not_le.mpr h]

theorem compareDecimals_eq_of_same (x y : ZnDecimal) (he : x.exp = y.exp) (hc : x.co = y.co) :
    compareDecimals x y CmpEq = .ok true := by
  simp [compareDecimals, rescalePair, he, hc, CmpEq]

theorem Add_single (ai : Arith) (a b : ZnDecimal) :
    ai.Add a [b] = Arith.addStep a b := by
  simp [Arith.Add, copyZnDecimal_eq]

theorem addStep_comm (a b : ZnDecimal) :
    (Arith.addStep a b).exp = (Arith.addStep b a).exp ∧
    (Arith.addStep a b).co = (Arith.addStep b a).co := by
  unfold Arith.addStep rescalePair
  rcases lt_trichotomy a.exp b.exp with h | h | h
  · have h1 : ¬ a.exp = b.exp := by omega
    have h2 : ¬ b.exp = a.exp := by omega
    have h3 : ¬ a.exp > b.exp := by omega
    have h4 : b.exp > a.exp := by omega
    simp [h1, h2, h3, h4, add_comm]
  · simp [h, add_comm]
  · have h1 : ¬ a.exp = b.exp := by omega
    have h2 : ¬ b.exp = a.exp := by omega
    have h3 : a.exp > b.exp := by omega
    have h4 : ¬ b.exp > a.exp := by omega
    simp [h1, h2, h3, h4, add_comm]

/-- One round of `Add` is exact when the two exponents are less than `2 ^ 63`
apart, and leaves the smaller exponent. -/
theorem addStep_spec (r i : ZnDecimal) (h1 : r.exp - i.exp < 2 ^ 63) (h2 : i.exp - r.exp < 2 ^ 63) :
    (Arith.addStep r i).value = r.value + i.value ∧ (Arith.addStep r i).exp = min r.exp i.exp := by
  have key : ∀ (c : Int) (e d : Int), 0 < d →
      ((c * 10 ^ d.toNat : Int) : ℚ) * (10 : ℚ) ^ e = (c : ℚ) * (10 : ℚ) ^ (e + d) := by
    intro c e d hd
    rw [zpow_add₀ (by norm_num : (10 : ℚ) ≠ 0)]
    have : ((10 : ℚ) ^ d) = (10 : ℚ) ^ d.toNat := by
      rw [← zpow_natCast, Int.toNat_of_nonneg hd.le]
    rw [this]; push_cast; ring
  unfold Arith.addStep rescalePair ZnDecimal.value
  rcases lt_trichotomy r.exp i.exp with h | h | h
  · have e1 : ¬ r.exp = i.exp := by omega
    have e3 : ¬ r.exp > i.exp := by omega
    have w : wrapInt (i.exp - r.exp) = i.exp - r.exp := wrapInt_of_range _ (by omega) h2
    simp only [e1, e3, if_false, w, bigExp_pos _ (by omega : 0 < i.exp - r.exp)]
    refine ⟨?_, by rw [min_eq_left h.le]⟩
    push_cast
    have := key i.co r.exp (i.exp - r.exp) (by omega)
    push_cast at this
    rw [add_mul, this]; congr 3; ring
  · simp only [h, if_true]
    refine ⟨?_, by simp⟩
    push_cast; ring
  · have e1 : ¬ r.exp = i.exp := by omega
    have w : wrapInt (r.exp - i.exp) = r.exp - i.exp := wrapInt_of_range _ (by omega) h1
    simp only [e1, h, if_false, if_true, w, bigExp_pos _ (by omega : 0 < r.exp - i.exp)]
    refine ⟨?_, by rw [min_eq_right h.le]⟩
    push_cast
    have := key r.co i.exp (r.exp - i.exp) (by omega)
    push_cast at this
    rw [add_mul, this]; congr 3; ring

theorem foldl_addStep_spec (bs : List ZnDecimal) : ∀ (r : ZnDecimal),
    (∀ y ∈ bs, r.exp - y.exp < 2 ^ 63 ∧ y.exp - r.exp < 2 ^ 63) →
    (∀ x ∈ bs, ∀ y ∈ bs, x.exp - y.exp < 2 ^ 63) →
    (bs.foldl Arith.addStep r).value = r.value + (bs.map ZnDecimal.value).sum
    ∧ (bs.foldl Arith.addStep r).exp = (bs.map ZnDecimal.exp).foldl min r.exp := by
  induction bs with
  | nil => intro r _ _; simp
  | cons b bs ih =>
    intro r hr hb
    have hs := addStep_spec r b (hr b (by simp)).1 (hr b (by simp)).2
    have := ih (Arith.addStep r b) (by
      intro y hy
      rw [hs.2]
      have h1 := hr y (by simp [hy])
      have h2 := hb b (by simp) y (by simp [hy])
      have h3 := hb y (by simp [hy]) b (by simp)
      rcases min_choice r.exp b.exp with h | h <;> rw [h] <;> omega)
      (fun x hx y hy => hb x (by simp [hx]) y (by simp [hy]))
    simp only [List.foldl_cons, List.map_cons, List.sum_cons]
    rw [this.1, this.2, hs.1, hs.2]
    exact ⟨by ring, rfl⟩

theorem value_gap (x : ℚ) (hx : 1 ≤ x) :
    ¬ ((2 : ℤ) : ℚ) * (10 : ℚ) ^ (-1 : ℤ)
      = ((1 : ℤ) : ℚ) * x + ((1 : ℤ) : ℚ) * (10 : ℚ) ^ (-1 : ℤ) := by
  have h3 : (10 : ℚ) ^ (-1 : ℤ) = 1 / 10 := by norm_num
  rw [h3]; push_cast; intro h; linarith

/-! ## C1 – C3: addition and multiplication -/

/-- C1. For all decimals `A` and `B`, `Add(A, B)` and `Add(B, A)` are numerically
equal: `compareValues` with `CmpEq` returns `true`, without error, on the two
results. -/
theorem Add_comm_numeric (ai : Arith) (A B : ZnDecimal) :
    compareValues (.decimal (ai.Add A [B])) (.decimal (ai.Add B [A])) CmpEq = .ok true := by
  rw [Add_single, Add_single]
  simp only [compareValues]
  exact compareDecimals_eq_of_same _ _ (addStep_comm A B).1 (addStep_comm A B).2

/-- C2. For all decimals `A`, `B` and `C`, `Mul(Mul(A, B), C)` and
`Mul(A, Mul(B, C))` are numerically equal, and both equal the variadic
`Mul(A, B, C)` (under `compareValues` with `CmpEq`). -/
theorem Mul_assoc_numeric (ai : Arith) (A B C : ZnDecimal) :
    compareValues (.decimal (ai.Mul (ai.Mul A [B]) [C])) (.decimal (ai.Mul A [ai.Mul B [C]])) CmpEq
      = .ok true
    ∧ compareValues (.decimal (ai.Mul (ai.Mul A [B]) [C])) (.decimal (ai.Mul A [B, C])) CmpEq
      = .ok true
    ∧ compareValues (.decimal (ai.Mul A [ai.Mul B [C]])) (.decimal (ai.Mul A [B, C])) CmpEq
      = .ok true := by
  simp only [compareValues]
  refine ⟨compareDecimals_eq_of_same _ _ ?_ ?_, compareDecimals_eq_of_same _ _ ?_ ?_,
    compareDecimals_eq_of_same _ _ ?_ ?_⟩ <;>
  simp [Arith.Mul, Arith.mulStep, copyZnDecimal_eq, wrapInt_add_left, wrapInt_add_right,
    add_assoc, mul_assoc]

/-- C3, as stated, fails: with exponents `2^63 - 1` and `-1` the difference of
the exponents overflows the machine integer, `rescalePair` scales by `1`, and
`Add(1⏨9223372036854775807, 0.1)` is `0.2`, not the sum of the two values. -/
theorem Add_value_counterexample :
    ¬ ((NewArith 8).Add ⟨none, 1, 9223372036854775807⟩ [⟨none, 1, -1⟩]).value
      = (ZnDecimal.value ⟨none, 1, 9223372036854775807⟩) + (ZnDecimal.value ⟨none, 1, -1⟩) := by
  have hr : (NewArith 8).Add ⟨none, 1, 9223372036854775807⟩ [⟨none, 1, -1⟩] = ⟨none, 2, -1⟩ := by
    decide
  rw [hr]
  exact value_gap _ (one_le_zpow₀ (by norm_num) (by decide))

/-- C3, amended. For every decimal `a` and every list of decimals `b1..bn` whose
exponents lie pairwise less than `2^63` apart, `Add(a, b1, ..., bn)` denotes
exactly `value(a) + value(b1) + ... + value(bn)`, and its exponent is the
minimum of the operands' exponents. -/
theorem Add_value_of_no_overflow (ai : Arith) (a : ZnDecimal) (bs : List ZnDecimal)
    (h : ∀ x ∈ a :: bs, ∀ y ∈ a :: bs, x.exp - y.exp < 2 ^ 63) :
    (ai.Add a bs).value = a.value + (bs.map ZnDecimal.value).sum
    ∧ (ai.Add a bs).exp = (bs.map ZnDecimal.exp).foldl min a.exp := by
  have := foldl_addStep_spec bs a
    (fun y hy => ⟨h a (by simp) y (by simp [hy]), h y (by simp [hy]) a (by simp)⟩)
    (fun x hx y hy => h x (by simp [hx]) y (by simp [hy]))
  unfold Arith.Add
  rw [copyZnDecimal_eq]
  split
  · rename_i h0
    have : bs = [] := List.length_eq_zero.mp h0
    subst this; simp
  · exact this

/-- C3, amended, at `1.5 + 2 + 0.25`. -/
theorem Add_value_of_no_overflow_witness :
    (∀ x ∈ ([⟨none, 15, -1⟩, ⟨none, 2, 0⟩, ⟨none, 25, -2⟩] : List ZnDecimal),
      ∀ y ∈ ([⟨none, 15, -1⟩, ⟨none, 2, 0⟩, ⟨none, 25, -2⟩] : List ZnDecimal),
        x.exp - y.exp < 2 ^ 63)
    ∧ ((NewArith 8).Add ⟨none, 15, -1⟩ [⟨none, 2, 0⟩, ⟨none, 25, -2⟩]).value
        = ZnDecimal.value ⟨none, 15, -1⟩
          + (([⟨none, 2, 0⟩, ⟨none, 25, -2⟩] : List ZnDecimal).map ZnDecimal.value).sum
    ∧ ((NewArith 8).Add ⟨none, 15, -1⟩ [⟨none, 2, 0⟩, ⟨none, 25, -2⟩]).exp
        = (([⟨none, 2, 0⟩, ⟨none, 25, -2⟩] : List ZnDecimal).map ZnDecimal.exp).foldl min (-1) :=
  ⟨by decide, Add_value_of_no_overflow (NewArith 8) ⟨none, 15, -1⟩
    [⟨none, 2, 0⟩, ⟨none, 25, -2⟩] (by decide)⟩

/-! ## Helper lemmas: division -/

theorem wrapInt_sub_left (a b : Int) : wrapInt (wrapInt a - b) = wrapInt (a - b) := by
  rw [sub_eq_add_neg, wrapInt_add_left, ← sub_eq_add_neg]

theorem alignDividend_spec (c : Int) : ∀ (n : ℕ) (r adj : Int), 0 < r → r < 10 * c → c - r ≤ n →
    ∃ k : ℕ, c ≤ r * 10 ^ k ∧ r * 10 ^ k < 10 * c ∧ (r < c → 0 < k) ∧
      ∀ fuel, n + 1 ≤ fuel → alignDividend fuel r c (c * 10) adj = some (r * 10 ^ k, adj + k) := by
  intro n
  induction n with
  | zero =>
    intro r adj hr hlt hn
    refine ⟨0, by simp; omega, by simpa using hlt, fun h => by omega, ?_⟩
    intro fuel hf
    obtain ⟨f, rfl⟩ : ∃ f, fuel = f + 1 := ⟨fuel - 1, by omega⟩
    have hc : r ≥ c ∧ r < c * 10 := ⟨by omega, by omega⟩
    simp [alignDividend, hc]
  | succ n ih =>
    intro r adj hr hlt hn
    by_cases hge : c ≤ r
    · refine ⟨0, by simpa using hge, by simpa using hlt, fun h => by omega, ?_⟩
      intro fuel hf
      obtain ⟨f, rfl⟩ : ∃ f, fuel = f + 1 := ⟨fuel - 1, by omega⟩
      have hc : r ≥ c ∧ r < c * 10 := ⟨by omega, by omega⟩
      simp [alignDividend, hc]
    · obtain ⟨k, h1, h2, _, h4⟩ := ih (r * 10) (adj + 1) (by omega) (by omega)
        (by push_cast at hn ⊢; omega)
      refine ⟨k + 1, by rw [pow_succ']; linarith [h1, mul_assoc r 10 (10 ^ k)],
        by rw [pow_succ']; linarith [h2, mul_assoc r 10 (10 ^ k)], fun _ => by omega, ?_⟩
      intro fuel hf
      obtain ⟨f, rfl⟩ : ∃ f, fuel = f + 1 := ⟨fuel - 1, by omega⟩
      have hc : ¬ (r ≥ c ∧ r < c * 10) := fun h => hge h.1
      rw [alignDividend, if_neg hc, h4 f (by omega)]
      simp only [Option.some.injEq, Prod.mk.injEq]
      refine ⟨by rw [pow_succ']; ring, by push_cast; ring⟩

theorem alignDivisor_spec (r : Int) : ∀ (n : ℕ) (i adj : Int), 0 < i → i < 10 * r → r - i ≤ n →
    ∃ k : ℕ, r ≤ i * 10 ^ k ∧ i * 10 ^ k < 10 * r ∧ (i < r → 0 < k) ∧ (r ≤ i → k = 0) ∧
      ∀ fuel, n + 1 ≤ fuel → alignDivisor fuel r i (r * 10) adj = some (i * 10 ^ k, adj - k) := by
  intro n
  induction n with
  | zero =>
    intro i adj hr hlt hn
    refine ⟨0, by simp; omega, by simpa using hlt, fun h => by omega, fun _ => rfl, ?_⟩
    intro fuel hf
    obtain ⟨f, rfl⟩ : ∃ f, fuel = f + 1 := ⟨fuel - 1, by omega⟩
    have hc : i ≥ r ∧ i < r * 10 := ⟨by omega, by omega⟩
    simp [alignDivisor, hc]
  | succ n ih =>
    intro i adj hr hlt hn
    by_cases hge : r ≤ i
    · refine ⟨0, by simpa using hge, by simpa using hlt, fun h => by omega, fun _ => rfl, ?_⟩
      intro fuel hf
      obtain ⟨f, rfl⟩ : ∃ f, fuel = f + 1 := ⟨fuel - 1, by omega⟩
      have hc : i ≥ r ∧ i < r * 10 := ⟨by omega, by omega⟩
      simp [alignDivisor, hc]
    · obtain ⟨k, h1, h2, _, _, h4⟩ := ih (i * 10) (adj - 1) (by omega) (by omega)
        (by push_cast at hn ⊢; omega)
      refine ⟨k + 1, by rw [pow_succ']; linarith [h1, mul_assoc i 10 (10 ^ k)],
        by rw [pow_succ']; linarith [h2, mul_assoc i 10 (10 ^ k)], fun _ => by omega,
        fun h => absurd h hge, ?_⟩
      intro fuel hf
      obtain ⟨f, rfl⟩ : ∃ f, fuel = f + 1 := ⟨fuel - 1, by omega⟩
      have hc : ¬ (i ≥ r ∧ i < r * 10) := fun h => hge h.1
      rw [alignDivisor, if_neg hc, h4 f (by omega)]
      simp only [Option.some.injEq, Prod.mk.injEq]
      refine ⟨by rw [pow_succ']; ring, by push_cast; ring⟩

theorem pow10Int64_nonneg (n : Int) (h : 0 ≤ n) : pow10Int64 n = 10 ^ n.toNat := by
  simp [pow10Int64, not_lt.mpr h]

theorem divStep_dividend (P : Int) (hP1 : 1 ≤ P) (hP2 : P ≤ 17) (res item : ZnDecimal)
    (hr : 0 < res.co) (hlt : res.co < item.co) :
    ∃ (k : ℕ), 0 < k ∧ item.co ≤ res.co * 10 ^ k ∧ res.co * 10 ^ k < 10 * item.co ∧
    ∀ fuel, (item.co - res.co).toNat + 1 ≤ fuel →
      (NewArith P).divStep fuel res item =
        some (⟨res.ZnObject,
               (if 2 * ((res.co * 10 ^ k * 10 ^ (P - 1).toNat) % item.co) > item.co
                 then (res.co * 10 ^ k * 10 ^ (P - 1).toNat) / item.co + 1
                 else (res.co * 10 ^ k * 10 ^ (P - 1).toNat) / item.co),
               wrapInt (res.exp - item.exp - k - (P - 1))⟩, item.co) := by
  obtain ⟨k, h1, h2, h3, h4⟩ := alignDividend_spec item.co (item.co - res.co).toNat res.co 0 hr
    (by omega) (by omega)
  refine ⟨k, h3 hlt, h1, h2, ?_⟩
  intro fuel hf
  have hk : ¬ ((k : Int) < 0) := by omega
  have hw : wrapInt (P - 1) = P - 1 := wrapInt_of_range _ (by omega) (by omega)
  have hp : ¬ (P ≥ 18) := by omega
  simp only [Arith.divStep, NewArith, if_pos hlt, h4 fuel hf, Option.map_some', zero_add]
  simp only [hk, if_false, hw, hp, pow10Int64_nonneg (P - 1) (by omega), wrapInt_sub_left]
  rw [mul_comm (2 : Int)]
  rfl

theorem divStep_divisor (P : Int) (hP1 : 1 ≤ P) (hP2 : P ≤ 17) (res item : ZnDecimal)
    (hi : 0 < item.co) (hge : item.co ≤ res.co) :
    ∃ (k : ℕ), (item.co < res.co → 0 < k) ∧ (res.co ≤ item.co → k = 0) ∧
      res.co ≤ item.co * 10 ^ k ∧ item.co * 10 ^ k < 10 * res.co ∧
    ∀ fuel, (res.co - item.co).toNat + 1 ≤ fuel →
      (NewArith P).divStep fuel res item =
        some (⟨res.ZnObject,
               (if 2 * ((res.co * 10 ^ (if 0 < k then P else P - 1).toNat) % (item.co * 10 ^ k))
                     > item.co * 10 ^ k
                 then (res.co * 10 ^ (if 0 < k then P else P - 1).toNat) / (item.co * 10 ^ k) + 1
                 else (res.co * 10 ^ (if 0 < k then P else P - 1).toNat) / (item.co * 10 ^ k)),
               wrapInt (res.exp - item.exp - (-(k : Int)) - (if 0 < k then P else P - 1))⟩,
              item.co * 10 ^ k) := by
  obtain ⟨k, h1, h2, h3, h5, h4⟩ := alignDivisor_spec res.co (res.co - item.co).toNat item.co 0 hi
    (by omega) (by omega)
  refine ⟨k, h3, h5, h1, h2, ?_⟩
  intro fuel hf
  have hlt : ¬ res.co < item.co := by omega
  have hw : wrapInt (P - 1) = P - 1 := wrapInt_of_range _ (by omega) (by omega)
  have hp : ¬ (P ≥ 18) := by omega
  by_cases hk : 0 < k
  · have hk' : -(k : Int) < 0 := by omega
    simp only [Arith.divStep, NewArith, if_neg hlt, h4 fuel hf, Option.map_some', zero_sub]
    simp only [hk', if_true, hp, if_false, pow10Int64_nonneg P (by omega), wrapInt_sub_left, hk]
    rw [mul_comm (2 : Int)]
    rfl
  · have hk' : ¬ (-(k : Int) < 0) := by omega
    simp only [Arith.divStep, NewArith, if_neg hlt, h4 fuel hf, Option.map_some', zero_sub]
    simp only [hk', hw, hp, if_false, pow10Int64_nonneg (P - 1) (by omega), wrapInt_sub_left, hk]
    rw [mul_comm (2 : Int)]
    rfl

theorem rounded_pos (N B : Int) (hB : 0 < B) (h : B ≤ N) :
    0 < (if 2 * (N % B) > B then N / B + 1 else N / B) := by
  have : 1 ≤ N / B := Int.le_ediv_of_mul_le hB (by simpa using h)
  split <;> omega

theorem one_le_ten_pow (n : ℕ) : (1 : Int) ≤ 10 ^ n := one_le_pow₀ (by norm_num)

theorem ten_le_ten_pow (n : ℕ) (h : 1 ≤ n) : (10 : Int) ≤ 10 ^ n := by
  calc (10 : Int) = 10 ^ 1 := by norm_num
    _ ≤ 10 ^ n := pow_le_pow_right₀ (by norm_num) h

theorem divStep_spec (P : Int) (hP1 : 1 ≤ P) (hP2 : P ≤ 17) (res item : ZnDecimal)
    (hr : 0 < res.co) (hi : 0 < item.co) :
    ∃ (adjust A B : Int) (fuel0 : ℕ) (r : ZnDecimal),
      (res.co < item.co ∧ 0 < adjust ∧ A = res.co * 10 ^ adjust.toNat ∧ B = item.co
          ∧ B ≤ A ∧ A < 10 * B
        ∨ item.co ≤ res.co ∧ adjust ≤ 0 ∧ A = res.co ∧ B = item.co * 10 ^ (-adjust).toNat
          ∧ A ≤ B ∧ B < 10 * A) ∧
      0 < B ∧ r.ZnObject = res.ZnObject ∧
      r.co = (if 2 * ((A * 10 ^ (if adjust < 0 then P else P - 1).toNat) % B) > B
              then (A * 10 ^ (if adjust < 0 then P else P - 1).toNat) / B + 1
              else (A * 10 ^ (if adjust < 0 then P else P - 1).toNat) / B) ∧
      r.exp = wrapInt (res.exp - item.exp - adjust - (if adjust < 0 then P else P - 1)) ∧
      0 < r.co ∧
      ∀ fuel, fuel0 ≤ fuel → (NewArith P).divStep fuel res item = some (r, B) := by
  by_cases hlt : res.co < item.co
  · obtain ⟨k, hk, h1, h2, h4⟩ := divStep_dividend P hP1 hP2 res item hr hlt
    have hk' : ¬ ((k : Int) < 0) := by omega
    refine ⟨k, res.co * 10 ^ k, item.co, _, _, Or.inl ⟨hlt, by omega, by simp, rfl, h1, h2⟩, hi,
      ?_, ?_, ?_, ?_, h4⟩
    · rfl
    · simp only [hk', if_false]
    · simp only [hk', if_false]
    · apply rounded_pos _ _ hi
      calc item.co ≤ res.co * 10 ^ k := h1
        _ = res.co * 10 ^ k * 1 := by ring
        _ ≤ res.co * 10 ^ k * 10 ^ (P - 1).toNat :=
          mul_le_mul_of_nonneg_left (one_le_ten_pow _) (by positivity)
  · have hge : item.co ≤ res.co := by omega
    obtain ⟨k, hk1, hk0, h1, h2, h4⟩ := divStep_divisor P hP1 hP2 res item hi hge
    have hB : 0 < item.co * 10 ^ k := by positivity
    have hkk : (-(k : Int) < 0) ↔ 0 < k := by omega
    refine ⟨-(k : Int), res.co, item.co * 10 ^ k, _, _,
      Or.inr ⟨hge, by omega, rfl, by simp, h1, h2⟩, hB, ?_, ?_, ?_, ?_, h4⟩
    · rfl
    · simp only [hkk]
    · simp only [hkk]
    · apply rounded_pos _ _ hB
      by_cases hk : 0 < k
      · simp only [hk, if_true]
        have : (10 : Int) ≤ 10 ^ P.toNat := ten_le_ten_pow _ (by omega)
        nlinarith
      · simp only [hk, if_false]
        have hk0' : k = 0 := by omega
        have hle : res.co ≤ item.co := by
          by_contra hc
          exact hk (hk1 (by omega))
        have : (1 : Int) ≤ 10 ^ (P - 1).toNat := one_le_ten_pow _
        subst hk0'
        simp only [pow_zero, mul_one]
        nlinarith

theorem setCo_co (h : Heap) (p : Nat) (v : Int) (q : Nat) :
    ((h.setCo p v) q).co = if q = p then v else (h q).co := by
  unfold Heap.setCo; split <;> rfl

theorem divLoop_spec (P : Int) (hP1 : 1 ≤ P) (hP2 : P ≤ 17) :
    ∀ (ps : List Nat) (h : Heap) (res : ZnDecimal), 0 < res.co → (∀ p ∈ ps, 0 ≤ (h p).co) →
    ∃ fuel0 : ℕ, ∀ fuel, fuel0 ≤ fuel → ∃ h' r, (NewArith P).divLoop fuel h res ps = some (h', r) ∧
      ((∃ p ∈ ps, (h p).co = 0) → r = .error ArithDivZeroError) ∧
      ((∀ p ∈ ps, (h p).co ≠ 0) → ∃ v, r = .ok v) := by
  intro ps
  induction ps with
  | nil =>
    intro h res _ _
    exact ⟨0, fun fuel _ => ⟨h, .ok res, rfl, by simp, fun _ => ⟨res, rfl⟩⟩⟩
  | cons p ps ih =>
    intro h res hres hnn
    by_cases hz : (h p).co = 0
    · refine ⟨0, fun fuel _ => ⟨h, .error ArithDivZeroError, ?_, fun _ => rfl, ?_⟩⟩
      · simp [Arith.divLoop, hz]
      · intro hall; exact absurd hz (hall p (by simp))
    · have hpos : 0 < (h p).co := lt_of_le_of_ne (hnn p (by simp)) (Ne.symm hz)
      obtain ⟨adjust, A, B, f1, r, _, hB, _, _, _, hrpos, hstep⟩ :=
        divStep_spec P hP1 hP2 res (h p) hres hpos
      have hzero : ∀ q, ((h.setCo p B) q).co = 0 ↔ (h q).co = 0 := by
        intro q; rw [setCo_co]; split
        · rename_i hq; subst hq; constructor <;> intro hh <;> omega
        · rfl
      obtain ⟨f2, hrest⟩ := ih (h.setCo p B) r hrpos (by
        intro q hq; rw [setCo_co]; split
        · omega
        · exact hnn q (by simp [hq]))
      refine ⟨max f1 f2, fun fuel hf => ?_⟩
      obtain ⟨h', r', hrun, herr, hok⟩ := hrest fuel (le_trans (le_max_right _ _) hf)
      refine ⟨h', r', ?_, ?_, ?_⟩
      · simp [Arith.divLoop, hz, hstep fuel (le_trans (le_max_left _ _) hf), hrun]
      · rintro ⟨q, hq, hq0⟩
        rcases List.mem_cons.mp hq with rfl | hq'
        · exact absurd hq0 hz
        · exact herr ⟨q, hq', (hzero q).mpr hq0⟩
      · intro hall
        exact hok (fun q hq hq0 => hall q (by simp [hq]) ((hzero q).mp hq0))

/-- At precision 18 the scale factor is `Exp(10, 10, 16) = 10^10 mod 16 = 0`:
`Div(1, 3)` returns coefficient `0`. -/
theorem Div_precision18_scale :
    ∃ h' r, (NewArith 18).Div 2 heapOneThree 0 [1] = some (h', .ok r) ∧ r.co = 0 :=
  ⟨_, _, rfl, rfl⟩

/-! ## C4 – C6: division -/

/-- C4, as stated, fails: for `3 ÷ 1` at precision 8 the divisor is aligned
(`adjust = -1`), and the code then scales the dividend by `10 ^ 8`, not
`10 ^ (8 - 1)`: it returns coefficient `30000000` with exponent `-7`, where the
claim's formulas give `3 * 10 ^ 7 / 10` and `0 - 0 - (-1) - 7`. -/
theorem Div_precFactor_counterexample :
    ∃ h' r, (NewArith 8).Div 2 heapThreeOne 0 [1] = some (h', .ok r)
      ∧ r.co = 30000000 ∧ r.exp = -7
      ∧ r.co ≠ 3 * 10 ^ (8 - 1) / 10 ∧ r.exp ≠ 0 - 0 - (-1) - (8 - 1) :=
  ⟨_, _, rfl, rfl, rfl, by decide, by decide⟩

/-- C4, amended. For every precision `1 ≤ P ≤ 17` and all decimals `a`, `b` with
positive coefficients, `Div(a, b)` returns: with `A`, `B` the aligned dividend and
divisor (`adjust > 0` multiplications by ten of the dividend when `a.co < b.co`,
else `-adjust ≥ 0` of the divisor, until the one is at least the other and less
than ten times it) and `pf = P - 1` when `adjust ≥ 0`, `pf = P` when
`adjust < 0`, the coefficient is the quotient of `A * 10 ^ pf` by `B`,
incremented exactly when twice the remainder is greater than `B`, and the
exponent is `exp_a - exp_b - adjust - pf` as a machine integer. With `P = 8`,
`Div(1, 3)` displays as `0.33333333`. -/
theorem Div_single_spec (P : Int) (hP1 : 1 ≤ P) (hP2 : P ≤ 17) (h : Heap) (pa pb : Nat)
    (ha : 0 < (h pa).co) (hb : 0 < (h pb).co) :
    (∃ (adjust A B : Int) (fuel0 : ℕ) (r : ZnDecimal),
      ((h pa).co < (h pb).co ∧ 0 < adjust ∧ A = (h pa).co * 10 ^ adjust.toNat ∧ B = (h pb).co
          ∧ B ≤ A ∧ A < 10 * B
        ∨ (h pb).co ≤ (h pa).co ∧ adjust ≤ 0 ∧ A = (h pa).co
          ∧ B = (h pb).co * 10 ^ (-adjust).toNat ∧ A ≤ B ∧ B < 10 * A) ∧
      r.co = (if 2 * ((A * 10 ^ (if adjust < 0 then P else P - 1).toNat) % B) > B
              then (A * 10 ^ (if adjust < 0 then P else P - 1).toNat) / B + 1
              else (A * 10 ^ (if adjust < 0 then P else P - 1).toNat) / B) ∧
      r.exp = wrapInt ((h pa).exp - (h pb).exp - adjust - (if adjust < 0 then P else P - 1)) ∧
      ∀ fuel, fuel0 ≤ fuel → ∃ h', (NewArith P).Div fuel h pa [pb] = some (h', .ok r))
    ∧ (∃ h' r, (NewArith 8).Div 2 heapOneThree 0 [1] = some (h', .ok r)
        ∧ r.String = "0.33333333".toList) := by
  refine ⟨?_, ⟨_, _, rfl, by decide⟩⟩
  obtain ⟨adjust, A, B, f1, r, hal, _, _, hco, hexp, _, hstep⟩ :=
    divStep_spec P hP1 hP2 (h pa) (h pb) ha hb
  refine ⟨adjust, A, B, f1, r, hal, hco, hexp, fun fuel hf => ⟨h.setCo pb B, ?_⟩⟩
  have h1 : (h pa).co ≠ 0 := by omega
  have h2 : (h pb).co ≠ 0 := by omega
  simp [Arith.Div, Arith.divLoop, copyZnDecimal_eq, h1, h2, hstep fuel hf]

/-- C4, amended, at `1 ÷ 3` with precision 8. -/
theorem Div_single_spec_witness :
    (1 : Int) ≤ 8 ∧ (8 : Int) ≤ 17 ∧ 0 < (heapOneThree 0).co ∧ 0 < (heapOneThree 1).co ∧
    ((∃ (adjust A B : Int) (fuel0 : ℕ) (r : ZnDecimal),
      ((heapOneThree 0).co < (heapOneThree 1).co ∧ 0 < adjust
          ∧ A = (heapOneThree 0).co * 10 ^ adjust.toNat ∧ B = (heapOneThree 1).co
          ∧ B ≤ A ∧ A < 10 * B
        ∨ (heapOneThree 1).co ≤ (heapOneThree 0).co ∧ adjust ≤ 0 ∧ A = (heapOneThree 0).co
          ∧ B = (heapOneThree 1).co * 10 ^ (-adjust).toNat ∧ A ≤ B ∧ B < 10 * A) ∧
      r.co = (if 2 * ((A * 10 ^ (if adjust < 0 then (8 : Int) else 8 - 1).toNat) % B) > B
              then (A * 10 ^ (if adjust < 0 then (8 : Int) else 8 - 1).toNat) / B + 1
              else (A * 10 ^ (if adjust < 0 then (8 : Int) else 8 - 1).toNat) / B) ∧
      r.exp = wrapInt ((heapOneThree 0).exp - (heapOneThree 1).exp - adjust
                - (if adjust < 0 then (8 : Int) else 8 - 1)) ∧
      ∀ fuel, fuel0 ≤ fuel →
        ∃ h', (NewArith 8).Div fuel heapOneThree 0 [1] = some (h', .ok r))
    ∧ (∃ h' r, (NewArith 8).Div 2 heapOneThree 0 [1] = some (h', .ok r)
        ∧ r.String = "0.33333333".toList)) :=
  ⟨by decide, by decide, by decide, by decide,
    Div_single_spec 8 (by decide) (by decide) heapOneThree 0 1 (by decide) (by decide)⟩

theorem alignDividend_zero : ∀ (fuel : Nat) (c c10 adj : Int), 0 < c →
    alignDividend fuel 0 c c10 adj = none
  | 0, _, _, _, _ => rfl
  | fuel + 1, c, c10, adj, hc => by
    have hn : ¬ ((0 : Int) ≥ c ∧ (0 : Int) < c10) := by omega
    have ih := alignDividend_zero fuel c c10 (adj + 1) hc
    simp only [alignDividend, if_neg hn, zero_mul, ih]

theorem divStep_zero (ai : Arith) (fuel : Nat) (result item : ZnDecimal)
    (h0 : result.co = 0) (hi : 0 < item.co) : ai.divStep fuel result item = none := by
  unfold Arith.divStep
  simp only [h0, if_pos hi, alignDividend_zero fuel item.co (item.co * 10) 0 hi, Option.map_none']

theorem Div_one_three_three (P : Int) (r1 : ZnDecimal)
    (h1 : ∀ n, (NewArith P).divStep (n + 2) (copyZnDecimal (heapOneThree 0)) (heapOneThree 1)
      = some (r1, 3)) (h0 : r1.co = 0) :
    ∀ fuel, (NewArith P).Div fuel heapOneThree 0 [1, 2] = none := by
  intro fuel
  have hlen : ¬ ([1, 2] : List Nat).length = 0 := by decide
  have ha : ¬ (heapOneThree 0).co = 0 := by decide
  have hb : ¬ (heapOneThree 1).co = 0 := by decide
  unfold Arith.Div
  dsimp only
  rw [if_neg hlen, if_neg ha]
  match fuel with
  | 0 => rfl
  | 1 => rfl
  | n + 2 =>
    have hc : ¬ ((heapOneThree.setCo 1 3) 2).co = 0 := by decide
    have hi : 0 < ((heapOneThree.setCo 1 3) 2).co := by decide
    simp only [Arith.divLoop, if_neg hb, h1 n, if_neg hc,
      divStep_zero (NewArith P) (n + 2) r1 _ h0 hi]

/-- C5, as stated, fails outside the precisions 1 to 17: `Div(1, 3, 3)`, with
non-negative coefficients and no divisor zero, does not return at precision 0
and at precision 18. In both the scale factor of the first division is 0
(`int64(math.Pow10(-1))` at precision 0, `Exp(10, 10, 16)` at precision 18), the
quotient is 0, and the loop that aligns this 0 with the next divisor multiplies
it by ten for ever. -/
theorem Div_zero_handling_counterexample :
    (heapOneThree 0).co = 1 ∧ (heapOneThree 1).co = 3 ∧ (heapOneThree 2).co = 3 ∧
    (∀ fuel, (NewArith 0).Div fuel heapOneThree 0 [1, 2] = none) ∧
    (∀ fuel, (NewArith 18).Div fuel heapOneThree 0 [1, 2] = none) :=
  ⟨rfl, rfl, rfl,
    Div_one_three_three 0 { copyZnDecimal (heapOneThree 0) with co := 0, exp := 0 }
      (fun _ => rfl) rfl,
    Div_one_three_three 18 { copyZnDecimal (heapOneThree 0) with co := 0, exp := -18 }
      (fun _ => rfl) rfl⟩

/-- C5, amended. At a precision from 1 to 17 (the interpreter's is 8),
`Div(a, b1..bn)` with `n ≥ 1` and non-negative coefficients returns: if `a` is
zero the result is zero (a copy of `a`) with no error, whatever the divisors
are; if `a` is non-zero it fails with `arith-div-zero` (code `0x2601`) when some
divisor is zero, and otherwise returns a value with no error. -/
theorem Div_zero_handling (P : Int) (hP1 : 1 ≤ P) (hP2 : P ≤ 17) (h : Heap) (pa : Nat)
    (ps : List Nat) (hn : 1 ≤ ps.length) (ha : 0 ≤ (h pa).co) (hps : ∀ p ∈ ps, 0 ≤ (h p).co) :
    ArithDivZeroError.code = 0x2601 ∧
    ∃ fuel0 : ℕ, ∀ fuel, fuel0 ≤ fuel → ∃ h' r, (NewArith P).Div fuel h pa ps = some (h', r) ∧
      ((h pa).co = 0 → r = .ok (h pa)) ∧
      ((h pa).co ≠ 0 → (∃ p ∈ ps, (h p).co = 0) → r = .error ArithDivZeroError) ∧
      ((h pa).co ≠ 0 → (¬ ∃ p ∈ ps, (h p).co = 0) → ∃ v, r = .ok v) := by
  refine ⟨by decide, ?_⟩
  have hlen : ¬ ps.length = 0 := by omega
  by_cases hz : (h pa).co = 0
  · refine ⟨0, fun fuel _ => ⟨h, .ok (h pa), ?_, fun _ => rfl, fun hh => absurd hz hh,
      fun hh => absurd hz hh⟩⟩
    simp [Arith.Div, hlen, hz, copyZnDecimal_eq]
  · have hpos : 0 < (h pa).co := lt_of_le_of_ne ha (Ne.symm hz)
    obtain ⟨f, hf⟩ := divLoop_spec P hP1 hP2 ps h (h pa) hpos hps
    refine ⟨f, fun fuel hfuel => ?_⟩
    obtain ⟨h', r, hrun, herr, hok⟩ := hf fuel hfuel
    refine ⟨h', r, ?_, fun hh => absurd hh hz, fun _ => herr, fun _ hno => hok ?_⟩
    · simp [Arith.Div, hlen, hz, copyZnDecimal_eq, hrun]
    · intro p hp hp0; exact hno ⟨p, hp, hp0⟩

/-- C5, amended, at `5 ÷ 0` with precision 8. -/
theorem Div_zero_handling_witness :
    (1 : Int) ≤ 8 ∧ (8 : Int) ≤ 17 ∧ 1 ≤ [1].length ∧ 0 ≤ (heapFiveZero 0).co
    ∧ (∀ p ∈ [1], 0 ≤ (heapFiveZero p).co) ∧
    (ArithDivZeroError.code = 0x2601 ∧
    ∃ fuel0 : ℕ, ∀ fuel, fuel0 ≤ fuel →
      ∃ h' r, (NewArith 8).Div fuel heapFiveZero 0 [1] = some (h', r) ∧
      ((heapFiveZero 0).co = 0 → r = .ok (heapFiveZero 0)) ∧
      ((heapFiveZero 0).co ≠ 0 → (∃ p ∈ [1], (heapFiveZero p).co = 0)
        → r = .error ArithDivZeroError) ∧
      ((heapFiveZero 0).co ≠ 0 → (¬ ∃ p ∈ [1], (heapFiveZero p).co = 0) → ∃ v, r = .ok v)) :=
  ⟨by decide, by decide, by decide, by decide, by decide,
    Div_zero_handling 8 (by decide) (by decide) heapFiveZero 0 [1] (by decide) (by decide)
      (by decide)⟩

/-- C6 fails on the code: `Div(3, 1)` leaves the divisor with coefficient `10`
(and exponent unchanged), so the decimal passed as divisor now stands for ten. -/
theorem Div_mutates_divisor :
    ∃ h' r, (NewArith 8).Div 2 heapThreeOne 0 [1] = some (h', .ok r)
      ∧ (heapThreeOne 1).co = 1 ∧ (h' 1).co = 10 ∧ (h' 1).exp = (heapThreeOne 1).exp :=
  ⟨_, _, rfl, rfl, rfl, rfl⟩

/-! ## C9: display of small decimals -/

/-- C9 fails on the code: coefficient `1` with exponent `-7` has six zeros between
the point and its first digit, yet it is displayed in the scientific layout
`1⏨-7`, not as `0.0000001`; the layout `0.<zeros><digits>` is used up to five
zeros only (`0.000001`). -/
theorem String_lead_zero_boundary :
    ZnDecimal.String ⟨none, 1, -7⟩ = "1⏨-7".toList
    ∧ ZnDecimal.String ⟨none, 1, -7⟩ ≠ "0.0000001".toList
    ∧ ZnDecimal.String ⟨none, 1, -6⟩ = "0.000001".toList := by
  refine ⟨by decide, by decide, by decide⟩

/-! ## C10: duplicateValue -/

theorem copyKeys_eq : ∀ ks : List (List Char), copyKeys ks = ks
  | [] => rfl
  | k :: ks => by rw [copyKeys, copyKeys_eq ks]

mutual
theorem duplicateValue_twice : ∀ v : ZnValue, duplicateValue (duplicateValue v) = duplicateValue v
  | .bool _ _ => rfl
  | .string _ _ => rfl
  | .decimal _ => rfl
  | .null _ => rfl
  | .array obj vs => by
    simp only [duplicateValue]; rw [duplicateItems_twice vs]
  | .hashmap obj m ko => by
    simp only [duplicateValue]; rw [duplicateEntries_twice m, copyKeys_eq, copyKeys_eq]
  | .function _ _ => rfl
  | .object cls props => by
    simp only [duplicateValue]; rw [duplicateEntries_twice props]
theorem duplicateItems_twice :
    ∀ vs : List ZnValue, duplicateItems (duplicateItems vs) = duplicateItems vs
  | [] => rfl
  | v :: vs => by
    simp only [duplicateItems]; rw [duplicateValue_twice v, duplicateItems_twice vs]
theorem duplicateEntries_twice :
    ∀ es : List (List Char × ZnValue), duplicateEntries (duplicateEntries es) = duplicateEntries es
  | [] => rfl
  | (k, v) :: es => by
    simp only [duplicateEntries]; rw [duplicateValue_twice v, duplicateEntries_twice es]
end

/-- C10. For every value `v` (decimal, string, bool, null, array, hashmap,
function, object, nested to any depth), `duplicateValue(duplicateValue(v))` is
structurally equal to `duplicateValue(v)`. -/
theorem duplicateValue_idempotent (v : ZnValue) :
    duplicateValue (duplicateValue v) = duplicateValue v :=
  duplicateValue_twice v

/-! ## Helper lemmas: scanning a literal -/

theorem scanLoop_nil (fuel st : Nat) (v : scanVars) : scanLoop fuel st [] v = some v := by
  cases fuel <;> rfl

theorem scanLoop_step (fuel st : Nat) (x : Char) (rest : List Char) (v : scanVars)
    (hx : x ≠ '*') :
    scanLoop (fuel + 1) st (x :: rest) v
      = scanLoop fuel (scanStep (st, v) x).1 rest (scanStep (st, v) x).2 := by
  conv_lhs => unfold scanLoop
  simp only [scanStep, hx, if_false]
  split_ifs <;> rfl

theorem scanLoop_segment (seg : List Char) (hseg : ∀ c ∈ seg, c ≠ '*') :
    ∀ (fuel st : Nat) (rest : List Char) (v : scanVars), seg.length ≤ fuel →
      scanLoop fuel st (seg ++ rest) v
        = scanLoop (fuel - seg.length) (seg.foldl scanStep (st, v)).1 rest
            (seg.foldl scanStep (st, v)).2 := by
  induction seg with
  | nil => intro fuel st rest v _; simp
  | cons x seg ih =>
    intro fuel st rest v hf
    obtain ⟨f, rfl⟩ : ∃ f, fuel = f + 1 := ⟨fuel - 1, by simp at hf; omega⟩
    rw [List.cons_append, scanLoop_step _ _ _ _ _ (hseg x (by simp)),
      ih (fun c hc => hseg c (by simp [hc])) f _ rest _ (by simpa using hf)]
    simp [List.foldl_cons]

theorem foldl_scanStep_strip (seg : List Char) : ∀ p : Nat × scanVars,
    seg.foldl scanStep p = (stripUnderscores seg).foldl scanStep p := by
  induction seg with
  | nil => intro p; rfl
  | cons x seg ih =>
    intro p
    by_cases hx : x = '_'
    · subst hx
      have : scanStep p '_' = p := by simp [scanStep]
      simp only [List.foldl_cons, this, ih p, stripUnderscores]
      rfl
    · have : stripUnderscores (x :: seg) = x :: stripUnderscores seg := by
        simp [stripUnderscores, hx]
      rw [this, List.foldl_cons, List.foldl_cons, ih]

theorem scanLoop_mark (fuel st : Nat) (mark rest : List Char) (v : scanVars)
    (hst : st = sIntNum ∨ st = sDotNum)
    (hm : mark = "E".toList ∨ mark = "e".toList ∨ mark = "*10^".toList ∨ mark = "*^".toList) :
    scanLoop (fuel + 1) st (mark ++ rest) v = scanLoop fuel sExpNum rest v := by
  rcases hst with rfl | rfl <;> rcases hm with rfl | rfl | rfl | rfl <;>
    simp [scanLoop, sIntNum, sDotNum, sBegin, sExpNum]

theorem digit_ne_special (c : Char) (h : c.isDigit = true) :
    c ≠ '_' ∧ c ≠ '+' ∧ c ≠ '-' ∧ c ≠ '.' ∧ c ≠ 'E' ∧ c ≠ 'e' ∧ c ≠ '*' := by
  refine ⟨?_, ?_, ?_, ?_, ?_, ?_, ?_⟩ <;> (rintro rfl; revert h; decide)

theorem scanStep_int_digit (v : scanVars) (d : Char) (h : d.isDigit = true) :
    scanStep (sIntNum, v) d = (sIntNum, { v with intValS := v.intValS ++ [d] }) := by
  obtain ⟨h1, _, _, h4, h5, h6, _⟩ := digit_ne_special d h
  simp [scanStep, h1, h4, h5, h6, sIntNum, sBegin]

theorem scanStep_begin_digit (v : scanVars) (d : Char) (h : d.isDigit = true) :
    scanStep (sBegin, v) d = (sIntNum, { v with intValS := v.intValS ++ [d] }) := by
  obtain ⟨h1, h2, h3, h4, _, _, _⟩ := digit_ne_special d h
  simp [scanStep, h1, h2, h3, h4]

theorem scanStep_dot_digit (v : scanVars) (d : Char) (h : d.isDigit = true) :
    scanStep (sDotNum, v) d
      = (sDotNum, { v with intValS := v.intValS ++ [d], dotNum := v.dotNum + 1 }) := by
  obtain ⟨h1, _, _, _, h5, h6, _⟩ := digit_ne_special d h
  simp [scanStep, h1, h5, h6, sDotNum, sIntNum, sBegin]

theorem foldl_digits_int (D : List Char) (hD : ∀ c ∈ D, c.isDigit = true) : ∀ v : scanVars,
    D.foldl scanStep (sIntNum, v) = (sIntNum, { v with intValS := v.intValS ++ D }) := by
  induction D with
  | nil => intro v; simp
  | cons d D ih =>
    intro v
    rw [List.foldl_cons, scanStep_int_digit v d (hD d (by simp)),
      ih (fun c hc => hD c (by simp [hc]))]
    simp

theorem foldl_digits_dot (D : List Char) (hD : ∀ c ∈ D, c.isDigit = true) : ∀ v : scanVars,
    D.foldl scanStep (sDotNum, v)
      = (sDotNum, { v with intValS := v.intValS ++ D, dotNum := v.dotNum + D.length }) := by
  induction D with
  | nil => intro v; simp
  | cons d D ih =>
    intro v
    rw [List.foldl_cons, scanStep_dot_digit v d (hD d (by simp)),
      ih (fun c hc => hD c (by simp [hc]))]
    simp; omega

theorem foldl_exp (l : List Char) (hl : ∀ c ∈ l, c ≠ '_') : ∀ v : scanVars,
    l.foldl scanStep (sExpNum, v) = (sExpNum, { v with expValS := v.expValS ++ l }) := by
  induction l with
  | nil => intro v; simp
  | cons d l ih =>
    intro v
    have : scanStep (sExpNum, v) d = (sExpNum, { v with expValS := v.expValS ++ [d] }) := by
      simp [scanStep, hl d (by simp), sExpNum, sDotNum, sIntNum, sBegin]
    rw [List.foldl_cons, this, ih (fun c hc => hl c (by simp [hc]))]
    simp

/-- The sign and the integer digits, read from the start state. -/
theorem foldl_sign_int (sign DI : List Char)
    (hsign : sign = [] ∨ sign = ['+'] ∨ sign = ['-'])
    (hDI : ∀ c ∈ DI, c.isDigit = true) :
    (sign ++ DI).foldl scanStep (sBegin, { intValS := [], expValS := [], dotNum := 0 })
      = (if sign = [] ∧ DI = [] then sBegin else sIntNum,
         { intValS := (if sign = ['-'] then ['-'] else []) ++ DI, expValS := [], dotNum := 0 }) := by
  rcases hsign with rfl | rfl | rfl
  · cases DI with
    | nil => simp
    | cons d DI =>
      rw [List.nil_append, List.foldl_cons, scanStep_begin_digit _ d (hDI d (by simp)),
        foldl_digits_int DI (fun c hc => hDI c (by simp [hc]))]
      simp
  · have : scanStep (sBegin, { intValS := [], expValS := [], dotNum := 0 }) '+'
        = (sIntNum, { intValS := [], expValS := [], dotNum := 0 }) := by
      simp [scanStep]
    rw [List.singleton_append, List.foldl_cons, this, foldl_digits_int DI hDI]
    simp
  · have : scanStep (sBegin, { intValS := [], expValS := [], dotNum := 0 }) '-'
        = (sIntNum, { intValS := ['-'], expValS := [], dotNum := 0 }) := by
      simp [scanStep]
    rw [List.singleton_append, List.foldl_cons, this, foldl_digits_int DI hDI]
    simp

theorem foldl_point (st : Nat) (hst : st = sBegin ∨ st = sIntNum) (DF : List Char)
    (hDF : ∀ c ∈ DF, c.isDigit = true) (v : scanVars) :
    ('.' :: DF).foldl scanStep (st, v)
      = (sDotNum, { v with intValS := v.intValS ++ DF, dotNum := v.dotNum + DF.length }) := by
  have : scanStep (st, v) '.' = (sDotNum, v) := by
    rcases hst with rfl | rfl <;> simp [scanStep, sIntNum, sBegin]
  rw [List.foldl_cons, this, foldl_digits_dot DF hDF]

/-- The whole mantissa, read from the start state. -/
theorem foldl_mantissa (sign DI DF : List Char) (dot : Bool)
    (hsign : sign = [] ∨ sign = ['+'] ∨ sign = ['-'])
    (hDI : ∀ c ∈ DI, c.isDigit = true) (hDF : ∀ c ∈ DF, c.isDigit = true)
    (hdot : dot = false → DF = []) (hdig : DI ++ DF ≠ []) :
    (sign ++ DI ++ (if dot then '.' :: DF else [])).foldl scanStep
        (sBegin, { intValS := [], expValS := [], dotNum := 0 })
      = (if dot then sDotNum else sIntNum,
         { intValS := (if sign = ['-'] then ['-'] else []) ++ (DI ++ DF), expValS := [],
           dotNum := DF.length }) := by
  rw [List.foldl_append, foldl_sign_int sign DI hsign hDI]
  cases dot with
  | true =>
    simp only [if_true]
    rw [foldl_point _ (by split <;> simp) DF hDF]
    simp
  | false =>
    have hDF0 : DF = [] := hdot rfl
    subst hDF0
    have hDIne : DI ≠ [] := by simpa using hdig
    simp [hDIne]

theorem splitSign_digit (d : Char) (r : List Char) (h : d.isDigit = true) :
    splitSign (d :: r) = (false, d :: r) := by
  obtain ⟨_, h2, h3, _⟩ := digit_ne_special d h
  unfold splitSign
  split
  · rename_i heq; simp at heq; exact absurd heq.1 h3
  · rename_i heq; simp at heq; exact absurd heq.1 h2
  · rfl

theorem all_isDigit (D : List Char) (hD : ∀ c ∈ D, c.isDigit = true) :
    D.all Char.isDigit = true := by
  simpa [List.all_eq_true] using hD

theorem bigIntSetString_digits (D : List Char) (hD : ∀ c ∈ D, c.isDigit = true) (hne : D ≠ []) :
    bigIntSetString D = some (digitsValue D : Int)
    ∧ bigIntSetString ('-' :: D) = some (-(digitsValue D : Int)) := by
  obtain ⟨d, r, rfl⟩ := List.exists_cons_of_ne_nil hne
  constructor
  · simp only [bigIntSetString, splitSign_digit d r (hD d (by simp))]
    simp [all_isDigit _ hD]
  · have : splitSign ('-' :: d :: r) = (true, d :: r) := rfl
    simp only [bigIntSetString, this]
    simp [all_isDigit _ hD]

theorem strconvAtoi_digits (D : List Char) (hD : ∀ c ∈ D, c.isDigit = true) (hne : D ≠ []) :
    ((digitsValue D : Int) < 2 ^ 63 → strconvAtoi D = some (digitsValue D : Int)
      ∧ strconvAtoi ('+' :: D) = some (digitsValue D : Int))
    ∧ ((digitsValue D : Int) ≤ 2 ^ 63 → strconvAtoi ('-' :: D) = some (-(digitsValue D : Int))) := by
  obtain ⟨d, r, rfl⟩ := List.exists_cons_of_ne_nil hne
  refine ⟨fun h => ⟨?_, ?_⟩, fun h => ?_⟩
  · simp only [strconvAtoi, splitSign_digit d r (hD d (by simp))]
    simp [all_isDigit _ hD]
    exact_mod_cast h
  · have : splitSign ('+' :: d :: r) = (false, d :: r) := rfl
    simp only [strconvAtoi, this]
    simp [all_isDigit _ hD]
    exact_mod_cast h
  · have : splitSign ('-' :: d :: r) = (true, d :: r) := rfl
    simp only [strconvAtoi, this]
    simp [all_isDigit _ hD]
    exact_mod_cast h

theorem mem_of_strip (l : List Char) (c : Char) (hc : c ∈ l) :
    c = '_' ∨ c ∈ stripUnderscores l := by
  by_cases h : c = '_'
  · exact Or.inl h
  · exact Or.inr (by simp [stripUnderscores, hc, h])


theorem mantissa_no_star (pre sign DI DF : List Char) (dot : Bool)
    (hsign : sign = [] ∨ sign = ['+'] ∨ sign = ['-'])
    (hDI : ∀ c ∈ DI, c.isDigit = true) (hDF : ∀ c ∈ DF, c.isDigit = true)
    (hpre : stripUnderscores pre = sign ++ DI ++ (if dot then '.' :: DF else [])) :
    ∀ c ∈ pre, c ≠ '*' := by
  intro c hc
  rcases mem_of_strip pre c hc with rfl | hmem
  · decide
  · rw [hpre] at hmem
    simp only [List.mem_append] at hmem
    rcases hmem with (hs | hd) | hf
    · rcases hsign with rfl | rfl | rfl
      · simp at hs
      · simp at hs; subst hs; decide
      · simp at hs; subst hs; decide
    · exact (digit_ne_special c (hDI c hd)).2.2.2.2.2.2
    · cases dot with
      | false => simp at hf
      | true =>
        simp only [if_true, List.mem_cons] at hf
        rcases hf with rfl | hf
        · decide
        · exact (digit_ne_special c (hDF c hf)).2.2.2.2.2.2

theorem exponent_no_star (post esign DX : List Char)
    (hesign : esign = [] ∨ esign = ['+'] ∨ esign = ['-'])
    (hDX : ∀ c ∈ DX, c.isDigit = true)
    (hpost : stripUnderscores post = esign ++ DX) :
    ∀ c ∈ post, c ≠ '*' := by
  intro c hc
  rcases mem_of_strip post c hc with rfl | hmem
  · decide
  · rw [hpost] at hmem
    simp only [List.mem_append] at hmem
    rcases hmem with hs | hd
    · rcases hesign with rfl | rfl | rfl
      · simp at hs
      · simp at hs; subst hs; decide
      · simp at hs; subst hs; decide
    · exact (digit_ne_special c (hDX c hd)).2.2.2.2.2.2

theorem strip_no_underscore (l : List Char) : ∀ c ∈ stripUnderscores l, c ≠ '_' := by
  intro c hc
  simpa [stripUnderscores] using (List.mem_filter.mp hc).2

theorem mark_length_pos (mark : List Char)
    (hm : mark = "E".toList ∨ mark = "e".toList ∨ mark = "*10^".toList ∨ mark = "*^".toList) :
    1 ≤ mark.length := by
  rcases hm with rfl | rfl | rfl | rfl <;> decide

/-- The scan of a well-formed literal: mantissa, exponent mark, exponent. -/
theorem parse_literal
    (pre post mark sign DI DF esign DX : List Char) (dot hasExp : Bool)
    (hsign : sign = [] ∨ sign = ['+'] ∨ sign = ['-'])
    (hDI : ∀ c ∈ DI, c.isDigit = true) (hDF : ∀ c ∈ DF, c.isDigit = true)
    (hdot : dot = false → DF = []) (hdig : DI ++ DF ≠ [])
    (hpre : stripUnderscores pre = sign ++ DI ++ (if dot then '.' :: DF else []))
    (hmark : mark = "E".toList ∨ mark = "e".toList ∨ mark = "*10^".toList ∨ mark = "*^".toList)
    (hesign : esign = [] ∨ esign = ['+'] ∨ esign = ['-'])
    (hDX : ∀ c ∈ DX, c.isDigit = true) (hDXne : DX ≠ [])
    (hpost : stripUnderscores post = esign ++ DX)
    (hlo : -2 ^ 63 ≤ (if hasExp then
        (if esign = ['-'] then -(digitsValue DX : Int) else digitsValue DX) else 0) - DF.length)
    (hhi : (if hasExp then
        (if esign = ['-'] then -(digitsValue DX : Int) else digitsValue DX) else 0) < 2 ^ 63) :
    NewZnDecimal (pre ++ (if hasExp then mark ++ post else []))
      = some (.ok
          { ZnObject := some defaultDecimalClassRef,
            co := (if sign = ['-'] then -(digitsValue (DI ++ DF) : Int)
                   else digitsValue (DI ++ DF)),
            exp := (if hasExp then
                (if esign = ['-'] then -(digitsValue DX : Int) else digitsValue DX) else 0)
              - DF.length }) := by
  have hD : ∀ c ∈ DI ++ DF, c.isDigit = true := by
    intro c hc; rcases List.mem_append.mp hc with h | h
    · exact hDI c h
    · exact hDF c h
  -- the mantissa
  have hscan1 := scanLoop_segment pre (mantissa_no_star pre sign DI DF dot hsign hDI hDF hpre)
    (pre ++ (if hasExp then mark ++ post else [])).length sBegin
    (if hasExp then mark ++ post else []) { intValS := [], expValS := [], dotNum := 0 }
    (by simp)
  rw [foldl_scanStep_strip, hpre, foldl_mantissa sign DI DF dot hsign hDI hDF hdot hdig] at hscan1
  have hco : bigIntSetString ((if sign = ['-'] then ['-'] else []) ++ (DI ++ DF))
      = some (if sign = ['-'] then -(digitsValue (DI ++ DF) : Int)
              else digitsValue (DI ++ DF)) := by
    have := bigIntSetString_digits (DI ++ DF) hD hdig
    by_cases hs : sign = ['-']
    · simp only [hs, if_true]; exact this.2
    · simp only [hs, if_false, List.nil_append]; exact this.1
  cases hasExp with
  | false =>
    simp only [Bool.false_eq_true, if_false, List.append_nil] at hscan1 hlo hhi ⊢
    rw [scanLoop_nil] at hscan1
    simp only [NewZnDecimal, ZnDecimal.setValue, hscan1, hco]
    have hw : wrapInt (0 - (DF.length : Int)) = 0 - DF.length :=
      wrapInt_of_range _ (by omega) (by omega)
    rw [zero_sub] at hw
    simp [hw]
  | true =>
    simp only [if_true] at hscan1 hlo hhi ⊢
    have hst : (if dot = true then sDotNum else sIntNum) = sIntNum
        ∨ (if dot = true then sDotNum else sIntNum) = sDotNum := by
      cases dot <;> simp
    have hml := mark_length_pos mark hmark
    obtain ⟨f, hf⟩ : ∃ f, (pre ++ (mark ++ post)).length - pre.length = f + 1 :=
      ⟨mark.length + post.length - 1, by simp; omega⟩
    rw [hf, scanLoop_mark f _ mark post _ hst hmark] at hscan1
    have hscan2 := scanLoop_segment post (exponent_no_star post esign DX hesign hDX hpost)
      f sExpNum [] { intValS := (if sign = ['-'] then ['-'] else []) ++ (DI ++ DF),
                     expValS := [], dotNum := DF.length }
      (by simp at hf; omega)
    rw [List.append_nil, foldl_scanStep_strip, foldl_exp _ (strip_no_underscore post), hpost,
      scanLoop_nil] at hscan2
    rw [hscan2] at hscan1
    have hexp : strconvAtoi (esign ++ DX)
        = some (if esign = ['-'] then -(digitsValue DX : Int) else digitsValue DX) := by
      have := strconvAtoi_digits DX hDX hDXne
      rcases hesign with rfl | rfl | rfl
      · simp only [List.nil_append]
        have h1 : ¬ (([] : List Char) = ['-']) := by simp
        simp only [h1, if_false] at hhi ⊢
        exact (this.1 hhi).1
      · have h1 : ¬ (['+'] = ['-']) := by decide
        simp only [h1, if_false] at hhi ⊢
        exact (this.1 hhi).2
      · simp only [if_true] at hlo ⊢
        exact this.2 (by omega)
    have hw : wrapInt ((if esign = ['-'] then -(digitsValue DX : Int) else digitsValue DX)
          - (DF.length : Int))
        = (if esign = ['-'] then -(digitsValue DX : Int) else digitsValue DX) - DF.length :=
      wrapInt_of_range _ hlo (by omega)
    have hlen : 0 < (esign ++ DX).length := by
      have := List.length_pos.mpr hDXne
      simp; omega
    simp only [NewZnDecimal, ZnDecimal.setValue, hscan1, hco, List.nil_append]
    simp only [gt_iff_lt, hlen, if_true, hexp, hw]


theorem digitsValue_append (a b : List Char) :
    digitsValue (a ++ b) = digitsValue a * 10 ^ b.length + digitsValue b := by
  unfold digitsValue
  rw [List.foldl_append]
  generalize List.foldl (fun acc c => acc * 10 + (c.toNat - 48)) 0 a = x
  induction b generalizing x with
  | nil => simp
  | cons c b ih =>
    rw [List.foldl_cons, ih, List.foldl_cons, ih (0 * 10 + (c.toNat - 48))]
    simp only [List.length_cons, pow_succ]
    ring

theorem digitsValue_cons (c : Char) (l : List Char) :
    digitsValue (c :: l) = (c.toNat - 48) * 10 ^ l.length + digitsValue l := by
  have := digitsValue_append [c] l
  simpa [digitsValue] using this

theorem digitChar_value : ∀ k < 10, (Nat.digitChar k).toNat - 48 = k := by decide

theorem digitChar_isDigit : ∀ k < 10, (Nat.digitChar k).isDigit = true := by decide

theorem toDigitsCore_value : ∀ (fuel n : ℕ) (ds : List Char), n < fuel →
    digitsValue (Nat.toDigitsCore 10 fuel n ds) = n * 10 ^ ds.length + digitsValue ds := by
  intro fuel
  induction fuel with
  | zero => intro n ds h; omega
  | succ fuel ih =>
    intro n ds h
    unfold Nat.toDigitsCore
    simp only []
    split
    · rename_i h0
      have hn : n < 10 := by omega
      rw [digitsValue_cons, digitChar_value _ (Nat.mod_lt _ (by norm_num)), Nat.mod_eq_of_lt hn]
    · rename_i h0
      rw [ih (n / 10) _ (by omega), digitsValue_cons,
        digitChar_value _ (Nat.mod_lt _ (by norm_num))]
      simp only [List.length_cons, pow_succ]
      have hn : n * 10 ^ ds.length = (10 * (n / 10) + n % 10) * 10 ^ ds.length := by
        rw [Nat.div_add_mod]
      rw [hn]
      ring

theorem toDigitsCore_isDigit : ∀ (fuel n : ℕ) (ds : List Char),
    (∀ c ∈ ds, c.isDigit = true) → ∀ c ∈ Nat.toDigitsCore 10 fuel n ds, c.isDigit = true := by
  intro fuel
  induction fuel with
  | zero => intro n ds h; simpa [Nat.toDigitsCore] using h
  | succ fuel ih =>
    intro n ds h
    have hd : ∀ c ∈ Nat.digitChar (n % 10) :: ds, c.isDigit = true := by
      intro c hc
      rcases List.mem_cons.mp hc with rfl | hc
      · exact digitChar_isDigit _ (Nat.mod_lt _ (by norm_num))
      · exact h c hc
    unfold Nat.toDigitsCore
    simp only []
    split
    · exact hd
    · exact ih _ _ hd

theorem toDigitsCore_ne_nil (fuel n : ℕ) (ds : List Char) (h : 0 < fuel) :
    Nat.toDigitsCore 10 fuel n ds ≠ [] := by
  induction fuel generalizing n ds with
  | zero => omega
  | succ fuel ih =>
    unfold Nat.toDigitsCore
    simp only []
    split
    · simp
    · cases fuel with
      | zero => simp [Nat.toDigitsCore]
      | succ f => exact ih _ _ (by omega)

theorem toDigits_value (n : ℕ) : digitsValue (Nat.toDigits 10 n) = n := by
  simpa [Nat.toDigits, digitsValue] using toDigitsCore_value (n + 1) n [] (by omega)

theorem toDigits_isDigit (n : ℕ) : ∀ c ∈ Nat.toDigits 10 n, c.isDigit = true :=
  toDigitsCore_isDigit _ _ _ (by simp)

theorem toDigits_ne_nil (n : ℕ) : Nat.toDigits 10 n ≠ [] :=
  toDigitsCore_ne_nil _ _ _ (by omega)

theorem digitsValue_zeros (l : List Char) (k : ℕ) :
    digitsValue (l ++ List.replicate k '0') = digitsValue l * 10 ^ k := by
  rw [digitsValue_append]
  have : digitsValue (List.replicate k '0') = 0 := by
    induction k with
    | zero => rfl
    | succ k ih => rw [List.replicate_succ, digitsValue_cons, ih]; simp
  simp [this]

theorem stripUnderscores_of_clean (l : List Char) (h : ∀ c ∈ l, c ≠ '_') :
    stripUnderscores l = l := by
  unfold stripUnderscores
  rw [List.filter_eq_self]
  intro c hc; simpa using h c hc


/-! ## C7: NewZnDecimal on number literals -/

/-- C7, as stated, fails: the literal `1E9223372036854775808` is made of integer
digits and an exponent part `E` with digits `X`, yet `NewZnDecimal` returns the
error `ParseFromStringError` (code `0x2602`), because `strconv.Atoi` refuses an
exponent outside the range of `int`. -/
theorem NewZnDecimal_exponent_counterexample :
    NewZnDecimal "1E9223372036854775808".toList
      = some (.error (ParseFromStringError "1E9223372036854775808".toList)) := by
  rfl

/-- Underscores inside the exponent mark are not skipped by the look-ahead
`rawR[idx+1]`: `1*_^55` is read with exponent `5`, and `1*1_0^5` is refused. -/
theorem NewZnDecimal_underscore_in_mark :
    NewZnDecimal "1*_^55".toList = some (.ok ⟨some defaultDecimalClassRef, 1, 5⟩)
    ∧ NewZnDecimal "1*1_0^5".toList = some (.error (ParseFromStringError "1*1_0^5".toList)) :=
  ⟨rfl, rfl⟩

/-- C7, amended. Take a literal `pre ++ mark ++ post` (or `pre` alone when
`hasExp` is false) where `pre`, underscores removed, is an optional sign, integer
digits `DI` and an optional point with fraction digits `DF`, with at least one
digit in `DI ++ DF`; `mark` is `E`, `e`, `*10^` or `*^`; and `post`, underscores
removed, is an optional sign and digits `DX`. If the signed exponent `X` (`0`
when absent) is below `2^63` and `X - len(DF)` is at least `-2^63`, then
`NewZnDecimal` returns no error and a decimal whose coefficient is the signed
integer written by `DI` followed by `DF` and whose exponent is `X - len(DF)`. -/
theorem NewZnDecimal_literal
    (pre post mark sign DI DF esign DX : List Char) (dot hasExp : Bool)
    (hsign : sign = [] ∨ sign = ['+'] ∨ sign = ['-'])
    (hDI : ∀ c ∈ DI, c.isDigit = true) (hDF : ∀ c ∈ DF, c.isDigit = true)
    (hdot : dot = false → DF = []) (hdig : DI ++ DF ≠ [])
    (hpre : stripUnderscores pre = sign ++ DI ++ (if dot then '.' :: DF else []))
    (hmark : mark = "E".toList ∨ mark = "e".toList ∨ mark = "*10^".toList ∨ mark = "*^".toList)
    (hesign : esign = [] ∨ esign = ['+'] ∨ esign = ['-'])
    (hDX : ∀ c ∈ DX, c.isDigit = true) (hDXne : DX ≠ [])
    (hpost : stripUnderscores post = esign ++ DX)
    (hlo : -2 ^ 63 ≤ (if hasExp then
        (if esign = ['-'] then -(digitsValue DX : Int) else digitsValue DX) else 0) - DF.length)
    (hhi : (if hasExp then
        (if esign = ['-'] then -(digitsValue DX : Int) else digitsValue DX) else 0) < 2 ^ 63) :
    NewZnDecimal (pre ++ (if hasExp then mark ++ post else []))
      = some (.ok
          { ZnObject := some defaultDecimalClassRef,
            co := (if sign = ['-'] then -(digitsValue (DI ++ DF) : Int)
                   else digitsValue (DI ++ DF)),
            exp := (if hasExp then
                (if esign = ['-'] then -(digitsValue DX : Int) else digitsValue DX) else 0)
              - DF.length }) :=
  parse_literal pre post mark sign DI DF esign DX dot hasExp hsign hDI hDF hdot hdig hpre hmark
    hesign hDX hDXne hpost hlo hhi

/-- C7, amended, at the literal `-2_345.678*10^3_8`. -/
theorem NewZnDecimal_literal_witness :
    NewZnDecimal "-2_345.678*10^3_8".toList
      = some (.ok ⟨some defaultDecimalClassRef, -2345678, 35⟩) :=
  NewZnDecimal_literal "-2_345.678".toList "3_8".toList "*10^".toList ['-'] "2345".toList
    "678".toList [] "38".toList true true (by decide) (by decide) (by decide) (by decide)
    (by decide) (by decide) (by decide) (by decide) (by decide) (by decide) (by decide)
    (by decide) (by decide)

/-! ## C8: display and parse back -/

/-- C8, as stated, fails: the integer decimal with coefficient `1` and exponent
`18` has 19 digits, is displayed in the scientific layout `1⏨18`, and
`NewZnDecimal` refuses that string. -/
theorem String_roundtrip_counterexample :
    ZnDecimal.String ⟨some defaultDecimalClassRef, 1, 18⟩ = "1⏨18".toList
    ∧ NewZnDecimal (ZnDecimal.String ⟨some defaultDecimalClassRef, 1, 18⟩)
        = some (.error (ParseFromStringError "1⏨18".toList)) :=
  ⟨by decide, rfl⟩

/-- The display of an integer of at most 18 digits: sign, digits, trailing zeros. -/
theorem String_integer (d : ZnDecimal) (h0 : 0 ≤ d.exp)
    (h18 : (Nat.toDigits 10 d.co.natAbs).length + d.exp ≤ 18) :
    d.String = (if d.co < 0 then ['-'] else []) ++ Nat.toDigits 10 d.co.natAbs
      ++ List.replicate d.exp.toNat '0' := by
  have hw : wrapInt (d.exp + ((Nat.toDigits 10 d.co.natAbs).length : Int))
      = d.exp + (Nat.toDigits 10 d.co.natAbs).length :=
    wrapInt_of_range _ (by omega) (by omega)
  have hc : ((Nat.toDigits 10 d.co.natAbs).length : Int)
        ≤ d.exp + (Nat.toDigits 10 d.co.natAbs).length
      ∧ d.exp + ((Nat.toDigits 10 d.co.natAbs).length : Int) ≤ maxDigitCount := by
    constructor
    · omega
    · simp only [maxDigitCount]; omega
  simp only [ZnDecimal.String, hw, hc, and_self, if_true]
  by_cases he : d.exp > 0
  · simp only [he, if_true]
  · have : d.exp = 0 := by omega
    simp [this]

/-- C8, amended. For every integer decimal `d` (`exp ≥ 0`) whose display has at
most 18 digits (digits of the coefficient plus `exp`), parsing its display
string gives back the same number: `NewZnDecimal(d.String())` returns no error
and a decimal numerically equal to `d` (`compareValues` with `CmpEq`). -/
theorem String_roundtrip (d : ZnDecimal) (h0 : 0 ≤ d.exp)
    (h18 : (Nat.toDigits 10 d.co.natAbs).length + d.exp ≤ 18) :
    ∃ d', NewZnDecimal d.String = some (.ok d')
      ∧ compareValues (.decimal d') (.decimal d) CmpEq = .ok true := by
  have hsign : (if d.co < 0 then ['-'] else ([] : List Char)) = []
      ∨ (if d.co < 0 then ['-'] else ([] : List Char)) = ['+']
      ∨ (if d.co < 0 then ['-'] else ([] : List Char)) = ['-'] := by
    split <;> simp
  have hDI : ∀ c ∈ Nat.toDigits 10 d.co.natAbs ++ List.replicate d.exp.toNat '0',
      c.isDigit = true := by
    intro c hc
    rcases List.mem_append.mp hc with h | h
    · exact toDigits_isDigit _ c h
    · rw [(List.mem_replicate.mp h).2]; rfl
  have hclean : ∀ c ∈ (if d.co < 0 then ['-'] else []) ++ Nat.toDigits 10 d.co.natAbs
      ++ List.replicate d.exp.toNat '0', c ≠ '_' := by
    intro c hc
    rw [List.append_assoc] at hc
    rcases List.mem_append.mp hc with h | h
    · split at h
      · simp at h; subst h; decide
      · simp at h
    · exact (digit_ne_special c (hDI c h)).1
  have hlit := parse_literal
    ((if d.co < 0 then ['-'] else []) ++ Nat.toDigits 10 d.co.natAbs
      ++ List.replicate d.exp.toNat '0') ['0'] "E".toList
    (if d.co < 0 then ['-'] else []) (Nat.toDigits 10 d.co.natAbs
      ++ List.replicate d.exp.toNat '0') [] [] ['0'] false false hsign hDI (by simp)
    (fun _ => rfl) (by simp [toDigits_ne_nil]) (by
      rw [stripUnderscores_of_clean _ hclean]; simp) (Or.inl rfl) (Or.inl rfl) (by decide)
    (by simp) rfl (by simp) (by simp)
  simp only [Bool.false_eq_true, if_false, List.append_nil, List.length_nil, Nat.cast_zero,
    sub_zero] at hlit
  rw [String_integer d h0 h18, hlit]
  refine ⟨_, rfl, ?_⟩
  simp only [compareValues, compareDecimals, rescalePair, digitsValue_zeros, toDigits_value]
  have hco : (if (if d.co < 0 then ['-'] else ([] : List Char)) = ['-']
        then -(((d.co.natAbs * 10 ^ d.exp.toNat : ℕ)) : Int)
        else ((d.co.natAbs * 10 ^ d.exp.toNat : ℕ) : Int)) = d.co * 10 ^ d.exp.toNat := by
    by_cases hneg : d.co < 0
    · simp only [hneg, if_true]
      push_cast
      rw [abs_of_neg hneg]; ring
    · simp only [hneg, if_false]
      have : ¬ (([] : List Char) = ['-']) := by simp
      simp only [this, if_false]
      push_cast
      rw [abs_of_nonneg (by omega)]
  rw [hco]
  by_cases he : d.exp = 0
  · simp [he, CmpEq]
  · have h1 : ¬ ((0 : Int) = d.exp) := fun h => he h.symm
    have h2 : ¬ ((0 : Int) > d.exp) := by omega
    have hw : wrapInt (d.exp - 0) = d.exp := by
      rw [sub_zero]; exact wrapInt_of_range _ (by omega) (by omega)
    simp only [h1, h2, if_false, hw, bigExp_pos d.exp (by omega), CmpEq, if_true]
    simp

/-- C8, amended, at `-1024000` (coefficient `-1024`, exponent `3`). -/
theorem String_roundtrip_witness :
    (0 : Int) ≤ (NewZnDecimalFromInt (-1024) 3).exp
    ∧ ((Nat.toDigits 10 (NewZnDecimalFromInt (-1024) 3).co.natAbs).length : Int)
        + (NewZnDecimalFromInt (-1024) 3).exp ≤ 18
    ∧ ∃ d', NewZnDecimal (NewZnDecimalFromInt (-1024) 3).String = some (.ok d')
      ∧ compareValues (.decimal d') (.decimal (NewZnDecimalFromInt (-1024) 3)) CmpEq = .ok true :=
  ⟨by decide, by decide, String_roundtrip (NewZnDecimalFromInt (-1024) 3) (by decide) (by decide)⟩

/-! ## C11: display string of a duplicate -/

mutual
theorem duplicateValue_eq : ∀ v : ZnValue, duplicateValue v = v
  | .bool _ _ => rfl
  | .string _ _ => rfl
  | .decimal _ => rfl
  | .null _ => rfl
  | .array obj vs => by simp only [duplicateValue]; rw [duplicateItems_eq vs]
  | .hashmap obj m ko => by
    simp only [duplicateValue]; rw [duplicateEntries_eq m, copyKeys_eq]
  | .function _ _ => rfl
  | .object cls props => by simp only [duplicateValue]; rw [duplicateEntries_eq props]
theorem duplicateItems_eq : ∀ vs : List ZnValue, duplicateItems vs = vs
  | [] => rfl
  | v :: vs => by simp only [duplicateItems]; rw [duplicateValue_eq v, duplicateItems_eq vs]
theorem duplicateEntries_eq : ∀ es : List (List Char × ZnValue), duplicateEntries es = es
  | [] => rfl
  | (k, v) :: es => by
    simp only [duplicateEntries]; rw [duplicateValue_eq v, duplicateEntries_eq es]
end

/-- C11. For every decimal, string, bool, array or hashmap `v` (arrays and
hashmaps nested to any depth), and in fact for every value,
`duplicateValue(v).String()` equals `v.String()`. -/
theorem duplicateValue_String (v : ZnValue) : (duplicateValue v).String = v.String := by
  rw [duplicateValue_eq]

/-! ## C14: NewZnHashMap -/

theorem mapSet_keys (m : List (List Char × ZnValue)) (key : List Char) (value : ZnValue)
    (k : List Char) :
    k ∈ (mapSet m key value).map Prod.fst ↔ k ∈ m.map Prod.fst ∨ k = key := by
  induction m with
  | nil => simp [mapSet]
  | cons e es ih =>
    obtain ⟨k0, v0⟩ := e
    unfold mapSet
    split
    · rename_i h; subst h
      simp only [List.map_cons, List.mem_cons]
      tauto
    · simp only [List.map_cons, List.mem_cons, ih]
      tauto

theorem NewZnHashMap_loop_keys (kvs : List KVPair) :
    ∀ (m : List (List Char × ZnValue)) (ko : List (List Char)),
      (∀ k, k ∈ ko ↔ k ∈ m.map Prod.fst) →
      ∀ k, k ∈ (NewZnHashMap.loop kvs m ko).2
        ↔ k ∈ (NewZnHashMap.loop kvs m ko).1.map Prod.fst := by
  induction kvs with
  | nil => intro m ko h; exact h
  | cons kv kvs ih =>
    intro m ko h
    unfold NewZnHashMap.loop
    apply ih
    intro k
    rw [mapSet_keys, List.mem_append, h k, List.mem_singleton]

/-- The part of C14 that holds: the keys of `KeyOrder` are exactly the keys of
`Value`. -/
theorem NewZnHashMap_keys (kvPairs : List KVPair) (k : List Char) :
    k ∈ (NewZnHashMap kvPairs).KeyOrder ↔ k ∈ (NewZnHashMap kvPairs).mapKeys := by
  simp only [NewZnHashMap, ZnValue.KeyOrder, ZnValue.mapKeys]
  exact NewZnHashMap_loop_keys kvPairs [] [] (by simp) k

/-- C14 fails on the code: for the pairs of the literal `【「a」==1，「a」==2】` the
hashmap built by `NewZnHashMap` has `KeyOrder = [a, a]`, which repeats the key,
while `Value` holds the single key `a`. -/
theorem NewZnHashMap_repeated_key :
    (NewZnHashMap [⟨"a".toList, .decimal (NewZnDecimalFromInt 1 0)⟩,
                   ⟨"a".toList, .decimal (NewZnDecimalFromInt 2 0)⟩]).KeyOrder
      = ["a".toList, "a".toList]
    ∧ ¬ (NewZnHashMap [⟨"a".toList, .decimal (NewZnDecimalFromInt 1 0)⟩,
                   ⟨"a".toList, .decimal (NewZnDecimalFromInt 2 0)⟩]).KeyOrder.Nodup
    ∧ (NewZnHashMap [⟨"a".toList, .decimal (NewZnDecimalFromInt 1 0)⟩,
                   ⟨"a".toList, .decimal (NewZnDecimalFromInt 2 0)⟩]).mapKeys = ["a".toList] := by
  refine ⟨rfl, ?_, rfl⟩
  show ¬ (["a".toList, "a".toList] : List (List Char)).Nodup
  decide

/-! ## C19: the statement line-break -/

/-- C19. `meetStmtLineBreak` returns true exactly when current and peek tokens
both exist, neither is EOF, peek starts on a later line than current ends,
current is none of `，` `{` `【` `：` `？` and peek is none of `】` `}`; in
every other case it returns false. -/
theorem meetStmtLineBreak_iff (current peek : Option Token) :
    meetStmtLineBreak current peek = true ↔
      ∃ c p, current = some c ∧ peek = some p ∧ c.TokenType ≠ TypeEOF ∧ p.TokenType ≠ TypeEOF
        ∧ p.Range.StartLine > c.Range.EndLine
        ∧ c.TokenType ≠ TypeCommaSep ∧ c.TokenType ≠ TypeStmtQuoteL
        ∧ c.TokenType ≠ TypeArrayQuoteL
        ∧ c.TokenType ≠ TypeFuncCall ∧ c.TokenType ≠ TypeFuncDeclare
        ∧ p.TokenType ≠ TypeArrayQuoteR ∧ p.TokenType ≠ TypeStmtQuoteR := by
  cases current with
  | none => simp [meetStmtLineBreak]
  | some c =>
    cases peek with
    | none => simp [meetStmtLineBreak]
    | some p =>
      simp only [meetStmtLineBreak, Option.some.injEq, exists_and_left, exists_eq_left']
      by_cases h1 : c.TokenType = TypeEOF ∨ p.TokenType = TypeEOF
      · simp only [h1, if_true]
        constructor
        · intro h; cases h
        · rintro ⟨hc, hp, _⟩; rcases h1 with h | h
          · exact absurd h hc
          · exact absurd h hp
      · simp only [h1, if_false]
        push_neg at h1
        by_cases h2 : p.Range.StartLine > c.Range.EndLine
        · simp only [h2, if_true]
          constructor
          · intro h
            split_ifs at h with h3 h4
            simp only [List.contains_eq_any_beq, List.any_cons, List.any_nil, Bool.or_false,
              Bool.or_eq_true, beq_iff_eq, not_or] at h3 h4
            exact ⟨h1.1, h1.2, trivial, h3.1, h3.2.1, h3.2.2.1, h3.2.2.2.1, h3.2.2.2.2,
              h4.1, h4.2⟩
          · rintro ⟨_, _, _, a1, a2, a3, a4, a5, b1, b2⟩
            simp [a1, a2, a3, a4, a5, b1, b2, Ne.symm a1, Ne.symm a2, Ne.symm a3, Ne.symm a4,
              Ne.symm a5, Ne.symm b1, Ne.symm b2]
        · simp only [h2, if_false]
          constructor
          · intro h; cases h
          · rintro ⟨_, _, h, _⟩; exact h.elim

/-! ## C12: assignment to a constant -/

theorem goMapGet_set {α : Type} (m : List (List Char × α)) (key : List Char) (value : α)
    (k : List Char) :
    goMapGet (goMapSet m key value) k = if key = k then some value else goMapGet m k := by
  induction m with
  | nil => simp [goMapSet, goMapGet]
  | cons e es ih =>
    obtain ⟨k0, v0⟩ := e
    unfold goMapSet
    by_cases h : k0 = key
    · subst h
      simp only [if_true, goMapGet]
      split_ifs <;> rfl
    · simp only [h, if_false, goMapGet, ih]
      by_cases h2 : k0 = k
      · subst h2
        simp [Ne.symm h]
      · simp [h2]

theorem setValueLoop_constant {V : Type} (name : List Char) (value : V) :
    ∀ (scope : List (BlockScope V)) (sym : SymbolInfo V),
      nearestBinding name scope = some sym → sym.IsConstant = true →
      setValueLoop name value scope = (scope, some AssignToConstant) := by
  intro scope
  induction scope with
  | nil => intro sym h; simp [nearestBinding] at h
  | cons sp parent ih =>
    intro sym h hc
    unfold nearestBinding at h
    unfold setValueLoop
    cases hg : sp.GetSymbol name with
    | some s =>
      rw [hg] at h
      simp only [Option.some.injEq] at h
      subst h
      simp [hc]
    | none =>
      rw [hg] at h
      simp only [ih sym h hc]

theorem nearestBinding_mem {V : Type} (name : List Char) :
    ∀ (scope : List (BlockScope V)) (sym : SymbolInfo V),
      nearestBinding name scope = some sym →
      ∃ sp ∈ scope, (sp.GetSymbol name).isSome = true := by
  intro scope
  induction scope with
  | nil => intro sym h; simp [nearestBinding] at h
  | cons sp parent ih =>
    intro sym h
    unfold nearestBinding at h
    cases hg : sp.GetSymbol name with
    | some s => exact ⟨sp, List.mem_cons_self _ _, by rw [hg]; rfl⟩
    | none =>
      rw [hg] at h
      obtain ⟨sp2, hm, hs⟩ := ih sym h
      exact ⟨sp2, List.mem_cons_of_mem _ hm, hs⟩

/-- A new root scope binds nothing, so it avoids the globals. -/
theorem scopesAvoidGlobals_root {V : Type} (globals : List (List Char × V)) :
    scopesAvoidGlobals globals [({ symbolMap := [] } : BlockScope V)] := by
  intro sp hsp name h
  simp only [List.mem_singleton] at hsp
  subst hsp
  simp [BlockScope.GetSymbol, goMapGet] at h

/-- Entering a block (`NewBlockScope`) keeps the chain clear of the globals. -/
theorem scopesAvoidGlobals_push {V : Type} (globals : List (List Char × V))
    (scope : List (BlockScope V)) (h : scopesAvoidGlobals globals scope) :
    scopesAvoidGlobals globals (({ symbolMap := [] } : BlockScope V) :: scope) := by
  intro sp hsp name hs
  rcases List.mem_cons.mp hsp with e | e
  · subst e
    simp [BlockScope.GetSymbol, goMapGet] at hs
  · exact h sp e name hs

theorem SetSymbol_avoids {V : Type} (globals : List (List Char × V)) (sp : BlockScope V)
    (name : List Char) (value : V) (c : Bool)
    (hg : goMapGet globals name = none)
    (h : ∀ n : List Char, (sp.GetSymbol n).isSome = true → goMapGet globals n = none) :
    ∀ n : List Char, ((sp.SetSymbol name value c).GetSymbol n).isSome = true →
      goMapGet globals n = none := by
  intro n hn
  simp only [BlockScope.GetSymbol, BlockScope.SetSymbol, goMapGet_set] at hn
  by_cases e : name = n
  · subst e; exact hg
  · simp only [e, if_false] at hn
    exact h n hn

/-- `bindValue` keeps the chain clear of the globals. -/
theorem bindValue_avoids {V : Type} (globals : List (List Char × V)) (sp : BlockScope V)
    (parent : List (BlockScope V)) (name : List Char) (value : V) (c : Bool)
    (h : scopesAvoidGlobals globals (sp :: parent)) :
    scopesAvoidGlobals globals (bindValue globals sp parent name value c).1 := by
  unfold bindValue
  cases hg : goMapGet globals name with
  | some g => exact h
  | none =>
    cases hs : sp.GetSymbol name with
    | some s => exact h
    | none =>
      intro sp2 hm n hn
      rcases List.mem_cons.mp hm with e | e
      · subst e
        exact SetSymbol_avoids globals sp name value c hg
          (fun n0 h0 => h sp (List.mem_cons_self _ _) n0 h0) n hn
      · exact h sp2 (List.mem_cons_of_mem _ e) n hn

theorem setValueLoop_avoids {V : Type} (globals : List (List Char × V)) (name : List Char)
    (value : V) (hg : goMapGet globals name = none) :
    ∀ scope : List (BlockScope V), scopesAvoidGlobals globals scope →
      scopesAvoidGlobals globals (setValueLoop name value scope).1 := by
  intro scope
  induction scope with
  | nil => intro h; exact h
  | cons sp parent ih =>
    intro h
    have hp : scopesAvoidGlobals globals parent :=
      fun s hs n hn => h s (List.mem_cons_of_mem _ hs) n hn
    unfold setValueLoop
    cases hs : sp.GetSymbol name with
    | some s =>
      by_cases hc : s.IsConstant = true
      · simp only [hc, if_true]; exact h
      · simp only [hc]
        intro sp2 hm n hn
        rcases List.mem_cons.mp hm with e | e
        · subst e
          exact SetSymbol_avoids globals sp name value false hg
            (fun n0 h0 => h sp (List.mem_cons_self _ _) n0 h0) n hn
        · exact h sp2 (List.mem_cons_of_mem _ e) n hn
    | none =>
      intro sp2 hm n hn
      rcases List.mem_cons.mp hm with e | e
      · subst e
        exact h sp2 (List.mem_cons_self _ _) n hn
      · exact ih hp sp2 e n hn

/-- `setValue` keeps the chain clear of the globals. -/
theorem setValue_avoids {V : Type} (globals : List (List Char × V))
    (scope : List (BlockScope V)) (name : List Char) (value : V)
    (h : scopesAvoidGlobals globals scope) :
    scopesAvoidGlobals globals (setValue globals scope name value).1 := by
  unfold setValue
  cases hg : goMapGet globals name with
  | some g => exact h
  | none => exact setValueLoop_avoids globals name value hg scope h

/-- On the name of a global `setValue` returns name-redeclared before it looks
at any scope. -/
theorem setValue_global {V : Type} (globals : List (List Char × V))
    (scope : List (BlockScope V)) (name : List Char) (value g : V)
    (hg : goMapGet globals name = some g) :
    setValue globals scope name value = (scope, some (NameRedeclared name)) := by
  unfold setValue
  rw [hg]

/-- C12. For every scope chain of the interpreter (no symbol has the name of a
global, which `bindValue` and `setValue` maintain) in which the nearest binding
of `name` is constant, `setValue(name, value)` returns the error
assign-to-constant, whose code is 0x2503, and the symbol table of every scope of
the chain is unchanged. -/
theorem setValue_constant {V : Type} (globals : List (List Char × V))
    (scope : List (BlockScope V)) (name : List Char) (value : V) (sym : SymbolInfo V)
    (hwf : scopesAvoidGlobals globals scope)
    (hn : nearestBinding name scope = some sym) (hc : sym.IsConstant = true) :
    setValue globals scope name value = (scope, some AssignToConstant)
      ∧ AssignToConstant.code = 0x2503 := by
  refine ⟨?_, rfl⟩
  obtain ⟨sp, hm, hs⟩ := nearestBinding_mem name scope sym hn
  unfold setValue
  rw [hwf sp hm name hs]
  exact setValueLoop_constant name value scope sym hn hc

theorem setValue_constant_witness :
    scopesAvoidGlobals [("真".toList, ZnValue.bool none true)]
        [({ symbolMap := [] } : BlockScope ZnValue),
         { symbolMap := [("A".toList, { Value := .null none, IsConstant := true })] }]
    ∧ nearestBinding "A".toList
        [({ symbolMap := [] } : BlockScope ZnValue),
         { symbolMap := [("A".toList, { Value := .null none, IsConstant := true })] }]
        = some { Value := .null none, IsConstant := true }
    ∧ setValue [("真".toList, ZnValue.bool none true)]
        [({ symbolMap := [] } : BlockScope ZnValue),
         { symbolMap := [("A".toList, { Value := .null none, IsConstant := true })] }]
        "A".toList (.bool none false)
        = ([({ symbolMap := [] } : BlockScope ZnValue),
            { symbolMap := [("A".toList, { Value := .null none, IsConstant := true })] }],
           some AssignToConstant) :=
  have hwf : scopesAvoidGlobals [("真".toList, ZnValue.bool none true)]
        [({ symbolMap := [] } : BlockScope ZnValue),
         { symbolMap := [("A".toList, { Value := .null none, IsConstant := true })] }] := by
    intro sp hsp name hs
    simp only [List.mem_cons, List.mem_singleton, List.not_mem_nil, or_false] at hsp
    rcases hsp with e | e
    · subst e; simp [BlockScope.GetSymbol, goMapGet] at hs
    · subst e
      by_cases hA : "A".toList = name
      · subst hA; rfl
      · exfalso
        have h0 : goMapGet [("A".toList, ({ Value := .null none, IsConstant := true } :
            SymbolInfo ZnValue))] name = none := by
          simp only [goMapGet, if_neg hA]
        simp only [BlockScope.GetSymbol, h0] at hs
        cases hs
  ⟨hwf, rfl, (setValue_constant [("真".toList, ZnValue.bool none true)]
        [({ symbolMap := [] } : BlockScope ZnValue),
         { symbolMap := [("A".toList, { Value := .null none, IsConstant := true })] }]
        "A".toList (.bool none false) { Value := .null none, IsConstant := true }
        hwf rfl rfl).1⟩

/-! ## C13: a constant array is written through its index -/

/-- C13 fails on the code: after `令A恒为【1，2】` the symbol `A` is constant and
`A#0` reads 1; the assignment `A#0 为 9` returns without error, leaves the
symbol table as it was, and afterwards `A#0` reads 9. -/
theorem constant_array_index_assign :
    ∃ st0 st1 : RunState,
      declareConstArray = some st0
      ∧ nearestBinding "A".toList st0.scope = some { Value := .array 1, IsConstant := true }
      ∧ evalMemberIndex [] st0 "A".toList (.decimal (NewZnDecimalFromInt 0 0))
          = some (.ok (.decimal (NewZnDecimalFromInt 1 0)))
      ∧ evalVarAssignExpr.index [] st0 "A".toList (.decimal (NewZnDecimalFromInt 0 0))
          (.decimal (NewZnDecimalFromInt 9 0))
          = some (st1, .ok (.decimal (NewZnDecimalFromInt 9 0)))
      ∧ nearestBinding "A".toList st1.scope = some { Value := .array 1, IsConstant := true }
      ∧ evalMemberIndex [] st1 "A".toList (.decimal (NewZnDecimalFromInt 0 0))
          = some (.ok (.decimal (NewZnDecimalFromInt 9 0))) :=
  ⟨_, _, rfl, rfl, rfl, rfl, rfl, rfl⟩

/-! ## C15: iteration over a hashmap -/

theorem iterateHashMap_runPerKey {W : Type}
    (exec : IterState W → Option ZnValue → Option ZnValue → IterState W × Option Error) :
    ∀ (keys : List (List Char)) (st st1 : IterState W),
      runPerKey exec keys st = some st1 → iterateHashMap exec keys st = (st1, none) := by
  intro keys
  induction keys with
  | nil =>
    intro st st1 h
    simp only [runPerKey, Option.some.injEq] at h
    simp [iterateHashMap, h]
  | cons key rest ih =>
    intro st st1 h
    unfold runPerKey at h
    unfold iterateHashMap
    simp only [NewZnString]
    rcases hr : exec st (some (.string none key)) (goMapGet st.entries key) with ⟨s, e⟩
    rw [hr] at h
    cases e with
    | none => exact ih s st1 h
    | some err =>
      simp only at h ⊢
      by_cases hc : err.code = ContinueBreakSignal
      · simp only [hc, if_true] at h ⊢
        exact ih s st1 h
      · simp [hc] at h

theorem execIterationBlockFn_current {W : Type} (globals : List (List Char × Option ZnValue))
    (evalStmtBlock : IterState W → IterState W × Option Error)
    (IndexNames : List (List Char)) (st : IterState W) (key val : Option ZnValue)
    (h : (execIterationBlockFn globals evalStmtBlock IndexNames st key val).2 = none) :
    ∃ st2 : IterState W, st2.currentIndex = key ∧ st2.currentValue = val
      ∧ st2.entries = st.entries
      ∧ execIterationBlockFn globals evalStmtBlock IndexNames st key val = evalStmtBlock st2 := by
  match IndexNames with
  | [] =>
    exact ⟨{ st with currentIndex := key, currentValue := val }, rfl, rfl, rfl, rfl⟩
  | [valueSlot] =>
    simp only [execIterationBlockFn] at h ⊢
    cases h1 : (setValue globals st.scope valueSlot val).2 with
    | some err => rw [h1] at h; simp at h
    | none =>
      exact ⟨{ st with currentIndex := key, currentValue := val,
                       scope := (setValue globals st.scope valueSlot val).1 },
        rfl, rfl, rfl, rfl⟩
  | [keySlot, valueSlot] =>
    simp only [execIterationBlockFn] at h ⊢
    cases h1 : (setValue globals st.scope keySlot key).2 with
    | some err => rw [h1] at h; simp at h
    | none =>
      rw [h1] at h
      simp only at h ⊢
      cases h2 : (setValue globals (setValue globals st.scope keySlot key).1 valueSlot val).2 with
      | some err => rw [h2] at h; simp at h
      | none =>
        exact ⟨{ st with currentIndex := key, currentValue := val,
                         scope := (setValue globals (setValue globals st.scope keySlot key).1
                           valueSlot val).1 },
          rfl, rfl, rfl, rfl⟩
  | _ :: _ :: _ :: _ =>
    exact ⟨{ st with currentIndex := key, currentValue := val }, rfl, rfl, rfl, rfl⟩

/-- C15. Iterating a hashmap whose body neither breaks nor fails (the run of the
body once per key of `KeyOrder`, in that order, on the key as a string and the
value stored under it, goes through to a state `st1`) is what the loop of
`evalIterateStmt` does: it ends in `st1` with a nil error; and each run of the
body that does not fail on the index variables starts the block in a state whose
current index is the key and whose current value is the stored value. -/
theorem evalIterateStmt_hashmap_order {W : Type}
    (globals : List (List Char × Option ZnValue))
    (evalStmtBlock : IterState W → IterState W × Option Error)
    (world : W) (scope : List (BlockScope (Option ZnValue))) (IndexNames : List (List Char))
    (obj : Option ClassRef) (Value : List (List Char × ZnValue)) (KeyOrder : List (List Char))
    (st1 : IterState W)
    (hbind : (bindIndexNames globals scope IndexNames).2 = none)
    (hrun : runPerKey (execIterationBlockFn globals evalStmtBlock IndexNames) KeyOrder
        { world := world, scope := (bindIndexNames globals scope IndexNames).1,
          currentIndex := none, currentValue := none, items := [], entries := Value }
      = some st1) :
    evalIterateStmt globals evalStmtBlock world scope IndexNames (.hashmap obj Value KeyOrder)
        = (st1, none)
    ∧ ∀ (st : IterState W) (key : List Char),
        (execIterationBlockFn globals evalStmtBlock IndexNames st
            (some (.string none key)) (goMapGet st.entries key)).2 = none →
        ∃ st2 : IterState W, st2.currentIndex = some (.string none key)
          ∧ st2.currentValue = goMapGet st.entries key
          ∧ execIterationBlockFn globals evalStmtBlock IndexNames st
              (some (.string none key)) (goMapGet st.entries key) = evalStmtBlock st2 := by
  constructor
  · unfold evalIterateStmt
    simp only [hbind]
    exact iterateHashMap_runPerKey _ KeyOrder _ st1 hrun
  · intro st key h
    obtain ⟨st2, h1, h2, _, h4⟩ :=
      execIterationBlockFn_current globals evalStmtBlock IndexNames st _ _ h
    exact ⟨st2, h1, h2, h4⟩

/-- The hashmap of the literal `【「a」==1，「b」==2，「c」==3】`. -/
theorem NewZnHashMap_abc :
    NewZnHashMap [⟨"a".toList, .decimal (NewZnDecimalFromInt 1 0)⟩,
                  ⟨"b".toList, .decimal (NewZnDecimalFromInt 2 0)⟩,
                  ⟨"c".toList, .decimal (NewZnDecimalFromInt 3 0)⟩]
      = .hashmap none
          [("a".toList, .decimal (NewZnDecimalFromInt 1 0)),
           ("b".toList, .decimal (NewZnDecimalFromInt 2 0)),
           ("c".toList, .decimal (NewZnDecimalFromInt 3 0))]
          ["a".toList, "b".toList, "c".toList] := rfl

theorem evalIterateStmt_hashmap_order_witness :
    (evalIterateStmt [] recordBlock [] [{ symbolMap := [] }] ["K".toList, "V".toList]
        (.hashmap none
          [("a".toList, .decimal (NewZnDecimalFromInt 1 0)),
           ("b".toList, .decimal (NewZnDecimalFromInt 2 0)),
           ("c".toList, .decimal (NewZnDecimalFromInt 3 0))]
          ["a".toList, "b".toList, "c".toList])).2 = none
    ∧ (evalIterateStmt [] recordBlock [] [{ symbolMap := [] }] ["K".toList, "V".toList]
        (.hashmap none
          [("a".toList, .decimal (NewZnDecimalFromInt 1 0)),
           ("b".toList, .decimal (NewZnDecimalFromInt 2 0)),
           ("c".toList, .decimal (NewZnDecimalFromInt 3 0))]
          ["a".toList, "b".toList, "c".toList])).1.world
      = [[some (.string none "a".toList), some (.decimal (NewZnDecimalFromInt 1 0)),
          some (.string none "a".toList), some (.decimal (NewZnDecimalFromInt 1 0))],
         [some (.string none "b".toList), some (.decimal (NewZnDecimalFromInt 2 0)),
          some (.string none "b".toList), some (.decimal (NewZnDecimalFromInt 2 0))],
         [some (.string none "c".toList), some (.decimal (NewZnDecimalFromInt 3 0)),
          some (.string none "c".toList), some (.decimal (NewZnDecimalFromInt 3 0))]] :=
  have h := (evalIterateStmt_hashmap_order [] recordBlock [] [{ symbolMap := [] }]
    ["K".toList, "V".toList] none
    [("a".toList, .decimal (NewZnDecimalFromInt 1 0)),
     ("b".toList, .decimal (NewZnDecimalFromInt 2 0)),
     ("c".toList, .decimal (NewZnDecimalFromInt 3 0))]
    ["a".toList, "b".toList, "c".toList] _ rfl rfl).1
  ⟨(congrArg Prod.snd h).trans rfl, (congrArg (fun r => r.1.world) h).trans rfl⟩

/-! ## C18: the peek token after a successful parse -/

/-- C18. Whenever `Parser.Parse` returns with a nil error, the parser's peek
token exists and has type EOF, whatever the lexer and `ParseBlockStmt` do. -/
theorem Parse_nil_error_peek_EOF {L B : Type}
    (NextToken : L → Option (L × Except Error Token)) (GetLineIndent : L → Int → Int)
    (ParseBlockStmt : Parser L → Int → Outcome (Parser L) B) (p p1 : Parser L)
    (block : Option B)
    (h : p.Parse NextToken GetLineIndent ParseBlockStmt = some (p1, block, none)) :
    ∃ tk : Token, p1.peek = some tk ∧ tk.TokenType = TypeEOF := by
  unfold Parser.Parse at h
  split at h
  · cases h
  · simp at h
  · split at h
    · cases h
    · simp at h
    · split at h
      · cases h
      · dsimp only at h
        split at h
        · cases h
        · simp at h
        · rename_i p3 blk hb
          split at h
          · cases h
          · rename_i pk3 hpk
            split_ifs at h with hne
            · simp at h
            · simp only [Option.some.injEq, Prod.mk.injEq] at h
              obtain ⟨h1, _, _⟩ := h
              subst h1
              exact ⟨pk3, hpk, not_not.mp hne⟩

theorem Parse_nil_error_peek_EOF_witness :
    (NewParser [⟨TypeNumber, "1".toList, ⟨1, 0, 1, 1⟩⟩]).Parse
        listNextToken (fun _ _ => 0) oneTokenBlock = some (parsedOne, some (), none)
    ∧ ∃ tk : Token, parsedOne.peek = some tk ∧ tk.TokenType = TypeEOF :=
  ⟨rfl, Parse_nil_error_peek_EOF listNextToken (fun _ _ => 0) oneTokenBlock
    (NewParser [⟨TypeNumber, "1".toList, ⟨1, 0, 1, 1⟩⟩]) parsedOne (some ()) rfl⟩

/-! ## C16: the line table after end of file -/

/-- C16 fails on the code: on the source `1`, three calls of `NextToken` (the
number, EOF, and EOF again for the lookahead) return their tokens and leave the
line table with the entries (start 0, end 1) and (start 0, end 2), where the
first entry ends after the second one starts. -/
theorem NextToken_after_EOF_lines :
    (Lexer.nextTokens 10 3 (NewLexer ["1".toList])).map (fun r => (r.1, r.2.lines))
      = some ([NewNumberToken "1".toList ⟨1, 0, 1, 1⟩, NewTokenEOF 1 1, NewTokenEOF 1 2],
              [⟨0, 0, 1⟩, ⟨0, 0, 2⟩])
    ∧ linesOrdered [⟨0, 0, 1⟩, ⟨0, 0, 2⟩] = false :=
  ⟨rfl, rfl⟩

/-! ## Effect of the basic lexer operations -/

theorem next_cursor (l : Lexer) : l.next.2.cursor = l.cursor + 1 := by
  unfold Lexer.next Lexer.Read
  dsimp only
  split_ifs <;> (try split) <;> rfl

theorem next_CurrentLine (l : Lexer) : l.next.2.CurrentLine = l.CurrentLine := by
  unfold Lexer.next Lexer.Read
  dsimp only
  split_ifs <;> (try split) <;> rfl

theorem next_chBuffer (l : Lexer) : l.next.2.chBuffer = l.chBuffer := by
  unfold Lexer.next Lexer.Read
  dsimp only
  split_ifs <;> (try split) <;> rfl

theorem next_beginLex (l : Lexer) : l.next.2.beginLex = l.beginLex := by
  unfold Lexer.next Lexer.Read
  dsimp only
  split_ifs <;> (try split) <;> rfl

theorem next_lines (l : Lexer) : l.next.2.lines = l.lines := by
  unfold Lexer.next Lexer.Read
  dsimp only
  split_ifs <;> (try split) <;> rfl

theorem next_startIdx (l : Lexer) : l.next.2.startIdx = l.startIdx := by
  unfold Lexer.next Lexer.Read
  dsimp only
  split_ifs <;> (try split) <;> rfl

theorem next_indents (l : Lexer) : l.next.2.indents = l.indents := by
  unfold Lexer.next Lexer.Read
  dsimp only
  split_ifs <;> (try split) <;> rfl

theorem next_fst (l : Lexer) : l.next.1 = l.next.2.getChar (l.cursor + 1) := by
  have h := next_cursor l
  unfold Lexer.next at h ⊢
  dsimp only at h ⊢
  rw [h]

theorem getChar_source (l : Lexer) (idx : Int) (h0 : 0 ≤ idx)
    (h : idx < (l.lineBuffer.length : Int) ∨ l.blocks = []) :
    l.getChar idx = l.source.getD idx.toNat EOF := by
  unfold Lexer.getChar Lexer.source
  by_cases hlt : idx < (l.lineBuffer.length : Int)
  · have h1 : idx.toNat < l.lineBuffer.length := by omega
    rw [if_neg (by omega), List.getD_append _ _ _ _ h1]
  · have hb : l.blocks = [] := by
      rcases h with h | h
      · exact absurd h hlt
      · exact h
    rw [if_pos (by omega), hb]
    simp only [List.flatten_nil, List.append_nil]
    rw [List.getD_eq_default]
    omega

theorem next_source (l : Lexer) : l.next.2.source = l.source := by
  unfold Lexer.next Lexer.Read Lexer.source
  dsimp only
  split_ifs
  · split
    · rename_i hb; simp [hb]
    · rename_i b rest hb; simp [hb]
  · rfl
  · rfl

/-- What `next` returns under the reading invariant: the rune of the source
after the cursor, or EOF past the end; the invariant is kept. -/
theorem next_spec (l : Lexer) (hJ : l.buffered) (hc : -1 ≤ l.cursor) :
    l.next.1 = l.source.getD (l.cursor + 1).toNat EOF ∧ l.next.2.buffered := by
  have hsrc := next_source l
  have hcur := next_cursor l
  obtain ⟨hne, hend, hbuf⟩ := hJ
  have key : l.next.2.buffered
      ∧ (l.cursor + 1 < (l.next.2.lineBuffer.length : Int) ∨ l.next.2.blocks = []) := by
    unfold Lexer.next Lexer.Read Lexer.buffered
    dsimp only
    split_ifs with h1 h2
    · split
      · rename_i hb
        simp [hb]
      · rename_i b rest hb
        have hbne : b ≠ [] := hne b (by rw [hb]; exact List.mem_cons_self _ _)
        have hblen : 1 ≤ b.length := by
          cases b with
          | nil => exact absurd rfl hbne
          | cons x xs => simp
        have hlen : l.cursor + 1 ≤ (l.lineBuffer.length : Int) := by
          rcases hbuf with h | h
          · exact h
          · rw [h] at hb; cases hb
        refine ⟨⟨?_, ?_, ?_⟩, ?_⟩
        · intro b2 hb2
          exact hne b2 (by rw [hb]; exact List.mem_cons_of_mem _ hb2)
        · intro hre
          have := hend hre
          rw [this] at hb; cases hb
        · left
          simp only [List.length_append, Nat.cast_add]
          omega
        · left
          simp only [List.length_append, Nat.cast_add]
          omega
    · have hre : l.readEnd = true := by
        cases hr : l.readEnd with
        | true => rfl
        | false => exact absurd hr h2
      have hb : l.blocks = [] := hend hre
      exact ⟨⟨hne, hend, Or.inr hb⟩, Or.inr hb⟩
    · have h1' : ¬ (l.cursor + 1 + 2 ≥ (l.lineBuffer.length : Int)) := h1
      refine ⟨⟨hne, hend, ?_⟩, ?_⟩
      · left
        show l.cursor + 1 + 1 ≤ (l.lineBuffer.length : Int)
        omega
      · left
        show l.cursor + 1 < (l.lineBuffer.length : Int)
        omega
  refine ⟨?_, key.1⟩
  rw [next_fst, getChar_source l.next.2 (l.cursor + 1) (by omega) key.2, hsrc]

/-! ## The automaton of parseNumber -/

theorem digit_cases (c : Char) (h : c.isDigit = true) :
    c = '0' ∨ c = '1' ∨ c = '2' ∨ c = '3' ∨ c = '4' ∨ c = '5' ∨ c = '6' ∨ c = '7'
      ∨ c = '8' ∨ c = '9' := by
  have h1 : 48 ≤ c.toNat ∧ c.toNat ≤ 57 := by
    simp only [Char.isDigit, Bool.and_eq_true, decide_eq_true_eq] at h
    exact ⟨h.1, h.2⟩
  have hc : c = Char.ofNat c.toNat := (Char.ofNat_toNat c).symm
  obtain ⟨a, b⟩ := h1
  interval_cases hn : c.toNat <;> (rw [hc]; decide)

theorem digitState_cases (q q1 : Nat) (h : parseNumber.digitState q = some q1) :
    ((q = 1 ∨ q = 3 ∨ q = 5) ∧ q1 = 3) ∨ ((q = 2 ∨ q = 6) ∧ q1 = 6)
      ∨ ((q = 9 ∨ q = 11 ∨ q = 12) ∧ q1 = 12) := by
  unfold parseNumber.digitState at h
  simp only [parseNumber.sBegin, parseNumber.sIntEnd, parseNumber.sIntPMFlag,
    parseNumber.sDot, parseNumber.sDotDecEnd, parseNumber.sExpPMFlag,
    parseNumber.sSciEndFlag, parseNumber.sExpEnd] at h
  split_ifs at h with h1 h2 h3
  · left; exact ⟨h1, by injection h with h; exact h.symm⟩
  · right; left; exact ⟨h2, by injection h with h; exact h.symm⟩
  · right; right; exact ⟨h3, by injection h with h; exact h.symm⟩

theorem transition_digit (c : Char) (hc : c.isDigit = true) (q q1 : Nat)
    (h : parseNumber.digitState q = some q1) : parseNumber.transition q c = some q1 := by
  rcases digitState_cases q q1 h with ⟨hq, rfl⟩ | ⟨hq, rfl⟩ | ⟨hq, rfl⟩
  · rcases hq with rfl | rfl | rfl <;>
      rcases digit_cases c hc with rfl | rfl | rfl | rfl | rfl | rfl | rfl | rfl | rfl | rfl <;>
      rfl
  · rcases hq with rfl | rfl <;>
      rcases digit_cases c hc with rfl | rfl | rfl | rfl | rfl | rfl | rfl | rfl | rfl | rfl <;>
      rfl
  · rcases hq with rfl | rfl | rfl <;>
      rcases digit_cases c hc with rfl | rfl | rfl | rfl | rfl | rfl | rfl | rfl | rfl | rfl <;>
      rfl

theorem digit_ne_underscore (c : Char) (h : c.isDigit = true) : c ≠ '_' := by
  rintro rfl; revert h; decide

theorem run_cons (q : Nat) (c : Char) (rest : List Char) :
    parseNumber.run q (c :: rest)
      = if c = '_' then parseNumber.run q rest
        else (parseNumber.transition q c).bind (fun q1 => parseNumber.run q1 rest) := by
  conv_lhs => unfold parseNumber.run
  split_ifs
  · rfl
  · cases parseNumber.transition q c <;> rfl

theorem run_digits (D : List Char) (hD : ∀ c ∈ D, c.isDigit = true) :
    ∀ q q1 : Nat, parseNumber.digitState q = some q1 → parseNumber.digitState q1 = some q1 →
      parseNumber.run q D = some (if D = [] then q else q1) := by
  induction D with
  | nil => intro q q1 _ _; rfl
  | cons d D ih =>
    intro q q1 h1 h2
    have hd := hD d (List.mem_cons_self _ _)
    rw [run_cons, if_neg (digit_ne_underscore d hd), transition_digit d hd q q1 h1]
    simp only [List.cons_ne_nil, if_false, Option.bind]
    rw [ih (fun c hc => hD c (List.mem_cons_of_mem _ hc)) q1 q1 h2 h2]
    split_ifs <;> rfl

theorem run_append (a b : List Char) : ∀ q : Nat,
    parseNumber.run q (a ++ b) = (parseNumber.run q a).bind (fun q1 => parseNumber.run q1 b) := by
  induction a with
  | nil => intro q; rfl
  | cons c a ih =>
    intro q
    simp only [List.cons_append]
    rw [run_cons, run_cons]
    split_ifs
    · exact ih q
    · cases parseNumber.transition q c with
      | none => rfl
      | some q1 => exact ih q1

theorem run_strip (s : List Char) : ∀ q : Nat,
    parseNumber.run q (stripUnderscores s) = parseNumber.run q s := by
  induction s with
  | nil => intro q; rfl
  | cons c s ih =>
    intro q
    by_cases hc : c = '_'
    · subst hc
      have : stripUnderscores ('_' :: s) = stripUnderscores s := by
        simp [stripUnderscores]
      rw [this, ih q, run_cons, if_pos rfl]
    · have : stripUnderscores (c :: s) = c :: stripUnderscores s := by
        simp [stripUnderscores, hc]
      rw [this, run_cons, run_cons, if_neg hc, if_neg hc]
      cases parseNumber.transition q c with
      | none => rfl
      | some q1 => exact ih q1

/-- The automaton accepts the numbers of the lexer's expression
`[-+]?[0-9]*\.?[0-9]+((([eE][-+])|(\*(10)?\^[-+]?))[0-9]+)?`. -/
theorem run_number (sign DI DF mark DX : List Char) (dot hasExp : Bool)
    (hsign : sign = [] ∨ sign = ['+'] ∨ sign = ['-'])
    (hDI : ∀ c ∈ DI, c.isDigit = true) (hDF : ∀ c ∈ DF, c.isDigit = true) (hDFne : DF ≠ [])
    (hmark : mark = "E+".toList ∨ mark = "E-".toList ∨ mark = "e+".toList
      ∨ mark = "e-".toList ∨ mark = "*10^".toList ∨ mark = "*10^+".toList
      ∨ mark = "*10^-".toList ∨ mark = "*^".toList ∨ mark = "*^+".toList
      ∨ mark = "*^-".toList)
    (hDX : ∀ c ∈ DX, c.isDigit = true) (hDXne : DX ≠ []) :
    ∃ q, parseNumber.run parseNumber.sBegin
        (sign ++ DI ++ (if dot then ['.'] else []) ++ DF ++ (if hasExp then mark ++ DX else []))
          = some q ∧ q ∈ parseNumber.endStates := by
  -- the sign
  have h1 : ∃ q0, parseNumber.run 1 sign = some q0 ∧ (q0 = 1 ∨ q0 = 5) := by
    rcases hsign with rfl | rfl | rfl
    · exact ⟨1, rfl, Or.inl rfl⟩
    · exact ⟨5, rfl, Or.inr rfl⟩
    · exact ⟨5, rfl, Or.inr rfl⟩
  obtain ⟨q0, hr0, hq0⟩ := h1
  -- the integer digits
  have h2 : ∃ q2, parseNumber.run q0 DI = some q2 ∧ (q2 = 1 ∨ q2 = 3 ∨ q2 = 5) := by
    have hds : parseNumber.digitState q0 = some 3 := by rcases hq0 with rfl | rfl <;> rfl
    rw [run_digits DI hDI q0 3 hds rfl]
    by_cases hnil : DI = []
    · rw [if_pos hnil]; exact ⟨q0, rfl, by rcases hq0 with rfl | rfl <;> simp⟩
    · rw [if_neg hnil]; exact ⟨3, rfl, by simp⟩
  obtain ⟨q2, hr2, hq2⟩ := h2
  -- the point and the digits after it
  have h3 : ∃ q3, parseNumber.run q2 ((if dot then ['.'] else []) ++ DF) = some q3
      ∧ (q3 = 3 ∨ q3 = 6) := by
    cases dot with
    | true =>
      have hdot : parseNumber.run q2 ['.'] = some 2 := by
        rcases hq2 with rfl | rfl | rfl <;> rfl
      simp only [if_true]
      rw [run_append, hdot]
      simp only [Option.bind]
      rw [run_digits DF hDF 2 6 rfl rfl, if_neg hDFne]
      exact ⟨6, rfl, Or.inr rfl⟩
    | false =>
      have hds : parseNumber.digitState q2 = some 3 := by
        rcases hq2 with rfl | rfl | rfl <;> rfl
      simp only [Bool.false_eq_true, if_false, List.nil_append]
      rw [run_digits DF hDF q2 3 hds rfl, if_neg hDFne]
      exact ⟨3, rfl, Or.inl rfl⟩
  obtain ⟨q3, hr3, hq3⟩ := h3
  -- the exponent
  have h4 : ∃ q4, parseNumber.run q3 (if hasExp then mark ++ DX else []) = some q4
      ∧ (q4 = 3 ∨ q4 = 6 ∨ q4 = 12) := by
    cases hasExp with
    | false =>
      simp only [Bool.false_eq_true, if_false]
      exact ⟨q3, rfl, by rcases hq3 with rfl | rfl <;> simp⟩
    | true =>
      simp only [if_true]
      have hm : ∃ q5, parseNumber.run q3 mark = some q5 ∧ (q5 = 9 ∨ q5 = 11) := by
        rcases hq3 with rfl | rfl <;>
          rcases hmark with rfl | rfl | rfl | rfl | rfl | rfl | rfl | rfl | rfl | rfl <;>
          first
            | exact ⟨9, rfl, Or.inl rfl⟩
            | exact ⟨11, rfl, Or.inr rfl⟩
      obtain ⟨q5, hr5, hq5⟩ := hm
      have hds : parseNumber.digitState q5 = some 12 := by rcases hq5 with rfl | rfl <;> rfl
      rw [run_append, hr5]
      simp only [Option.bind]
      rw [run_digits DX hDX q5 12 hds rfl, if_neg hDXne]
      exact ⟨12, rfl, by simp⟩
  obtain ⟨q4, hr4, hq4⟩ := h4
  refine ⟨q4, ?_, ?_⟩
  · have e : sign ++ DI ++ (if dot then ['.'] else []) ++ DF
        ++ (if hasExp then mark ++ DX else [])
        = sign ++ (DI ++ (((if dot then ['.'] else []) ++ DF)
          ++ (if hasExp then mark ++ DX else []))) := by
      simp only [List.append_assoc]
    rw [e, run_append, show parseNumber.sBegin = 1 from rfl, hr0]
    simp only [Option.bind]
    rw [run_append, hr2]
    simp only [Option.bind]
    rw [run_append, hr3]
    simp only [Option.bind]
    exact hr4
  · rcases hq4 with rfl | rfl | rfl <;> decide

/-! ## C20: the lexer on a number -/

theorem transition_EOF (q : Nat) : parseNumber.transition q EOF = none := by
  unfold parseNumber.transition
  rw [if_neg (by decide), if_neg (by decide), if_neg (by decide), if_neg (by decide),
    if_neg (by decide), if_neg (by decide), if_neg (by decide), if_neg (by decide)]

theorem drop_succ_of_drop {α : Type} (xs : List α) (n : Nat) (c : α) (r : List α)
    (h : xs.drop n = c :: r) : xs.drop (n + 1) = r := by
  have : xs.drop (n + 1) = (xs.drop n).drop 1 := by rw [List.drop_drop, Nat.add_comm]
  rw [this, h]; rfl

theorem getD_of_drop (xs : List Char) (n : Nat) (r : List Char) (h : xs.drop n = r) :
    xs.getD n EOF = r.headD EOF := by
  subst h
  rw [List.getD_eq_getElem?_getD, List.headD_eq_head?_getD, List.head?_drop]

/-- The loop of `parseNumber` follows the automaton over the runes from the
cursor to the end of the source, and stops at EOF behind the last rune. -/
theorem parseNumberLoop_run :
    ∀ (rest : List Char) (fuel q0 q : Nat) (l : Lexer),
      l.buffered → 0 ≤ l.cursor → l.source.drop l.cursor.toNat = rest →
      parseNumber.run q0 rest = some q → rest.length + 1 ≤ fuel →
      ∃ l1, Lexer.parseNumberLoop fuel q0 (rest.headD EOF) l = some (q, EOF, l1)
        ∧ l1.buffered ∧ l1.source = l.source ∧ l1.cursor = l.cursor + rest.length
        ∧ l1.chBuffer = l.chBuffer ++ stripUnderscores rest
        ∧ l1.CurrentLine = l.CurrentLine ∧ l1.beginLex = l.beginLex := by
  intro rest
  induction rest with
  | nil =>
    intro fuel q0 q l hJ _ _ hrun hfuel
    obtain ⟨n, rfl⟩ : ∃ n, fuel = n + 1 := ⟨fuel - 1, by simp at hfuel; omega⟩
    simp only [parseNumber.run, Option.some.injEq] at hrun
    subst hrun
    refine ⟨l, ?_, hJ, rfl, by simp, by simp [stripUnderscores], rfl, rfl⟩
    simp [Lexer.parseNumberLoop]
  | cons c rest ih =>
    intro fuel q0 q l hJ hc hdrop hrun hfuel
    obtain ⟨n, rfl⟩ : ∃ n, fuel = n + 1 := ⟨fuel - 1, by simp at hfuel; omega⟩
    have hfuel1 : rest.length + 1 ≤ n := by simp at hfuel; omega
    have hnext := next_spec l hJ (by omega)
    have hcur := next_cursor l
    have htoNat : (l.cursor + 1).toNat = l.cursor.toNat + 1 := by omega
    have hdrop1 : l.source.drop (l.cursor.toNat + 1) = rest :=
      drop_succ_of_drop _ _ _ _ hdrop
    have hch : l.next.1 = rest.headD EOF := by
      rw [hnext.1, htoNat]; exact getD_of_drop _ _ _ hdrop1
    rw [run_cons] at hrun
    simp only [List.headD_cons]
    by_cases hu : c = '_'
    · rw [if_pos hu] at hrun
      have hne : c ≠ EOF := by rw [hu]; decide
      obtain ⟨l1, h1, h2, h3, h4, h5, h6, h7⟩ := ih n q0 q l.next.2 hnext.2
        (by rw [hcur]; omega) (by rw [next_source, hcur, htoNat]; exact hdrop1) hrun hfuel1
      refine ⟨l1, ?_, h2, by rw [h3, next_source], ?_, ?_, by rw [h6, next_CurrentLine],
        by rw [h7, next_beginLex]⟩
      · conv_lhs => unfold Lexer.parseNumberLoop
        rw [if_neg hne, if_pos hu, hch]
        exact h1
      · rw [h4, hcur]; simp only [List.length_cons, Nat.cast_add, Nat.cast_one]; omega
      · rw [h5, next_chBuffer, hu]
        simp [stripUnderscores]
    · rw [if_neg hu] at hrun
      cases ht : parseNumber.transition q0 c with
      | none => rw [ht] at hrun; simp at hrun
      | some q1 =>
        rw [ht] at hrun
        simp only [Option.bind] at hrun
        have hne : c ≠ EOF := by
          intro he; rw [he, transition_EOF] at ht; cases ht
        have hJ1 : (l.pushBuffer [c]).buffered := hJ
        have hnext1 := next_spec (l.pushBuffer [c]) hJ1 (by show -1 ≤ l.cursor; omega)
        have hcur1 : (l.pushBuffer [c]).next.2.cursor = l.cursor + 1 :=
          next_cursor (l.pushBuffer [c])
        have hsrc1 : (l.pushBuffer [c]).next.2.source = l.source :=
          next_source (l.pushBuffer [c])
        have hch1 : (l.pushBuffer [c]).next.1 = rest.headD EOF := by
          rw [hnext1.1]
          show l.source.getD (l.cursor + 1).toNat EOF = rest.headD EOF
          rw [htoNat]; exact getD_of_drop _ _ _ hdrop1
        obtain ⟨l1, h1, h2, h3, h4, h5, h6, h7⟩ := ih n q1 q (l.pushBuffer [c]).next.2
          hnext1.2 (by rw [hcur1]; omega) (by rw [hsrc1, hcur1, htoNat]; exact hdrop1)
          hrun hfuel1
        refine ⟨l1, ?_, h2, by rw [h3, hsrc1], ?_, ?_, ?_, ?_⟩
        · conv_lhs => unfold Lexer.parseNumberLoop
          rw [if_neg hne, if_neg hu, ht]
          simp only
          rw [hch1]
          exact h1
        · rw [h4, hcur1]; simp only [List.length_cons, Nat.cast_add, Nat.cast_one]; omega
        · rw [h5, next_chBuffer]
          show l.chBuffer ++ [c] ++ stripUnderscores rest = l.chBuffer ++ stripUnderscores (c :: rest)
          simp [stripUnderscores, hu]
        · rw [h6, next_CurrentLine]; rfl
        · rw [h7, next_beginLex]; rfl

theorem transition_begin_lead (c : Char) (q : Nat)
    (h : parseNumber.transition parseNumber.sBegin c = some q) :
    c.isDigit = true ∨ c = '.' ∨ c = '+' ∨ c = '-' := by
  by_contra hcon
  simp only [not_or] at hcon
  obtain ⟨hd, h1, h2, h3⟩ := hcon
  have hnd : ∀ d : Char, d.isDigit = true → c ≠ d := by
    intro d hd2 e; rw [e] at hd; exact hd hd2
  simp [parseNumber.transition, h1, h2, h3, hnd '0' (by decide), hnd '1' (by decide),
    hnd '2' (by decide), hnd '3' (by decide), hnd '4' (by decide),
    hnd '5' (by decide), hnd '6' (by decide), hnd '7' (by decide),
    hnd '8' (by decide), hnd '9' (by decide),
    parseNumber.sBegin, parseNumber.sDotDecEnd, parseNumber.sIntEnd,
    parseNumber.sSFlag, parseNumber.sSciII, parseNumber.sSciI, parseNumber.sEFlag,
    parseNumber.sSciEndFlag] at h

theorem lead_dispatch (c : Char) (h : c.isDigit = true ∨ c = '.' ∨ c = '+' ∨ c = '-') :
    c ≠ EOF ∧ ¬ (c = SP ∨ c = TAB) ∧ ¬ (c = CR ∨ c = LF) ∧ c ≠ GlyphZHU
      ∧ ¬ (Contains c LeftQuotes = true) ∧ c ≠ MiddleDot ∧ ¬ (isWhiteSpace c = true)
      ∧ (isNumber c = true ∨ Contains c ['.', '+', '-'] = true) := by
  have hc : c = '0' ∨ c = '1' ∨ c = '2' ∨ c = '3' ∨ c = '4' ∨ c = '5' ∨ c = '6' ∨ c = '7'
      ∨ c = '8' ∨ c = '9' ∨ c = '.' ∨ c = '+' ∨ c = '-' := by
    rcases h with h | h | h | h
    · rcases digit_cases c h with e | e | e | e | e | e | e | e | e | e <;> simp [e]
    · simp [h]
    · simp [h]
    · simp [h]
  rcases hc with rfl | rfl | rfl | rfl | rfl | rfl | rfl | rfl | rfl | rfl | rfl | rfl | rfl <;>
    exact ⟨by decide, by decide, by decide, by decide, by decide, by decide, by decide,
      by decide⟩

theorem nextTokenHead_succ (fuel : Nat) (l0 : Lexer) :
    Lexer.nextTokenHead (fuel + 1) l0 = (
    let ch := l0.next.1
    let l := l0.next.2
    if ch = EOF then
      let l1 := l.PushLine l.cursor
      some (.ok (NewTokenEOF l1.CurrentLine l1.cursor), l1)
    else if ch = SP ∨ ch = TAB then
      if l.onIndentStage then
        match l.parseIndents fuel ch with
        | none => none
        | some (some err, l1) => some (.error err, l1)
        | some (none, l1) => Lexer.nextTokenHead fuel l1
      else
        match Lexer.consumeWhiteSpace fuel l with
        | none => none
        | some l1 => Lexer.nextTokenHead fuel l1
    else if ch = CR ∨ ch = LF then
      match l.parseCRLF ch with
      | (.error err, l1) => some (.error err, l1)
      | (.ok _, l1) => Lexer.nextTokenHead fuel l1
    else if ch = GlyphZHU then
      let cursor := l.cursor
      let rg := newTokenRange l
      match Lexer.validateComment fuel [] l with
      | none => none
      | some ((isComment, isMultiLine, note), l1) =>
        if isComment = true then
          l1.parseComment fuel (l1.getChar l1.cursor) isMultiLine note rg
        else (l1.rebase cursor).parseIdentifier fuel ch
    else if Contains ch LeftQuotes then l.parseString fuel ch
    else if ch = MiddleDot then l.parseVarQuote fuel ch
    else if isWhiteSpace ch then
      match Lexer.consumeWhiteSpace fuel l with
      | none => none
      | some l1 => Lexer.nextTokenHead fuel l1
    else if isNumber ch ∨ Contains ch ['.', '+', '-'] then l.parseNumber fuel ch
    else if Contains ch MarkLeads then some (l.parseMarkers ch)
    else
      match l.parseKeyword ch true with
      | (some tk, l1) => some (.ok tk, l1)
      | (none, l1) => l1.parseIdentifier fuel ch) := rfl

theorem nextTokenHead_number (n : Nat) (l0 : Lexer)
    (h : l0.next.1.isDigit = true ∨ l0.next.1 = '.' ∨ l0.next.1 = '+' ∨ l0.next.1 = '-') :
    Lexer.nextTokenHead (n + 1) l0 = l0.next.2.parseNumber n l0.next.1 := by
  obtain ⟨h1, h2, h3, h4, h5, h6, h7, h8⟩ := lead_dispatch _ h
  rw [nextTokenHead_succ]
  dsimp only
  rw [if_neg h1, if_neg h2, if_neg h3, if_neg h4, if_neg h5, if_neg h6, if_neg h7, if_pos h8]

theorem nextTokenHead_EOF (n : Nat) (l0 : Lexer) (h : l0.next.1 = EOF) :
    Lexer.nextTokenHead (n + 1) l0
      = some (.ok (NewTokenEOF l0.next.2.CurrentLine l0.next.2.cursor),
          l0.next.2.PushLine l0.next.2.cursor) := by
  rw [nextTokenHead_succ]
  dsimp only
  rw [if_pos h]
  rfl

/-- The lexer on a source that the automaton of `parseNumber` accepts as a
whole: a number token for the whole source, then EOF. -/
theorem NextToken_of_run (blocks : List (List Char)) (s : List Char) (c : Char)
    (s1 : List Char) (q fuel : Nat)
    (hb : blocks.flatten = s) (hne : ∀ b ∈ blocks, b ≠ [])
    (hs : s = c :: s1) (hc : c ≠ '_')
    (hrun : parseNumber.run parseNumber.sBegin s = some q) (hq : q ∈ parseNumber.endStates)
    (hfuel : s.length + 2 ≤ fuel) :
    ∃ l1 l2 : Lexer,
      (NewLexer blocks).NextToken fuel
        = some (.ok (NewNumberToken (stripUnderscores s) ⟨1, 0, 1, s.length⟩), l1)
      ∧ l1.NextToken fuel = some (.ok (NewTokenEOF 1 s.length), l2) := by
  obtain ⟨n, rfl⟩ : ∃ n, fuel = n + 1 := ⟨fuel - 1, by omega⟩
  have hn : s.length + 1 ≤ n := by omega
  -- the first call starts at `head` with `beginLex` cleared
  have e0 : (NewLexer blocks).NextToken (n + 1)
      = Lexer.nextTokenHead (n + 1) { NewLexer blocks with beginLex := false } := by
    have hb0 : (NewLexer blocks).beginLex = true := rfl
    have hp0 : Contains (Lexer.peek { NewLexer blocks with beginLex := false }) [SP, TAB, EOF]
        = true := rfl
    unfold Lexer.NextToken
    rw [if_pos hb0]
    dsimp only
    rw [if_neg (not_not.mpr hp0)]
  have hJ0 : ({ NewLexer blocks with beginLex := false } : Lexer).buffered := by
    refine ⟨hne, ?_, ?_⟩
    · intro h
      have h2 : false = true := h
      cases h2
    · left
      show (-1 : Int) + 1 ≤ ((0 : Nat) : Int)
      simp
  have hsrc0 : ({ NewLexer blocks with beginLex := false } : Lexer).source = s := by
    show [] ++ blocks.flatten = s
    rw [List.nil_append, hb]
  obtain ⟨hch0, hJ1⟩ := next_spec _ hJ0 (by show (-1 : Int) ≤ -1; omega)
  have hcur1 := next_cursor ({ NewLexer blocks with beginLex := false } : Lexer)
  have hline1 := next_CurrentLine ({ NewLexer blocks with beginLex := false } : Lexer)
  have hbl1 := next_beginLex ({ NewLexer blocks with beginLex := false } : Lexer)
  have hsrc1 := next_source ({ NewLexer blocks with beginLex := false } : Lexer)
  rw [hsrc0] at hch0 hsrc1
  have hch : ({ NewLexer blocks with beginLex := false } : Lexer).next.1 = c := by
    rw [hch0, hs]; rfl
  have hlead : c.isDigit = true ∨ c = '.' ∨ c = '+' ∨ c = '-' := by
    rw [hs, run_cons, if_neg hc] at hrun
    cases ht : parseNumber.transition parseNumber.sBegin c with
    | none => rw [ht] at hrun; cases hrun
    | some q1 => exact transition_begin_lead c q1 ht
  rw [e0, nextTokenHead_number n _ (by rw [hch]; exact hlead), hch]
  -- the loop over the whole source
  generalize ({ NewLexer blocks with beginLex := false } : Lexer).next.2 = la at *
  have hcur1' : la.cursor = 0 := by rw [hcur1]; rfl
  have hline1' : la.CurrentLine = 1 := by rw [hline1]; rfl
  have hbl1' : la.beginLex = false := by rw [hbl1]
  obtain ⟨lb, hloop, hJb, hsrcb, hcurb, hbufb, hlineb, hblb⟩ :=
    parseNumberLoop_run s n parseNumber.sBegin q la.clearBuffer hJ1
      (by show 0 ≤ la.cursor; omega)
      (by show la.source.drop la.cursor.toNat = s; rw [hsrc1, hcur1']; rfl) hrun hn
  have hhead : s.headD EOF = c := by rw [hs]; rfl
  rw [hhead] at hloop
  have hcurb' : lb.cursor = s.length := by
    rw [hcurb]; show la.cursor + (s.length : Int) = s.length; omega
  have hlineb' : lb.CurrentLine = 1 := by rw [hlineb]; exact hline1'
  have hbufb' : lb.chBuffer = stripUnderscores s := by rw [hbufb]; rfl
  have hsrcb' : lb.source = s := by rw [hsrcb]; exact hsrc1
  have hcontains : parseNumber.endStates.contains q = true := by
    simpa using hq
  refine ⟨lb.rebase (lb.cursor - 1), (lb.rebase (lb.cursor - 1)).next.2.PushLine
    (lb.rebase (lb.cursor - 1)).next.2.cursor, ?_, ?_⟩
  · unfold Lexer.parseNumber
    dsimp only
    rw [hloop]
    dsimp only
    rw [if_pos hcontains]
    have hrg : (newTokenRange la.clearBuffer).setRangeEnd (lb.rebase (lb.cursor - 1))
        = ⟨1, 0, 1, s.length⟩ := by
      show (⟨la.CurrentLine, la.cursor, lb.CurrentLine, lb.cursor - 1 + 1⟩ : TokenRange)
        = ⟨1, 0, 1, s.length⟩
      rw [hline1', hcur1', hlineb', hcurb']
      simp
    rw [hrg]
    show some (Except.ok (NewNumberToken lb.chBuffer ⟨1, 0, 1, s.length⟩), _) = _
    rw [hbufb']
  · have hJc : (lb.rebase (lb.cursor - 1)).buffered := by
      obtain ⟨a1, a2, a3⟩ := hJb
      refine ⟨a1, a2, ?_⟩
      rcases a3 with a3 | a3
      · left; show lb.cursor - 1 + 1 ≤ (lb.lineBuffer.length : Int); omega
      · right; exact a3
    obtain ⟨hchc, -⟩ := next_spec _ hJc
      (by show -1 ≤ lb.cursor - 1; omega)
    have hsrcc : (lb.rebase (lb.cursor - 1)).source = s := hsrcb'
    have hEOF : (lb.rebase (lb.cursor - 1)).next.1 = EOF := by
      rw [hchc, hsrcc]
      show s.getD (lb.cursor - 1 + 1).toNat EOF = EOF
      rw [List.getD_eq_default]
      rw [hcurb']; omega
    have hbl : (lb.rebase (lb.cursor - 1)).beginLex = false := by
      show lb.beginLex = false
      rw [hblb]; exact hbl1'
    unfold Lexer.NextToken
    rw [if_neg (by rw [hbl]; simp), nextTokenHead_EOF n _ hEOF, next_CurrentLine, next_cursor]
    show some (Except.ok (NewTokenEOF lb.CurrentLine (lb.cursor - 1 + 1)), _) = _
    rw [hlineb', hcurb']
    simp

/-- C20 as the code has it. For every text `s` that does not start with `_` and
that, with its underscores removed, reads `[+-]? digits* .? digits+` followed
or not by an exponent (`E` or `e` with a sign, or `*10^` or `*^` with or without
a sign, then digits), the lexer on `s`, delivered in any non-empty blocks and
with fuel beyond the length of `s`, returns without error the number token whose
literal is `s` with the underscores removed and whose range is the whole of `s`,
and then the EOF token. -/
theorem NextToken_number (blocks : List (List Char)) (s sign DI DF mark DX : List Char)
    (dot hasExp : Bool) (fuel : Nat)
    (hb : blocks.flatten = s) (hne : ∀ b ∈ blocks, b ≠ [])
    (hhead : s.head? ≠ some '_')
    (hsign : sign = [] ∨ sign = ['+'] ∨ sign = ['-'])
    (hDI : ∀ c ∈ DI, c.isDigit = true) (hDF : ∀ c ∈ DF, c.isDigit = true) (hDFne : DF ≠ [])
    (hmark : mark = "E+".toList ∨ mark = "E-".toList ∨ mark = "e+".toList
      ∨ mark = "e-".toList ∨ mark = "*10^".toList ∨ mark = "*10^+".toList
      ∨ mark = "*10^-".toList ∨ mark = "*^".toList ∨ mark = "*^+".toList
      ∨ mark = "*^-".toList)
    (hDX : ∀ c ∈ DX, c.isDigit = true) (hDXne : DX ≠ [])
    (hs : stripUnderscores s
      = sign ++ DI ++ (if dot then ['.'] else []) ++ DF ++ (if hasExp then mark ++ DX else []))
    (hfuel : s.length + 2 ≤ fuel) :
    ∃ l1 l2 : Lexer,
      (NewLexer blocks).NextToken fuel
        = some (.ok (NewNumberToken (stripUnderscores s) ⟨1, 0, 1, s.length⟩), l1)
      ∧ l1.NextToken fuel = some (.ok (NewTokenEOF 1 s.length), l2) := by
  obtain ⟨q, hrun, hq⟩ :=
    run_number sign DI DF mark DX dot hasExp hsign hDI hDF hDFne hmark hDX hDXne
  rw [← hs, run_strip] at hrun
  cases s with
  | nil =>
    exfalso
    have : DF = [] := by
      have h0 : stripUnderscores ([] : List Char) = [] := rfl
      rw [h0] at hs
      have := congrArg List.length hs
      simp only [List.length_nil, List.length_append] at this
      exact List.length_eq_zero.mp (by omega)
    exact hDFne this
  | cons c s1 =>
    have hc : c ≠ '_' := by
      intro e; apply hhead; rw [e]; rfl
    exact NextToken_of_run blocks (c :: s1) c s1 q fuel hb hne rfl hc hrun hq hfuel

theorem NextToken_number_witness :
    ∃ l1 l2 : Lexer,
      (NewLexer ["+1_2".toList, ".5*10^-3".toList]).NextToken 14
        = some (.ok (NewNumberToken (stripUnderscores "+1_2.5*10^-3".toList)
            ⟨1, 0, 1, "+1_2.5*10^-3".toList.length⟩), l1)
      ∧ l1.NextToken 14 = some (.ok (NewTokenEOF 1 "+1_2.5*10^-3".toList.length), l2) :=
  NextToken_number ["+1_2".toList, ".5*10^-3".toList] "+1_2.5*10^-3".toList
    ['+'] ['1', '2'] ['5'] "*10^-".toList ['3'] true true 14 (by decide) (by decide)
    (by decide) (by decide) (by decide) (by decide) (by decide) (by decide) (by decide)
    (by decide) (by decide) (by decide)

/-- C20 fails as stated: `1E5` and `1.` match the number expression of the
specification as a whole, and the lexer answers both with the error
invalid-character (code 0x2026). -/
theorem NextToken_number_counterexample :
    specNumberRegex "1E5".toList = true
    ∧ ((NewLexer ["1E5".toList]).NextToken 10).map Prod.fst
        = some (.error (InvalidChar '5'))
    ∧ specNumberRegex "1.".toList = true
    ∧ ((NewLexer ["1.".toList]).NextToken 10).map Prod.fst = some (.error (InvalidChar EOF))
    ∧ (InvalidChar '5').code = 0x2026 :=
  ⟨by decide, rfl, by decide, rfl, rfl⟩

/-! ## C17: token ranges -/

theorem quotePush_cursor (l : Lexer) (ch : Char) : (l.quotePush ch).2.cursor = l.cursor := by
  unfold Lexer.quotePush; split_ifs <;> rfl

theorem quotePush_CurrentLine (l : Lexer) (ch : Char) :
    (l.quotePush ch).2.CurrentLine = l.CurrentLine := by
  unfold Lexer.quotePush; split_ifs <;> rfl

theorem SetIndent_cursor (l : Lexer) (count : Int) (t : Nat) :
    (l.SetIndent count t).2.cursor = l.cursor := by
  unfold Lexer.SetIndent Lexer.setScanCursor
  dsimp only
  split_ifs <;> rfl

theorem SetIndent_CurrentLine (l : Lexer) (count : Int) (t : Nat) :
    (l.SetIndent count t).2.CurrentLine = l.CurrentLine := by
  unfold Lexer.SetIndent Lexer.setScanCursor
  dsimp only
  split_ifs <;> rfl

theorem parseCRLF_CurrentLine (l : Lexer) (ch : Char) :
    (l.parseCRLF ch).2.CurrentLine = l.CurrentLine + 1 := by
  unfold Lexer.parseCRLF
  dsimp only
  have hN : ∀ (x : Lexer) (i : Int), (x.NewLine i).CurrentLine = x.CurrentLine + 1 :=
    fun _ _ => rfl
  have hP : ∀ (x : Lexer) (i : Int), (x.PushLine i).CurrentLine = x.CurrentLine :=
    fun _ _ => rfl
  have hS : ∀ (x : Lexer) (nl : List Char),
      (match x.SetIndent 0 IdetUnknown with
        | (some err, l3) => ((Except.error err : Except Error (List Char)), l3)
        | (none, l3) => (Except.ok nl, l3)).2.CurrentLine = x.CurrentLine := by
    intro x nl
    have := SetIndent_CurrentLine x 0 IdetUnknown
    rcases hx : x.SetIndent 0 IdetUnknown with ⟨e, l3⟩
    rw [hx] at this
    cases e <;> exact this
  split_ifs <;>
    first
      | (refine (hS _ _).trans ?_; simp only [hN, hP, next_CurrentLine])
      | simp only [hN, hP, next_CurrentLine]

theorem ordered_setRangeEnd (rg : TokenRange) (l : Lexer) (h : rg.startsBefore l) :
    (rg.setRangeEnd l).ordered := by
  unfold TokenRange.startsBefore at h
  unfold TokenRange.ordered TokenRange.setRangeEnd
  dsimp only
  omega

theorem ordered_newTokenRange (l : Lexer) : (newTokenRange l).ordered := by
  unfold TokenRange.ordered newTokenRange
  dsimp only
  omega

theorem startsBefore_of_pos (rg : TokenRange) (l l1 : Lexer) (h : rg.startsBefore l)
    (h1 : l.CurrentLine < l1.CurrentLine
      ∨ (l.CurrentLine = l1.CurrentLine ∧ l.cursor ≤ l1.cursor)) :
    rg.startsBefore l1 := by
  unfold TokenRange.startsBefore at h ⊢
  omega

theorem startsBefore_setRangeEnd (rg : TokenRange) (l0 l : Lexer) :
    (rg.setRangeEnd l0).startsBefore l ↔ rg.startsBefore l := Iff.rfl

theorem validateComment_succ (fuel : Nat) (note : List Char) (l : Lexer) :
    Lexer.validateComment (fuel + 1) note l = (
    let ch := l.next.1
    let l1 := l.next.2
    if ch = Colon then
      if Contains l1.peek [LeftQuoteIV, LeftQuoteII] then
        some ((true, true, note), l1.next.2)
      else some ((true, false, note), l1)
    else if isNumber ch ∨ isWhiteSpace ch then
      Lexer.validateComment fuel (note ++ [ch]) l1
    else some ((false, false, note), l1)) := rfl

theorem parseCommentLoop_succ ( isMultiLine : Bool) (note : List Char) (fuel : Nat) (rg : TokenRange) (l : Lexer) :
    Lexer.parseCommentLoop isMultiLine note (fuel + 1) rg l = (
    let ch := l.next.1
    let l1 := l.next.2
    if ch = EOF then
      let l2 := l1.rebase (l1.cursor - 1)
      let rg1 := rg.setRangeEnd l2
      some (.ok (NewCommentToken l2.chBuffer note rg1), l2)
    else if ch = CR ∨ ch = LF then
      match l1.parseCRLF ch with
      | (.error err, l2) => some (.error err, l2)
      | (.ok nl, l2) =>
        if isMultiLine = false then some (.ok (NewCommentToken l2.chBuffer note rg), l2)
        else
          let l3 := l2.pushBuffer nl
          match l3.SetIndent 0 IdetUnknown with
          | (some err, l4) => some (.error err, l4)
          | (none, l4) => Lexer.parseCommentLoop isMultiLine note fuel rg l4
    else
      if isMultiLine = true then
        let pushed : Bool × Lexer :=
          if Contains ch LeftQuotes then l1.quotePush ch else (true, l1)
        if pushed.1 = false then some (.error (QuoteStackFull 32), pushed.2)
        else
          let l2 := pushed.2
          if Contains ch RightQuotes then
            let l3 := if QuoteMatchMap l2.quoteCurrent = ch then l2.quotePop else l2
            if l3.quoteStack.length = 0 then
              let rg1 := rg.setRangeEnd l3
              let l4 := l3.pushBuffer [ch]
              some (.ok (NewCommentToken l4.chBuffer note rg1), l4)
            else
              let l4 := l3.pushBuffer [ch]
              Lexer.parseCommentLoop isMultiLine note fuel (rg.setRangeEnd l4) l4
          else
            let l4 := l2.pushBuffer [ch]
            Lexer.parseCommentLoop isMultiLine note fuel (rg.setRangeEnd l4) l4
      else
        let l4 := l1.pushBuffer [ch]
        Lexer.parseCommentLoop isMultiLine note fuel (rg.setRangeEnd l4) l4) := rfl

theorem parseStringLoop_succ (firstChar : Char) (rg : TokenRange) (fuel : Nat) (l : Lexer) :
    Lexer.parseStringLoop firstChar rg (fuel + 1) l = (
    let ch := l.next.1
    let l1 := l.next.2
    if ch = EOF then
      let l2 := l1.rebase (l1.cursor - 1)
      some (.ok (NewStringToken l2.chBuffer firstChar (rg.setRangeEnd l2)), l2)
    else if Contains ch LeftQuotes then
      let l2 := l1.pushBuffer [ch]
      let pushed := l2.quotePush ch
      if pushed.1 = false then some (.error (QuoteStackFull 32), pushed.2)
      else Lexer.parseStringLoop firstChar rg fuel pushed.2
    else if Contains ch RightQuotes then
      let l2 := if QuoteMatchMap l1.quoteCurrent = ch then l1.quotePop else l1
      if l2.quoteStack.length = 0 then
        some (.ok (NewStringToken l2.chBuffer firstChar (rg.setRangeEnd l2)), l2)
      else Lexer.parseStringLoop firstChar rg fuel (l2.pushBuffer [ch])
    else if ch = CR ∨ ch = LF then
      match l1.parseCRLF ch with
      | (.error err, l2) => some (.error err, l2)
      | (.ok nl, l2) =>
        let l3 := l2.pushBuffer nl
        match l3.SetIndent 0 IdetUnknown with
        | (some err, l4) => some (.error err, l4)
        | (none, l4) => Lexer.parseStringLoop firstChar rg fuel l4
    else Lexer.parseStringLoop firstChar rg fuel (l1.pushBuffer [ch])) := rfl

theorem parseVarQuoteLoop_succ (rg : TokenRange) (fuel : Nat) (count : Int) (l : Lexer) :
    Lexer.parseVarQuoteLoop rg (fuel + 1) count l = (
    let ch := l.next.1
    let l1 := l.next.2
    if ch = EOF then
      let l2 := l1.rebase (l1.cursor - 1)
      some (.ok (NewVarQuoteToken l2.chBuffer (rg.setRangeEnd l2)), l2)
    else if ch = MiddleDot then
      some (.ok (NewVarQuoteToken l1.chBuffer (rg.setRangeEnd l1)), l1)
    else if isWhiteSpace ch then Lexer.parseVarQuoteLoop rg fuel count l1
    else if isIdentifierChar ch (decide (count = 0)) then
      let l2 := l1.pushBuffer [ch]
      if count + 1 > maxIdentifierLength then
        some (.error (IdentifierExceedLength maxIdentifierLength), l2)
      else Lexer.parseVarQuoteLoop rg fuel (count + 1) l2
    else some (.error InvalidIdentifier, l1)) := rfl

theorem parseNumberLoop_succ (fuel state : Nat) (ch : Char) (l : Lexer) :
    Lexer.parseNumberLoop (fuel + 1) state ch l = (
    if ch = EOF then some (state, ch, l)
    else if ch = '_' then Lexer.parseNumberLoop fuel state l.next.1 l.next.2
    else
      match parseNumber.transition state ch with
      | none => some (state, ch, l)
      | some state1 =>
        Lexer.parseNumberLoop fuel state1 (l.pushBuffer [ch]).next.1 (l.pushBuffer [ch]).next.2) := rfl

theorem parseIdentifierLoop_succ (fuel : Nat) (count : Int) (rg : TokenRange) (l : Lexer) :
    Lexer.parseIdentifierLoop (fuel + 1) count rg l = (
    let prev := l.cursor
    let ch := l.next.1
    let l1 := l.next.2
    if isWhiteSpace ch then Lexer.parseIdentifierLoop fuel count rg l1
    else
      let kw := l1.parseKeyword ch false
      if kw.1.isSome then
        let l2 := kw.2.rebase prev
        some (.ok (NewIdentifierToken l2.chBuffer (rg.setRangeEnd l2)), l2)
      else
        let zhu : Option (Bool × Lexer) :=
          if ch = GlyphZHU then
            match Lexer.validateComment fuel [] kw.2 with
            | none => none
            | some (r, l2) => some (r.1, l2)
          else some (false, kw.2)
        match zhu with
        | none => none
        | some (true, l2) =>
          let l3 := l2.rebase prev
          some (.ok (NewIdentifierToken l3.chBuffer (rg.setRangeEnd l3)), l3)
        | some (false, l2) =>
          let l3 := if ch = GlyphZHU then l2.rebase (prev + 1) else l2
          if Contains ch terminators then
            let l4 := l3.rebase prev
            some (.ok (NewIdentifierToken l4.chBuffer rg), l4)
          else if isIdentifierChar ch false then
            if count ≥ maxIdentifierLength then
              some (.error (IdentifierExceedLength maxIdentifierLength), l3)
            else
              let l4 := l3.pushBuffer [ch]
              Lexer.parseIdentifierLoop fuel (count + 1) (rg.setRangeEnd l4) l4
          else some (.error (InvalidChar ch), l3)) := rfl

theorem ok_inj {A tok : Token} {l1 l2 : Lexer}
    (h : some ((Except.ok A : Except Error Token), l2) = some (Except.ok tok, l1)) :
    tok = A := by
  simp only [Option.some.injEq, Prod.mk.injEq, Except.ok.injEq] at h
  exact h.1.symm

theorem startsBefore_next (rg : TokenRange) (l : Lexer) (h : rg.startsBefore l) :
    rg.startsBefore l.next.2 :=
  startsBefore_of_pos rg l _ h
    (Or.inr ⟨(next_CurrentLine l).symm, by rw [next_cursor]; omega⟩)

theorem startsBefore_newLine (rg : TokenRange) (l l1 : Lexer) (h : rg.startsBefore l)
    (h1 : l1.CurrentLine = l.CurrentLine + 1) : rg.startsBefore l1 :=
  startsBefore_of_pos rg l _ h (Or.inl (by omega))

theorem NewStringToken_Range (buf : List Char) (q : Char) (rg : TokenRange) :
    (NewStringToken buf q rg).Range = rg := rfl

theorem parseStringLoop_range (firstChar : Char) (rg : TokenRange) :
    ∀ (fuel : Nat) (l : Lexer) (tok : Token) (l1 : Lexer),
      rg.startsBefore l →
      Lexer.parseStringLoop firstChar rg fuel l = some (.ok tok, l1) → tok.Range.ordered := by
  intro fuel
  induction fuel with
  | zero =>
    intro l tok l1 _ h
    have h0 : Lexer.parseStringLoop firstChar rg 0 l = none := rfl
    rw [h0] at h
    cases h
  | succ n ih =>
    intro l tok l1 hs h
    rw [parseStringLoop_succ] at h
    dsimp only at h
    split_ifs at h
    all_goals
      first
        | (rw [ok_inj h, NewStringToken_Range]
           simp only [TokenRange.startsBefore, TokenRange.ordered, TokenRange.setRangeEnd,
             Lexer.rebase, Lexer.pushBuffer, Lexer.quotePop, next_cursor, next_CurrentLine,
             quotePush_cursor, quotePush_CurrentLine] at hs ⊢
           omega)
        | (refine ih _ tok l1 ?_ h
           simp only [TokenRange.startsBefore, TokenRange.ordered, TokenRange.setRangeEnd,
             Lexer.rebase, Lexer.pushBuffer, Lexer.quotePop, next_cursor, next_CurrentLine,
             quotePush_cursor, quotePush_CurrentLine] at hs ⊢
           omega)
        | cases h
        | skip
    -- the line break
    split at h
    · cases h
    · rename_i nl l2 heq
      have e2 : l2 = (l.next.2.parseCRLF l.next.1).2 := by rw [heq]
      split at h
      · cases h
      · rename_i l4 heq4
        have e4 : l4 = ((l2.pushBuffer nl).SetIndent 0 IdetUnknown).2 := by rw [heq4]
        refine ih _ tok l1 ?_ h
        rw [e4, e2]
        simp only [TokenRange.startsBefore, Lexer.pushBuffer, next_cursor, next_CurrentLine,
          SetIndent_cursor, SetIndent_CurrentLine, parseCRLF_CurrentLine] at hs ⊢
        omega

theorem validateComment_pos :
    ∀ (fuel : Nat) (note : List Char) (l : Lexer) (r : Bool × Bool × List Char) (l1 : Lexer),
      Lexer.validateComment fuel note l = some (r, l1) →
      l1.CurrentLine = l.CurrentLine ∧ l.cursor ≤ l1.cursor := by
  intro fuel
  induction fuel with
  | zero =>
    intro note l r l1 h
    have h0 : Lexer.validateComment 0 note l = none := rfl
    rw [h0] at h
    cases h
  | succ n ih =>
    intro note l r l1 h
    rw [validateComment_succ] at h
    dsimp only at h
    split_ifs at h
    all_goals
      first
        | (have hp := ih _ _ _ _ h
           simp only [next_cursor, next_CurrentLine] at hp
           exact ⟨hp.1, by omega⟩)
        | (simp only [Option.some.injEq, Prod.mk.injEq] at h
           obtain ⟨_, rfl⟩ := h
           simp only [next_cursor, next_CurrentLine]
           exact ⟨trivial, by omega⟩)

theorem NewCommentToken_Range (buf note : List Char) (rg : TokenRange) :
    (NewCommentToken buf note rg).Range = rg := rfl

theorem parseCommentLoop_range ( isMultiLine : Bool) (note : List Char) :
    ∀ (fuel : Nat) (rg : TokenRange) (l : Lexer) (tok : Token) (l1 : Lexer),
      rg.ordered → rg.startsBefore l →
      Lexer.parseCommentLoop isMultiLine note fuel rg l = some (.ok tok, l1) →
      tok.Range.ordered := by
  intro fuel
  induction fuel with
  | zero =>
    intro rg l tok l1 _ _ h
    have h0 : Lexer.parseCommentLoop isMultiLine note 0 rg l = none := rfl
    rw [h0] at h
    cases h
  | succ n ih =>
    intro rg l tok l1 ho hs h
    rw [parseCommentLoop_succ] at h
    dsimp only at h
    split_ifs at h
    all_goals
      first
        | (rw [ok_inj h, NewCommentToken_Range]
           simp only [TokenRange.startsBefore, TokenRange.ordered, TokenRange.setRangeEnd,
             Lexer.rebase, Lexer.pushBuffer, Lexer.quotePop, next_cursor, next_CurrentLine,
             quotePush_cursor, quotePush_CurrentLine] at hs ho ⊢
           omega)
        | cases h
        | (fail_if_success (split at h)
           refine ih _ _ tok l1 ?_ ?_ h <;>
           (simp only [TokenRange.startsBefore, TokenRange.ordered, TokenRange.setRangeEnd,
             Lexer.rebase, Lexer.pushBuffer, Lexer.quotePop, next_cursor, next_CurrentLine,
             quotePush_cursor, quotePush_CurrentLine] at hs ho ⊢
            omega))
        | skip
    -- the line break
    all_goals
      split at h
      · cases h
      · rename_i nl l2 heq
        have e2 : l2 = (l.next.2.parseCRLF l.next.1).2 := by rw [heq]
        first
          | (rw [ok_inj h, NewCommentToken_Range]
             exact ho)
          | (split at h
             · cases h
             · rename_i l4 heq4
               have e4 : l4 = ((l2.pushBuffer nl).SetIndent 0 IdetUnknown).2 := by rw [heq4]
               refine ih _ _ tok l1 ho ?_ h
               rw [e4, e2]
               simp only [TokenRange.startsBefore, Lexer.pushBuffer, next_cursor,
                 next_CurrentLine, SetIndent_cursor, SetIndent_CurrentLine,
                 parseCRLF_CurrentLine] at hs ⊢
               omega)

theorem parseComment_range (fuel : Nat) (l : Lexer) (ch : Char) ( isMultiLine : Bool)
    (note : List Char) (rg : TokenRange) (tok : Token) (l1 : Lexer)
    (ho : rg.ordered) (hs : rg.startsBefore l)
    (h : l.parseComment fuel ch isMultiLine note rg = some (.ok tok, l1)) :
    tok.Range.ordered := by
  unfold Lexer.parseComment at h
  dsimp only at h
  split_ifs at h
  · cases h
  · refine parseCommentLoop_range isMultiLine note fuel rg _ tok l1 ho ?_ h
    simp only [TokenRange.startsBefore, Lexer.pushBuffer, Lexer.clearBuffer,
      quotePush_cursor, quotePush_CurrentLine] at hs ⊢
    exact hs
  · exact parseCommentLoop_range isMultiLine note fuel rg _ tok l1 ho
      (show rg.startsBefore l.clearBuffer from hs) h

theorem parseString_range (fuel : Nat) (l : Lexer) (ch : Char) (tok : Token) (l1 : Lexer)
    (h : l.parseString fuel ch = some (.ok tok, l1)) : tok.Range.ordered := by
  unfold Lexer.parseString at h
  dsimp only at h
  refine parseStringLoop_range ch _ fuel _ tok l1 ?_ h
  right
  exact ⟨rfl, le_refl _⟩

theorem NewVarQuoteToken_Range (buf : List Char) (rg : TokenRange) :
    (NewVarQuoteToken buf rg).Range = rg := rfl

theorem parseVarQuoteLoop_range (rg : TokenRange) :
    ∀ (fuel : Nat) (count : Int) (l : Lexer) (tok : Token) (l1 : Lexer),
      rg.startsBefore l →
      Lexer.parseVarQuoteLoop rg fuel count l = some (.ok tok, l1) → tok.Range.ordered := by
  intro fuel
  induction fuel with
  | zero =>
    intro count l tok l1 _ h
    have h0 : Lexer.parseVarQuoteLoop rg 0 count l = none := rfl
    rw [h0] at h
    cases h
  | succ n ih =>
    intro count l tok l1 hs h
    rw [parseVarQuoteLoop_succ] at h
    dsimp only at h
    split_ifs at h
    all_goals
      first
        | (rw [ok_inj h, NewVarQuoteToken_Range]
           simp only [TokenRange.startsBefore, TokenRange.ordered, TokenRange.setRangeEnd,
             Lexer.rebase, Lexer.pushBuffer, next_cursor, next_CurrentLine] at hs ⊢
           omega)
        | (refine ih _ _ tok l1 ?_ h
           simp only [TokenRange.startsBefore, TokenRange.ordered, TokenRange.setRangeEnd,
             Lexer.rebase, Lexer.pushBuffer, next_cursor, next_CurrentLine] at hs ⊢
           omega)
        | cases h

theorem parseVarQuote_range (fuel : Nat) (l : Lexer) (ch : Char) (tok : Token) (l1 : Lexer)
    (h : l.parseVarQuote fuel ch = some (.ok tok, l1)) : tok.Range.ordered := by
  unfold Lexer.parseVarQuote at h
  dsimp only at h
  refine parseVarQuoteLoop_range _ fuel 0 _ tok l1 ?_ h
  right
  exact ⟨rfl, le_refl _⟩

theorem parseNumberLoop_pos :
    ∀ (fuel q : Nat) (ch : Char) (l : Lexer) (q1 : Nat) (ch1 : Char) (l1 : Lexer),
      Lexer.parseNumberLoop fuel q ch l = some (q1, ch1, l1) →
      l1.CurrentLine = l.CurrentLine ∧ l.cursor ≤ l1.cursor := by
  intro fuel
  induction fuel with
  | zero =>
    intro q ch l q1 ch1 l1 h
    have h0 : Lexer.parseNumberLoop 0 q ch l = none := rfl
    rw [h0] at h
    cases h
  | succ n ih =>
    intro q ch l q1 ch1 l1 h
    rw [parseNumberLoop_succ] at h
    split_ifs at h
    · simp only [Option.some.injEq, Prod.mk.injEq] at h
      obtain ⟨_, _, rfl⟩ := h
      exact ⟨rfl, le_refl _⟩
    · have hp := ih _ _ _ _ _ _ h
      simp only [next_cursor, next_CurrentLine] at hp
      exact ⟨hp.1, by omega⟩
    · split at h
      · simp only [Option.some.injEq, Prod.mk.injEq] at h
        obtain ⟨_, _, rfl⟩ := h
        exact ⟨rfl, le_refl _⟩
      · have hp := ih _ _ _ _ _ _ h
        simp only [next_cursor, next_CurrentLine, Lexer.pushBuffer] at hp
        exact ⟨hp.1, by omega⟩

theorem NewNumberToken_Range (buf : List Char) (rg : TokenRange) :
    (NewNumberToken buf rg).Range = rg := rfl

theorem parseNumber_range (fuel : Nat) (l : Lexer) (ch : Char) (tok : Token) (l1 : Lexer)
    (h : l.parseNumber fuel ch = some (.ok tok, l1)) : tok.Range.ordered := by
  unfold Lexer.parseNumber at h
  dsimp only at h
  split at h
  · cases h
  · rename_i q1 ch1 l2 heq
    have hp := parseNumberLoop_pos _ _ _ _ _ _ _ heq
    split_ifs at h
    · rw [ok_inj h, NewNumberToken_Range]
      simp only [TokenRange.ordered, TokenRange.setRangeEnd, newTokenRange, Lexer.rebase,
        Lexer.clearBuffer] at hp ⊢
      omega
    · cases h

theorem NewMarkToken_ordered (buf : List Char) (t : Nat) (l : Lexer) (num : Int)
    (h : 0 ≤ num) : (NewMarkToken buf t (newTokenRange l) num).Range.ordered := by
  simp only [NewMarkToken, TokenRange.ordered, newTokenRange]
  omega

theorem ok_of_ite {c : Prop} [Decidable c] {a b : Except Error Token × Lexer}
    {P : Token → Prop} (ha : ∀ tok l1, a = (.ok tok, l1) → P tok)
    (hb : ∀ tok l1, b = (.ok tok, l1) → P tok) :
    ∀ tok l1, (if c then a else b) = (.ok tok, l1) → P tok := by
  intro tok l1 h
  by_cases hc : c
  · rw [if_pos hc] at h; exact ha tok l1 h
  · rw [if_neg hc] at h; exact hb tok l1 h

theorem parseMarkers_range (l : Lexer) (ch : Char) :
    ∀ (tok : Token) (l1 : Lexer), l.parseMarkers ch = (.ok tok, l1) → tok.Range.ordered := by
  unfold Lexer.parseMarkers
  dsimp only
  repeat' refine ok_of_ite ?_ ?_
  all_goals
    intro tok l1 h
    first
      | (simp only [Prod.mk.injEq, Except.ok.injEq] at h
         rw [← h.1]
         exact NewMarkToken_ordered _ _ _ _ (by omega))
      | cases h

theorem some_of_ite {c : Prop} [Decidable c] {a b : Option (Int × Nat)}
    {P : Int → Prop} (ha : ∀ w t, a = some (w, t) → P w)
    (hb : ∀ w t, b = some (w, t) → P w) :
    ∀ w t, (if c then a else b) = some (w, t) → P w := by
  intro w t h
  by_cases hc : c
  · rw [if_pos hc] at h; exact ha w t h
  · rw [if_neg hc] at h; exact hb w t h

theorem matchKeyword_len (l : Lexer) (ch : Char) :
    ∀ (w : Int) (t : Nat), l.matchKeyword ch = some (w, t) → 1 ≤ w := by
  unfold Lexer.matchKeyword
  repeat' refine some_of_ite ?_ ?_
  all_goals
    intro w t h
    first
      | (simp only [Option.some.injEq, Prod.mk.injEq] at h
         omega)
      | cases h

theorem parseKeyword_range (l : Lexer) (ch : Char) (mf : Bool) (tk : Token)
    (h : (l.parseKeyword ch mf).1 = some tk) : tk.Range.ordered := by
  unfold Lexer.parseKeyword at h
  dsimp only at h
  split at h
  · cases h
  · rename_i w t heq
    have hw := matchKeyword_len l ch w t heq
    simp only [Option.some.injEq] at h
    rw [← h]
    simp only [TokenRange.ordered, newTokenRange]
    omega

theorem parseKeyword_false (l : Lexer) (ch : Char) : (l.parseKeyword ch false).2 = l := by
  unfold Lexer.parseKeyword
  dsimp only
  split <;> rfl

theorem NewIdentifierToken_Range (buf : List Char) (rg : TokenRange) :
    (NewIdentifierToken buf rg).Range = rg := rfl

theorem parseIdentifierLoop_range :
    ∀ (fuel : Nat) (count : Int) (rg : TokenRange) (l : Lexer) (tok : Token) (l1 : Lexer),
      rg.ordered → rg.startsBefore l →
      Lexer.parseIdentifierLoop fuel count rg l = some (.ok tok, l1) → tok.Range.ordered := by
  intro fuel
  induction fuel with
  | zero =>
    intro count rg l tok l1 _ _ h
    have h0 : Lexer.parseIdentifierLoop 0 count rg l = none := rfl
    rw [h0] at h
    cases h
  | succ n ih =>
    intro count rg l tok l1 ho hs h
    rw [parseIdentifierLoop_succ] at h
    dsimp only at h
    simp only [parseKeyword_false] at h
    by_cases hw : isWhiteSpace l.next.1 = true
    · rw [if_pos hw] at h
      exact ih _ _ _ tok l1 ho (startsBefore_next rg l hs) h
    · rw [if_neg hw] at h
      by_cases hk : (l.next.2.parseKeyword l.next.1 false).1.isSome = true
      · rw [if_pos hk] at h
        rw [ok_inj h, NewIdentifierToken_Range]
        simp only [TokenRange.startsBefore, TokenRange.ordered, TokenRange.setRangeEnd,
          Lexer.rebase, next_CurrentLine] at hs ⊢
        omega
      · rw [if_neg hk] at h
        have hzhu : ∀ (b : Bool) (l2 : Lexer),
            (if l.next.1 = GlyphZHU then
              match Lexer.validateComment n [] l.next.2 with
              | none => none
              | some (r, l2) => some (r.1, l2)
            else some (false, l.next.2)) = some (b, l2) →
            l2.CurrentLine = l.CurrentLine ∧ l.cursor + 1 ≤ l2.cursor := by
          intro b l2 heq
          by_cases hz : l.next.1 = GlyphZHU
          · rw [if_pos hz] at heq
            split at heq
            · cases heq
            · rename_i r l3 hv
              have hp := validateComment_pos _ _ _ _ _ hv
              simp only [Option.some.injEq, Prod.mk.injEq] at heq
              obtain ⟨_, rfl⟩ := heq
              simp only [next_cursor, next_CurrentLine] at hp
              exact hp
          · rw [if_neg hz] at heq
            simp only [Option.some.injEq, Prod.mk.injEq] at heq
            obtain ⟨_, rfl⟩ := heq
            simp only [next_cursor, next_CurrentLine]
            exact ⟨trivial, le_refl _⟩
        split at h
        · cases h
        · rename_i l2 heq
          have hp := hzhu true l2 heq
          rw [ok_inj h, NewIdentifierToken_Range]
          simp only [TokenRange.startsBefore, TokenRange.ordered, TokenRange.setRangeEnd,
            Lexer.rebase] at hs ⊢
          omega
        · rename_i l2 heq
          have hp := hzhu false l2 heq
          split_ifs at h
          all_goals
            first
              | (rw [ok_inj h, NewIdentifierToken_Range]
                 exact ho)
              | cases h
              | (refine ih _ _ _ tok l1 ?_ ?_ h <;>
                 (simp only [TokenRange.startsBefore, TokenRange.ordered,
                    TokenRange.setRangeEnd, Lexer.rebase, Lexer.pushBuffer] at hs ho ⊢
                  omega))

theorem parseIdentifier_range (fuel : Nat) (l : Lexer) (ch : Char) (tok : Token) (l1 : Lexer)
    (h : l.parseIdentifier fuel ch = some (.ok tok, l1)) : tok.Range.ordered := by
  unfold Lexer.parseIdentifier at h
  dsimp only at h
  split_ifs at h
  · cases h
  · refine parseIdentifierLoop_range fuel 1 _ _ tok l1 ?_ ?_ h
    · exact ordered_setRangeEnd _ _ (Or.inr ⟨rfl, le_refl _⟩)
    · exact Or.inr ⟨rfl, le_refl _⟩

theorem range_of_ite {c : Prop} [Decidable c] {a b : Option (Except Error Token × Lexer)}
    {P : Token → Prop} (ha : ∀ tok l1, a = some (.ok tok, l1) → P tok)
    (hb : ∀ tok l1, b = some (.ok tok, l1) → P tok) :
    ∀ tok l1, (if c then a else b) = some (.ok tok, l1) → P tok := by
  intro tok l1 h
  by_cases hc : c
  · rw [if_pos hc] at h; exact ha tok l1 h
  · rw [if_neg hc] at h; exact hb tok l1 h

theorem nextTokenHead_range :
    ∀ (fuel : Nat) (l0 : Lexer) (tok : Token) (l1 : Lexer),
      Lexer.nextTokenHead fuel l0 = some (.ok tok, l1) → tok.Range.ordered := by
  intro fuel
  induction fuel with
  | zero =>
    intro l0 tok l1 h
    have h0 : Lexer.nextTokenHead 0 l0 = none := rfl
    rw [h0] at h
    cases h
  | succ n ih =>
    intro l0
    rw [nextTokenHead_succ]
    dsimp only
    -- EOF
    refine range_of_ite ?_ ?_
    · intro tok l1 h
      rw [ok_inj h]
      exact ⟨le_refl _, fun _ => le_refl _⟩
    -- spaces and tabs
    refine range_of_ite (range_of_ite ?_ ?_) ?_
    · intro tok l1 h
      split at h
      · cases h
      · cases h
      · exact ih _ tok l1 h
    · intro tok l1 h
      split at h
      · cases h
      · exact ih _ tok l1 h
    -- line breaks
    refine range_of_ite ?_ ?_
    · intro tok l1 h
      split at h
      · cases h
      · exact ih _ tok l1 h
    -- the glyph of a comment
    refine range_of_ite ?_ ?_
    · intro tok l1 h
      split at h
      · cases h
      · rename_i isComment isMultiLine note l2 hv
        have hp := validateComment_pos _ _ _ _ _ hv
        split_ifs at h
        · refine parseComment_range _ _ _ _ _ _ tok l1 (ordered_newTokenRange _) ?_ h
          simp only [TokenRange.startsBefore, newTokenRange]
          omega
        · exact parseIdentifier_range _ _ _ tok l1 h
    -- strings, quoted names
    refine range_of_ite (fun tok l1 h => parseString_range _ _ _ tok l1 h) ?_
    refine range_of_ite (fun tok l1 h => parseVarQuote_range _ _ _ tok l1 h) ?_
    -- other white space
    refine range_of_ite ?_ ?_
    · intro tok l1 h
      split at h
      · cases h
      · exact ih _ tok l1 h
    -- numbers, marks, keywords, identifiers
    refine range_of_ite (fun tok l1 h => parseNumber_range _ _ _ tok l1 h) ?_
    refine range_of_ite ?_ ?_
    · intro tok l1 h
      simp only [Option.some.injEq] at h
      exact parseMarkers_range _ _ tok l1 h
    · intro tok l1 h
      split at h
      · rename_i tk l2 hk
        rw [ok_inj h]
        exact parseKeyword_range _ _ true tk (by rw [hk])
      · exact parseIdentifier_range _ _ _ tok l1 h

/-- C17. Every token that `NextToken` returns, from any state of the lexer, has
`Range.StartLine ≤ Range.EndLine`, and `StartIdx ≤ EndIdx` when the two lines
are the same. -/
theorem NextToken_range (fuel : Nat) (l : Lexer) (tok : Token) (l1 : Lexer)
    (h : l.NextToken fuel = some (.ok tok, l1)) :
    tok.Range.StartLine ≤ tok.Range.EndLine
      ∧ (tok.Range.StartLine = tok.Range.EndLine → tok.Range.StartIdx ≤ tok.Range.EndIdx) := by
  unfold Lexer.NextToken at h
  dsimp only at h
  split_ifs at h
  all_goals exact nextTokenHead_range fuel _ tok l1 h

theorem NextToken_range_witness :
    ∃ l1 : Lexer,
      (NewLexer ["「甲\n乙」".toList]).NextToken 20
        = some (.ok ⟨TypeString, "「甲\n乙」".toList, ⟨1, 0, 2, 5⟩⟩, l1)
      ∧ ((1 : Int) ≤ 2 ∧ ((1 : Int) = 2 → (0 : Int) ≤ 5)) :=
  ⟨_, rfl, NextToken_range 20 (NewLexer ["「甲\n乙」".toList])
    ⟨TypeString, "「甲\n乙」".toList, ⟨1, 0, 2, 5⟩⟩ _ rfl⟩

/-! ## Array comparison, declarations of built-in names, name lookup, indents -/

/-- C24: `compareValues` on two arrays stops at index 0: `【1，2】` and `【1，3】`,
which differ at index 1, compare equal under `CmpEq`. -/
theorem compareValues_array_first_item :
    compareValues
      (.array none [.decimal (NewZnDecimalFromInt 1 0), .decimal (NewZnDecimalFromInt 2 0)])
      (.array none [.decimal (NewZnDecimalFromInt 1 0), .decimal (NewZnDecimalFromInt 3 0)])
      CmpEq = .ok true :=
  rfl

/-- C26: the declaration `令真为1` in a new root scope returns no error (and
binds nothing): `bindValue` refuses the built-in name with name-redeclared, but
`evalVarDeclareStmt` drops that result. -/
theorem evalVarDeclareStmt_builtin_name :
    (bindValue predefinedValues { symbolMap := [] } [] "真".toList
        (duplicateValue (.decimal (NewZnDecimalFromInt 1 0))) false).2
      = some (NameRedeclared "真".toList) ∧
    (NameRedeclared "真".toList).code = 0x2502 ∧
    evalVarDeclareStmt.assignPair duplicateValue predefinedValues
        (Except.ok (.decimal (NewZnDecimalFromInt 1 0)) : Except Error ZnValue) false
        ["真".toList] [{ symbolMap := [] }]
      = some ([{ symbolMap := [] }], none) := by
  refine ⟨rfl, by decide, rfl⟩

theorem getValueLoop_eq {V : Type} (name : List Char) (scope : List (BlockScope V)) :
    getValueLoop name scope =
      match nearestBinding name scope with
      | some sym => .ok sym.Value
      | none => .error (NameNotDefined name) := by
  induction scope with
  | nil => rfl
  | cons sp parent ih =>
    unfold getValueLoop nearestBinding
    cases h : sp.GetSymbol name with
    | some sym => rfl
    | none => simpa using ih

theorem nearestBinding_eq_none {V : Type} (name : List Char) (scope : List (BlockScope V)) :
    nearestBinding name scope = none ↔ ∀ sp ∈ scope, sp.GetSymbol name = none := by
  induction scope with
  | nil => simp [nearestBinding]
  | cons sp parent ih =>
    unfold nearestBinding
    cases h : sp.GetSymbol name with
    | some sym => simp [h]
    | none => simp [h, ih]

/-- C30: `getValue` fails exactly when the name is neither a built-in nor bound
in any scope of the chain; the error is then name-not-defined, with code 0x2501
and the message 标识「name」未有定义; a built-in name gives the built-in value and
any other bound name the value of the nearest enclosing binding. -/
theorem getValue_spec {V : Type} (globals : List (List Char × V))
    (scope : List (BlockScope V)) (name : List Char) :
    ((∃ e, getValue globals scope name = .error e) ↔
      (goMapGet globals name = none ∧ ∀ sp ∈ scope, sp.GetSymbol name = none)) ∧
    (∀ e, getValue globals scope name = .error e →
      e = NameNotDefined name ∧ e.code = 0x2501 ∧
      e.text = "标识「".toList ++ name ++ "」未有定义".toList) ∧
    (∀ g, goMapGet globals name = some g → getValue globals scope name = .ok g) ∧
    (∀ sym, goMapGet globals name = none → nearestBinding name scope = some sym →
      getValue globals scope name = .ok sym.Value) := by
  unfold getValue
  rw [getValueLoop_eq]
  cases hg : goMapGet globals name with
  | some g =>
    refine ⟨⟨?_, ?_⟩, ?_, ?_, ?_⟩
    · rintro ⟨e, he⟩; cases he
    · rintro ⟨h, _⟩; cases h
    · intro e he; cases he
    · intro g1 h1; cases h1; rfl
    · intro sym h; cases h
  | none =>
    cases hn : nearestBinding name scope with
    | some sym =>
      refine ⟨⟨?_, ?_⟩, ?_, ?_, ?_⟩
      · rintro ⟨e, he⟩; cases he
      · rintro ⟨_, h⟩
        rw [(nearestBinding_eq_none name scope).2 h] at hn; cases hn
      · intro e he; cases he
      · intro g1 h1; cases h1
      · intro sym1 _ h1; cases h1; rfl
    | none =>
      refine ⟨⟨?_, ?_⟩, ?_, ?_, ?_⟩
      · intro _; exact ⟨rfl, (nearestBinding_eq_none name scope).1 hn⟩
      · intro _; exact ⟨_, rfl⟩
      · intro e he
        have he2 : NameNotDefined name = e := by injection he
        subst he2
        exact ⟨rfl, rfl, rfl⟩
      · intro g1 h1; cases h1
      · intro sym1 _ h1; cases h1

theorem tdiv_four_of_tmod {count : Int} (h : Int.tmod count 4 = 0) :
    Int.tdiv count 4 = count / 4 := by
  have h1 := Int.tmod_add_tdiv count 4
  have h2 := Int.emod_add_ediv count 4
  have h3 : count % 4 = 0 := by
    have : (4:Int) ∣ count := Int.dvd_of_tmod_eq_zero h
    exact Int.emod_eq_zero_of_dvd this
  omega

theorem SetIndent_tab (l : Lexer) (count : Int) :
    l.SetIndent count IdetTab =
      if l.IndentType = IdetUnknown ∨ l.IndentType = IdetTab then
        (none, { l with IndentType := IdetTab, indents := count, scanState := scanIndent,
                        startIdx := l.startIdx + count })
      else (some (InvalidIndentType l.IndentType IdetTab), l) := by
  simp only [IdetUnknown, IdetTab, IdetSpace]
  by_cases hu : l.IndentType = 0
  · simp [Lexer.SetIndent, Lexer.setScanCursor, IdetTab, IdetSpace, IdetUnknown, hu]
  · by_cases h2 : l.IndentType = 9
    · simp [Lexer.SetIndent, Lexer.setScanCursor, IdetTab, IdetSpace, IdetUnknown, hu, h2]
    · simp [Lexer.SetIndent, Lexer.setScanCursor, IdetTab, IdetSpace, IdetUnknown, hu, h2]

theorem SetIndent_space (l : Lexer) (count : Int) :
    l.SetIndent count IdetSpace =
      if Int.tmod count 4 ≠ 0 then
        (some (InvalidIndentSpaceCount count),
          if l.IndentType = IdetUnknown then { l with IndentType := IdetSpace } else l)
      else if l.IndentType = IdetUnknown ∨ l.IndentType = IdetSpace then
        (none, { l with IndentType := IdetSpace, indents := count / 4, scanState := scanIndent,
                        startIdx := l.startIdx + count })
      else (some (InvalidIndentType l.IndentType IdetSpace), l) := by
  simp only [IdetUnknown, IdetTab, IdetSpace]
  by_cases h4 : Int.tmod count 4 = 0
  · have h5 := tdiv_four_of_tmod h4
    by_cases hu : l.IndentType = 0
    · simp [Lexer.SetIndent, Lexer.setScanCursor, IdetTab, IdetSpace, IdetUnknown, hu, h4, h5]
    · by_cases h2 : l.IndentType = 32
      · simp [Lexer.SetIndent, Lexer.setScanCursor, IdetTab, IdetSpace, IdetUnknown, hu, h2, h4, h5]
      · simp [Lexer.SetIndent, Lexer.setScanCursor, IdetTab, IdetSpace, IdetUnknown, hu, h2, h4, h5]
  · by_cases hu : l.IndentType = 0
    · simp [Lexer.SetIndent, Lexer.setScanCursor, IdetTab, IdetSpace, IdetUnknown, hu, h4]
    · simp [Lexer.SetIndent, Lexer.setScanCursor, IdetTab, IdetSpace, IdetUnknown, hu, h4]

/-- C23: `SetIndent(count, t)` with `t` tab or space fails exactly when `t` is
space and `count` is not a multiple of 4, or when an indent type was already
established and differs from `t`; on success the indent of the current line is
`count` for tabs and `count / 4` for spaces, the indent type is `t` and the line
start index has advanced by `count`. A 4-space line followed by a tab line gives
invalid-indent-type, code 0x2021. -/
theorem SetIndent_spec (l : Lexer) (count : Int) (t : Nat) (ht : t = IdetTab ∨ t = IdetSpace) :
    ((l.SetIndent count t).1 ≠ none ↔
      ((t = IdetSpace ∧ ¬ (4 : Int) ∣ count) ∨
        (l.IndentType ≠ IdetUnknown ∧ l.IndentType ≠ t))) ∧
    ((l.SetIndent count t).1 = none →
      (l.SetIndent count t).2.indents = (if t = IdetTab then count else count / 4) ∧
      (l.SetIndent count t).2.IndentType = t ∧
      (l.SetIndent count t).2.startIdx = l.startIdx + count) ∧
    (l.IndentType = IdetUnknown →
      ((l.SetIndent 4 IdetSpace).2.SetIndent 1 IdetTab).1 =
        some (InvalidIndentType IdetSpace IdetTab) ∧
      (InvalidIndentType IdetSpace IdetTab).code = 0x2021) := by
  have hdvd : (¬ (4 : Int) ∣ count) ↔ Int.tmod count 4 ≠ 0 := by
    constructor
    · intro h h0; exact h (Int.dvd_of_tmod_eq_zero h0)
    · intro h h0; exact h (Int.tmod_eq_zero_of_dvd h0)
  have hts : IdetTab ≠ IdetSpace := by decide
  refine ⟨?_, ?_, ?_⟩
  · rw [hdvd]
    rcases ht with rfl | rfl
    · rw [SetIndent_tab]
      by_cases h : l.IndentType = IdetUnknown ∨ l.IndentType = IdetTab
      · rw [if_pos h]; simp only [ne_eq, not_true_eq_false, false_iff]
        rintro (⟨h1, _⟩ | ⟨h1, h2⟩)
        · exact hts h1
        · rcases h with h | h
          · exact h1 h
          · exact h2 h
      · rw [if_neg h]; simp only [ne_eq, reduceCtorEq, not_false_eq_true, true_iff]
        right
        exact ⟨fun h1 => h (Or.inl h1), fun h1 => h (Or.inr h1)⟩
    · rw [SetIndent_space]
      by_cases h4 : Int.tmod count 4 ≠ 0
      · rw [if_pos h4]; simp only [ne_eq, reduceCtorEq, not_false_eq_true, true_iff]
        exact Or.inl ⟨trivial, h4⟩
      · rw [if_neg h4]
        by_cases h : l.IndentType = IdetUnknown ∨ l.IndentType = IdetSpace
        · rw [if_pos h]; simp only [ne_eq, not_true_eq_false, false_iff]
          rintro (⟨_, h1⟩ | ⟨h1, h2⟩)
          · exact h4 h1
          · rcases h with h | h
            · exact h1 h
            · exact h2 h
        · rw [if_neg h]; simp only [ne_eq, reduceCtorEq, not_false_eq_true, true_iff]
          right
          exact ⟨fun h1 => h (Or.inl h1), fun h1 => h (Or.inr h1)⟩
  · rcases ht with rfl | rfl
    · rw [SetIndent_tab]
      by_cases h : l.IndentType = IdetUnknown ∨ l.IndentType = IdetTab
      · rw [if_pos h]; intro _; exact ⟨by rw [if_pos rfl], rfl, rfl⟩
      · rw [if_neg h]; intro h1; cases h1
    · rw [SetIndent_space]
      by_cases h4 : Int.tmod count 4 ≠ 0
      · rw [if_pos h4]; intro h1; cases h1
      · rw [if_neg h4]
        by_cases h : l.IndentType = IdetUnknown ∨ l.IndentType = IdetSpace
        · rw [if_pos h]; intro _
          exact ⟨by rw [if_neg (fun h1 => hts h1.symm)], rfl, rfl⟩
        · rw [if_neg h]; intro h1; cases h1
  · intro hu
    refine ⟨?_, by decide⟩
    rw [SetIndent_space, if_neg (by decide), if_pos (Or.inl hu), SetIndent_tab]
    have hn : ¬ (IdetSpace = IdetUnknown ∨ IdetSpace = IdetTab) := by decide
    exact congrArg Prod.fst (if_neg hn)

/-- C23, at an instance: on a new line stack `SetIndent(8, space)` succeeds with
two indents. -/
theorem SetIndent_spec_witness :
    (IdetSpace = IdetTab ∨ IdetSpace = IdetSpace) ∧
    ((NewLexer []).SetIndent 8 IdetSpace).1 = none ∧
    ((NewLexer []).SetIndent 8 IdetSpace).2.indents = 2 ∧
    ((NewLexer []).SetIndent 8 IdetSpace).2.IndentType = IdetSpace :=
  ⟨Or.inr rfl, by decide,
    ((SetIndent_spec (NewLexer []) 8 IdetSpace (Or.inr rfl)).2.1 (by decide)).1.trans (by decide),
    ((SetIndent_spec (NewLexer []) 8 IdetSpace (Or.inr rfl)).2.1 (by decide)).2.1⟩

/-! ## C25: assignment and sharing -/

theorem getValueLoop_setValueLoop_same {V : Type} (name : List Char) (value : V) :
    ∀ scope : List (BlockScope V), (setValueLoop name value scope).2 = none →
      getValueLoop name (setValueLoop name value scope).1 = .ok value := by
  intro scope
  induction scope with
  | nil => intro h; cases h
  | cons sp parent ih =>
    intro h
    unfold setValueLoop at h ⊢
    cases hs : sp.GetSymbol name with
    | some sym =>
      rw [hs] at h
      simp only at h ⊢
      by_cases hc : sym.IsConstant = true
      · rw [if_pos hc] at h; cases h
      · rw [if_neg hc]
        unfold getValueLoop
        have : (sp.SetSymbol name value false).GetSymbol name
            = some { Value := value, IsConstant := false } := by
          unfold BlockScope.SetSymbol BlockScope.GetSymbol
          rw [goMapGet_set, if_pos rfl]
        rw [this]
    | none =>
      rw [hs] at h
      simp only at h ⊢
      unfold getValueLoop
      rw [hs]
      exact ih h

theorem getValueLoop_setValueLoop_other {V : Type} (name other : List Char) (value : V)
    (hne : name ≠ other) :
    ∀ scope : List (BlockScope V),
      getValueLoop other (setValueLoop name value scope).1 = getValueLoop other scope := by
  intro scope
  induction scope with
  | nil => rfl
  | cons sp parent ih =>
    unfold setValueLoop
    cases hs : sp.GetSymbol name with
    | some sym =>
      simp only
      by_cases hc : sym.IsConstant = true
      · rw [if_pos hc]
      · rw [if_neg hc]
        unfold getValueLoop
        have : (sp.SetSymbol name value false).GetSymbol other = sp.GetSymbol other := by
          unfold BlockScope.SetSymbol BlockScope.GetSymbol
          rw [goMapGet_set, if_neg hne]
        rw [this]
    | none =>
      simp only
      unfold getValueLoop
      rw [ih]

theorem getValue_setValue_same {V : Type} (globals : List (List Char × V))
    (scope : List (BlockScope V)) (name : List Char) (value : V)
    (h : (setValue globals scope name value).2 = none) :
    getValue globals (setValue globals scope name value).1 name = .ok value := by
  unfold setValue at h ⊢
  unfold getValue
  cases hg : goMapGet globals name with
  | some g => rw [hg] at h; cases h
  | none =>
    rw [hg] at h
    exact getValueLoop_setValueLoop_same name value scope h

theorem getValue_setValue_other {V : Type} (globals : List (List Char × V))
    (scope : List (BlockScope V)) (name other : List Char) (value : V) (hne : name ≠ other) :
    getValue globals (setValue globals scope name value).1 other
      = getValue globals scope other := by
  unfold setValue getValue
  cases hg : goMapGet globals name with
  | some g => rfl
  | none =>
    simp only
    rw [getValueLoop_setValueLoop_other name other value hne]

theorem index_write_read (globals : List (List Char × ZnRef)) (st1 st2 : RunState)
    (A B : List Char) (a : Nat) (idx val r : ZnRef)
    (hA : getValue globals st1.scope A = .ok (.array a))
    (hB : getValue globals st1.scope B = .ok (.array a))
    (h : evalVarAssignExpr.index globals st1 A idx val = some (st2, .ok r)) :
    r = val ∧ st2.scope = st1.scope ∧ evalMemberIndex globals st2 B idx = some (.ok val) := by
  unfold evalVarAssignExpr.index at h
  rw [hA] at h
  simp only [reduceMemberIndex] at h
  cases idx with
  | array i => simp at h
  | decimal vr =>
    simp only [ZnArrayIV.Reduce] at h
    cases hi : vr.asInteger with
    | error e => rw [hi] at h; simp at h
    | ok i =>
      rw [hi] at h
      simp only at h
      cases hs : st1.store[a]? with
      | none => rw [hs] at h; simp at h
      | some value =>
        rw [hs] at h
        simp only at h
        by_cases hr : i < 0 ∨ i ≥ (value.length : Int)
        · rw [if_pos hr] at h; simp at h
        · rw [if_neg hr] at h
          simp only [if_true, Option.some.injEq, Prod.mk.injEq, Except.ok.injEq] at h
          obtain ⟨h1, h2⟩ := h
          subst h1
          refine ⟨h2.symm, rfl, ?_⟩
          unfold evalMemberIndex
          simp only
          rw [hB]
          simp only [reduceMemberIndex, ZnArrayIV.Reduce, hi]
          have ha : a < st1.store.length := by
            rcases List.getElem?_eq_some_iff.1 hs with ⟨h3, _⟩
            exact h3
          have hs2 : (st1.store.set a (value.set i.toNat val))[a]? = some (value.set i.toNat val) := by
            rw [List.getElem?_set_self ha]
          rw [hs2]
          simp only [List.length_set]
          rw [if_neg hr]
          have hlt : i.toNat < value.length := by omega
          have hv : (value.set i.toNat val)[i.toNat]? = some val := by
            rw [List.getElem?_set_self hlt]
          simp [hv]

/-- C25 fails on the code: after `令Y为【1，2】；令X为【0】` the expression `Y#0`
reads 1; `X 为 Y` makes `X` hold the array object of `Y` (address 1), and after
`X#0 为 9` the expression `Y#0` reads 9. -/
theorem assign_alias_counterexample :
    ∃ st0 st1 st2 : RunState,
      declareTwoArrays = some st0
      ∧ evalMemberIndex [] st0 "Y".toList (.decimal (NewZnDecimalFromInt 0 0))
          = some (.ok (.decimal (NewZnDecimalFromInt 1 0)))
      ∧ evalVarAssignExpr.ID [] st0 "X".toList (getValue [] st0.scope "Y".toList)
          = (st1, .ok (.array 1))
      ∧ evalVarAssignExpr.index [] st1 "X".toList (.decimal (NewZnDecimalFromInt 0 0))
          (.decimal (NewZnDecimalFromInt 9 0))
          = some (st2, .ok (.decimal (NewZnDecimalFromInt 9 0)))
      ∧ evalMemberIndex [] st2 "Y".toList (.decimal (NewZnDecimalFromInt 0 0))
          = some (.ok (.decimal (NewZnDecimalFromInt 9 0))) :=
  ⟨_, _, _, rfl, rfl, rfl, rfl, rfl⟩

/-- C25, amended: the assignment `X 为 Y`, where `Y` names an array and `X` is a
variable that can be assigned, stores the array object of `Y` itself: no array
is allocated, `X` and `Y` then name the same object, and an index assignment
through either name is what the same index reads through the other. -/
theorem assign_shares_array (globals : List (List Char × ZnRef)) (st : RunState)
    (X Y : List Char) (a : Nat)
    (hY : getValue globals st.scope Y = .ok (.array a))
    (hX : (setValue globals st.scope X (.array a)).2 = none) :
    ∃ st1 : RunState,
      evalVarAssignExpr.ID globals st X (getValue globals st.scope Y) = (st1, .ok (.array a))
      ∧ st1.store = st.store
      ∧ getValue globals st1.scope X = .ok (.array a)
      ∧ getValue globals st1.scope Y = .ok (.array a)
      ∧ (∀ (idx val r : ZnRef) (st2 : RunState),
          evalVarAssignExpr.index globals st1 X idx val = some (st2, .ok r) →
          evalMemberIndex globals st2 Y idx = some (.ok val))
      ∧ (∀ (idx val r : ZnRef) (st2 : RunState),
          evalVarAssignExpr.index globals st1 Y idx val = some (st2, .ok r) →
          evalMemberIndex globals st2 X idx = some (.ok val)) := by
  have hXv : getValue globals (setValue globals st.scope X (.array a)).1 X = .ok (.array a) :=
    getValue_setValue_same globals st.scope X (.array a) hX
  have hYv : getValue globals (setValue globals st.scope X (.array a)).1 Y = .ok (.array a) := by
    by_cases hxy : X = Y
    · subst hxy; exact hXv
    · rw [getValue_setValue_other globals st.scope X Y (.array a) hxy]; exact hY
  refine ⟨{ st with scope := (setValue globals st.scope X (.array a)).1 }, ?_, rfl, hXv, hYv, ?_, ?_⟩
  · rw [hY]
    unfold evalVarAssignExpr.ID
    simp only [hX]
  · intro idx val r st2 h
    exact (index_write_read globals _ st2 X Y a idx val r hXv hYv h).2.2
  · intro idx val r st2 h
    exact (index_write_read globals _ st2 Y X a idx val r hYv hXv h).2.2

/-- C25, amended, at an instance: after `令Y为【1，2】；令X为【0】`, the assignment
`X 为 Y` leaves `X` and `Y` on the array object at address 1. -/
theorem assign_shares_array_witness :
    ∃ st1 : RunState,
      evalVarAssignExpr.ID []
          { store := [[.decimal (NewZnDecimalFromInt 1 0), .decimal (NewZnDecimalFromInt 2 0)],
                      [.decimal (NewZnDecimalFromInt 1 0), .decimal (NewZnDecimalFromInt 2 0)],
                      [.decimal (NewZnDecimalFromInt 0 0)], [.decimal (NewZnDecimalFromInt 0 0)]],
            scope := [{ symbolMap := [("Y".toList, { Value := .array 1, IsConstant := false }),
                                      ("X".toList, { Value := .array 3, IsConstant := false })] }] }
          "X".toList (.ok (.array 1)) = (st1, .ok (.array 1))
      ∧ getValue [] st1.scope "X".toList = .ok (.array 1) :=
  let h := assign_shares_array []
    { store := [[.decimal (NewZnDecimalFromInt 1 0), .decimal (NewZnDecimalFromInt 2 0)],
                [.decimal (NewZnDecimalFromInt 1 0), .decimal (NewZnDecimalFromInt 2 0)],
                [.decimal (NewZnDecimalFromInt 0 0)], [.decimal (NewZnDecimalFromInt 0 0)]],
      scope := [{ symbolMap := [("Y".toList, { Value := .array 1, IsConstant := false }),
                                ("X".toList, { Value := .array 3, IsConstant := false })] }] }
    "X".toList "Y".toList 1 rfl rfl
  ⟨h.choose, h.choose_spec.1, h.choose_spec.2.2.1⟩

/-! ## The evaluator: return signal -/

theorem ReturnBreakError_code {V : Type} (v : V) :
    (ReturnBreakError v).GetCode = ReturnBreakSignal := rfl

theorem ReturnBreakError_not_continue {V : Type} (v : V) :
    ¬ (ReturnBreakError v).GetCode = ContinueBreakSignal := by
  rw [ReturnBreakError_code]; decide

theorem ReturnBreakError_not_break {V : Type} (v : V) :
    ¬ (ReturnBreakError v).GetCode = BreakBreakSignal := by
  rw [ReturnBreakError_code]; decide

theorem evalStatement_succ {X W : Type} (ctx : Context X W)
    (ev : EvalState X W → Expression X → ExprResult X W) (fuel : Nat) (st : EvalState X W)
    (stmt : Statement X) :
    ctx.evalStatement ev (fuel + 1) st stmt =
      Context.evalStatement.switch ctx ev (ctx.evalStmtBlock (ctx.evalStatement ev fuel)) fuel
        st stmt := rfl

theorem whileLoop_succ {X W : Type} (ev : EvalState X W → Expression X → ExprResult X W)
    (evalBlock : EvalState X W → List (Statement X) → StmtResult X W)
    (TrueExpr : Expression X) (LoopBlock : List (Statement X)) (fuel : Nat)
    (st : EvalState X W) :
    evalWhileLoopStmt.loop ev evalBlock TrueExpr LoopBlock (fuel + 1) st =
      match ev st TrueExpr with
      | none => none
      | some (st1, .error err) => some (st1, some err)
      | some (st1, .ok trueExpr) =>
        match trueExpr.asBool with
        | none => some (st1, some (EvalError.plain InvalidExprTypeBool))
        | some false => some (st1, none)
        | some true =>
          match evalBlock st1 LoopBlock with
          | none => none
          | some (st2, none) => evalWhileLoopStmt.loop ev evalBlock TrueExpr LoopBlock fuel st2
          | some (st2, some err) =>
            if err.GetCode = ContinueBreakSignal then
              evalWhileLoopStmt.loop ev evalBlock TrueExpr LoopBlock fuel st2
            else if err.GetCode = BreakBreakSignal then some (st2, none)
            else some (st2, some err) := rfl

theorem iterLoop_cons {X W : Type}
    (exec : EvalState X W → EvalValue X → EvalValue X → StmtResult X W)
    (key val : EvalValue X) (rest : List (EvalValue X × Option (EvalValue X)))
    (st : EvalState X W) :
    evalIterateStmt.loop exec ((key, some val) :: rest) st =
      match exec st key val with
      | none => none
      | some (st1, none) => evalIterateStmt.loop exec rest st1
      | some (st1, some err) =>
        if err.GetCode = ContinueBreakSignal then evalIterateStmt.loop exec rest st1
        else if err.GetCode = BreakBreakSignal then some (st1, none)
        else some (st1, some err) := rfl

theorem each_cons {X W : Type} (f : EvalState X W → Statement X → StmtResult X W)
    (stmt : Statement X) (rest : List (Statement X)) (st : EvalState X W) :
    evalStmtBlock.each f (stmt :: rest) st =
      match f st stmt with
      | none => none
      | some (st1, some err) => some (st1, some err)
      | some (st1, none) => evalStmtBlock.each f rest st1 := rfl

/-- A `返回` that is met gives the return signal with its value, through every
block, branch and loop around it. -/
theorem Returns_eval {X W : Type} (ctx : Context X W)
    (ev : EvalState X W → Expression X → ExprResult X W)
    (part : EvalPart X) (st st1 : EvalState X W) (v : EvalValue X)
    (h : Returns ctx ev part st st1 v) :
    part.eval ctx ev st = some (st1, some (ReturnBreakError v)) := by
  induction h with
  | ret fuel st st1 E v h =>
    simp only [EvalPart.eval, evalStatement_succ, Context.evalStatement.switch, h]
  | branch fuel st st1 st2 c tb oe ob he fb blk v h _ ih =>
    simp only [EvalPart.eval] at ih
    simp only [EvalPart.eval, evalStatement_succ, Context.evalStatement.switch, evalBranchStmt,
      h, ih]
  | whileStmt fuel st st1 c b v _ ih =>
    simp only [EvalPart.eval] at ih
    simp only [EvalPart.eval, evalStatement_succ, Context.evalStatement.switch,
      evalWhileLoopStmt, ih]
  | iterateStmt fuel st st1 st2 st3 names e b target rounds v h1 h2 h3 _ ih =>
    simp only [EvalPart.eval] at ih
    simp only [EvalPart.eval, evalStatement_succ, Context.evalStatement.switch,
      Context.evalIterateStmt, Context.iterate, h1, h2, h3, ih]
  | blockIn fuel st st1 blk v h _ ih =>
    simp only [EvalPart.eval] at ih
    simp only [EvalPart.eval, Context.evalStmtBlock, h, ih]
    simp
  | eachHere fuel st st1 s rest v _ ih =>
    simp only [EvalPart.eval] at ih
    simp only [EvalPart.eval, each_cons, ih]
  | eachNext fuel st st1 st2 s rest v h _ ih =>
    simp only [EvalPart.eval] at ih
    simp only [EvalPart.eval, each_cons, h, ih]
  | bodyHere fuel st st1 s rest v hs _ ih =>
    simp only [EvalPart.eval] at ih
    simp only [EvalPart.eval, each_cons, hs, ih]
    simp
  | bodySkip fuel st st1 s rest v hs _ ih =>
    simp only [EvalPart.eval] at ih
    simp only [EvalPart.eval, each_cons, hs, ih]
    simp [ih]
  | bodyNext fuel st st1 st2 s rest v hs h _ ih =>
    simp only [EvalPart.eval] at ih
    simp only [EvalPart.eval, each_cons, hs, h, ih]
    simp [h, ih]
  | whileHere fuel rounds st st1 st2 c b t v h1 h2 _ ih =>
    simp only [EvalPart.eval] at ih
    simp only [EvalPart.eval, whileLoop_succ, h1, h2, ih]
    rw [if_neg (ReturnBreakError_not_continue v), if_neg (ReturnBreakError_not_break v)]
  | whileNext fuel rounds st st1 st2 st3 c b t v r h1 h2 h3 h4 _ ih =>
    simp only [EvalPart.eval] at ih
    simp only [EvalPart.eval, whileLoop_succ, h1, h2, h3]
    rcases h4 with rfl | ⟨err, rfl, hc⟩
    · exact ih
    · simp only [hc, if_true]; exact ih
  | iterHere fuel st st1 st2 names b key val rest v h1 _ ih =>
    simp only [EvalPart.eval] at ih
    simp only [EvalPart.eval, iterLoop_cons, Context.execIterationBlockFn, h1, ih]
    rw [if_neg (ReturnBreakError_not_continue v), if_neg (ReturnBreakError_not_break v)]
  | iterNext fuel st st1 st2 names b key val rest v r h1 h2 _ ih =>
    simp only [EvalPart.eval] at ih
    simp only [EvalPart.eval, iterLoop_cons, h1]
    rcases h2 with rfl | ⟨err, rfl, hc⟩
    · exact ih
    · simp only [hc, if_true]; exact ih

/-! ## C27: the signals of a while loop -/

theorem InvalidExprTypeBool_code {V : Type} :
    (EvalError.plain InvalidExprTypeBool : EvalError V).GetCode = 0x2301 := rfl

theorem whileLoop_signal_origin {X W : Type}
    (ev : EvalState X W → Expression X → ExprResult X W)
    (evalBlock : EvalState X W → List (Statement X) → StmtResult X W)
    (TrueExpr : Expression X) (LoopBlock : List (Statement X)) :
    ∀ (fuel : Nat) (st st1 : EvalState X W) (err : EvalError (EvalValue X)),
      evalWhileLoopStmt.loop ev evalBlock TrueExpr LoopBlock fuel st = some (st1, some err) →
      (err.GetCode = ContinueBreakSignal ∨ err.GetCode = BreakBreakSignal) →
      ∃ s, ev s TrueExpr = some (st1, .error err) := by
  intro fuel
  induction fuel with
  | zero => intro st st1 err h; cases h
  | succ n ih =>
    intro st st1 err h hc
    rw [whileLoop_succ] at h
    cases h1 : ev st TrueExpr with
    | none => rw [h1] at h; cases h
    | some r =>
      obtain ⟨s1, res⟩ := r
      rw [h1] at h
      cases res with
      | error e =>
        simp only [Option.some.injEq, Prod.mk.injEq] at h
        obtain ⟨h2, h3⟩ := h
        subst h2 h3
        exact ⟨st, h1⟩
      | ok t =>
        simp only at h
        cases h2 : t.asBool with
        | none =>
          rw [h2] at h
          simp only [Option.some.injEq, Prod.mk.injEq] at h
          obtain ⟨_, h3⟩ := h
          subst h3
          rw [InvalidExprTypeBool_code] at hc
          rcases hc with hc | hc <;> exact absurd hc (by decide)
        | some b =>
          rw [h2] at h
          cases b with
          | false => simp at h
          | true =>
            simp only at h
            cases h3 : evalBlock s1 LoopBlock with
            | none => rw [h3] at h; cases h
            | some r2 =>
              obtain ⟨s2, e2⟩ := r2
              rw [h3] at h
              cases e2 with
              | none => exact ih s2 st1 err h hc
              | some e =>
                simp only at h
                by_cases hcc : e.GetCode = ContinueBreakSignal
                · rw [if_pos hcc] at h; exact ih s2 st1 err h hc
                · rw [if_neg hcc] at h
                  by_cases hbb : e.GetCode = BreakBreakSignal
                  · rw [if_pos hbb] at h; simp at h
                  · rw [if_neg hbb] at h
                    simp only [Option.some.injEq, Prod.mk.injEq] at h
                    obtain ⟨_, h5⟩ := h
                    subst h5
                    rcases hc with hc | hc
                    · exact absurd hc hcc
                    · exact absurd hc hbb

/-- C27 fails on the code: the condition of a while loop is evaluated in the
while scope, where `此之（结束）` gives the break signal; `evalWhileLoopStmt`
returns it, an error of code 0x5003. -/
theorem evalWhileLoopStmt_condition_break :
    evalWhileLoopStmt (NewContext.evalExpression 2)
        (NewContext.evalStmtBlock (NewContext.evalStatement (NewContext.evalExpression 2) 2)) 2
        (NewRootScope ()) (.ScopeMethod "结束".toList []) [.EmptyStmt]
      = some (NewRootScope (), some BreakBreakError)
    ∧ (BreakBreakError : EvalError (EvalValue Empty)).GetCode = 0x5003 :=
  ⟨rfl, rfl⟩

/-- C27, amended: in the loop of `evalWhileLoopStmt` an error of the condition
is returned unchanged, whatever its code; when the block returns an error, the
continue signal makes the loop evaluate the condition again, the break signal
makes it return success, and any other error is returned unchanged. So an error
of code 0x5002 or 0x5003 that `evalWhileLoopStmt` returns is an error of its
condition. -/
theorem evalWhileLoopStmt_signals {X W : Type}
    (ev : EvalState X W → Expression X → ExprResult X W)
    (evalBlock : EvalState X W → List (Statement X) → StmtResult X W)
    (TrueExpr : Expression X) (LoopBlock : List (Statement X)) :
    (∀ (fuel : Nat) (st st1 : EvalState X W) (err : EvalError (EvalValue X)),
      ev st TrueExpr = some (st1, .error err) →
      evalWhileLoopStmt.loop ev evalBlock TrueExpr LoopBlock (fuel + 1) st
        = some (st1, some err)) ∧
    (∀ (fuel : Nat) (st st1 st2 : EvalState X W) (t : EvalValue X)
        (err : EvalError (EvalValue X)),
      ev st TrueExpr = some (st1, .ok t) → t.asBool = some true →
      evalBlock st1 LoopBlock = some (st2, some err) →
      (err.GetCode = ContinueBreakSignal →
        evalWhileLoopStmt.loop ev evalBlock TrueExpr LoopBlock (fuel + 1) st
          = evalWhileLoopStmt.loop ev evalBlock TrueExpr LoopBlock fuel st2) ∧
      (err.GetCode = BreakBreakSignal →
        evalWhileLoopStmt.loop ev evalBlock TrueExpr LoopBlock (fuel + 1) st
          = some (st2, none)) ∧
      (err.GetCode ≠ ContinueBreakSignal → err.GetCode ≠ BreakBreakSignal →
        evalWhileLoopStmt.loop ev evalBlock TrueExpr LoopBlock (fuel + 1) st
          = some (st2, some err))) ∧
    (∀ (fuel : Nat) (st st1 : EvalState X W) (err : EvalError (EvalValue X)),
      evalWhileLoopStmt ev evalBlock fuel st TrueExpr LoopBlock = some (st1, some err) →
      (err.GetCode = ContinueBreakSignal ∨ err.GetCode = BreakBreakSignal) →
      ∃ s s1, ev s TrueExpr = some (s1, .error err) ∧ st1 = s1.pop) := by
  refine ⟨?_, ?_, ?_⟩
  · intro fuel st st1 err h
    rw [whileLoop_succ, h]
  · intro fuel st st1 st2 t err h1 h2 h3
    refine ⟨?_, ?_, ?_⟩
    · intro hc
      rw [whileLoop_succ, h1]
      simp only [h2, h3, hc, if_true]
    · intro hb
      have hc : ¬ err.GetCode = ContinueBreakSignal := by
        rw [hb]; decide
      rw [whileLoop_succ, h1]
      simp only [h2, h3]
      rw [if_neg hc, if_pos hb]
    · intro hc hb
      rw [whileLoop_succ, h1]
      simp only [h2, h3, if_neg hc, if_neg hb]
  · intro fuel st st1 err h hc
    unfold evalWhileLoopStmt at h
    cases h1 : evalWhileLoopStmt.loop ev evalBlock TrueExpr LoopBlock fuel (st.push .WhileScope) with
    | none => rw [h1] at h; cases h
    | some r =>
      obtain ⟨s1, e⟩ := r
      rw [h1] at h
      simp only [Option.some.injEq, Prod.mk.injEq] at h
      obtain ⟨h2, h3⟩ := h
      subst h3
      obtain ⟨s, hs⟩ := whileLoop_signal_origin ev evalBlock TrueExpr LoopBlock fuel _ s1 err h1 hc
      exact ⟨s, s1, hs, h2.symm⟩

/-- C27, amended, at an instance: the break signal that the loop
`每当此之（结束）` returns is the error of its condition. -/
theorem evalWhileLoopStmt_signals_witness :
    ∃ s s1 : EvalState Empty Unit,
      NewContext.evalExpression 2 s (.ScopeMethod "结束".toList []) = some (s1, .error BreakBreakError)
      ∧ NewRootScope () = s1.pop :=
  (evalWhileLoopStmt_signals (NewContext.evalExpression 2)
    (NewContext.evalStmtBlock (NewContext.evalStatement (NewContext.evalExpression 2) 2))
    (.ScopeMethod "结束".toList []) [.EmptyStmt]).2.2 2 (NewRootScope ()) (NewRootScope ())
    BreakBreakError rfl (Or.inr rfl)

/-! ## C28: return from any depth -/

/-- C28: when the evaluation of the body of a user-defined function comes to a
statement `返回 E`, at any nesting depth inside the branches and loops of the
body, the executor of the closure, and with it the call, returns the value of
`E` with no error, in the state the statement left: no statement after it is
evaluated. -/
theorem return_at_any_depth {X W : Type} (ctx : Context X W)
    (ev : EvalState X W → Expression X → ExprResult X W) (fuel : Nat)
    (Name : List Char) (paramTags : List (List Char)) (stmtBlock : List (Statement X))
    (params : List (EvalValue X)) (st stp st0 st1 : EvalState X W) (v : EvalValue X)
    (hparams : ctx.paramHandler paramTags st params = some (stp, none))
    (hoist : Context.executor.roundI ctx stmtBlock stp = some (st0, none))
    (h : Returns ctx ev (.body fuel stmtBlock) st0 st1 v) :
    ctx.executor (ctx.evalStatement ev fuel) stmtBlock stp = some (st1, .ok v) ∧
    ctx.Exec (ctx.evalStatement ev fuel) (.closure Name paramTags stmtBlock) st params
      = some (st1, .ok v) := by
  have h1 := Returns_eval ctx ev _ st0 st1 v h
  simp only [EvalPart.eval] at h1
  have h2 : ctx.executor (ctx.evalStatement ev fuel) stmtBlock stp = some (st1, .ok v) := by
    unfold Context.executor
    rw [hoist]
    simp only [h1, ReturnBreakError_code, if_true]
    rfl
  refine ⟨h2, ?_⟩
  unfold Context.Exec
  simp only [hparams, h2]

/-- C28, on scenario 3: the program evaluates to `「小于」`; in the call
`（测试：6）` the branch `如果阈值大于10` ends without error, the statement
`返回「小于」` is met, and the executor returns `「小于」`. -/
theorem return_at_any_depth_witness :
    (NewContext.evalProgram 6 (NewRootScope ()) scenarioThree).map
        (fun r => (r.1.lastValue.toZnValue, r.2.map (fun e => e.err)))
      = some (.string none "小于".toList, none) ∧
    ∃ st1 : EvalState Empty Unit,
      NewContext.Exec (NewContext.evalStatement (NewContext.evalExpression 3) 2)
        (.closure "测试".toList ["阈值".toList] scenarioThree.body)
        (NewFuncScope (NewRootScope ()) none)
        [.value (.decimal (NewZnDecimalFromInt 6 0))]
      = some (st1, .ok (.value (.string none "小于".toList))) := by
  refine ⟨rfl, ?_, ?_⟩
  case refine_2 =>
    refine (return_at_any_depth NewContext (NewContext.evalExpression 3) 2 "测试".toList
      ["阈值".toList] scenarioThree.body [.value (.decimal (NewZnDecimalFromInt 6 0))]
      (NewFuncScope (NewRootScope ()) none) ?stp ?st0 _ _ ?hp ?hh ?hr).2
    case hp => exact rfl
    case hh => exact rfl
    case hr =>
      refine Returns.bodyNext 2 _ ?s1 _ _ _ _ rfl ?h1 ?h2
      case h1 => exact rfl
      case h2 =>
        refine Returns.bodyHere 2 _ _ _ _ _ rfl ?_
        refine Returns.ret 1 _ ?s2 _ _ ?h3
        case h3 => exact rfl

/-! ## C29: hoisting -/

theorem getValue_unbound {V : Type} (globals : List (List Char × V))
    (scope : List (BlockScope V)) (name : List Char)
    (hg : goMapGet globals name = none) (hb : ∀ sp ∈ scope, sp.GetSymbol name = none) :
    getValue globals scope name = .error (NameNotDefined name) := by
  unfold getValue
  rw [hg, getValueLoop_eq, (nearestBinding_eq_none name scope).2 hb]

theorem evalExpression_succ {X W : Type} (ctx : Context X W) (fuel : Nat)
    (st : EvalState X W) (expr : Expression X) :
    ctx.evalExpression (fuel + 1) st expr =
      Context.evalExpression.switch ctx (ctx.evalExpression fuel)
        (ctx.evalStatement (ctx.evalExpression fuel) fuel) st expr := rfl

theorem roundI_cons {X W : Type} (ctx : Context X W) (stmtI : Statement X)
    (rest : List (Statement X)) (st : EvalState X W) :
    ctx.roundI (stmtI :: rest) st =
      match stmtI with
      | .FunctionDeclareStmt name params block =>
        match st.bindValue ctx.globals name (.function name params block) false with
        | none => none
        | some (st1, some err) => some (st1, some (EvalError.plain err))
        | some (st1, none) => ctx.roundI rest st1
      | .ClassDeclareStmt name node =>
        match bindClassRef st name node with
        | (st1, some err) => some (st1, some (EvalError.plain err))
        | (st1, none) => ctx.roundI rest st1
      | _ => ctx.roundI rest st := by
  cases stmtI <;> rfl

theorem bindValue_ok {X W : Type} (st st1 : EvalState X W)
    (globals : List (List Char × EvalValue X)) (name : List Char) (value : EvalValue X)
    (h : st.bindValue globals name value false = some (st1, none)) :
    goMapGet globals name = none ∧
    ∃ sp parent, st.scope = sp :: parent ∧ sp.GetSymbol name = none ∧
      st1.scope = sp.SetSymbol name value false :: parent := by
  unfold EvalState.bindValue at h
  cases hs : st.scope with
  | nil => rw [hs] at h; cases h
  | cons sp parent =>
    rw [hs] at h
    simp only [Option.some.injEq, Prod.mk.injEq] at h
    obtain ⟨h1, h2⟩ := h
    unfold Zn.bindValue at h1 h2
    cases hg : goMapGet globals name with
    | some g => rw [hg] at h2; cases h2
    | none =>
      rw [hg] at h1 h2
      cases hn : sp.GetSymbol name with
      | some s => rw [hn] at h2; cases h2
      | none =>
        rw [hn] at h1
        refine ⟨rfl, sp, parent, rfl, hn, ?_⟩
        rw [← h1]

theorem bindClassRef_scope {X W : Type} (st : EvalState X W) (name : List Char) (node : X) :
    (bindClassRef st name node).1.scope = st.scope := by
  unfold bindClassRef
  cases goMapGet st.classRefMap name <;> rfl

theorem roundI_keeps {X W : Type} (ctx : Context X W) (name : List Char)
    (sym : SymbolInfo (EvalValue X)) :
    ∀ (block : List (Statement X)) (st st1 : EvalState X W),
      ctx.roundI block st = some (st1, none) →
      (∃ sp parent, st.scope = sp :: parent ∧ sp.GetSymbol name = some sym) →
      ∃ sp parent, st1.scope = sp :: parent ∧ sp.GetSymbol name = some sym := by
  intro block
  induction block with
  | nil =>
    intro st st1 h hs
    simp only [Context.roundI, Option.some.injEq, Prod.mk.injEq, and_true] at h
    subst h; exact hs
  | cons stmtI rest ih =>
    intro st st1 h hs
    rw [roundI_cons] at h
    cases stmtI with
    | FunctionDeclareStmt f p b =>
      simp only at h
      cases hb : st.bindValue ctx.globals f (.function f p b) false with
      | none => rw [hb] at h; cases h
      | some r =>
        obtain ⟨s1, e⟩ := r
        rw [hb] at h
        cases e with
        | some err => simp at h
        | none =>
          simp only at h
          refine ih s1 st1 h ?_
          obtain ⟨_, sp, parent, h1, h2, h3⟩ := bindValue_ok st s1 ctx.globals f _ hb
          obtain ⟨sp0, parent0, h4, h5⟩ := hs
          rw [h1] at h4
          cases h4
          refine ⟨_, _, h3, ?_⟩
          unfold BlockScope.SetSymbol BlockScope.GetSymbol
          rw [goMapGet_set]
          have hne : ¬ f = name := by
            intro hfn
            subst hfn
            rw [h2] at h5; cases h5
          rw [if_neg hne]
          exact h5
    | ClassDeclareStmt c node =>
      simp only at h
      cases hb : bindClassRef st c node with
      | mk s1 e =>
        rw [hb] at h
        cases e with
        | some err => simp at h
        | none =>
          simp only at h
          refine ih s1 st1 h ?_
          have := bindClassRef_scope st c node
          rw [hb] at this
          simp only at this
          rw [this]; exact hs
    | VarDeclareStmt _ => exact ih st st1 h hs
    | WhileLoopStmt _ _ => exact ih st st1 h hs
    | BranchStmt _ _ _ _ _ _ => exact ih st st1 h hs
    | EmptyStmt => exact ih st st1 h hs
    | IterateStmt _ _ _ => exact ih st st1 h hs
    | FunctionReturnStmt _ => exact ih st st1 h hs
    | Expression _ => exact ih st st1 h hs

theorem roundI_binds {X W : Type} (ctx : Context X W) (f : List Char) (p : List (List Char))
    (b : List (Statement X)) :
    ∀ (block : List (Statement X)) (st st1 : EvalState X W),
      ctx.roundI block st = some (st1, none) →
      Statement.FunctionDeclareStmt f p b ∈ block →
      goMapGet ctx.globals f = none ∧
      ∃ sp parent, st1.scope = sp :: parent ∧
        sp.GetSymbol f = some { Value := .function f p b, IsConstant := false } := by
  intro block
  induction block with
  | nil => intro st st1 _ hm; cases hm
  | cons stmtI rest ih =>
    intro st st1 h hm
    rw [roundI_cons] at h
    rcases List.mem_cons.1 hm with hm2 | hm2
    · subst hm2
      simp only at h
      cases hb : st.bindValue ctx.globals f (.function f p b) false with
      | none => rw [hb] at h; cases h
      | some r =>
        obtain ⟨s1, e⟩ := r
        rw [hb] at h
        cases e with
        | some err => simp at h
        | none =>
          simp only at h
          obtain ⟨hg, sp, parent, _, _, h3⟩ := bindValue_ok st s1 ctx.globals f _ hb
          refine ⟨hg, roundI_keeps ctx f _ rest s1 st1 h ⟨_, _, h3, ?_⟩⟩
          unfold BlockScope.SetSymbol BlockScope.GetSymbol
          rw [goMapGet_set, if_pos rfl]
    · cases stmtI with
      | FunctionDeclareStmt f1 p1 b1 =>
        simp only at h
        cases hb : st.bindValue ctx.globals f1 (.function f1 p1 b1) false with
        | none => rw [hb] at h; cases h
        | some r =>
          obtain ⟨s1, e⟩ := r
          rw [hb] at h
          cases e with
          | some err => simp at h
          | none => exact ih s1 st1 h hm2
      | ClassDeclareStmt c node =>
        simp only at h
        cases hb : bindClassRef st c node with
        | mk s1 e =>
          rw [hb] at h
          cases e with
          | some err => simp at h
          | none => exact ih s1 st1 h hm2
      | VarDeclareStmt _ => exact ih st st1 h hm2
      | WhileLoopStmt _ _ => exact ih st st1 h hm2
      | BranchStmt _ _ _ _ _ _ => exact ih st st1 h hm2
      | EmptyStmt => exact ih st st1 h hm2
      | IterateStmt _ _ _ => exact ih st st1 h hm2
      | FunctionReturnStmt _ => exact ih st st1 h hm2
      | Expression _ => exact ih st st1 h hm2

/-- C29 fails on the code: in the program `如果真：` with the body `（f）` followed
by the declaration of `f`, the body is evaluated in the root scope, where the
declaration is hoisted: the call finds `f` and the program ends without error. -/
theorem evalBranchStmt_hoists_at_top_level :
    ∃ st1 : EvalState Empty Unit,
      NewContext.evalProgram 6 (NewRootScope ())
        [.BranchStmt (.ID "真".toList)
          [.Expression (.FuncCallExpr "f".toList []),
           .FunctionDeclareStmt "f".toList [] [.Expression (.String "x".toList)]]
          [] [] false []]
      = some (st1, none) :=
  ⟨_, rfl⟩

/-- C29, amended: hoisting goes with the scope, not with the block. A block
evaluated in the root scope, which the branches of a `如果` placed at top level
are (`evalBranchStmt` evaluates the block of the branch taken in the scope of
the statement), binds each function it declares before any of its statements
is evaluated. A block evaluated in any other scope does not hoist: a call, as
its first statement, of a function that is not bound fails with
name-not-defined, also when the function is declared later in the block. -/
theorem evalStmtBlock_hoisting {X W : Type} (ctx : Context X W) :
    (∀ (ev : EvalState X W → Expression X → ExprResult X W)
        (evalBlock : EvalState X W → List (Statement X) → StmtResult X W)
        (st st1 : EvalState X W) (c : Expression X) (tb : List (Statement X))
        (oe : List (Expression X)) (ob : List (List (Statement X))) (he : Bool)
        (fb blk : List (Statement X)),
      evalBranchStmt.select ev st c tb oe ob he fb = some (st1, .ok (some blk)) →
      evalBranchStmt ev evalBlock st c tb oe ob he fb = evalBlock st1 blk) ∧
    (∀ (evalStatement : EvalState X W → Statement X → StmtResult X W)
        (st st1 : EvalState X W) (block : List (Statement X)),
      st.isRootScope = true → ctx.roundI block st = some (st1, none) →
      ctx.evalStmtBlock evalStatement st block =
        evalStmtBlock.each
          (fun s stmtII => if stmtII.isDeclare then some (s, none) else evalStatement s stmtII)
          block st1 ∧
      ∀ (f : List Char) (p : List (List Char)) (b : List (Statement X)),
        Statement.FunctionDeclareStmt f p b ∈ block →
        getValue ctx.globals st1.scope f = .ok (.function f p b)) ∧
    (∀ (n m : Nat) (st : EvalState X W) (f : List Char) (ps : List (Expression X))
        (rest : List (Statement X)),
      st.isRootScope = false →
      (∀ this rv, st.ext.head? = some (.FuncScope (some this) rv) → ctx.GetMethod this f = none) →
      goMapGet ctx.globals f = none → (∀ sp ∈ st.scope, sp.GetSymbol f = none) →
      ctx.evalStmtBlock (ctx.evalStatement (ctx.evalExpression (m + 1)) (n + 1)) st
          (.Expression (.FuncCallExpr f ps) :: rest)
        = some (st, some (EvalError.plain (NameNotDefined f)))
      ∧ (NameNotDefined f).code = 0x2501) := by
  refine ⟨?_, ?_, ?_⟩
  · intro ev evalBlock st st1 c tb oe ob he fb blk h
    unfold evalBranchStmt
    rw [h]
  · intro evalStatement st st1 block hr h
    refine ⟨?_, ?_⟩
    · unfold Context.evalStmtBlock
      rw [if_pos hr, h]
    · intro f p b hm
      obtain ⟨hg, sp, parent, h1, h2⟩ := roundI_binds ctx f p b block st st1 h hm
      unfold getValue
      rw [hg, h1]
      unfold getValueLoop
      rw [h2]
  · intro n m st f ps rest hr hmeth hg hb
    refine ⟨?_, rfl⟩
    have hcall : ctx.evalExpression (m + 1) st (.FuncCallExpr f ps)
        = some (st, .error (EvalError.plain (NameNotDefined f))) := by
      rw [evalExpression_succ]
      have hnone : ctx.receiverMethod st f = none := by
        unfold Context.receiverMethod
        cases he : st.ext.head? with
        | none => rfl
        | some e =>
          cases e with
          | FuncScope this rv =>
            cases this with
            | none => rfl
            | some t => exact hmeth t rv he
          | RootScope => rfl
          | WhileScope => rfl
          | IterateScope _ _ => rfl
      simp only [Context.evalExpression.switch, Context.evalFunctionCall, Context.findClosure,
        hnone, getValue_unbound ctx.globals st.scope f hg hb]
    unfold Context.evalStmtBlock
    rw [if_neg (by rw [hr]; decide), each_cons, evalStatement_succ]
    simp only [Context.evalStatement.switch, hcall]

/-- C29, amended, at an instance: in the body of a `每当` placed at top level the
call `（f）` fails with name-not-defined though `f` is declared next. -/
theorem evalStmtBlock_hoisting_witness :
    NewContext.evalStmtBlock (NewContext.evalStatement (NewContext.evalExpression 1) 1)
        ((NewRootScope ()).push .WhileScope)
        [.Expression (.FuncCallExpr "f".toList []),
         .FunctionDeclareStmt "f".toList [] [.Expression (.String "x".toList)]]
      = some ((NewRootScope ()).push .WhileScope, some (EvalError.plain (NameNotDefined "f".toList))) :=
  ((evalStmtBlock_hoisting NewContext).2.2 0 0 ((NewRootScope ()).push .WhileScope) "f".toList []
    [.FunctionDeclareStmt "f".toList [] [.Expression (.String "x".toList)]]
    rfl (fun _ _ h => by cases h) rfl
    (fun sp h => by
      have h2 : sp ∈ [({ symbolMap := [] } : BlockScope (EvalValue Empty)), { symbolMap := [] }] := h
      simp only [List.mem_cons, List.mem_singleton, or_self, List.not_mem_nil, or_false] at h2
      subst h2
      rfl)).1

/-! ## C35: the rune stack -/

theorem take_set_same {α : Type} (x : α) : ∀ (l : List α) (n : Nat),
    (l.set n x).take n = l.take n
  | [], _ => by simp
  | _ :: _, 0 => by simp
  | a :: l, n + 1 => by simp [take_set_same x l n]

theorem Push_of_room (rs : RuneStack) (x : Int) (h0 : 0 ≤ rs.count) (h1 : rs.count < rs.maxSize)
    (hl : (rs.stack.length : Int) = rs.maxSize) (hm : rs.maxSize < 2 ^ 63) :
    rs.Push x = some (true, { rs with stack := rs.stack.set rs.count.toNat x,
                                      count := rs.count + 1 }) := by
  have hne : ¬ rs.count = rs.maxSize := by omega
  have hr : ¬ (rs.count < 0 ∨ rs.count ≥ rs.stack.length) := by omega
  have hw : wrapInt (rs.count + 1) = rs.count + 1 :=
    wrapInt_of_range _ (by omega) (by omega)
  simp only [RuneStack.Push, if_neg hne, if_neg hr, hw]

theorem Pop_of_items (rs : RuneStack) (h0 : 0 < rs.count) (h1 : rs.count ≤ rs.maxSize)
    (hl : (rs.stack.length : Int) = rs.maxSize) (hm : rs.maxSize < 2 ^ 63) :
    ∃ v, rs.stack[(rs.count - 1).toNat]? = some v ∧
      rs.Pop = some ((v, true), { rs with count := rs.count - 1 }) := by
  have hne : ¬ rs.count = 0 := by omega
  have hw : wrapInt (rs.count - 1) = rs.count - 1 :=
    wrapInt_of_range _ (by omega) (by omega)
  have hlt : (rs.count - 1).toNat < rs.stack.length := by omega
  refine ⟨rs.stack[(rs.count - 1).toNat], List.getElem?_eq_getElem hlt, ?_⟩
  have hn : ¬ (rs.count - 1 < 0) := by omega
  simp only [RuneStack.Pop, if_neg hne, hw, if_neg hn, List.getElem?_eq_getElem hlt]

/-- The invariant of a stack of capacity `m`. -/
theorem run_invariant (m : Int) (hm : m < 2 ^ 63) : ∀ (ops : List (Option Int)) (rs : RuneStack),
    0 ≤ rs.count → rs.count ≤ rs.maxSize → (rs.stack.length : Int) = rs.maxSize →
    rs.maxSize = m →
    ∃ rs1, rs.run ops = some rs1 ∧ 0 ≤ rs1.count ∧ rs1.count ≤ rs1.maxSize ∧
      (rs1.stack.length : Int) = rs1.maxSize ∧ rs1.maxSize = m := by
  intro ops
  induction ops with
  | nil => intro rs h0 h1 hl hmm; exact ⟨rs, rfl, h0, h1, hl, hmm⟩
  | cons op ops ih =>
    intro rs h0 h1 hl hmm
    cases op with
    | some x =>
      by_cases hfull : rs.count = rs.maxSize
      · have hp : rs.Push x = some (false, rs) := by simp only [RuneStack.Push, if_pos hfull]
        simp only [RuneStack.run, hp]
        exact ih rs h0 h1 hl hmm
      · have hp := Push_of_room rs x h0 (by omega) hl (by omega)
        simp only [RuneStack.run, hp]
        refine ih _ ?_ ?_ ?_ hmm
        · show 0 ≤ rs.count + 1
          omega
        · show rs.count + 1 ≤ rs.maxSize
          omega
        · show ((rs.stack.set rs.count.toNat x).length : Int) = rs.maxSize
          rw [List.length_set]; exact hl
    | none =>
      by_cases hemp : rs.count = 0
      · have hp : rs.Pop = some ((0, false), rs) := by simp only [RuneStack.Pop, if_pos hemp]
        simp only [RuneStack.run, hp]
        exact ih rs h0 h1 hl hmm
      · obtain ⟨v, _, hp⟩ := Pop_of_items rs (by omega) h1 hl (by omega)
        simp only [RuneStack.run, hp]
        refine ih _ ?_ ?_ hl hmm
        · show 0 ≤ rs.count - 1
          omega
        · show rs.count - 1 ≤ rs.maxSize
          omega

/-- C35: on a stack made by `NewRuneStack(m)` and used through any run of
`Push` and `Pop` calls, the item count stays between 0 and `m`; `Push(x)`
succeeds exactly when fewer than `m` items are stored, and otherwise returns
false and leaves the stack unchanged; after a successful `Push(x)`, `Pop`
returns `(x, true)` and the stored items and their count are as before the
push; `Pop` on an empty stack returns false. The capacity is a machine int. -/
theorem RuneStack_spec (m : Int) (hm0 : 0 ≤ m) (hm : m < 2 ^ 63) (ops : List (Option Int))
    (x : Int) :
    ∃ rs0 rs, NewRuneStack m = some rs0 ∧ rs0.run ops = some rs ∧
      0 ≤ rs.count ∧ rs.count ≤ m ∧
      (∃ ok rs1, rs.Push x = some (ok, rs1) ∧ (ok = true ↔ rs.count < m) ∧
        (ok = false → rs1 = rs) ∧
        (ok = true → rs1.count = rs.count + 1 ∧ rs1.items = rs.items ++ [x] ∧
          ∃ rs2, rs1.Pop = some ((x, true), rs2) ∧ rs2.items = rs.items ∧
            rs2.count = rs.count)) ∧
      (rs.count = 0 → rs.Pop = some ((0, false), rs)) := by
  have hnew : NewRuneStack m
      = some { stack := List.replicate m.toNat 0, count := 0, maxSize := m } := by
    simp only [NewRuneStack, if_neg (not_lt.mpr hm0)]
  obtain ⟨rs, hrun, h0, h1, hl, hmm⟩ :=
    run_invariant m hm ops { stack := List.replicate m.toNat 0, count := 0, maxSize := m }
      (le_refl _) hm0 (by simp only [List.length_replicate]; omega) rfl
  refine ⟨_, rs, hnew, hrun, h0, by omega, ?_, ?_⟩
  · by_cases hfull : rs.count = rs.maxSize
    · refine ⟨false, rs, by simp only [RuneStack.Push, if_pos hfull], ?_, fun _ => rfl, ?_⟩
      · constructor
        · intro h; cases h
        · intro h; omega
      · intro h; cases h
    · have hp := Push_of_room rs x h0 (by omega) hl (by omega)
      have hlen : rs.count.toNat < rs.stack.length := by omega
      have hitems : (rs.stack.set rs.count.toNat x).take (rs.count + 1).toNat
          = rs.stack.take rs.count.toNat ++ [x] := by
        have e1 : (rs.count + 1).toNat = rs.count.toNat + 1 := by omega
        rw [e1, List.take_succ, take_set_same]
        simp [List.getElem?_set_self hlen]
      refine ⟨true, _, hp, ?_, ?_, ?_⟩
      · constructor
        · intro _; omega
        · intro _; rfl
      · intro h; cases h
      · intro _
        refine ⟨rfl, hitems, ?_⟩
        obtain ⟨v, hv, hpop⟩ := Pop_of_items
          { rs with stack := rs.stack.set rs.count.toNat x, count := rs.count + 1 }
          (by show 0 < rs.count + 1; omega) (by show rs.count + 1 ≤ rs.maxSize; omega)
          (by show ((rs.stack.set rs.count.toNat x).length : Int) = rs.maxSize
              rw [List.length_set]; exact hl)
          (by show rs.maxSize < 2 ^ 63; omega)
        have hv2 : (rs.stack.set rs.count.toNat x)[(rs.count + 1 - 1).toNat]? = some v := hv
        have e2 : (rs.count + 1 - 1).toNat = rs.count.toNat := by omega
        rw [e2, List.getElem?_set_self hlen] at hv2
        have hvx : v = x := (Option.some.inj hv2).symm
        subst hvx
        refine ⟨_, hpop, ?_, ?_⟩
        · show (rs.stack.set rs.count.toNat v).take (rs.count + 1 - 1).toNat
            = rs.stack.take rs.count.toNat
          rw [e2, take_set_same]
        · show rs.count + 1 - 1 = rs.count
          omega
  · intro hemp
    simp only [RuneStack.Pop, if_pos hemp]

/-- C35 on the stack of capacity 4 after `Push(2)`, `Push(4)`, with `x = 6`. -/
theorem RuneStack_spec_witness :
    (0 : Int) ≤ 4 ∧ (4 : Int) < 2 ^ 63 ∧
    ∃ rs0 rs, NewRuneStack 4 = some rs0 ∧ rs0.run [some 2, some 4] = some rs ∧
      0 ≤ rs.count ∧ rs.count ≤ 4 ∧
      (∃ ok rs1, rs.Push 6 = some (ok, rs1) ∧ (ok = true ↔ rs.count < 4) ∧
        (ok = false → rs1 = rs) ∧
        (ok = true → rs1.count = rs.count + 1 ∧ rs1.items = rs.items ++ [6] ∧
          ∃ rs2, rs1.Pop = some ((6, true), rs2) ∧ rs2.items = rs.items ∧
            rs2.count = rs.count)) ∧
      (rs.count = 0 → rs.Pop = some ((0, false), rs)) :=
  ⟨by decide, by decide, RuneStack_spec 4 (by decide) (by decide) [some 2, some 4] 6⟩
/-! ## C37: the cursor offset -/

theorem scan_some (t : Int) : ∀ (bs : List Int) (idx : Nat),
    idx + bs.length ≤ calcCursorOffset.widths.length →
    ∃ w, calcCursorOffset.scan t bs idx = some w ∧ 0 ≤ w ∧ w ≤ 2 := by
  intro bs
  induction bs with
  | nil => intro idx _; exact ⟨1, rfl, by decide, by decide⟩
  | cons b rest ih =>
    intro idx h
    simp only [List.length_cons] at h
    by_cases hb : t ≤ b
    · have hlt : idx < calcCursorOffset.widths.length := by omega
      refine ⟨calcCursorOffset.widths[idx], ?_, ?_, ?_⟩
      · simp only [calcCursorOffset.scan, if_pos hb, List.getElem?_eq_getElem hlt]
      · have : ∀ w ∈ calcCursorOffset.widths, (0 : Int) ≤ w := by decide
        exact this _ (List.getElem_mem hlt)
      · have : ∀ w ∈ calcCursorOffset.widths, w ≤ (2 : Int) := by decide
        exact this _ (List.getElem_mem hlt)
    · simp only [calcCursorOffset.scan, if_neg hb]
      exact ih (idx + 1) (by omega)

theorem getOffset_some (t : Int) :
    ∃ w, calcCursorOffset.getOffset t = some w ∧ 0 ≤ w ∧ w ≤ 2 := by
  unfold calcCursorOffset.getOffset
  split
  · exact ⟨0, rfl, by decide, by decide⟩
  · exact scan_some t _ 0 (by decide)

theorem getOffset_displayWidth (t : Char) :
    calcCursorOffset.getOffset (t.toNat : Int) = some (displayWidth t) := by
  obtain ⟨w, hw, _, _⟩ := getOffset_some (t.toNat : Int)
  simp only [displayWidth, hw, Option.getD_some]

theorem displayWidth_nonneg (t : Char) : 0 ≤ displayWidth t := by
  obtain ⟨w, hw, h0, _⟩ := getOffset_some (t.toNat : Int)
  simp only [displayWidth, hw, Option.getD_some]
  exact h0

theorem loop_sum : ∀ (l : List Char) (offsets : Int),
    calcCursorOffset.loop l offsets = some (offsets + (l.map displayWidth).sum)
  | [], offsets => by simp [calcCursorOffset.loop]
  | t :: rest, offsets => by
    simp only [calcCursorOffset.loop, getOffset_displayWidth, loop_sum rest, List.map_cons,
      List.sum_cons, add_assoc]

theorem sum_take_mono (l : List Char) : ∀ (a b : Nat), a ≤ b →
    ((l.take a).map displayWidth).sum ≤ ((l.take b).map displayWidth).sum := by
  induction l with
  | nil => intro a b _; simp
  | cons t rest ih =>
    intro a b hab
    cases a with
    | zero =>
      simp only [List.take_zero, List.map_nil, List.sum_nil]
      apply List.sum_nonneg
      intro x hx
      obtain ⟨c, _, hc⟩ := List.mem_map.1 hx
      rw [← hc]; exact displayWidth_nonneg c
    | succ a =>
      cases b with
      | zero => omega
      | succ b =>
        simp only [List.take_succ_cons, List.map_cons, List.sum_cons]
        have := ih a b (by omega)
        omega

theorem calcCursorOffset_in_range (text : List Char) (col : Int) (h0 : 0 ≤ col)
    (h1 : col ≤ text.length) :
    calcCursorOffset text col = some ((text.take col.toNat).map displayWidth).sum := by
  have hn : ¬ col < 0 := by omega
  have hg : ¬ col > text.length := by omega
  simp only [calcCursorOffset, if_neg hn, if_neg hg, loop_sum, zero_add]

theorem displayWidth_ascii (t : Char) (h : t.toNat ≤ 0x7E) (he : t.toNat ≠ 0xE)
    (hf : t.toNat ≠ 0xF) : displayWidth t = 1 := by
  have h1 : ¬ (((t.toNat : Nat) : Int) = 0xE ∨ ((t.toNat : Nat) : Int) = 0xF) := by omega
  have h2 : ((t.toNat : Nat) : Int) ≤ 126 := by omega
  simp only [displayWidth, calcCursorOffset.getOffset, if_neg h1, calcCursorOffset.widthBorders,
    calcCursorOffset.scan, if_pos h2]
  rfl

theorem scan_skip_prefix (t : Int) : ∀ (pre rest : List Int) (idx : Nat),
    (∀ x ∈ pre, x < t) →
    calcCursorOffset.scan t (pre ++ rest) idx = calcCursorOffset.scan t rest (idx + pre.length)
  | [], rest, idx, _ => by simp
  | b :: pre, rest, idx, h => by
    have hb : ¬ t ≤ b := not_le.mpr (h b (List.mem_cons_self _ _))
    have ih := scan_skip_prefix t pre rest (idx + 1)
      (fun x hx => h x (List.mem_cons_of_mem _ hx))
    have e : idx + (b :: pre).length = idx + 1 + pre.length := by
      simp only [List.length_cons]; omega
    rw [e, ← ih]
    simp only [List.cons_append, calcCursorOffset.scan, if_neg hb]
    rfl

theorem displayWidth_cjk (t : Char) (h1 : 0x4E00 ≤ t.toNat) (h2 : t.toNat ≤ 0x9FFF) :
    displayWidth t = 2 := by
  have h0 : ¬ (((t.toNat : Nat) : Int) = 0xE ∨ ((t.toNat : Nat) : Int) = 0xF) := by omega
  have hsplit : calcCursorOffset.widthBorders
      = calcCursorOffset.widthBorders.take 25 ++ (55203 :: calcCursorOffset.widthBorders.drop 26) := by
    decide
  have hpre : ∀ x ∈ calcCursorOffset.widthBorders.take 25, x ≤ (19967 : Int) := by decide
  have hskip := scan_skip_prefix (t.toNat : Int) (calcCursorOffset.widthBorders.take 25)
    (55203 :: calcCursorOffset.widthBorders.drop 26) 0
    (fun x hx => by have := hpre x hx; omega)
  have hhit : ((t.toNat : Nat) : Int) ≤ 55203 := by omega
  have hlen : 0 + (calcCursorOffset.widthBorders.take 25).length = 25 := by decide
  rw [← hsplit, hlen] at hskip
  unfold displayWidth calcCursorOffset.getOffset
  rw [if_neg h0, hskip]
  unfold calcCursorOffset.scan
  rw [if_pos hhit]
  rfl

/-- C37: `calcCursorOffset(text, col)` returns `col` unchanged when `col < 0`;
for `0 ≤ col ≤ length of text in runes` it returns the sum of the display
widths of the first `col` runes, where every printable ASCII character and the
tab count 1 and every CJK ideograph U+4E00..U+9FFF counts 2; the result is
non-decreasing in `col` (for every pair of columns up to the length). On the
text of the repository's test, column 8 gives 12. -/
theorem calcCursorOffset_spec (text : List Char) :
    (∀ col : Int, col < 0 → calcCursorOffset text col = some col) ∧
    (∀ col : Int, 0 ≤ col → col ≤ text.length →
      calcCursorOffset text col = some ((text.take col.toNat).map displayWidth).sum) ∧
    (∀ t : Char, (0x20 ≤ t.toNat ∧ t.toNat ≤ 0x7E) ∨ t = TAB → displayWidth t = 1) ∧
    (∀ t : Char, 0x4E00 ≤ t.toNat ∧ t.toNat ≤ 0x9FFF → displayWidth t = 2) ∧
    (∀ col1 col2 : Int, col1 ≤ col2 → col2 ≤ text.length →
      ∃ r1 r2, calcCursorOffset text col1 = some r1 ∧ calcCursorOffset text col2 = some r2
        ∧ r1 ≤ r2) ∧
    calcCursorOffset "汉字TA汉字\t\t245μg测试Ѣ2为什么".toList 8 = some 12 := by
  refine ⟨?_, calcCursorOffset_in_range text, ?_, ?_, ?_, by decide⟩
  · intro col h
    simp only [calcCursorOffset, if_pos h]
  · intro t h
    rcases h with ⟨h1, h2⟩ | h
    · exact displayWidth_ascii t h2 (by omega) (by omega)
    · subst h; decide
  · intro t h
    exact displayWidth_cjk t h.1 h.2
  · intro col1 col2 h12 h2
    by_cases hn2 : col2 < 0
    · refine ⟨col1, col2, ?_, ?_, h12⟩
      · simp only [calcCursorOffset, if_pos (show col1 < 0 by omega)]
      · simp only [calcCursorOffset, if_pos hn2]
    · have hs2 := calcCursorOffset_in_range text col2 (by omega) h2
      have hnn : 0 ≤ ((text.take col2.toNat).map displayWidth).sum := by
        apply List.sum_nonneg
        intro x hx
        obtain ⟨c, _, hc⟩ := List.mem_map.1 hx
        rw [← hc]; exact displayWidth_nonneg c
      by_cases hn1 : col1 < 0
      · refine ⟨col1, _, ?_, hs2, by omega⟩
        simp only [calcCursorOffset, if_pos hn1]
      · refine ⟨_, _, calcCursorOffset_in_range text col1 (by omega) (by omega), hs2, ?_⟩
        exact sum_take_mono text _ _ (by omega)

/-! ## C31: asInteger -/

/-- C31 fails on the code: the literal `1E+1` is the decimal with coefficient 1
and exponent 1, which stands for ten, and `asInteger` returns 1 for it with no
error: it returns the coefficient and never applies the exponent. -/
theorem asInteger_drops_exponent :
    ∃ d : ZnDecimal, NewZnDecimal "1E+1".toList = some (.ok d) ∧ d.co = 1 ∧ d.exp = 1
      ∧ d.value = 10 ∧ d.asInteger = .ok 1 := by
  refine ⟨⟨some defaultDecimalClassRef, 1, 1⟩, rfl, rfl, rfl, ?_, rfl⟩
  simp [ZnDecimal.value]

/-! ## C36: index access -/

/-- C36, as stated, fails: on the two-item array `【0，1】` the index `1.0`
(coefficient 10, exponent −1), which stands for the integer 1, is refused with
the type error for a non-integer; and on the eleven-item array `【0，…，10】` the
index `1E+1`, which stands for ten, reads item 1. -/
theorem Reduce_index_counterexample :
    (∃ d : ZnDecimal, NewZnDecimal "1.0".toList = some (.ok d) ∧ d.value = 1 ∧
      ZnArrayIV.Reduce [countingItems 2] 0 d (.array 0) false
        = some ([countingItems 2], .error InvalidExprTypeInteger)) ∧
    (∃ d : ZnDecimal, NewZnDecimal "1E+1".toList = some (.ok d) ∧ d.value = 10 ∧
      (countingItems 11)[10]? = some (.decimal (NewZnDecimalFromInt 10 0)) ∧
      ZnArrayIV.Reduce [countingItems 11] 0 d (.array 0) false
        = some ([countingItems 11], .ok (.decimal (NewZnDecimalFromInt 1 0)))) := by
  refine ⟨⟨⟨some defaultDecimalClassRef, 10, -1⟩, by rfl, ?_, by rfl⟩,
    ⟨⟨some defaultDecimalClassRef, 1, 1⟩, by rfl, ?_, by rfl, by rfl⟩⟩
  · simp [ZnDecimal.value]
  · simp [ZnDecimal.value]

/-- C36, amended. For an array of length `n` (the array object at address
`addr` of the store) and an index decimal with exponent 0 and a coefficient
`i` within the machine int: `ZnArrayIV.Reduce` with `lhs = false` returns
element `i`, whatever the input is, and leaves every array unchanged when
`0 ≤ i < n`, and fails with index-out-of-range (code 0x2401) when `i < 0` or
`i ≥ n`; with `lhs = true` and `0 ≤ i < n` it returns the input, replaces
element `i` by it and leaves every other element and every other array
unchanged. -/
theorem Reduce_index_spec (store : ArrayStore) (addr : Nat) (value : List ZnRef)
    (hs : store[addr]? = some value) (Index : ZnDecimal) (he : Index.exp = 0)
    (h1 : -(2 : Int) ^ 63 ≤ Index.co) (h2 : Index.co < (2 : Int) ^ 63) (input : ZnRef) :
    IndexOutOfRange.code = 0x2401 ∧
    (Index.co < 0 ∨ Index.co ≥ value.length →
      ZnArrayIV.Reduce store addr Index input false = some (store, .error IndexOutOfRange)) ∧
    (0 ≤ Index.co → Index.co < value.length →
      (∃ v, value[Index.co.toNat]? = some v ∧
        ZnArrayIV.Reduce store addr Index input false = some (store, .ok v)) ∧
      (∃ store1, ZnArrayIV.Reduce store addr Index input true = some (store1, .ok input) ∧
        store1[addr]? = some (value.set Index.co.toNat input) ∧
        (value.set Index.co.toNat input)[Index.co.toNat]? = some input ∧
        (∀ j, j ≠ Index.co.toNat → (value.set Index.co.toNat input)[j]? = value[j]?) ∧
        (∀ a, a ≠ addr → store1[a]? = store[a]?))) := by
  have hn : ¬ Index.exp < 0 := by omega
  have hr : ¬ ¬ (-(2 : Int) ^ 63 ≤ Index.co ∧ Index.co < (2 : Int) ^ 63) :=
    not_not.mpr ⟨h1, h2⟩
  have hi : Index.asInteger = .ok Index.co := by
    simp only [ZnDecimal.asInteger, if_neg hn, if_neg hr]
  have hL : addr < store.length := by
    by_contra hc
    rw [List.getElem?_eq_none (by omega)] at hs
    cases hs
  refine ⟨by decide, ?_, ?_⟩
  · intro hout
    simp only [ZnArrayIV.Reduce, hi, hs, if_pos hout]
  · intro h0 hlt
    have hin : ¬ (Index.co < 0 ∨ Index.co ≥ value.length) := by omega
    have hlen : Index.co.toNat < value.length := by omega
    refine ⟨⟨value[Index.co.toNat], List.getElem?_eq_getElem hlen, ?_⟩,
      ⟨store.set addr (value.set Index.co.toNat input), ?_, ?_, ?_, ?_, ?_⟩⟩
    · simp [ZnArrayIV.Reduce, hi, hs, hin, List.getElem?_eq_getElem hlen]
    · simp only [ZnArrayIV.Reduce, hi, hs, if_neg hin, if_true]
    · rw [List.getElem?_set_self hL]
    · rw [List.getElem?_set_self hlen]
    · intro j hj
      rw [List.getElem?_set_ne (Ne.symm hj)]
    · intro a ha
      rw [List.getElem?_set_ne (Ne.symm ha)]

/-- C36, amended, on the array `【0，1，2】` with index 2 and input 7. -/
theorem Reduce_index_spec_witness :
    [countingItems 3][0]? = some (countingItems 3) ∧ (NewZnDecimalFromInt 2 0).exp = 0 ∧
    -(2 : Int) ^ 63 ≤ (NewZnDecimalFromInt 2 0).co ∧ (NewZnDecimalFromInt 2 0).co < (2 : Int) ^ 63 ∧
    ZnArrayIV.Reduce [countingItems 3] 0 (NewZnDecimalFromInt 2 0)
        (.decimal (NewZnDecimalFromInt 7 0)) false
      = some ([countingItems 3], .ok (.decimal (NewZnDecimalFromInt 2 0))) ∧
    ZnArrayIV.Reduce [countingItems 3] 0 (NewZnDecimalFromInt 2 0)
        (.decimal (NewZnDecimalFromInt 7 0)) true
      = some ([[.decimal (NewZnDecimalFromInt 0 0), .decimal (NewZnDecimalFromInt 1 0),
                .decimal (NewZnDecimalFromInt 7 0)]], .ok (.decimal (NewZnDecimalFromInt 7 0))) ∧
    (IndexOutOfRange.code = 0x2401 ∧
    ((NewZnDecimalFromInt 2 0).co < 0 ∨ (NewZnDecimalFromInt 2 0).co ≥ (countingItems 3).length →
      ZnArrayIV.Reduce [countingItems 3] 0 (NewZnDecimalFromInt 2 0)
        (.decimal (NewZnDecimalFromInt 7 0)) false
        = some ([countingItems 3], .error IndexOutOfRange)) ∧
    (0 ≤ (NewZnDecimalFromInt 2 0).co → (NewZnDecimalFromInt 2 0).co < (countingItems 3).length →
      (∃ v, (countingItems 3)[(NewZnDecimalFromInt 2 0).co.toNat]? = some v ∧
        ZnArrayIV.Reduce [countingItems 3] 0 (NewZnDecimalFromInt 2 0)
          (.decimal (NewZnDecimalFromInt 7 0)) false = some ([countingItems 3], .ok v)) ∧
      (∃ store1, ZnArrayIV.Reduce [countingItems 3] 0 (NewZnDecimalFromInt 2 0)
          (.decimal (NewZnDecimalFromInt 7 0)) true
          = some (store1, .ok (.decimal (NewZnDecimalFromInt 7 0))) ∧
        store1[0]? = some ((countingItems 3).set (NewZnDecimalFromInt 2 0).co.toNat
          (.decimal (NewZnDecimalFromInt 7 0))) ∧
        ((countingItems 3).set (NewZnDecimalFromInt 2 0).co.toNat
          (.decimal (NewZnDecimalFromInt 7 0)))[(NewZnDecimalFromInt 2 0).co.toNat]?
          = some (.decimal (NewZnDecimalFromInt 7 0)) ∧
        (∀ j, j ≠ (NewZnDecimalFromInt 2 0).co.toNat →
          ((countingItems 3).set (NewZnDecimalFromInt 2 0).co.toNat
            (.decimal (NewZnDecimalFromInt 7 0)))[j]? = (countingItems 3)[j]?) ∧
        (∀ a, a ≠ 0 → store1[a]? = [countingItems 3][a]?)))) :=
  ⟨rfl, rfl, by decide, by decide, rfl, rfl,
    Reduce_index_spec [countingItems 3] 0 (countingItems 3) rfl
      (NewZnDecimalFromInt 2 0) rfl (by decide) (by decide)
      (.decimal (NewZnDecimalFromInt 7 0))⟩

/-! ## C38: the alignment loops of Div on negative coefficients -/

theorem alignDividend_negative : ∀ (fuel : Nat) (r c c10 adj : Int), r < 0 → 0 ≤ c →
    alignDividend fuel r c c10 adj = none
  | 0, _, _, _, _, _, _ => rfl
  | fuel + 1, r, c, c10, adj, hr, hc => by
    have hn : ¬ (r ≥ c ∧ r < c10) := by omega
    have ih := alignDividend_negative fuel (r * 10) c c10 (adj + 1) (by omega) hc
    simp only [alignDividend, if_neg hn, ih]

theorem alignDividend_below : ∀ (fuel : Nat) (r c c10 adj : Int), c10 ≤ c →
    alignDividend fuel r c c10 adj = none
  | 0, _, _, _, _, _ => rfl
  | fuel + 1, r, c, c10, adj, h10 => by
    have hn : ¬ (r ≥ c ∧ r < c10) := by omega
    have ih := alignDividend_below fuel (r * 10) c c10 (adj + 1) h10
    simp only [alignDividend, if_neg hn, ih]

theorem alignDivisor_negative : ∀ (fuel : Nat) (r i c10 adj : Int), i < 0 → 0 ≤ r →
    alignDivisor fuel r i c10 adj = none
  | 0, _, _, _, _, _, _ => rfl
  | fuel + 1, r, i, c10, adj, hi, hr => by
    have hn : ¬ (i ≥ r ∧ i < c10) := by omega
    have ih := alignDivisor_negative fuel r (i * 10) c10 (adj - 1) (by omega) hr
    simp only [alignDivisor, if_neg hn, ih]

theorem alignDivisor_below : ∀ (fuel : Nat) (r i c10 adj : Int), c10 ≤ r →
    alignDivisor fuel r i c10 adj = none
  | 0, _, _, _, _, _ => rfl
  | fuel + 1, r, i, c10, adj, h10 => by
    have hn : ¬ (i ≥ r ∧ i < c10) := by omega
    have ih := alignDivisor_below fuel r (i * 10) c10 (adj - 1) h10
    simp only [alignDivisor, if_neg hn, ih]

/-- With a negative coefficient on either side and a non-zero dividend, the
alignment loop of `divStep` never reaches its exit condition. -/
theorem divStep_negative (ai : Arith) (fuel : Nat) (result item : ZnDecimal)
    (h : result.co < 0 ∨ item.co < 0) (hr : result.co ≠ 0) (hi : item.co ≠ 0) :
    ai.divStep fuel result item = none := by
  unfold Arith.divStep
  by_cases hlt : result.co < item.co
  · simp only [if_pos hlt]
    by_cases hneg : result.co < 0
    · by_cases hipos : 0 ≤ item.co
      · rw [alignDividend_negative fuel _ _ _ _ hneg hipos]; rfl
      · rw [alignDividend_below fuel _ _ _ _ (by omega)]; rfl
    · omega
  · simp only [if_neg hlt]
    by_cases hineg : item.co < 0
    · by_cases hrpos : 0 ≤ result.co
      · rw [alignDivisor_negative fuel _ _ _ _ hineg hrpos]; rfl
      · rw [alignDivisor_below fuel _ _ _ _ (by omega)]; rfl
    · omega

/-- C38 fails on the code: `Div(-1, 3)` and `Div(1, -3)` at the default
precision do not return, whatever number of rounds the alignment loops are
given: in `-1 ÷ 3` the dividend runs through −10, −100, … and never reaches the
divisor; in `1 ÷ -3` the divisor runs through −30, −300, … and never reaches
the dividend. -/
theorem Div_negative_diverges :
    (∀ fuel, (NewArith defaultPrecision).Div fuel heapMinusOneThree 0 [1] = none) ∧
    (∀ fuel, (NewArith defaultPrecision).Div fuel heapOneMinusThree 0 [1] = none) := by
  constructor
  · intro fuel
    have hs := divStep_negative (NewArith defaultPrecision) fuel (heapMinusOneThree 0)
      (heapMinusOneThree 1) (Or.inl (by decide)) (by decide) (by decide)
    have h0 : ¬ ([1] : List Nat).length = 0 := by decide
    have h1 : ¬ (heapMinusOneThree 0).co = 0 := by decide
    have h2 : ¬ (heapMinusOneThree 1).co = 0 := by decide
    simp only [Arith.Div, if_neg h0, if_neg h1, Arith.divLoop, if_neg h2, copyZnDecimal_eq, hs]
  · intro fuel
    have hs := divStep_negative (NewArith defaultPrecision) fuel (heapOneMinusThree 0)
      (heapOneMinusThree 1) (Or.inr (by decide)) (by decide) (by decide)
    have h0 : ¬ ([1] : List Nat).length = 0 := by decide
    have h1 : ¬ (heapOneMinusThree 0).co = 0 := by decide
    have h2 : ¬ (heapOneMinusThree 1).co = 0 := by decide
    simp only [Arith.Div, if_neg h0, if_neg h1, Arith.divLoop, if_neg h2, copyZnDecimal_eq, hs]
/-! ## C39: the rounding of Div -/

theorem quotient_gap (e1 e2 e3 : ℤ) (h1 : e1 ≤ -7) (h2 : 0 ≤ e2) (h3 : e3 ≤ -1) :
    ¬ |((10000000 : ℤ) : ℚ) * (10 : ℚ) ^ e1
        - (((1 : ℤ) : ℚ) * (10 : ℚ) ^ e2) / (((1 : ℤ) : ℚ) * (10 : ℚ) ^ e3)|
      ≤ (10 : ℚ) ^ e1 / 2 := by
  have ha : (10 : ℚ) ^ e1 ≤ (10 : ℚ) ^ (-7 : ℤ) := zpow_le_zpow_right₀ (by norm_num) h1
  have ha0 : (0 : ℚ) < (10 : ℚ) ^ e1 := by positivity
  have hb : (1 : ℚ) ≤ (10 : ℚ) ^ e2 := one_le_zpow₀ (by norm_num) h2
  have hc : (10 : ℚ) ^ e3 ≤ (10 : ℚ) ^ (-1 : ℤ) := zpow_le_zpow_right₀ (by norm_num) h3
  have hc0 : (0 : ℚ) < (10 : ℚ) ^ e3 := by positivity
  have h7 : (10 : ℚ) ^ (-7 : ℤ) = 1 / 10000000 := by norm_num
  have h10 : (10 : ℚ) ^ (-1 : ℤ) = 1 / 10 := by norm_num
  rw [h7] at ha
  rw [h10] at hc
  have hq : (10 : ℚ) ≤ (10 : ℚ) ^ e2 / (10 : ℚ) ^ e3 := by
    rw [le_div_iff₀ hc0]
    nlinarith
  intro habs
  have := (abs_le.mp habs).1
  push_cast at this
  simp only [one_mul] at this
  linarith

theorem ten_pow_lt_exp (k K : ℕ) (a : Int) (ha : 1 ≤ a) (h : a * 10 ^ k < 10 ^ (K + 1)) :
    k ≤ K := by
  by_contra hc
  have hk : K + 1 ≤ k := by omega
  have h1 : (10 : Int) ^ (K + 1) ≤ 10 ^ k := pow_le_pow_right₀ (by norm_num) hk
  have h2 : (10 : Int) ^ k ≤ a * 10 ^ k := by
    have : (0 : Int) < 10 ^ k := by positivity
    nlinarith
  omega

theorem rounded_near (N B : Int) (hB : 0 < B) :
    |(((if 2 * (N % B) > B then N / B + 1 else N / B : Int)) : ℚ) - (N : ℚ) / (B : ℚ)|
      ≤ 1 / 2 := by
  have hBq : (0 : ℚ) < (B : ℚ) := by exact_mod_cast hB
  have hdm : (N : ℚ) = (B : ℚ) * ((N / B : Int) : ℚ) + ((N % B : Int) : ℚ) := by
    exact_mod_cast (Int.ediv_add_emod N B).symm
  have hm0 : (0 : ℚ) ≤ ((N % B : Int) : ℚ) := by exact_mod_cast Int.emod_nonneg N (by omega)
  have hm1 : ((N % B : Int) : ℚ) < (B : ℚ) := by exact_mod_cast Int.emod_lt_of_pos N hB
  have hdiv : (N : ℚ) / (B : ℚ) = ((N / B : Int) : ℚ) + ((N % B : Int) : ℚ) / (B : ℚ) := by
    rw [hdm]; field_simp; ring
  rw [hdiv, abs_le]
  split
  · rename_i h
    have hq : (B : ℚ) < 2 * ((N % B : Int) : ℚ) := by exact_mod_cast h
    have hfrac : (1 : ℚ) / 2 < ((N % B : Int) : ℚ) / (B : ℚ) := by
      rw [lt_div_iff₀ hBq]; linarith
    have hfrac1 : ((N % B : Int) : ℚ) / (B : ℚ) < 1 := by
      rw [div_lt_one hBq]; exact hm1
    push_cast
    constructor <;> linarith
  · rename_i h
    have hq : 2 * ((N % B : Int) : ℚ) ≤ (B : ℚ) := by exact_mod_cast not_lt.mp h
    have hfrac : ((N % B : Int) : ℚ) / (B : ℚ) ≤ 1 / 2 := by
      rw [div_le_iff₀ hBq]; linarith
    have hfrac0 : (0 : ℚ) ≤ ((N % B : Int) : ℚ) / (B : ℚ) := div_nonneg hm0 hBq.le
    constructor <;> linarith

theorem rounded_ge (N B L : Int) (hB : 0 < B) (h : L * B ≤ N) :
    L ≤ (if 2 * (N % B) > B then N / B + 1 else N / B) := by
  have : L ≤ N / B := Int.le_ediv_of_mul_le hB h
  split <;> omega

/-- The value of the result of one division step against the exact quotient. -/
theorem value_near (q' A B : Int) (pf : ℕ) (hB : 0 < B) (e ea eb adj : Int)
    (a b : Int) (hb : 0 < b) (he : e = ea - eb - adj - pf)
    (hq : |(q' : ℚ) - ((A * 10 ^ pf : Int) : ℚ) / (B : ℚ)| ≤ 1 / 2)
    (hal : (A : ℚ) / (B : ℚ) = (a : ℚ) / (b : ℚ) * (10 : ℚ) ^ adj) :
    |(q' : ℚ) * (10 : ℚ) ^ e - ((a : ℚ) * (10 : ℚ) ^ ea) / ((b : ℚ) * (10 : ℚ) ^ eb)|
      ≤ (10 : ℚ) ^ e / 2 := by
  have hBq : (0 : ℚ) < (B : ℚ) := by exact_mod_cast hB
  have hbq : (0 : ℚ) < (b : ℚ) := by exact_mod_cast hb
  have h10 : (10 : ℚ) ≠ 0 := by norm_num
  have hpe : (0 : ℚ) < (10 : ℚ) ^ e := by positivity
  have hexact : ((a : ℚ) * (10 : ℚ) ^ ea) / ((b : ℚ) * (10 : ℚ) ^ eb)
      = ((A * 10 ^ pf : Int) : ℚ) / (B : ℚ) * (10 : ℚ) ^ e := by
    have h1 : ((A * 10 ^ pf : Int) : ℚ) / (B : ℚ) = (A : ℚ) / (B : ℚ) * (10 : ℚ) ^ (pf : ℤ) := by
      push_cast
      rw [zpow_natCast]
      ring
    rw [h1, hal, he]
    have h2 : (a : ℚ) / (b : ℚ) * (10 : ℚ) ^ adj * (10 : ℚ) ^ (pf : ℤ)
        * (10 : ℚ) ^ (ea - eb - adj - (pf : ℤ))
        = (a : ℚ) / (b : ℚ) * ((10 : ℚ) ^ adj * (10 : ℚ) ^ (pf : ℤ)
        * (10 : ℚ) ^ (ea - eb - adj - (pf : ℤ))) := by ring
    rw [h2, ← zpow_add₀ h10, ← zpow_add₀ h10]
    have h3 : adj + (pf : ℤ) + (ea - eb - adj - (pf : ℤ)) = ea - eb := by ring
    rw [h3, zpow_sub₀ h10]
    field_simp
  rw [hexact, ← sub_mul, abs_mul, abs_of_pos hpe]
  calc |(q' : ℚ) - ((A * 10 ^ pf : Int) : ℚ) / (B : ℚ)| * (10 : ℚ) ^ e
      ≤ 1 / 2 * (10 : ℚ) ^ e := mul_le_mul_of_nonneg_right hq hpe.le
    _ = (10 : ℚ) ^ e / 2 := by ring

/-- C39, as stated, fails: `1*^9223372036854775807 ÷ 0.00000001` at the default
precision returns coefficient `10000000` with the exponent wrapped around to
`-9223372036854775808`, a value below 1, while the exact quotient is above 10. -/
theorem Div_rounding_counterexample :
    ∃ h' r, (NewArith defaultPrecision).Div 2 heapHugeTiny 0 [1] = some (h', .ok r)
      ∧ r.co = 10000000 ∧ r.exp = -9223372036854775808
      ∧ ¬ |r.value - ZnDecimal.value ⟨none, 1, 9223372036854775807⟩
              / ZnDecimal.value ⟨none, 1, -8⟩| ≤ (10 : ℚ) ^ r.exp / 2 := by
  refine ⟨_, ⟨none, 10000000, -9223372036854775808⟩, by rfl, rfl, rfl, ?_⟩
  exact quotient_gap _ _ _ (by decide) (by decide) (by decide)

/-- C39, amended. With the default precision 8, positive coefficients below
`10 ^ K` and exponents with `-2^63 + K + 8 ≤ exp_a - exp_b < 2^63 + 7 - K` (so
that the exponent of the result does not overflow the machine int), `Div(a, b)`
returns, given enough rounds for the alignment, a decimal `r` with
`|value(r) − value(a) / value(b)| ≤ 10 ^ exp_r / 2` whose coefficient is at least
`10 ^ 7`, that is, has at least 8 significant digits. -/
theorem Div_rounding (h : Heap) (pa pb : Nat) (K : ℕ)
    (ha : 0 < (h pa).co) (hb : 0 < (h pb).co)
    (hKa : (h pa).co < 10 ^ K) (hKb : (h pb).co < 10 ^ K)
    (h1 : -(2 : Int) ^ 63 + K + 8 ≤ (h pa).exp - (h pb).exp)
    (h2 : (h pa).exp - (h pb).exp + K < (2 : Int) ^ 63 + 7) :
    ∃ (fuel0 : ℕ) (r : ZnDecimal),
      (∀ fuel, fuel0 ≤ fuel →
        ∃ h', (NewArith defaultPrecision).Div fuel h pa [pb] = some (h', .ok r)) ∧
      |r.value - (h pa).value / (h pb).value| ≤ (10 : ℚ) ^ r.exp / 2 ∧
      10 ^ 7 ≤ r.co := by
  obtain ⟨adjust, A, B, f1, r, hal, hB, _, hco, hexp, _, hstep⟩ :=
    divStep_spec 8 (by decide) (by decide) (h pa) (h pb) ha hb
  have hK10 : (10 : Int) * 10 ^ K = 10 ^ (K + 1) := by ring
  refine ⟨f1, r, fun fuel hf => ⟨h.setCo pb B, ?_⟩, ?_, ?_⟩
  · have hn1 : (h pa).co ≠ 0 := by omega
    have hn2 : (h pb).co ≠ 0 := by omega
    have hs := hstep fuel hf
    simp only [defaultPrecision]
    simp [Arith.Div, Arith.divLoop, copyZnDecimal_eq, hn1, hn2, hs]
  · rcases hal with ⟨_, hadj, hA, hBe, hBA, hAB⟩ | ⟨_, hadj, hA, hBe, hAB, hBA⟩
    · -- the dividend was aligned
      have hnn : ¬ adjust < 0 := by omega
      simp only [hnn, if_false] at hco hexp
      have hk : adjust.toNat ≤ K :=
        ten_pow_lt_exp adjust.toNat K (h pa).co (by omega) (by rw [← hA, ← hK10]; omega)
      have hpf : ((8 : Int) - 1).toNat = 7 := by decide
      have hadjk : (adjust.toNat : Int) = adjust := Int.toNat_of_nonneg (by omega)
      have hw : r.exp = (h pa).exp - (h pb).exp - adjust - ((7 : ℕ) : Int) := by
        rw [hexp]
        have : ((7 : ℕ) : Int) = 7 := rfl
        rw [this]
        exact wrapInt_of_range _ (by omega) (by omega)
      have hq := rounded_near (A * 10 ^ ((8 : Int) - 1).toNat) B hB
      rw [← hco, hpf] at hq
      have hval := value_near r.co A B 7 hB r.exp (h pa).exp (h pb).exp adjust
        (h pa).co (h pb).co hb hw hq (by
          rw [hA, hBe]
          have : (10 : ℚ) ^ adjust = (10 : ℚ) ^ (adjust.toNat : ℤ) := by rw [hadjk]
          rw [this, zpow_natCast]
          push_cast
          ring)
      exact hval
    · -- the divisor was aligned
      have hadjk : ((-adjust).toNat : Int) = -adjust := Int.toNat_of_nonneg (by omega)
      have hk : (-adjust).toNat ≤ K :=
        ten_pow_lt_exp (-adjust).toNat K (h pb).co (by omega) (by rw [← hBe, ← hK10]; omega)
      have hbq : (0 : ℚ) < ((h pb).co : ℚ) := by exact_mod_cast hb
      have hAB' : (A : ℚ) / (B : ℚ) = ((h pa).co : ℚ) / ((h pb).co : ℚ) * (10 : ℚ) ^ adjust := by
        rw [hA, hBe]
        have e1 : (10 : ℚ) ^ adjust = ((10 : ℚ) ^ ((-adjust).toNat : ℤ))⁻¹ := by
          rw [hadjk, zpow_neg, inv_inv]
        rw [e1, zpow_natCast]
        push_cast
        field_simp
      by_cases hneg : adjust < 0
      · simp only [hneg, if_true] at hco hexp
        have hpf : (8 : Int).toNat = 8 := by decide
        have hw : r.exp = (h pa).exp - (h pb).exp - adjust - ((8 : ℕ) : Int) := by
          rw [hexp]
          have : ((8 : ℕ) : Int) = 8 := rfl
          rw [this]
          exact wrapInt_of_range _ (by omega) (by omega)
        have hq := rounded_near (A * 10 ^ (8 : Int).toNat) B hB
        rw [← hco, hpf] at hq
        exact value_near r.co A B 8 hB r.exp (h pa).exp (h pb).exp adjust
          (h pa).co (h pb).co hb hw hq hAB'
      · simp only [hneg, if_false] at hco hexp
        have hpf : ((8 : Int) - 1).toNat = 7 := by decide
        have hw : r.exp = (h pa).exp - (h pb).exp - adjust - ((7 : ℕ) : Int) := by
          rw [hexp]
          have : ((7 : ℕ) : Int) = 7 := rfl
          rw [this]
          exact wrapInt_of_range _ (by omega) (by omega)
        have hq := rounded_near (A * 10 ^ ((8 : Int) - 1).toNat) B hB
        rw [← hco, hpf] at hq
        exact value_near r.co A B 7 hB r.exp (h pa).exp (h pb).exp adjust
          (h pa).co (h pb).co hb hw hq hAB'
  · rw [hco]
    apply rounded_ge _ _ _ hB
    rcases hal with ⟨_, hadj, hA, hBe, hBA, hAB⟩ | ⟨hle, hadj, hA, hBe, hAB, hBA⟩
    · have hnn : ¬ adjust < 0 := by omega
      simp only [hnn, if_false]
      have hpf : ((8 : Int) - 1).toNat = 7 := by decide
      rw [hpf]
      nlinarith
    · by_cases hneg : adjust < 0
      · simp only [hneg, if_true]
        have hpf : (8 : Int).toNat = 8 := by decide
        rw [hpf]
        nlinarith
      · simp only [hneg, if_false]
        have hpf : ((8 : Int) - 1).toNat = 7 := by decide
        rw [hpf]
        have h0 : adjust = 0 := by omega
        rw [h0] at hBe
        simp only [neg_zero, Int.toNat_zero, pow_zero, mul_one] at hBe
        have hBA' : B ≤ A := by rw [hBe, hA]; exact hle
        nlinarith

/-- C39, amended, at `1 ÷ 3`. -/
theorem Div_rounding_witness :
    0 < (heapOneThree 0).co ∧ 0 < (heapOneThree 1).co ∧
    (heapOneThree 0).co < 10 ^ 1 ∧ (heapOneThree 1).co < 10 ^ 1 ∧
    -(2 : Int) ^ 63 + (1 : ℕ) + 8 ≤ (heapOneThree 0).exp - (heapOneThree 1).exp ∧
    (heapOneThree 0).exp - (heapOneThree 1).exp + (1 : ℕ) < (2 : Int) ^ 63 + 7 ∧
    ∃ (fuel0 : ℕ) (r : ZnDecimal),
      (∀ fuel, fuel0 ≤ fuel →
        ∃ h', (NewArith defaultPrecision).Div fuel heapOneThree 0 [1] = some (h', .ok r)) ∧
      |r.value - (heapOneThree 0).value / (heapOneThree 1).value| ≤ (10 : ℚ) ^ r.exp / 2 ∧
      10 ^ 7 ≤ r.co :=
  ⟨by decide, by decide, by decide, by decide, by decide, by decide,
    Div_rounding heapOneThree 0 1 1 (by decide) (by decide) (by decide) (by decide)
      (by decide) (by decide)⟩

/-! ## C40: symmetry of the equality comparison -/

theorem compareDecimals_symm (a b : ZnDecimal) :
    compareDecimals a b CmpEq = compareDecimals b a CmpEq := by
  unfold compareDecimals rescalePair
  rcases lt_trichotomy a.exp b.exp with h | h | h
  · have h1 : ¬ a.exp = b.exp := by omega
    have h2 : ¬ b.exp = a.exp := by omega
    have h3 : ¬ a.exp > b.exp := by omega
    have h4 : b.exp > a.exp := by omega
    simp [h1, h2, h3, h4, eq_comm]
  · simp [h, eq_comm]
  · have h1 : ¬ a.exp = b.exp := by omega
    have h2 : ¬ b.exp = a.exp := by omega
    have h3 : a.exp > b.exp := by omega
    have h4 : ¬ b.exp > a.exp := by omega
    simp [h1, h2, h3, h4, eq_comm]

theorem compareDecimals_ok (a b : ZnDecimal) :
    ∃ x, compareDecimals a b CmpEq = .ok x := by
  unfold compareDecimals
  exact ⟨_, if_pos rfl⟩

mutual
theorem compareValues_plain_symm : ∀ (l r : ZnValue), plainValue l = true → plainValue r = true →
    ∃ b, compareValues l r CmpEq = .ok b ∧ compareValues r l CmpEq = .ok b
  | .null _, r, _, hr => by
    cases r <;> first
      | exact ⟨_, rfl, rfl⟩
      | (simp only [plainValue] at hr; cases hr)
  | .decimal d, r, _, hr => by
    cases r with
    | decimal e =>
      obtain ⟨x, hx⟩ := compareDecimals_ok d e
      refine ⟨x, ?_, ?_⟩
      · simp only [compareValues, hx]
      · simp only [compareValues, ← compareDecimals_symm d e, hx]
    | function _ _ => simp only [plainValue] at hr; cases hr
    | object _ _ => simp only [plainValue] at hr; cases hr
    | _ => exact ⟨false, rfl, rfl⟩
  | .string _ s, r, _, hr => by
    cases r with
    | string _ t =>
      refine ⟨decide (s = t), rfl, ?_⟩
      simp only [compareValues, CmpEq, ne_eq, not_true_eq_false, if_false, eq_comm]
    | function _ _ => simp only [plainValue] at hr; cases hr
    | object _ _ => simp only [plainValue] at hr; cases hr
    | _ => exact ⟨false, rfl, rfl⟩
  | .bool _ s, r, _, hr => by
    cases r with
    | bool _ t =>
      refine ⟨decide (s = t), rfl, ?_⟩
      simp only [compareValues, CmpEq, ne_eq, not_true_eq_false, if_false, eq_comm]
    | function _ _ => simp only [plainValue] at hr; cases hr
    | object _ _ => simp only [plainValue] at hr; cases hr
    | _ => exact ⟨false, rfl, rfl⟩
  | .array _ vs, r, hl, hr => by
    cases r with
    | array _ ws =>
      simp only [plainValue] at hl hr
      by_cases hlen : vs.length = ws.length
      · obtain ⟨b, h1, h2⟩ := compareItems_plain_symm vs ws hl hr
        refine ⟨b, ?_, ?_⟩
        · simp only [compareValues, CmpEq, ne_eq, not_true_eq_false, if_false, hlen, h1]
        · simp only [compareValues, CmpEq, ne_eq, not_true_eq_false, if_false, hlen, h2]
      · have hlen2 : ¬ ws.length = vs.length := fun h => hlen h.symm
        refine ⟨false, ?_, ?_⟩
        · simp only [compareValues, CmpEq, ne_eq, not_true_eq_false, if_false, hlen,
            not_false_eq_true, if_true]
        · simp only [compareValues, CmpEq, ne_eq, not_true_eq_false, if_false, hlen2,
            not_false_eq_true, if_true]
    | function _ _ => simp only [plainValue] at hr; cases hr
    | object _ _ => simp only [plainValue] at hr; cases hr
    | _ => exact ⟨false, rfl, rfl⟩
  | .hashmap _ m _, r, hl, hr => by
    cases r with
    | hashmap _ n _ =>
      simp only [plainValue, Bool.and_eq_true, decide_eq_true_eq] at hl hr
      by_cases hlen : m.length = n.length
      · obtain ⟨b, h1, h2⟩ := compareEntries_plain_symm m n hl.1 hr.1 hlen hl.2 hr.2
        refine ⟨b, ?_, ?_⟩
        · simp only [compareValues, CmpEq, ne_eq, not_true_eq_false, if_false, hlen, h1]
        · simp only [compareValues, CmpEq, ne_eq, not_true_eq_false, if_false, hlen, h2]
      · have hlen2 : ¬ n.length = m.length := fun h => hlen h.symm
        refine ⟨false, ?_, ?_⟩
        · simp only [compareValues, CmpEq, ne_eq, not_true_eq_false, if_false, hlen,
            not_false_eq_true, if_true]
        · simp only [compareValues, CmpEq, ne_eq, not_true_eq_false, if_false, hlen2,
            not_false_eq_true, if_true]
    | function _ _ => simp only [plainValue] at hr; cases hr
    | object _ _ => simp only [plainValue] at hr; cases hr
    | _ => exact ⟨false, rfl, rfl⟩
  | .function _ _, _, hl, _ => by simp only [plainValue] at hl; cases hl
  | .object _ _, _, hl, _ => by simp only [plainValue] at hl; cases hl
theorem compareItems_plain_symm : ∀ (ls rs : List ZnValue), plainItems ls = true →
    plainItems rs = true →
    ∃ b, compareItems ls rs = .ok b ∧ compareItems rs ls = .ok b
  | [], [], _, _ => ⟨true, rfl, rfl⟩
  | [], _ :: _, _, _ => ⟨true, rfl, rfl⟩
  | _ :: _, [], _, _ => ⟨true, rfl, rfl⟩
  | l0 :: _, r0 :: _, hl, hr => by
    simp only [plainItems, Bool.and_eq_true] at hl hr
    obtain ⟨b, h1, h2⟩ := compareValues_plain_symm l0 r0 hl.1 hr.1
    exact ⟨b, by simp only [compareItems, h1], by simp only [compareItems, h2]⟩
theorem compareEntries_plain_symm : ∀ (m n : List (List Char × ZnValue)), m.length ≤ 1 →
    n.length ≤ 1 → m.length = n.length → plainEntries m = true → plainEntries n = true →
    ∃ b, compareEntries m n = .ok b ∧ compareEntries n m = .ok b
  | [], [], _, _, _, _, _ => ⟨true, rfl, rfl⟩
  | [], _ :: _, _, _, h, _, _ => by simp at h
  | _ :: _, [], _, _, h, _, _ => by simp at h
  | [(k, v)], [(k2, v2)], _, _, _, hl, hr => by
    simp only [plainEntries, Bool.and_eq_true] at hl hr
    by_cases hk : k = k2
    · subst hk
      obtain ⟨b, h1, h2⟩ := compareValues_plain_symm v v2 hl.1 hr.1
      exact ⟨b, by simp only [compareEntries, mapGet, if_true, h1],
        by simp only [compareEntries, mapGet, if_true, h2]⟩
    · have hk2 : ¬ k2 = k := fun h => hk h.symm
      exact ⟨false, by simp only [compareEntries, mapGet, if_neg hk2],
        by simp only [compareEntries, mapGet, if_neg hk]⟩
  | _ :: _ :: _, _, h, _, _, _, _ => by simp at h
  | [_], _ :: _ :: _, _, h, _, _, _ => by simp at h
end

/-- C40, as stated, fails: null against a function compares as unequal with no
error, and the function against null fails with the error for the type of the
left value; and two hashmaps with the same keys, met in a different order by
the loop over the left map, compare as equal one way and unequal the other. -/
theorem compareValues_symm_counterexample :
    compareValues (.null none) (.function none none) CmpEq = .ok false ∧
    compareValues (.function none none) (.null none) CmpEq = .error InvalidCompareLType ∧
    compareValues
      (.hashmap none [("a".toList, .bool none true), ("b".toList, .bool none true)]
        ["a".toList, "b".toList])
      (.hashmap none [("b".toList, .bool none false), ("a".toList, .bool none true)]
        ["b".toList, "a".toList])
      CmpEq = .ok true ∧
    compareValues
      (.hashmap none [("b".toList, .bool none false), ("a".toList, .bool none true)]
        ["b".toList, "a".toList])
      (.hashmap none [("a".toList, .bool none true), ("b".toList, .bool none true)]
        ["a".toList, "b".toList])
      CmpEq = .ok false :=
  ⟨rfl, rfl, by rfl, by rfl⟩

/-- C40, amended. For all values `l` and `r` in which no function and no object
occurs and no hashmap has two or more entries, `compareValues(l, r, CmpEq)` and
`compareValues(r, l, CmpEq)` both succeed, with the same boolean. -/
theorem compareValues_symm (l r : ZnValue) (hl : plainValue l = true)
    (hr : plainValue r = true) :
    ∃ b, compareValues l r CmpEq = .ok b ∧ compareValues r l CmpEq = .ok b :=
  compareValues_plain_symm l r hl hr

/-- C40, amended, on `【1，「甲」】` against `【1.0，空】`. -/
theorem compareValues_symm_witness :
    plainValue (.array none [.decimal ⟨none, 1, 0⟩, .string none "甲".toList]) = true ∧
    plainValue (.array none [.decimal ⟨none, 10, -1⟩, .null none]) = true ∧
    compareValues (.array none [.decimal ⟨none, 1, 0⟩, .string none "甲".toList])
      (.array none [.decimal ⟨none, 10, -1⟩, .null none]) CmpEq = .ok true ∧
    ∃ b, compareValues (.array none [.decimal ⟨none, 1, 0⟩, .string none "甲".toList])
        (.array none [.decimal ⟨none, 10, -1⟩, .null none]) CmpEq = .ok b ∧
      compareValues (.array none [.decimal ⟨none, 10, -1⟩, .null none])
        (.array none [.decimal ⟨none, 1, 0⟩, .string none "甲".toList]) CmpEq = .ok b :=
  ⟨by decide, by decide, by rfl,
    compareValues_symm (.array none [.decimal ⟨none, 1, 0⟩, .string none "甲".toList])
      (.array none [.decimal ⟨none, 10, -1⟩, .null none]) (by decide) (by decide)⟩

/-! ## C32: the property map of a new object -/

theorem initProps_keys {X W : Type} (ev : EvalState X W → Expression X → ExprResult X W) :
    ∀ (pl : List (PropertyDeclareStmt X)) (st st1 : EvalState X W)
      (props props1 : List (List Char × EvalValue X)),
    NewClassRef.initProps ev st pl props = some (st1, .ok props1) →
    ∀ k, (goMapGet props1 k).isSome = true ↔
      ((goMapGet props k).isSome = true ∨ k ∈ pl.map (fun p => p.PropertyID)) := by
  intro pl
  induction pl with
  | nil =>
    intro st st1 props props1 h k
    simp only [NewClassRef.initProps, Option.some.injEq, Prod.mk.injEq, Except.ok.injEq] at h
    rw [← h.2]; simp
  | cons p rest ih =>
    intro st st1 props props1 h k
    unfold NewClassRef.initProps at h
    cases hev : ev st p.InitValue with
    | none => rw [hev] at h; cases h
    | some r =>
      obtain ⟨st2, res⟩ := r
      cases res with
      | error e =>
        rw [hev] at h
        simp only [Option.some.injEq, Prod.mk.injEq] at h
        cases h.2
      | ok v =>
        rw [hev] at h
        have := ih st2 st1 _ props1 h k
        rw [this, goMapGet_set]
        by_cases hk : p.PropertyID = k
        · simp [hk]
        · have hk2 : ¬ k = p.PropertyID := fun e => hk e.symm
          simp [hk, hk2]

theorem setParams_keys {V : Type} (ids : List (List Char)) :
    ∀ (params : List V) (idx : Nat) (props props1 : List (List Char × V)),
    idx + params.length = ids.length →
    NewClassRef.setParams ids params idx props = some props1 →
    ∀ k, (goMapGet props1 k).isSome = true ↔
      ((goMapGet props k).isSome = true ∨ k ∈ ids.drop idx) := by
  intro params
  induction params with
  | nil =>
    intro idx props props1 hlen h k
    simp only [NewClassRef.setParams, Option.some.injEq] at h
    simp only [List.length_nil, add_zero] at hlen
    rw [← h, hlen, List.drop_length]; simp
  | cons p rest ih =>
    intro idx props props1 hlen h k
    simp only [List.length_cons] at hlen
    have hlt : idx < ids.length := by omega
    unfold NewClassRef.setParams at h
    rw [List.getElem?_eq_getElem hlt] at h
    have := ih (idx + 1) _ props1 (by omega) h k
    have hd : ids.drop idx = ids[idx] :: ids.drop (idx + 1) := List.drop_eq_getElem_cons hlt
    rw [this, goMapGet_set, hd, List.mem_cons]
    by_cases hk : ids[idx] = k
    · simp only [hk, if_true, Option.isSome_some, true_or, or_true]
    · have hk2 : ¬ k = ids[idx] := fun e => hk e.symm
      simp only [if_neg hk, hk2, false_or]

/-- The keys of the property map that the default constructor leaves are the
declared property names together with the names of the constructor list. -/
theorem constructor_keys {X W : Type} (ev : EvalState X W → Expression X → ExprResult X W)
    (name : List Char) (pl : List (PropertyDeclareStmt X)) (ids : List (List Char))
    (st st1 : EvalState X W) (params : List (EvalValue X)) (obj : EvalObject X)
    (h : NewClassRef.constructor ev name pl ids st params = some (st1, .ok obj)) :
    ∀ k, (goMapGet obj.PropList k).isSome = true ↔
      (k ∈ pl.map (fun p => p.PropertyID) ∨ k ∈ ids) := by
  intro k
  unfold NewClassRef.constructor at h
  cases hi : NewClassRef.initProps ev st pl [] with
  | none => rw [hi] at h; cases h
  | some r =>
    obtain ⟨st2, res⟩ := r
    cases res with
    | error e =>
      rw [hi] at h
      simp only [Option.some.injEq, Prod.mk.injEq] at h
      cases h.2
    | ok props =>
      rw [hi] at h
      simp only at h
      by_cases hlen : params.length ≠ ids.length
      · rw [if_pos hlen] at h
        simp only [Option.some.injEq, Prod.mk.injEq] at h
        cases h.2
      · rw [if_neg hlen] at h
        cases hs : NewClassRef.setParams ids params 0 props with
        | none => rw [hs] at h; cases h
        | some props1 =>
          rw [hs] at h
          simp only [Option.some.injEq, Prod.mk.injEq, Except.ok.injEq] at h
          rw [← h.2]
          have h1 := initProps_keys ev pl st st2 [] props hi k
          have h2 := setParams_keys ids params 0 props props1
            (by simp only [zero_add]; exact not_not.mp hlen) hs k
          simp only [List.drop_zero] at h2
          show (goMapGet props1 k).isSome = true ↔ _
          rw [h2, h1]
          simp [goMapGet]

/-- C32 fails on the code: for the class `狗` that declares the one property
`名` and has the constructor list `号`, the object constructed with the one
argument `1` has the keys `名` and `号`: the key `号` is no declared property. In
general the keys are the declared names together with the constructor names. -/
theorem constructor_adds_key :
    (∃ st1 obj,
      NewClassRef.constructor (NewContext.evalExpression 1) "狗".toList
        [{ PropertyID := "名".toList, InitValue := .String "小黄".toList }] ["号".toList]
        (NewFuncScope (NewRootScope ()) none) [.value (.decimal (NewZnDecimalFromInt 1 0))]
        = some (st1, .ok obj) ∧
      obj.PropList = [("名".toList, .value (NewZnString "小黄".toList)),
                      ("号".toList, .value (.decimal (NewZnDecimalFromInt 1 0)))] ∧
      (goMapGet obj.PropList "号".toList).isSome = true ∧
      "号".toList ∉ [("名".toList : List Char)]) ∧
    (∀ {X W : Type} (ev : EvalState X W → Expression X → ExprResult X W) (name : List Char)
      (pl : List (PropertyDeclareStmt X)) (ids : List (List Char)) (st st1 : EvalState X W)
      (params : List (EvalValue X)) (obj : EvalObject X),
      NewClassRef.constructor ev name pl ids st params = some (st1, .ok obj) →
      ∀ k, (goMapGet obj.PropList k).isSome = true ↔
        (k ∈ pl.map (fun p => p.PropertyID) ∨ k ∈ ids)) :=
  ⟨⟨_, _, rfl, rfl, rfl, by decide⟩, fun ev name pl ids st st1 params obj h =>
    constructor_keys ev name pl ids st st1 params obj h⟩

/-! ## C33: member access on a value without an object -/

theorem Reduce_nil_object (exec : ClosureRef → ZnValue → Option (Except Error ZnValue))
    (v : ZnValue) (h : v.ZnObject = none) (Member : List Char) (input : ZnValue) (lhs : Bool) :
    ZnMemberIV.Reduce exec v Member input lhs = none := by
  simp only [ZnMemberIV.Reduce, ZnValue.FindGetter, h]

theorem Reduce_with_object (exec : ClosureRef → ZnValue → Option (Except Error ZnValue))
    (hexec : ∀ c v, ∃ r, exec c v = some r)
    (v : ZnValue) (cls : ClassRef) (props : List (List Char × ZnValue))
    (h : v.ZnObject = some (some cls, props)) (Member : List Char) (input : ZnValue)
    (lhs : Bool) :
    ∃ r, ZnMemberIV.Reduce exec v Member input lhs = some r := by
  simp only [ZnMemberIV.Reduce, ZnValue.FindGetter, h]
  by_cases hg : cls.GetterList.contains Member = true
  · simp only [hg, if_true]
    by_cases hl : lhs = true
    · simp only [hl, if_true]; exact ⟨_, rfl⟩
    · obtain ⟨r, hr⟩ := hexec { Name := Member } v
      simp only [hl, if_false, hr, Option.map_some']; exact ⟨_, rfl⟩
  · simp only [hg, if_false]
    by_cases hl : lhs = true
    · simp only [hl, if_true, ZnValue.SetProperty, h]
      cases goMapGet props Member with
      | none => exact ⟨_, rfl⟩
      | some p =>
        cases v <;> exact ⟨_, rfl⟩
    · simp only [hl, if_false, ZnValue.GetProperty, h]
      cases goMapGet props Member with
      | none => exact ⟨_, rfl⟩
      | some p => exact ⟨_, rfl⟩

/-- C33 fails on the code: for a string, a bool, null, a (native) function and
a hashmap, as their constructors make them, `ZnMemberIV.Reduce` ends in the
panic of a nil pointer dereference for every member name, read or written;
and so it does for every value whose embedded object is nil. A value that
carries an object with a class (a decimal, an array, an object) gets a value or
an error whenever the getter it may run returns. -/
theorem member_access_nil_object
    (exec : ClosureRef → ZnValue → Option (Except Error ZnValue)) (Member : List Char)
    (input : ZnValue) (lhs : Bool) :
    ZnMemberIV.Reduce exec (NewZnString "甲".toList) Member input lhs = none ∧
    ZnMemberIV.Reduce exec (NewZnBool true) Member input lhs = none ∧
    ZnMemberIV.Reduce exec NewZnNull Member input lhs = none ∧
    ZnMemberIV.Reduce exec (NewZnNativeFunction "显示".toList) Member input lhs = none ∧
    ZnMemberIV.Reduce exec (NewZnHashMap []) Member input lhs = none ∧
    (∀ v : ZnValue, v.ZnObject = none → ZnMemberIV.Reduce exec v Member input lhs = none) ∧
    ((∀ c v, ∃ r, exec c v = some r) →
      (∃ r, ZnMemberIV.Reduce exec (.decimal (NewZnDecimalFromInt 1 0)) Member input lhs
        = some r) ∧
      (∃ r, ZnMemberIV.Reduce exec (NewZnArray []) Member input lhs = some r) ∧
      (∀ cls props, ∃ r,
        ZnMemberIV.Reduce exec (.object (some cls) props) Member input lhs = some r)) :=
  ⟨Reduce_nil_object exec (NewZnString "甲".toList) rfl Member input lhs,
   Reduce_nil_object exec (NewZnBool true) rfl Member input lhs,
   Reduce_nil_object exec NewZnNull rfl Member input lhs,
   Reduce_nil_object exec (NewZnNativeFunction "显示".toList) rfl Member input lhs,
   Reduce_nil_object exec (NewZnHashMap []) rfl Member input lhs,
   fun v h => Reduce_nil_object exec v h Member input lhs,
   fun hexec =>
    ⟨Reduce_with_object exec hexec (.decimal (NewZnDecimalFromInt 1 0)) defaultDecimalClassRef []
       rfl Member input lhs,
     Reduce_with_object exec hexec (NewZnArray []) defaultArrayClassRef [] rfl Member input lhs,
     fun cls props =>
       Reduce_with_object exec hexec (.object (some cls) props) cls props rfl Member input lhs⟩⟩

/-! ## C34: reading a stream block by block -/

/-- The tests of `TestInputStream_MultiTimeUTF8Parsing` on the model. -/
theorem readAll_test_cases :
    (NewBufferStream (encodeRunes "千里之行233".toList)).readAll 9 4 []
      = some (["千".toList.map Char.toNat, "里".toList.map Char.toNat,
          "之行".toList.map Char.toNat, "233".toList.map Char.toNat, []], none) ∧
    (NewBufferStream (encodeRunes "A测试".toList)).readAll 9 1 []
      = some ([[65], [], [], "测".toList.map Char.toNat, [], [],
          "试".toList.map Char.toNat, []], none) ∧
    (NewBufferStream [0x9B, 0x03, 0x20, 0x83]).readAll 9 6 []
      = some ([[]], some (DecodeUTF8Fail 0x9B)) ∧
    (NewBufferStream (encodeRunes "千里".toList ++ [0xFC, 0x81, 0x81, 0x20])).readAll 9 2 []
      = some ([[], "千".toList.map Char.toNat, "里".toList.map Char.toNat, [], []],
          some (DecodeUTF8Fail 0xFC)) ∧
    (DecodeUTF8Fail 0xFC).code = 0x2020 := by
  refine ⟨by rfl, by rfl, by rfl, by rfl, by rfl⟩

theorem Read_whole_replacement (n : Int) (hn : 3 ≤ n) :
    (NewBufferStream [0xEF, 0xBF, 0xBD]).readAll 5 n []
      = some ([[]], some (DecodeUTF8Fail 0xEF)) := by
  obtain ⟨m, hm⟩ : ∃ m : Nat, n.toNat = m + 3 := ⟨n.toNat - 3, by omega⟩
  have hneg : ¬ n < 0 := by omega
  have htake : List.take n.toNat [0xEF, 0xBF, 0xBD] = ([0xEF, 0xBF, 0xBD] : List Nat) := by
    rw [hm]; simp
  have hr1 : (NewBufferStream [0xEF, 0xBF, 0xBD]).Read n
      = some (([], none), { Reader := [], encBuffer := [0xEF, 0xBF, 0xBD], readEnd := false }) := by
    simp only [InputStream.Read, if_neg hneg, NewBufferStream, htake]
    rfl
  have hr2 : ({ Reader := [], encBuffer := [0xEF, 0xBF, 0xBD], readEnd := false }
        : InputStream).Read n
      = some (([], some (DecodeUTF8Fail 0xEF)),
          { Reader := [], encBuffer := [0xEF, 0xBF, 0xBD], readEnd := true }) := by
    simp only [InputStream.Read, if_neg hneg, List.take_nil]
    rfl
  have he1 : (NewBufferStream [0xEF, 0xBF, 0xBD]).End = false := rfl
  have he2 : ({ Reader := [], encBuffer := [0xEF, 0xBF, 0xBD], readEnd := false }
        : InputStream).End = false := rfl
  simp only [InputStream.readAll, he1, hr1, he2, hr2, Bool.false_eq_true, if_false,
    List.nil_append]

/-- C34 fails on the code: the three bytes `EF BF BD` are the valid UTF-8
encoding of the one code point U+FFFD, and for every block size `n ≥ 1`
(written `k + 1`) the loop of `Read(n)` calls ends with the error decode-utf8
(code 0x2020) on the byte `0xEF`, every slice returned before it being empty. -/
theorem Read_replacement_character (k : Nat) :
    encodeRunes [Char.ofNat 0xFFFD] = [0xEF, 0xBF, 0xBD] ∧
    DecodeRune [0xEF, 0xBF, 0xBD] = (0xFFFD, 3) ∧
    (DecodeUTF8Fail 0xEF).code = 0x2020 ∧
    ∃ dataList, (NewBufferStream [0xEF, 0xBF, 0xBD]).readAll 5 ((k : Int) + 1) []
        = some (dataList, some (DecodeUTF8Fail 0xEF)) ∧ ∀ d ∈ dataList, d = [] := by
  refine ⟨by rfl, by rfl, by rfl, ?_⟩
  match k with
  | 0 => exact ⟨[[], [], []], by rfl, by decide⟩
  | 1 => exact ⟨[[], []], by rfl, by decide⟩
  | k + 2 =>
    refine ⟨[[]], Read_whole_replacement _ (by push_cast; omega), by decide⟩

/-! ## The reading state of the lexer -/

theorem reads_mono {l : Lexer} {src : List Char} {lo : Int} (h : l.reads src lo) (lo1 : Int)
    (hle : lo1 ≤ lo) : l.reads src lo1 :=
  ⟨h.1, le_trans hle h.2.1, h.2.2⟩

theorem reads_next {l : Lexer} {src : List Char} {lo : Int} (h : l.reads src lo)
    (hlo : -1 ≤ lo) : l.next.2.reads src (lo + 1) := by
  obtain ⟨hJ, hc, hs⟩ := h
  refine ⟨(next_spec l hJ (by omega)).2, ?_, ?_⟩
  · rw [next_cursor]; omega
  · rw [next_source]; exact hs

theorem reads_rebase {l : Lexer} {src : List Char} {lo : Int} (h : l.reads src lo) (c lo1 : Int)
    (hc : c ≤ l.cursor) (hlo : lo1 ≤ c) : (l.rebase c).reads src lo1 := by
  obtain ⟨⟨h1, h2, h3⟩, _, hs⟩ := h
  refine ⟨⟨h1, h2, ?_⟩, hlo, hs⟩
  rcases h3 with h3 | h3
  · left
    show c + 1 ≤ (l.lineBuffer.length : Int)
    omega
  · right; exact h3

theorem reads_pushBuffer (l : Lexer) (x : List Char) (src : List Char) (lo : Int) :
    (l.pushBuffer x).reads src lo ↔ l.reads src lo := Iff.rfl

theorem reads_clearBuffer (l : Lexer) (src : List Char) (lo : Int) :
    l.clearBuffer.reads src lo ↔ l.reads src lo := Iff.rfl

theorem reads_quotePop (l : Lexer) (src : List Char) (lo : Int) :
    l.quotePop.reads src lo ↔ l.reads src lo := Iff.rfl

theorem reads_quotePush (l : Lexer) (c : Char) (src : List Char) (lo : Int) :
    (l.quotePush c).2.reads src lo ↔ l.reads src lo := by
  unfold Lexer.quotePush
  split <;> exact Iff.rfl

theorem reads_PushLine (l : Lexer) (i : Int) (src : List Char) (lo : Int) :
    (l.PushLine i).reads src lo ↔ l.reads src lo := Iff.rfl

theorem reads_NewLine (l : Lexer) (i : Int) (src : List Char) (lo : Int) :
    (l.NewLine i).reads src lo ↔ l.reads src lo := Iff.rfl

theorem reads_setScanCursor (l : Lexer) (i : Int) (src : List Char) (lo : Int) :
    (l.setScanCursor i).reads src lo ↔ l.reads src lo := Iff.rfl

theorem reads_SetIndent (l : Lexer) (count : Int) (t : Nat) (src : List Char) (lo : Int) :
    (l.SetIndent count t).2.reads src lo ↔ l.reads src lo := by
  unfold Lexer.SetIndent
  dsimp only
  split_ifs <;> exact Iff.rfl

theorem reads_withQuotes (l : Lexer) (b s : List Char) (src : List Char) (lo : Int) :
    (l.withQuotes b s).reads src lo ↔ l.reads src lo := Iff.rfl

theorem SetIndent_quoteStack (l : Lexer) (count : Int) (t : Nat) :
    (l.SetIndent count t).2.quoteStack = l.quoteStack := by
  unfold Lexer.SetIndent
  dsimp only
  split_ifs <;> rfl

theorem SetIndent_chBuffer (l : Lexer) (count : Int) (t : Nat) :
    (l.SetIndent count t).2.chBuffer = l.chBuffer := by
  unfold Lexer.SetIndent
  dsimp only
  split_ifs <;> rfl

theorem SetIndent_zero (l : Lexer) : l.SetIndent 0 IdetUnknown = (none, l.setScanCursor 0) := by
  unfold Lexer.SetIndent
  rw [if_pos rfl, if_neg (by omega)]

theorem buffered_of_eq (a b : Lexer) (h1 : b.blocks = a.blocks) (h2 : b.readEnd = a.readEnd)
    (h3 : b.lineBuffer = a.lineBuffer) (h4 : b.cursor = a.cursor) (h : a.buffered) :
    b.buffered := by
  unfold Lexer.buffered at h ⊢
  rw [h1, h2, h3, h4]; exact h

theorem source_of_eq (a b : Lexer) (h1 : b.blocks = a.blocks) (h3 : b.lineBuffer = a.lineBuffer) :
    b.source = a.source := by
  unfold Lexer.source
  rw [h1, h3]

theorem next_quoteStack (l : Lexer) : l.next.2.quoteStack = l.quoteStack := by
  unfold Lexer.next Lexer.Read
  dsimp only
  split_ifs <;> (try split) <;> rfl

theorem next_keeps {l : Lexer} {src : List Char} {lo : Int} (h : l.reads src lo)
    (hlo : -1 ≤ lo) : l.next.2.reads src lo ∧ l.next.2.quoteStack = l.quoteStack :=
  ⟨reads_mono (reads_next h hlo) lo (by omega), next_quoteStack l⟩

theorem countIndents_succ (ch : Char) (fuel : Nat) (count : Int) (l : Lexer) :
    Lexer.countIndents ch (fuel + 1) count l =
      (if l.peek = ch then Lexer.countIndents ch fuel (count + 1) l.next.2
       else some (count, l)) := rfl

theorem countIndents_keeps (ch : Char) (src : List Char) (lo : Int) (hlo : -1 ≤ lo) :
    ∀ (fuel : Nat) (count : Int) (l : Lexer) (c : Int) (l1 : Lexer), l.reads src lo →
      Lexer.countIndents ch fuel count l = some (c, l1) →
      l1.reads src lo ∧ l1.quoteStack = l.quoteStack := by
  intro fuel
  induction fuel with
  | zero => intro count l c l1 _ h; cases h
  | succ n ih =>
    intro count l c l1 hr h
    rw [countIndents_succ] at h
    split_ifs at h
    · obtain ⟨h1, h2⟩ := ih _ _ _ _ (next_keeps hr hlo).1 h
      exact ⟨h1, by rw [h2, next_quoteStack]⟩
    · simp only [Option.some.injEq, Prod.mk.injEq] at h
      obtain ⟨_, rfl⟩ := h
      exact ⟨hr, rfl⟩

theorem parseIndents_keeps (src : List Char) (lo : Int) (hlo : -1 ≤ lo) (fuel : Nat)
    (l : Lexer) (ch : Char) (e : Option Error) (l1 : Lexer) (hr : l.reads src lo)
    (h : l.parseIndents fuel ch = some (e, l1)) :
    l1.reads src lo ∧ l1.quoteStack = l.quoteStack := by
  unfold Lexer.parseIndents at h
  split at h
  · cases h
  · rename_i count l2 hc
    obtain ⟨h1, h2⟩ := countIndents_keeps ch src lo hlo _ _ _ _ _ hr hc
    simp only [Option.some.injEq] at h
    have e2 : l1 = (l2.SetIndent count
        (if ch = TAB then IdetTab else if ch = SP then IdetSpace else IdetUnknown)).2 := by
      rw [h]
    rw [e2]
    exact ⟨(reads_SetIndent _ _ _ _ _).mpr h1, by rw [SetIndent_quoteStack, h2]⟩

theorem consumeWhiteSpace_succ (fuel : Nat) (l : Lexer) :
    Lexer.consumeWhiteSpace (fuel + 1) l =
      (if isWhiteSpace l.peek then Lexer.consumeWhiteSpace fuel l.next.2 else some l) := rfl

theorem consumeWhiteSpace_keeps (src : List Char) (lo : Int) (hlo : -1 ≤ lo) :
    ∀ (fuel : Nat) (l l1 : Lexer), l.reads src lo →
      Lexer.consumeWhiteSpace fuel l = some l1 →
      l1.reads src lo ∧ l1.quoteStack = l.quoteStack := by
  intro fuel
  induction fuel with
  | zero => intro l l1 _ h; cases h
  | succ n ih =>
    intro l l1 hr h
    rw [consumeWhiteSpace_succ] at h
    split_ifs at h
    · obtain ⟨h1, h2⟩ := ih _ _ (next_keeps hr hlo).1 h
      exact ⟨h1, by rw [h2, next_quoteStack]⟩
    · simp only [Option.some.injEq] at h
      subst h
      exact ⟨hr, rfl⟩

theorem parseCRLF_keeps (src : List Char) (lo : Int) (hlo : -1 ≤ lo) (l : Lexer) (ch : Char)
    (hr : l.reads src lo) :
    (l.parseCRLF ch).2.reads src lo ∧ (l.parseCRLF ch).2.quoteStack = l.quoteStack := by
  have hn := next_keeps hr hlo
  unfold Lexer.parseCRLF
  dsimp only
  split_ifs
  all_goals
    first
      | exact ⟨hn.1, hn.2⟩
      | exact ⟨hr, rfl⟩

theorem validateComment_keeps (src : List Char) (lo : Int) (hlo : -1 ≤ lo) :
    ∀ (fuel : Nat) (note : List Char) (l : Lexer) (r : Bool × Bool × List Char) (l1 : Lexer),
      l.reads src lo → Lexer.validateComment fuel note l = some (r, l1) →
      l1.reads src lo ∧ l1.quoteStack = l.quoteStack ∧ l1.chBuffer = l.chBuffer := by
  intro fuel
  induction fuel with
  | zero => intro note l r l1 _ h; cases h
  | succ n ih =>
    intro note l r l1 hr h
    have hn := next_keeps hr hlo
    have hnn := next_keeps hn.1 hlo
    rw [validateComment_succ] at h
    dsimp only at h
    split_ifs at h
    · simp only [Option.some.injEq, Prod.mk.injEq] at h
      obtain ⟨_, rfl⟩ := h
      exact ⟨hnn.1, by rw [hnn.2, hn.2], by rw [next_chBuffer, next_chBuffer]⟩
    · simp only [Option.some.injEq, Prod.mk.injEq] at h
      obtain ⟨_, rfl⟩ := h
      exact ⟨hn.1, hn.2, next_chBuffer l⟩
    · obtain ⟨h1, h2, h3⟩ := ih _ _ _ _ hn.1 h
      exact ⟨h1, by rw [h2, next_quoteStack], by rw [h3, next_chBuffer]⟩
    · simp only [Option.some.injEq, Prod.mk.injEq] at h
      obtain ⟨_, rfl⟩ := h
      exact ⟨hn.1, hn.2, next_chBuffer l⟩

theorem parseNumberLoop_keeps (src : List Char) (lo : Int) (hlo : -1 ≤ lo) :
    ∀ (fuel q : Nat) (ch : Char) (l : Lexer) (q1 : Nat) (ch1 : Char) (l1 : Lexer),
      l.reads src lo → Lexer.parseNumberLoop fuel q ch l = some (q1, ch1, l1) →
      l1.reads src lo ∧ l1.quoteStack = l.quoteStack := by
  intro fuel
  induction fuel with
  | zero => intro q ch l q1 ch1 l1 _ h; cases h
  | succ n ih =>
    intro q ch l q1 ch1 l1 hr h
    have hn := next_keeps hr hlo
    rw [parseNumberLoop_succ] at h
    split_ifs at h
    · simp only [Option.some.injEq, Prod.mk.injEq] at h
      obtain ⟨_, _, rfl⟩ := h
      exact ⟨hr, rfl⟩
    · obtain ⟨h1, h2⟩ := ih _ _ _ _ _ _ hn.1 h
      exact ⟨h1, by rw [h2, next_quoteStack]⟩
    · split at h
      · simp only [Option.some.injEq, Prod.mk.injEq] at h
        obtain ⟨_, _, rfl⟩ := h
        exact ⟨hr, rfl⟩
      · have hp : (l.pushBuffer [ch]).reads src lo := hr
        obtain ⟨h1, h2⟩ := ih _ _ _ _ _ _ (next_keeps hp hlo).1 h
        exact ⟨h1, by rw [h2, next_quoteStack]; rfl⟩

theorem parseNumber_keeps (src : List Char) (fuel : Nat) (l : Lexer) (ch : Char)
    (r : Except Error Token) (l1 : Lexer) (hr : l.reads src 0)
    (h : l.parseNumber fuel ch = some (r, l1)) :
    l1.reads src (-1) ∧ l1.quoteStack = l.quoteStack := by
  unfold Lexer.parseNumber at h
  dsimp only at h
  split at h
  · cases h
  · rename_i q1 ch1 l2 heq
    have hc : l.clearBuffer.reads src 0 := hr
    obtain ⟨h1, h2⟩ := parseNumberLoop_keeps src 0 (by omega) _ _ _ _ _ _ _ hc heq
    split_ifs at h
    · simp only [Option.some.injEq, Prod.mk.injEq] at h
      obtain ⟨_, rfl⟩ := h
      exact ⟨reads_rebase h1 _ _ (by omega) (by have := h1.2.1; omega), h2⟩
    · simp only [Option.some.injEq, Prod.mk.injEq] at h
      obtain ⟨_, rfl⟩ := h
      exact ⟨reads_mono h1 _ (by omega), h2⟩

theorem snd_of_ite {α : Type} {c : Prop} [Decidable c] {a b : α × Lexer} {P : Lexer → Prop}
    (ha : P a.2) (hb : P b.2) : P (if c then a else b).2 := by
  by_cases hc : c
  · rw [if_pos hc]; exact ha
  · rw [if_neg hc]; exact hb

theorem parseMarkers_keeps (src : List Char) (lo : Int) (hlo : -1 ≤ lo) (l : Lexer) (ch : Char)
    (hr : l.reads src lo) :
    (l.parseMarkers ch).2.reads src lo ∧ (l.parseMarkers ch).2.quoteStack = l.quoteStack := by
  have hc : (l.clearBuffer.pushBuffer [ch]).reads src lo := hr
  have hn := next_keeps hc hlo
  unfold Lexer.parseMarkers
  dsimp only
  repeat' refine snd_of_ite (P := fun x => x.reads src lo ∧ x.quoteStack = l.quoteStack) ?_ ?_
  all_goals
    first
      | exact ⟨hr, rfl⟩
      | exact ⟨hn.1, hn.2⟩

theorem parseKeyword_keeps (src : List Char) (lo : Int) (hlo : -1 ≤ lo) (l : Lexer) (ch : Char)
    (mf : Bool) (hr : l.reads src lo) :
    (l.parseKeyword ch mf).2.reads src lo ∧ (l.parseKeyword ch mf).2.quoteStack = l.quoteStack := by
  have hn := next_keeps hr hlo
  have hnn := next_keeps hn.1 hlo
  unfold Lexer.parseKeyword
  dsimp only
  split
  · exact ⟨hr, rfl⟩
  · dsimp only
    split_ifs
    all_goals
      first
        | exact ⟨hr, rfl⟩
        | exact ⟨hn.1, hn.2⟩
        | exact ⟨hnn.1, by rw [← hn.2, ← hnn.2]; rfl⟩

theorem getD_mem_or {α : Type} (xs : List α) (n : Nat) (d : α) :
    xs.getD n d ∈ xs ∨ xs.length ≤ n := by
  by_cases h : n < xs.length
  · left
    rw [List.getD_eq_getElem _ _ h]
    exact List.getElem_mem h
  · right; omega

theorem atEnd_of_next_EOF {l : Lexer} {src : List Char} {lo : Int} (hr : l.reads src lo)
    (hlo : -1 ≤ lo) (hz : EOF ∉ src) (h : l.next.1 = EOF) : l.atEnd src := by
  obtain ⟨hJ, hc, hs⟩ := hr
  have h1 := (next_spec l hJ (by omega)).1
  rw [hs, h] at h1
  rcases getD_mem_or src (l.cursor + 1).toNat EOF with hm | hm
  · rw [← h1] at hm; exact absurd hm hz
  · unfold Lexer.atEnd; omega

theorem next_EOF_of_atEnd {l : Lexer} {src : List Char} {lo : Int} (hr : l.reads src lo)
    (hlo : -1 ≤ lo) (h : l.atEnd src) : l.next.1 = EOF := by
  obtain ⟨hJ, hc, hs⟩ := hr
  rw [(next_spec l hJ (by omega)).1, hs]
  unfold Lexer.atEnd at h
  exact List.getD_eq_default _ _ (by omega)

theorem parseStringLoop_keeps (src : List Char) (lo : Int) (hlo : -1 ≤ lo) (firstChar : Char)
    (rg : TokenRange) :
    ∀ (fuel : Nat) (l : Lexer) (r : Except Error Token) (l1 : Lexer), l.reads src lo →
      Lexer.parseStringLoop firstChar rg fuel l = some (r, l1) →
      l1.reads src lo ∧
        (∀ tok, r = .ok tok → EOF ∉ src → l1.quoteStack = [] ∨ l1.atEnd src) := by
  intro fuel
  induction fuel with
  | zero => intro l r l1 _ h; cases h
  | succ n ih =>
    intro l r l1 hr h
    have hn := (next_keeps hr hlo).1
    have hcur := next_cursor l
    rw [parseStringLoop_succ] at h
    dsimp only at h
    by_cases hE : l.next.1 = EOF
    · rw [if_pos hE] at h
      simp only [Option.some.injEq, Prod.mk.injEq] at h
      obtain ⟨_, rfl⟩ := h
      refine ⟨reads_rebase hn _ _ (by omega) (by have := hr.2.1; omega), ?_⟩
      intro tok _ hz
      right
      have := atEnd_of_next_EOF hr hlo hz hE
      unfold Lexer.atEnd at this ⊢
      show (src.length : Int) ≤ l.next.2.cursor - 1 + 1
      omega
    rw [if_neg hE] at h
    by_cases hL : Contains l.next.1 LeftQuotes = true
    · rw [if_pos hL] at h
      have hq : ((l.next.2.pushBuffer [l.next.1]).quotePush l.next.1).2.reads src lo :=
        (reads_quotePush _ _ _ _).mpr hn
      split_ifs at h
      · simp only [Option.some.injEq, Prod.mk.injEq] at h
        obtain ⟨rfl, rfl⟩ := h
        exact ⟨hq, fun tok ht => by cases ht⟩
      · exact ih _ _ _ hq h
    rw [if_neg hL] at h
    by_cases hR : Contains l.next.1 RightQuotes = true
    · rw [if_pos hR] at h
      have hq : (if QuoteMatchMap l.next.2.quoteCurrent = l.next.1 then l.next.2.quotePop
          else l.next.2).reads src lo := by
        split_ifs <;> exact hn
      by_cases h0 : (if QuoteMatchMap l.next.2.quoteCurrent = l.next.1 then l.next.2.quotePop
          else l.next.2).quoteStack.length = 0
      · rw [if_pos h0] at h
        simp only [Option.some.injEq, Prod.mk.injEq] at h
        obtain ⟨_, rfl⟩ := h
        exact ⟨hq, fun tok _ _ => Or.inl (List.length_eq_zero.mp h0)⟩
      · rw [if_neg h0] at h
        exact ih _ _ _ ((reads_pushBuffer _ _ _ _).mpr hq) h
    rw [if_neg hR] at h
    by_cases hN : l.next.1 = CR ∨ l.next.1 = LF
    · rw [if_pos hN] at h
      have hp := parseCRLF_keeps src lo hlo l.next.2 l.next.1 hn
      split at h
      · rename_i err l2 heq
        simp only [Option.some.injEq, Prod.mk.injEq] at h
        obtain ⟨rfl, rfl⟩ := h
        have e2 : l2 = (l.next.2.parseCRLF l.next.1).2 := by rw [heq]
        rw [e2]
        exact ⟨hp.1, fun tok ht => by cases ht⟩
      · rename_i nl l2 heq
        have e2 : l2 = (l.next.2.parseCRLF l.next.1).2 := by rw [heq]
        have h2 : (l2.pushBuffer nl).reads src lo := by rw [e2]; exact hp.1
        have h3 := (reads_SetIndent (l2.pushBuffer nl) 0 IdetUnknown src lo).mpr h2
        split at h
        · rename_i err l4 heq4
          simp only [Option.some.injEq, Prod.mk.injEq] at h
          obtain ⟨rfl, rfl⟩ := h
          rw [heq4] at h3
          exact ⟨h3, fun tok ht => by cases ht⟩
        · rename_i l4 heq4
          rw [heq4] at h3
          exact ih _ _ _ h3 h
    · rw [if_neg hN] at h
      exact ih _ _ _ ((reads_pushBuffer _ _ _ _).mpr hn) h

theorem parseString_keeps (src : List Char) (lo : Int) (hlo : -1 ≤ lo) (fuel : Nat) (l : Lexer)
    (ch : Char) (r : Except Error Token) (l1 : Lexer) (hr : l.reads src lo)
    (h : l.parseString fuel ch = some (r, l1)) :
    l1.reads src lo ∧
      (∀ tok, r = .ok tok → EOF ∉ src → l1.quoteStack = [] ∨ l1.atEnd src) := by
  unfold Lexer.parseString at h
  dsimp only at h
  exact parseStringLoop_keeps src lo hlo _ _ _ _ _ _
    ((reads_quotePush l.clearBuffer ch src lo).mpr hr) h

theorem parseCommentLoop_keeps (src : List Char) (lo : Int) (hlo : -1 ≤ lo)
    ( isMultiLine : Bool) (note : List Char) :
    ∀ (fuel : Nat) (rg : TokenRange) (l : Lexer) (r : Except Error Token) (l1 : Lexer),
      l.reads src lo →
      Lexer.parseCommentLoop isMultiLine note fuel rg l = some (r, l1) →
      l1.reads src lo ∧
        ((isMultiLine = false → l.quoteStack = []) →
          ∀ tok, r = .ok tok → EOF ∉ src → l1.quoteStack = [] ∨ l1.atEnd src) := by
  intro fuel
  induction fuel with
  | zero => intro rg l r l1 _ h; cases h
  | succ n ih =>
    intro rg l r l1 hr h
    have hn := (next_keeps hr hlo).1
    have hnq := next_quoteStack l
    have hcur := next_cursor l
    have hrec : ∀ (rg1 : TokenRange) (x : Lexer), x.reads src lo →
        ((isMultiLine = false → l.quoteStack = []) → isMultiLine = false → x.quoteStack = []) →
        Lexer.parseCommentLoop isMultiLine note n rg1 x = some (r, l1) →
        l1.reads src lo ∧
          ((isMultiLine = false → l.quoteStack = []) →
            ∀ tok, r = .ok tok → EOF ∉ src → l1.quoteStack = [] ∨ l1.atEnd src) := by
      intro rg1 x hx hxq hh
      obtain ⟨h1, h2⟩ := ih rg1 x r l1 hx hh
      exact ⟨h1, fun hq => h2 (hxq hq)⟩
    rw [parseCommentLoop_succ] at h
    dsimp only at h
    by_cases hE : l.next.1 = EOF
    · rw [if_pos hE] at h
      simp only [Option.some.injEq, Prod.mk.injEq] at h
      obtain ⟨_, rfl⟩ := h
      refine ⟨reads_rebase hn _ _ (by omega) (by have := hr.2.1; omega), ?_⟩
      intro _ tok _ hz
      right
      have := atEnd_of_next_EOF hr hlo hz hE
      unfold Lexer.atEnd at this ⊢
      show (src.length : Int) ≤ l.next.2.cursor - 1 + 1
      omega
    rw [if_neg hE] at h
    by_cases hN : l.next.1 = CR ∨ l.next.1 = LF
    · rw [if_pos hN] at h
      have hp := parseCRLF_keeps src lo hlo l.next.2 l.next.1 hn
      split at h
      · rename_i err l2 heq
        simp only [Option.some.injEq, Prod.mk.injEq] at h
        obtain ⟨rfl, rfl⟩ := h
        have e2 : l2 = (l.next.2.parseCRLF l.next.1).2 := by rw [heq]
        rw [e2]
        exact ⟨hp.1, fun _ tok ht => by cases ht⟩
      · rename_i nl l2 heq
        have e2 : l2 = (l.next.2.parseCRLF l.next.1).2 := by rw [heq]
        by_cases hm : isMultiLine = false
        · rw [if_pos hm] at h
          simp only [Option.some.injEq, Prod.mk.injEq] at h
          obtain ⟨_, rfl⟩ := h
          rw [e2]
          exact ⟨hp.1, fun hq tok _ _ => Or.inl (by rw [hp.2, hnq]; exact hq hm)⟩
        · rw [if_neg hm] at h
          have h2 : (l2.pushBuffer nl).reads src lo := by rw [e2]; exact hp.1
          have h3 := (reads_SetIndent (l2.pushBuffer nl) 0 IdetUnknown src lo).mpr h2
          split at h
          · rename_i err l4 heq4
            simp only [Option.some.injEq, Prod.mk.injEq] at h
            obtain ⟨rfl, rfl⟩ := h
            rw [heq4] at h3
            exact ⟨h3, fun _ tok ht => by cases ht⟩
          · rename_i l4 heq4
            rw [heq4] at h3
            exact hrec _ _ h3 (fun _ e => absurd e hm) h
    rw [if_neg hN] at h
    by_cases hm : isMultiLine = true
    · rw [if_pos hm] at h
      have hmf : isMultiLine = false → ∀ x : Lexer, x.quoteStack = [] := by
        intro e; rw [hm] at e; cases e
      have hp : (if Contains l.next.1 LeftQuotes = true then l.next.2.quotePush l.next.1
          else (true, l.next.2)).2.reads src lo := by
        split_ifs
        · exact (reads_quotePush _ _ _ _).mpr hn
        · exact hn
      generalize (if Contains l.next.1 LeftQuotes = true then l.next.2.quotePush l.next.1
          else (true, l.next.2)) = p at h hp
      by_cases hf : p.1 = false
      · rw [if_pos hf] at h
        simp only [Option.some.injEq, Prod.mk.injEq] at h
        obtain ⟨rfl, rfl⟩ := h
        exact ⟨hp, fun _ tok ht => by cases ht⟩
      rw [if_neg hf] at h
      by_cases hR : Contains l.next.1 RightQuotes = true
      · rw [if_pos hR] at h
        have hp4 : (if QuoteMatchMap p.2.quoteCurrent = l.next.1 then p.2.quotePop
            else p.2).reads src lo := by
          split_ifs <;> exact hp
        generalize (if QuoteMatchMap p.2.quoteCurrent = l.next.1 then p.2.quotePop
            else p.2) = l3 at h hp4
        by_cases h0 : l3.quoteStack.length = 0
        · rw [if_pos h0] at h
          simp only [Option.some.injEq, Prod.mk.injEq] at h
          obtain ⟨_, rfl⟩ := h
          exact ⟨hp4, fun _ tok _ _ => Or.inl (List.length_eq_zero.mp h0)⟩
        · rw [if_neg h0] at h
          exact hrec _ _ ((reads_pushBuffer _ _ _ _).mpr hp4) (fun _ e => hmf e _) h
      · rw [if_neg hR] at h
        exact hrec _ _ ((reads_pushBuffer _ _ _ _).mpr hp) (fun _ e => hmf e _) h
    · rw [if_neg hm] at h
      refine hrec _ _ ((reads_pushBuffer _ _ _ _).mpr hn) ?_ h
      intro hq e
      show l.next.2.quoteStack = []
      rw [hnq]; exact hq e

theorem parseComment_keeps (src : List Char) (lo : Int) (hlo : -1 ≤ lo) (fuel : Nat) (l : Lexer)
    (ch : Char) ( isMultiLine : Bool) (note : List Char) (rg : TokenRange)
    (r : Except Error Token) (l1 : Lexer) (hr : l.reads src lo)
    (h : l.parseComment fuel ch isMultiLine note rg = some (r, l1)) :
    l1.reads src lo ∧
      (l.quoteStack = [] →
        ∀ tok, r = .ok tok → EOF ∉ src → l1.quoteStack = [] ∨ l1.atEnd src) := by
  unfold Lexer.parseComment at h
  dsimp only at h
  by_cases hm : isMultiLine = true
  · rw [if_pos hm] at h
    have hp : (l.clearBuffer.quotePush ch).2.reads src lo := (reads_quotePush _ _ _ _).mpr hr
    split_ifs at h
    · simp only [Option.some.injEq, Prod.mk.injEq] at h
      obtain ⟨rfl, rfl⟩ := h
      exact ⟨hp, fun _ tok ht => by cases ht⟩
    · obtain ⟨h1, h2⟩ := parseCommentLoop_keeps src lo hlo isMultiLine note _ _ _ _ _
        ((reads_pushBuffer _ _ _ _).mpr hp) h
      exact ⟨h1, fun _ => h2 (by intro e; rw [hm] at e; cases e)⟩
  · rw [if_neg hm] at h
    obtain ⟨h1, h2⟩ := parseCommentLoop_keeps src lo hlo isMultiLine note _ _ _ _ _
      ((reads_clearBuffer _ _ _).mpr hr) h
    exact ⟨h1, fun hq => h2 (fun _ => hq)⟩

theorem parseVarQuoteLoop_keeps (src : List Char) (lo : Int) (hlo : -1 ≤ lo) (rg : TokenRange) :
    ∀ (fuel : Nat) (count : Int) (l : Lexer) (r : Except Error Token) (l1 : Lexer),
      l.reads src lo → Lexer.parseVarQuoteLoop rg fuel count l = some (r, l1) →
      l1.reads src lo ∧ l1.quoteStack = l.quoteStack := by
  intro fuel
  induction fuel with
  | zero => intro count l r l1 _ h; cases h
  | succ n ih =>
    intro count l r l1 hr h
    have hn := next_keeps hr hlo
    have hcur := next_cursor l
    rw [parseVarQuoteLoop_succ] at h
    dsimp only at h
    split_ifs at h
    · simp only [Option.some.injEq, Prod.mk.injEq] at h
      obtain ⟨_, rfl⟩ := h
      exact ⟨reads_rebase hn.1 _ _ (by omega) (by have := hr.2.1; omega), hn.2⟩
    · simp only [Option.some.injEq, Prod.mk.injEq] at h
      obtain ⟨_, rfl⟩ := h
      exact ⟨hn.1, hn.2⟩
    · obtain ⟨h1, h2⟩ := ih _ _ _ _ hn.1 h
      exact ⟨h1, by rw [h2, hn.2]⟩
    · simp only [Option.some.injEq, Prod.mk.injEq] at h
      obtain ⟨_, rfl⟩ := h
      exact ⟨hn.1, hn.2⟩
    · obtain ⟨h1, h2⟩ := ih _ _ _ _ ((reads_pushBuffer _ _ _ _).mpr hn.1) h
      exact ⟨h1, by rw [h2]; exact hn.2⟩
    · simp only [Option.some.injEq, Prod.mk.injEq] at h
      obtain ⟨_, rfl⟩ := h
      exact ⟨hn.1, hn.2⟩

theorem parseVarQuote_keeps (src : List Char) (lo : Int) (hlo : -1 ≤ lo) (fuel : Nat)
    (l : Lexer) (ch : Char) (r : Except Error Token) (l1 : Lexer) (hr : l.reads src lo)
    (h : l.parseVarQuote fuel ch = some (r, l1)) :
    l1.reads src lo ∧ l1.quoteStack = l.quoteStack := by
  unfold Lexer.parseVarQuote at h
  dsimp only at h
  obtain ⟨h1, h2⟩ := parseVarQuoteLoop_keeps src lo hlo _ _ _ _ _ _
    ((reads_clearBuffer l src lo).mpr hr) h
  exact ⟨h1, h2⟩

theorem parseIdentifierLoop_keeps (src : List Char) (lo : Int) (hlo : -1 ≤ lo) :
    ∀ (fuel : Nat) (count : Int) (rg : TokenRange) (l : Lexer) (r : Except Error Token)
      (l1 : Lexer), l.reads src lo →
      Lexer.parseIdentifierLoop fuel count rg l = some (r, l1) →
      l1.reads src lo ∧ l1.quoteStack = l.quoteStack := by
  intro fuel
  induction fuel with
  | zero => intro count rg l r l1 _ h; cases h
  | succ n ih =>
    intro count rg l r l1 hr h
    have hn := next_keeps hr hlo
    have hcur := next_cursor l
    have hlc := hr.2.1
    rw [parseIdentifierLoop_succ] at h
    dsimp only at h
    simp only [parseKeyword_false] at h
    by_cases hw : isWhiteSpace l.next.1 = true
    · rw [if_pos hw] at h
      obtain ⟨h1, h2⟩ := ih _ _ _ _ _ hn.1 h
      exact ⟨h1, by rw [h2, hn.2]⟩
    rw [if_neg hw] at h
    by_cases hk : (l.next.2.parseKeyword l.next.1 false).1.isSome = true
    · rw [if_pos hk] at h
      simp only [Option.some.injEq, Prod.mk.injEq] at h
      obtain ⟨_, rfl⟩ := h
      exact ⟨reads_rebase hn.1 _ _ (by omega) (by omega), hn.2⟩
    rw [if_neg hk] at h
    have hzhu : ∀ (b : Bool) (l2 : Lexer),
        (if l.next.1 = GlyphZHU then
          match Lexer.validateComment n [] l.next.2 with
          | none => none
          | some (r, l2) => some (r.1, l2)
        else some (false, l.next.2)) = some (b, l2) →
        l2.reads src lo ∧ l.cursor + 1 ≤ l2.cursor ∧ l2.quoteStack = l.quoteStack := by
      intro b l2 heq
      by_cases hz : l.next.1 = GlyphZHU
      · rw [if_pos hz] at heq
        split at heq
        · cases heq
        · rename_i r l3 hv
          have hp := validateComment_pos _ _ _ _ _ hv
          have hq := validateComment_keeps src lo hlo _ _ _ _ _ hn.1 hv
          simp only [Option.some.injEq, Prod.mk.injEq] at heq
          obtain ⟨_, rfl⟩ := heq
          exact ⟨hq.1, by omega, by rw [hq.2.1, hn.2]⟩
      · rw [if_neg hz] at heq
        simp only [Option.some.injEq, Prod.mk.injEq] at heq
        obtain ⟨_, rfl⟩ := heq
        exact ⟨hn.1, by omega, hn.2⟩
    split at h
    · cases h
    · rename_i l2 heq
      obtain ⟨h1, h2, h3⟩ := hzhu true l2 heq
      simp only [Option.some.injEq, Prod.mk.injEq] at h
      obtain ⟨_, rfl⟩ := h
      exact ⟨reads_rebase h1 _ _ (by omega) (by omega), h3⟩
    · rename_i l2 heq
      obtain ⟨h1, h2, h3⟩ := hzhu false l2 heq
      have h4 : (if l.next.1 = GlyphZHU then l2.rebase (l.cursor + 1) else l2).reads src lo
          ∧ (if l.next.1 = GlyphZHU then l2.rebase (l.cursor + 1) else l2).quoteStack
            = l.quoteStack
          ∧ l.cursor ≤ (if l.next.1 = GlyphZHU then l2.rebase (l.cursor + 1) else l2).cursor := by
        split_ifs
        · exact ⟨reads_rebase h1 _ _ (by omega) (by omega), h3, by show l.cursor ≤ l.cursor + 1; omega⟩
        · exact ⟨h1, h3, by omega⟩
      generalize (if l.next.1 = GlyphZHU then l2.rebase (l.cursor + 1) else l2) = l3 at h h4
      obtain ⟨h5, h6, h7⟩ := h4
      split_ifs at h
      · simp only [Option.some.injEq, Prod.mk.injEq] at h
        obtain ⟨_, rfl⟩ := h
        exact ⟨reads_rebase h5 _ _ (by omega) (by omega), h6⟩
      · simp only [Option.some.injEq, Prod.mk.injEq] at h
        obtain ⟨_, rfl⟩ := h
        exact ⟨h5, h6⟩
      · obtain ⟨h8, h9⟩ := ih _ _ _ _ _ ((reads_pushBuffer _ _ _ _).mpr h5) h
        exact ⟨h8, by rw [h9]; exact h6⟩
      · simp only [Option.some.injEq, Prod.mk.injEq] at h
        obtain ⟨_, rfl⟩ := h
        exact ⟨h5, h6⟩

theorem parseIdentifier_keeps (src : List Char) (lo : Int) (hlo : -1 ≤ lo) (fuel : Nat)
    (l : Lexer) (ch : Char) (r : Except Error Token) (l1 : Lexer) (hr : l.reads src lo)
    (h : l.parseIdentifier fuel ch = some (r, l1)) :
    l1.reads src lo ∧ l1.quoteStack = l.quoteStack := by
  unfold Lexer.parseIdentifier at h
  dsimp only at h
  split_ifs at h
  · simp only [Option.some.injEq, Prod.mk.injEq] at h
    obtain ⟨_, rfl⟩ := h
    exact ⟨hr, rfl⟩
  · obtain ⟨h1, h2⟩ := parseIdentifierLoop_keeps src lo hlo _ _ _ _ _ _
      ((reads_pushBuffer l.clearBuffer [ch] src lo).mpr hr) h
    exact ⟨h1, h2⟩

theorem nextTokenHead_keeps (src : List Char) :
    ∀ (fuel : Nat) (l0 : Lexer) (r : Except Error Token) (l1 : Lexer), l0.reads src (-1) →
      Lexer.nextTokenHead fuel l0 = some (r, l1) →
      l1.reads src (-1) ∧
        (EOF ∉ src → l0.quoteStack = [] ∨ l0.atEnd src →
          ∀ tok, r = .ok tok → l1.quoteStack = [] ∨ l1.atEnd src) := by
  intro fuel
  induction fuel with
  | zero => intro l0 r l1 _ h; cases h
  | succ n ih =>
    intro l0 r l1 hr0 h
    have hlo : (-1 : Int) ≤ -1 := le_refl _
    have hn := next_keeps hr0 hlo
    have hr := hn.1
    have hcur := next_cursor l0
    have hc0 := hr0.2.1
    rw [nextTokenHead_succ] at h
    dsimp only at h
    by_cases hE : l0.next.1 = EOF
    · rw [if_pos hE] at h
      simp only [Option.some.injEq, Prod.mk.injEq] at h
      obtain ⟨_, rfl⟩ := h
      refine ⟨hr, ?_⟩
      intro _ hd tok _
      rcases hd with hd | hd
      · left
        show l0.next.2.quoteStack = []
        rw [hn.2]; exact hd
      · right
        unfold Lexer.atEnd at hd ⊢
        show (src.length : Int) ≤ l0.next.2.cursor + 1
        omega
    rw [if_neg hE] at h
    -- behind this point a rune is left, so the quote stack is the empty one
    have hq0 : EOF ∉ src → l0.quoteStack = [] ∨ l0.atEnd src → l0.quoteStack = [] := by
      intro _ hd
      rcases hd with hd | hd
      · exact hd
      · exact absurd (next_EOF_of_atEnd hr0 hlo hd) hE
    have hrec : ∀ (x : Lexer), x.reads src (-1) → x.quoteStack = l0.quoteStack →
        Lexer.nextTokenHead n x = some (r, l1) →
        l1.reads src (-1) ∧
          (EOF ∉ src → l0.quoteStack = [] ∨ l0.atEnd src →
            ∀ tok, r = .ok tok → l1.quoteStack = [] ∨ l1.atEnd src) := by
      intro x hx hxq hh
      obtain ⟨h1, h2⟩ := ih x r l1 hx hh
      exact ⟨h1, fun hz hd tok ht => h2 hz (Or.inl (by rw [hxq]; exact hq0 hz hd)) tok ht⟩
    have hplain : ∀ (x : Lexer), x.reads src (-1) → x.quoteStack = l0.quoteStack →
        x.reads src (-1) ∧
          (EOF ∉ src → l0.quoteStack = [] ∨ l0.atEnd src →
            ∀ tok : Token, x.quoteStack = [] ∨ x.atEnd src) := by
      intro x hx hxq
      exact ⟨hx, fun hz hd _ => Or.inl (by rw [hxq]; exact hq0 hz hd)⟩
    by_cases hS : l0.next.1 = SP ∨ l0.next.1 = TAB
    · rw [if_pos hS] at h
      by_cases hI : l0.next.2.onIndentStage = true
      · rw [if_pos hI] at h
        split at h
        · cases h
        · rename_i err l2 heq
          obtain ⟨h1, h2⟩ := parseIndents_keeps src (-1) hlo _ _ _ _ _ hr heq
          simp only [Option.some.injEq, Prod.mk.injEq] at h
          obtain ⟨rfl, rfl⟩ := h
          exact ⟨h1, fun _ _ tok ht => by cases ht⟩
        · rename_i l2 heq
          obtain ⟨h1, h2⟩ := parseIndents_keeps src (-1) hlo _ _ _ _ _ hr heq
          exact hrec l2 h1 (by rw [h2, hn.2]) h
      · rw [if_neg hI] at h
        split at h
        · cases h
        · rename_i l2 heq
          obtain ⟨h1, h2⟩ := consumeWhiteSpace_keeps src (-1) hlo _ _ _ hr heq
          exact hrec l2 h1 (by rw [h2, hn.2]) h
    rw [if_neg hS] at h
    by_cases hN : l0.next.1 = CR ∨ l0.next.1 = LF
    · rw [if_pos hN] at h
      have hp := parseCRLF_keeps src (-1) hlo l0.next.2 l0.next.1 hr
      split at h
      · rename_i err l2 heq
        have e2 : l2 = (l0.next.2.parseCRLF l0.next.1).2 := by rw [heq]
        simp only [Option.some.injEq, Prod.mk.injEq] at h
        obtain ⟨rfl, rfl⟩ := h
        rw [e2]
        exact ⟨hp.1, fun _ _ tok ht => by cases ht⟩
      · rename_i nl l2 heq
        have e2 : l2 = (l0.next.2.parseCRLF l0.next.1).2 := by rw [heq]
        exact hrec l2 (by rw [e2]; exact hp.1) (by rw [e2, hp.2, hn.2]) h
    rw [if_neg hN] at h
    by_cases hZ : l0.next.1 = GlyphZHU
    · rw [if_pos hZ] at h
      split at h
      · cases h
      · rename_i isComment isMultiLine note l2 hv
        have hp := validateComment_pos _ _ _ _ _ hv
        obtain ⟨h1, h2, _⟩ := validateComment_keeps src (-1) hlo _ _ _ _ _ hr hv
        by_cases hC : isComment = true
        · rw [if_pos hC] at h
          obtain ⟨h3, h4⟩ := parseComment_keeps src (-1) hlo _ _ _ _ _ _ _ _ h1 h
          exact ⟨h3, fun hz hd tok ht =>
            h4 (by rw [h2, hn.2]; exact hq0 hz hd) tok ht hz⟩
        · rw [if_neg hC] at h
          obtain ⟨h3, h4⟩ := parseIdentifier_keeps src (-1) hlo _ _ _ _ _
            (reads_rebase h1 l0.next.2.cursor (-1) (by omega) (by omega)) h
          exact ⟨h3, fun hz hd tok _ => Or.inl (by
            rw [h4]
            show l2.quoteStack = []
            rw [h2, hn.2]; exact hq0 hz hd)⟩
    rw [if_neg hZ] at h
    by_cases hL : Contains l0.next.1 LeftQuotes = true
    · rw [if_pos hL] at h
      obtain ⟨h3, h4⟩ := parseString_keeps src (-1) hlo _ _ _ _ _ hr h
      exact ⟨h3, fun hz _ tok ht => h4 tok ht hz⟩
    rw [if_neg hL] at h
    by_cases hM : l0.next.1 = MiddleDot
    · rw [if_pos hM] at h
      obtain ⟨h3, h4⟩ := parseVarQuote_keeps src (-1) hlo _ _ _ _ _ hr h
      exact ⟨h3, fun hz hd tok _ => Or.inl (by rw [h4, hn.2]; exact hq0 hz hd)⟩
    rw [if_neg hM] at h
    by_cases hW : isWhiteSpace l0.next.1 = true
    · rw [if_pos hW] at h
      split at h
      · cases h
      · rename_i l2 heq
        obtain ⟨h1, h2⟩ := consumeWhiteSpace_keeps src (-1) hlo _ _ _ hr heq
        exact hrec l2 h1 (by rw [h2, hn.2]) h
    rw [if_neg hW] at h
    by_cases hD : isNumber l0.next.1 = true ∨ Contains l0.next.1 ['.', '+', '-'] = true
    · rw [if_pos hD] at h
      obtain ⟨h3, h4⟩ := parseNumber_keeps src _ _ _ _ _
        (reads_mono (reads_next hr0 hlo) 0 (by omega)) h
      exact ⟨h3, fun hz hd tok _ => Or.inl (by rw [h4, hn.2]; exact hq0 hz hd)⟩
    rw [if_neg hD] at h
    by_cases hK : Contains l0.next.1 MarkLeads = true
    · rw [if_pos hK] at h
      obtain ⟨h3, h4⟩ := parseMarkers_keeps src (-1) hlo l0.next.2 l0.next.1 hr
      simp only [Option.some.injEq] at h
      rw [h] at h3 h4
      exact ⟨h3, fun hz hd tok _ => Or.inl (by
        show l1.quoteStack = []
        rw [h4, hn.2]; exact hq0 hz hd)⟩
    rw [if_neg hK] at h
    obtain ⟨h3, h4⟩ := parseKeyword_keeps src (-1) hlo l0.next.2 l0.next.1 true hr
    split at h
    · rename_i tk l2 hk
      rw [hk] at h3 h4
      simp only [Option.some.injEq, Prod.mk.injEq] at h
      obtain ⟨_, rfl⟩ := h
      exact ⟨h3, fun hz hd tok _ => Or.inl (by
        show l2.quoteStack = []
        rw [h4, hn.2]; exact hq0 hz hd)⟩
    · rename_i l2 hk
      rw [hk] at h3 h4
      obtain ⟨h5, h6⟩ := parseIdentifier_keeps src (-1) hlo _ _ _ _ _ h3 h
      exact ⟨h5, fun hz hd tok _ => Or.inl (by
        rw [h6]
        show l2.quoteStack = []
        rw [h4, hn.2]; exact hq0 hz hd)⟩

/-- The reading state of a new lexer. -/
theorem NewLexer_reads (blocks : List (List Char)) (hne : ∀ b ∈ blocks, b ≠ []) :
    (NewLexer blocks).reads blocks.flatten (-1) ∧ (NewLexer blocks).quoteStack = [] := by
  refine ⟨⟨⟨hne, ?_, ?_⟩, le_refl _, ?_⟩, rfl⟩
  · intro h
    have h2 : false = true := h
    cases h2
  · left
    show (-1 : Int) + 1 ≤ ((0 : Nat) : Int)
    simp
  · show [] ++ blocks.flatten = blocks.flatten
    rw [List.nil_append]

/-- `NextToken` starts at the label `head` on a lexer with the same reading
state and quote stack, and not at the indent stage if it was not there. -/
theorem NextToken_head (fuel : Nat) (l : Lexer) :
    ∃ l0 : Lexer, l.NextToken fuel = Lexer.nextTokenHead fuel l0 ∧
      l0.blocks = l.blocks ∧ l0.readEnd = l.readEnd ∧ l0.lineBuffer = l.lineBuffer ∧
      l0.cursor = l.cursor ∧ l0.quoteStack = l.quoteStack ∧
      (l.onIndentStage = false → l0.onIndentStage = false) := by
  unfold Lexer.NextToken
  by_cases hb : l.beginLex = true
  · rw [if_pos hb]
    dsimp only
    split_ifs
    all_goals
      first
        | exact ⟨_, rfl, rfl, rfl, rfl, rfl, rfl, fun h => h⟩
        | exact ⟨_, rfl, rfl, rfl, rfl, rfl, rfl, fun _ => rfl⟩
  · rw [if_neg hb]
    exact ⟨l, rfl, rfl, rfl, rfl, rfl, rfl, fun h => h⟩

theorem NextToken_keeps (src : List Char) (fuel : Nat) (l : Lexer) (r : Except Error Token)
    (l1 : Lexer) (hr : l.reads src (-1)) (h : l.NextToken fuel = some (r, l1)) :
    l1.reads src (-1) ∧
      (EOF ∉ src → l.quoteStack = [] ∨ l.atEnd src →
        ∀ tok, r = .ok tok → l1.quoteStack = [] ∨ l1.atEnd src) := by
  obtain ⟨l0, e0, e1, e2, e3, e4, e5, _⟩ := NextToken_head fuel l
  rw [e0] at h
  have hr0 : l0.reads src (-1) := by
    obtain ⟨hJ, hc, hs⟩ := hr
    refine ⟨buffered_of_eq l l0 e1 e2 e3 e4 hJ, by rw [e4]; exact hc, ?_⟩
    rw [source_of_eq l l0 e1 e3]; exact hs
  obtain ⟨h1, h2⟩ := nextTokenHead_keeps src fuel l0 r l1 hr0 h
  refine ⟨h1, fun hz hd => h2 hz ?_⟩
  rcases hd with hd | hd
  · left; rw [e5]; exact hd
  · right
    unfold Lexer.atEnd at hd ⊢
    rw [e4]; exact hd

theorem nextTokens_succ (fuel n : Nat) (l : Lexer) :
    Lexer.nextTokens fuel (n + 1) l =
      (match l.NextToken fuel with
       | some (.ok tk, l1) =>
         match Lexer.nextTokens fuel n l1 with
         | some (tks, l2) => some (tk :: tks, l2)
         | none => none
       | _ => none) := rfl

/-- The reading state is kept by every run of `NextToken` calls, and on a
source without the zero rune the quote stack is empty wherever a rune is left
behind the cursor. -/
theorem nextTokens_keeps (src : List Char) (fuel : Nat) :
    ∀ (k : Nat) (l : Lexer) (toks : List Token) (l1 : Lexer), l.reads src (-1) →
      Lexer.nextTokens fuel k l = some (toks, l1) →
      l1.reads src (-1) ∧
        (EOF ∉ src → l.quoteStack = [] ∨ l.atEnd src → l1.quoteStack = [] ∨ l1.atEnd src) := by
  intro k
  induction k with
  | zero =>
    intro l toks l1 hr h
    have h0 : Lexer.nextTokens fuel 0 l = some ([], l) := rfl
    rw [h0] at h
    simp only [Option.some.injEq, Prod.mk.injEq] at h
    obtain ⟨_, rfl⟩ := h
    exact ⟨hr, fun _ hd => hd⟩
  | succ n ih =>
    intro l toks l1 hr h
    rw [nextTokens_succ] at h
    split at h
    · rename_i tk l2 heq
      obtain ⟨h1, h2⟩ := NextToken_keeps src fuel l _ l2 hr heq
      split at h
      · rename_i tks l3 heq2
        simp only [Option.some.injEq, Prod.mk.injEq] at h
        obtain ⟨_, rfl⟩ := h
        obtain ⟨h3, h4⟩ := ih l2 tks l3 h1 heq2
        exact ⟨h3, fun hz hd => h4 hz (h2 hz hd tk rfl)⟩
      · cases h
    · cases h

/-! ## Keywords and comments in the text -/

theorem some_of_cond {c : Prop} [Decidable c] {a b : Option (Int × Nat)}
    {P : Int → Nat → Prop} (ha : c → ∀ w t, a = some (w, t) → P w t)
    (hb : ∀ w t, b = some (w, t) → P w t) :
    ∀ w t, (if c then a else b) = some (w, t) → P w t := by
  intro w t h
  by_cases hc : c
  · rw [if_pos hc] at h; exact ha hc w t h
  · rw [if_neg hc] at h; exact hb w t h

/-- What `matchKeyword` finds is a keyword of the table, made of the rune and
of the one or two runes that `peek` and `peek2` show. -/
theorem matchKeyword_table (l : Lexer) (ch : Char) :
    ∀ (w : Int) (t : Nat), l.matchKeyword ch = some (w, t) →
      (t, [ch]) ∈ KeywordTypeMap ∨ (t, [ch, l.peek]) ∈ KeywordTypeMap
        ∨ (t, [ch, l.peek, l.peek2]) ∈ KeywordTypeMap := by
  unfold Lexer.matchKeyword
  repeat' (first | refine some_of_cond ?_ ?_ | intro _)
  all_goals
    first
      | (rename_i h; cases h; done)
      | skip
  all_goals
    rename_i h
    simp only [Option.some.injEq, Prod.mk.injEq] at h
    obtain ⟨rfl, rfl⟩ := h
    first
      | (rename_i h1; rw [h1]; left; decide)
      | (rename_i h1 h2; rw [h1, h2]; right; left; decide)
      | (rename_i h1 h2; rw [h1, h2.1, h2.2]; right; right; decide)

theorem getChar_drop (l : Lexer) (idx : Int) (h0 : 0 ≤ idx) (h : l.getChar idx ≠ EOF) :
    l.source.drop idx.toNat = l.getChar idx :: l.source.drop (idx.toNat + 1) := by
  have hlt : idx < (l.lineBuffer.length : Int) := by
    by_contra hge
    apply h
    unfold Lexer.getChar
    rw [if_pos (by omega)]
  have hs := getChar_source l idx h0 (Or.inl hlt)
  have hlen : idx.toNat < l.source.length := by
    unfold Lexer.source
    rw [List.length_append]
    omega
  rw [hs, List.getD_eq_getElem _ _ hlen]
  exact List.drop_eq_getElem_cons hlen

theorem keyword_runes : ∀ e ∈ KeywordTypeMap, ∀ c ∈ e.2, c ≠ EOF := by decide

theorem startsKeyword_of_mem (t : Nat) (k text : List Char) (hk : (t, k) ∈ KeywordTypeMap)
    (hp : k.isPrefixOf text = true) : startsKeyword text = true := by
  unfold startsKeyword
  rw [List.any_eq_true]
  exact ⟨(t, k), hk, hp⟩

/-- Where no keyword starts in the text, `matchKeyword` finds none: the runes
that `peek` and `peek2` show are runes of the source or the zero rune. -/
theorem matchKeyword_none_of_text (l : Lexer) (ch : Char) (rest : List Char)
    (hc : -1 ≤ l.cursor) (hdrop : l.source.drop (l.cursor + 1).toNat = rest)
    (hno : startsKeyword (ch :: rest) = false) : l.matchKeyword ch = none := by
  cases hm : l.matchKeyword ch with
  | none => rfl
  | some p =>
    obtain ⟨w, t⟩ := p
    exfalso
    have hyes : startsKeyword (ch :: rest) = true := by
      rcases matchKeyword_table l ch w t hm with h | h | h
      · exact startsKeyword_of_mem t [ch] _ h (by simp [List.isPrefixOf])
      · have hp : l.peek ≠ EOF := keyword_runes _ h l.peek (by simp)
        have hd := getChar_drop l (l.cursor + 1) (by omega) hp
        rw [hdrop] at hd
        refine startsKeyword_of_mem t [ch, l.peek] _ h ?_
        rw [hd]
        unfold Lexer.peek
        simp [List.isPrefixOf]
      · have hp : l.peek ≠ EOF := keyword_runes _ h l.peek (by simp)
        have hp2 : l.peek2 ≠ EOF := keyword_runes _ h l.peek2 (by simp)
        have hd := getChar_drop l (l.cursor + 1) (by omega) hp
        have hd2 := getChar_drop l (l.cursor + 2) (by omega) hp2
        rw [hdrop] at hd
        have e2 : (l.cursor + 2).toNat = (l.cursor + 1).toNat + 1 := by omega
        rw [e2] at hd2
        refine startsKeyword_of_mem t [ch, l.peek, l.peek2] _ h ?_
        rw [hd, hd2]
        unfold Lexer.peek Lexer.peek2
        simp [List.isPrefixOf]
    rw [hno] at hyes
    cases hyes

theorem parseKeyword_none_of_text (l : Lexer) (ch : Char) (mf : Bool) (rest : List Char)
    (hc : -1 ≤ l.cursor) (hdrop : l.source.drop (l.cursor + 1).toNat = rest)
    (hno : startsKeyword (ch :: rest) = false) : l.parseKeyword ch mf = (none, l) := by
  unfold Lexer.parseKeyword
  rw [matchKeyword_none_of_text l ch rest hc hdrop hno]

theorem next_char_of_drop (l : Lexer) (hJ : l.buffered) (hc : -1 ≤ l.cursor) (r : List Char)
    (h : l.source.drop (l.cursor + 1).toNat = r) : l.next.1 = r.headD EOF := by
  rw [(next_spec l hJ hc).1]
  exact getD_of_drop _ _ _ h

theorem next_drop (l : Lexer) (hc : -1 ≤ l.cursor) (d : Char) (r : List Char)
    (h : l.source.drop (l.cursor + 1).toNat = d :: r) :
    l.next.2.source.drop (l.next.2.cursor + 1).toNat = r := by
  rw [next_source, next_cursor]
  have e : (l.cursor + 1 + 1).toNat = (l.cursor + 1).toNat + 1 := by omega
  rw [e]
  exact drop_succ_of_drop _ _ _ _ h

/-- Where no comment starts in the text, `validateComment` says so, having
read the digits and the whitespace behind the glyph. -/
theorem validateComment_none_of_text : ∀ (rest : List Char) (fuel : Nat) (note : List Char)
    (l : Lexer), l.buffered → -1 ≤ l.cursor → l.source.drop (l.cursor + 1).toNat = rest →
    ((rest.dropWhile (fun d => isNumber d || isWhiteSpace d)).head? == some Colon) = false →
    (rest.takeWhile (fun d => isNumber d || isWhiteSpace d)).length + 1 ≤ fuel →
    ∃ note1 l1, Lexer.validateComment fuel note l = some ((false, false, note1), l1) := by
  intro rest
  induction rest with
  | nil =>
    intro fuel note l hJ hc hdrop _ hfuel
    obtain ⟨n, rfl⟩ : ∃ n, fuel = n + 1 := ⟨fuel - 1, by omega⟩
    have hch : l.next.1 = EOF := next_char_of_drop l hJ hc _ hdrop
    rw [validateComment_succ]
    dsimp only
    rw [hch, if_neg (by decide), if_neg (by decide)]
    exact ⟨_, _, rfl⟩
  | cons c r ih =>
    intro fuel note l hJ hc hdrop hno hfuel
    obtain ⟨n, rfl⟩ : ∃ n, fuel = n + 1 := ⟨fuel - 1, by omega⟩
    have hch : l.next.1 = c := by
      rw [next_char_of_drop l hJ hc _ hdrop]; rfl
    rw [validateComment_succ]
    dsimp only
    rw [hch]
    cases hp : (isNumber c || isWhiteSpace c) with
    | true =>
      have hcol : c ≠ Colon := by
        intro e
        rw [e] at hp
        revert hp
        decide
      rw [List.dropWhile_cons_of_pos (p := fun d => isNumber d || isWhiteSpace d) hp] at hno
      rw [List.takeWhile_cons_of_pos (p := fun d => isNumber d || isWhiteSpace d) hp] at hfuel
      have hor : isNumber c = true ∨ isWhiteSpace c = true := by
        simpa [Bool.or_eq_true] using hp
      rw [if_neg hcol, if_pos hor]
      exact ih n _ l.next.2 (next_spec l hJ hc).2 (by rw [next_cursor]; omega)
        (next_drop l hc c r hdrop) hno (by simp only [List.length_cons] at hfuel; omega)
    | false =>
      have hneg : ¬ ((isNumber c || isWhiteSpace c) = true) := by rw [hp]; decide
      rw [List.dropWhile_cons_of_neg (p := fun d => isNumber d || isWhiteSpace d) hneg] at hno
      have hcol : c ≠ Colon := by
        intro e
        rw [e] at hno
        simp at hno
      have hor : ¬ (isNumber c = true ∨ isWhiteSpace c = true) := by
        simpa [Bool.or_eq_true] using hneg
      rw [if_neg hcol, if_neg hor]
      exact ⟨_, _, rfl⟩

/-! ## Identifiers: the loops of parseIdentifier and parseVarQuote -/

theorem mem_of_Contains (c : Char) (L : List Char) (h : Contains c L = true) : c ∈ L := by
  unfold Contains at h
  exact List.mem_of_elem_eq_true h

theorem Contains_false_of {P : Char → Bool} (L : List Char) (hL : ∀ k ∈ L, P k = false)
    (c : Char) (hc : P c = true) : Contains c L = false := by
  cases h : Contains c L with
  | false => rfl
  | true =>
    have := hL c (mem_of_Contains c L h)
    rw [hc] at this; cases this

theorem isDigit_of_isNumber (c : Char) (h : isNumber c = true) : c.isDigit = true := by
  simp only [isNumber, decide_eq_true_eq] at h
  simp only [Char.isDigit, Bool.and_eq_true, decide_eq_true_eq]
  exact h

theorem idFirst_not_number (c : Char) (h : isIdentifierChar c true = true) :
    isNumber c = false := by
  cases hn : isNumber c with
  | false => rfl
  | true =>
    have hd := isDigit_of_isNumber c hn
    rcases digit_cases c hd with e | e | e | e | e | e | e | e | e | e <;>
      (subst e; revert h; decide)

theorem idFirst_idRest (c : Char) (h : isIdentifierChar c true = true) :
    isIdentifierChar c false = true := by
  unfold isIdentifierChar at h ⊢
  split_ifs at h ⊢ <;> first | rfl | contradiction

theorem ne_of_pred {P : Char → Bool} (L : List Char) (hL : ∀ k ∈ L, P k = false)
    (c k : Char) (hc : P c = true) (hk : k ∈ L) : c ≠ k := by
  intro e
  subst e
  have := hL c hk
  rw [hc] at this; cases this

theorem idFirst_dispatch (c : Char) (h : isIdentifierChar c true = true) :
    c ≠ EOF ∧ ¬ (c = SP ∨ c = TAB) ∧ ¬ (c = CR ∨ c = LF)
      ∧ ¬ (Contains c LeftQuotes = true) ∧ c ≠ MiddleDot ∧ ¬ (isWhiteSpace c = true)
      ∧ ¬ (isNumber c = true ∨ Contains c ['.', '+', '-'] = true)
      ∧ ¬ (Contains c MarkLeads = true) := by
  have hL : ∀ k ∈ [EOF, SP, TAB, CR, LF, MiddleDot],
      (fun k => isIdentifierChar k true) k = false := by decide
  have hq : ∀ k ∈ LeftQuotes, (fun k => isIdentifierChar k true) k = false := by decide
  have hw : ∀ k ∈ WhiteSpaces, (fun k => isIdentifierChar k true) k = false := by decide
  have hs : ∀ k ∈ ['.', '+', '-'], (fun k => isIdentifierChar k true) k = false := by decide
  have hm : ∀ k ∈ MarkLeads, (fun k => isIdentifierChar k true) k = false := by decide
  have hne := fun k hk => ne_of_pred _ hL c k h hk
  refine ⟨hne EOF (by decide), ?_, ?_, ?_, hne MiddleDot (by decide), ?_, ?_, ?_⟩
  · rintro (e | e)
    · exact hne SP (by decide) e
    · exact hne TAB (by decide) e
  · rintro (e | e)
    · exact hne CR (by decide) e
    · exact hne LF (by decide) e
  · rw [Contains_false_of LeftQuotes hq c h]; decide
  · unfold isWhiteSpace; rw [Contains_false_of WhiteSpaces hw c h]; decide
  · rw [idFirst_not_number c h, Contains_false_of _ hs c h]; decide
  · rw [Contains_false_of MarkLeads hm c h]; decide

theorem idRest_facts (c : Char) (h : isIdentifierChar c false = true) :
    c ≠ EOF ∧ c ≠ MiddleDot ∧ isWhiteSpace c = false ∧ Contains c terminators = false := by
  have hL : ∀ k ∈ [EOF, MiddleDot], (fun k => isIdentifierChar k false) k = false := by decide
  have hw : ∀ k ∈ WhiteSpaces, (fun k => isIdentifierChar k false) k = false := by decide
  have ht : ∀ k ∈ terminators, (fun k => isIdentifierChar k false) k = false := by decide
  exact ⟨ne_of_pred _ hL c EOF h (by decide), ne_of_pred _ hL c MiddleDot h (by decide),
    Contains_false_of WhiteSpaces hw c h, Contains_false_of terminators ht c h⟩

theorem nextTokenHead_varQuote (n : Nat) (l0 : Lexer) (h : l0.next.1 = MiddleDot) :
    Lexer.nextTokenHead (n + 1) l0 = l0.next.2.parseVarQuote n MiddleDot := by
  rw [nextTokenHead_succ]
  dsimp only
  rw [h, if_neg (by decide), if_neg (by decide), if_neg (by decide), if_neg (by decide),
    if_neg (by decide), if_pos rfl]

theorem significant_cons_ws (d : Char) (r : List Char) (h : isWhiteSpace d = true) :
    significant (d :: r) = significant r := by
  simp [significant, h]

theorem significant_cons (d : Char) (r : List Char) (h : isWhiteSpace d = false) :
    significant (d :: r) = d :: significant r := by
  simp [significant, h]

theorem idLoop_ws (fuel : Nat) (count : Int) (rg : TokenRange) (l : Lexer)
    (h : isWhiteSpace l.next.1 = true) :
    Lexer.parseIdentifierLoop (fuel + 1) count rg l
      = Lexer.parseIdentifierLoop fuel count rg l.next.2 := by
  rw [parseIdentifierLoop_succ]
  dsimp only
  rw [if_pos h]

theorem whitespace_facts (c : Char) (h : isWhiteSpace c = true) : c ≠ EOF ∧ c ≠ MiddleDot := by
  have hw : ∀ k ∈ WhiteSpaces, k ≠ EOF ∧ k ≠ MiddleDot := by decide
  exact hw c (mem_of_Contains c WhiteSpaces h)

theorem vqLoop_ws (rg : TokenRange) (fuel : Nat) (count : Int) (l : Lexer)
    (h : isWhiteSpace l.next.1 = true) :
    Lexer.parseVarQuoteLoop rg (fuel + 1) count l
      = Lexer.parseVarQuoteLoop rg fuel count l.next.2 := by
  obtain ⟨h1, h2⟩ := whitespace_facts _ h
  rw [parseVarQuoteLoop_succ]
  dsimp only
  rw [if_neg h1, if_neg h2, if_pos h]

theorem vqLoop_dot (rg : TokenRange) (fuel : Nat) (count : Int) (l : Lexer)
    (h : l.next.1 = MiddleDot) :
    Lexer.parseVarQuoteLoop rg (fuel + 1) count l
      = some (.ok (NewVarQuoteToken l.chBuffer (rg.setRangeEnd l.next.2)), l.next.2) := by
  rw [parseVarQuoteLoop_succ]
  dsimp only
  rw [h, if_neg (by decide), if_pos rfl, next_chBuffer]

theorem idAny_idRest (c : Char) (b : Bool) (h : isIdentifierChar c b = true) :
    isIdentifierChar c false = true := by
  cases b with
  | false => exact h
  | true => exact idFirst_idRest c h

theorem vqLoop_char (rg : TokenRange) (fuel : Nat) (count : Int) (l : Lexer)
    (h : isIdentifierChar l.next.1 (decide (count = 0)) = true) (hc : count + 1 ≤ 32) :
    Lexer.parseVarQuoteLoop rg (fuel + 1) count l
      = Lexer.parseVarQuoteLoop rg fuel (count + 1) (l.next.2.pushBuffer [l.next.1]) := by
  obtain ⟨h1, h2, hw, _⟩ := idRest_facts _ (idAny_idRest _ _ h)
  have hcn : ¬ count + 1 > maxIdentifierLength := by unfold maxIdentifierLength; omega
  rw [parseVarQuoteLoop_succ]
  dsimp only
  rw [if_neg h1, if_neg h2, if_neg (by rw [hw]; decide), if_pos h, if_neg hcn]

theorem vqLoop_over (rg : TokenRange) (fuel : Nat) (count : Int) (l : Lexer)
    (h : isIdentifierChar l.next.1 (decide (count = 0)) = true) (hc : 32 < count + 1) :
    Lexer.parseVarQuoteLoop rg (fuel + 1) count l
      = some (.error (IdentifierExceedLength 32), l.next.2.pushBuffer [l.next.1]) := by
  obtain ⟨h1, h2, hw, _⟩ := idRest_facts _ (idAny_idRest _ _ h)
  have hcn : count + 1 > maxIdentifierLength := by unfold maxIdentifierLength; omega
  rw [parseVarQuoteLoop_succ]
  dsimp only
  rw [if_neg h1, if_neg h2, if_neg (by rw [hw]; decide), if_pos h, if_pos hcn]
  rfl

/-- The loop of `parseVarQuote` over the text between the marks. -/
theorem vqLoop_run : ∀ (s tail : List Char) (fuel : Nat) (count : Int) (rg : TokenRange)
    (l : Lexer), l.buffered → -1 ≤ l.cursor →
    l.source.drop (l.cursor + 1).toNat = s ++ MiddleDot :: tail →
    (∀ d ∈ s, isWhiteSpace d = true ∨ isIdentifierChar d false = true) →
    (count = 0 → ∀ c, (significant s).head? = some c → isIdentifierChar c true = true) →
    s.length + 1 ≤ fuel → 0 ≤ count → count ≤ 32 →
    (count + (significant s).length ≤ 32 → ∃ rg1 l1,
      Lexer.parseVarQuoteLoop rg fuel count l
        = some (.ok (NewVarQuoteToken (l.chBuffer ++ significant s) rg1), l1)) ∧
    (32 < count + (significant s).length → ∃ l1,
      Lexer.parseVarQuoteLoop rg fuel count l
        = some (.error (IdentifierExceedLength 32), l1)) := by
  intro s
  induction s with
  | nil =>
    intro tail fuel count rg l hJ hc hdrop _ _ hfuel _ hcount
    obtain ⟨n, rfl⟩ : ∃ n, fuel = n + 1 := ⟨fuel - 1, by simp at hfuel; omega⟩
    have hch : l.next.1 = MiddleDot := by
      rw [next_char_of_drop l hJ hc _ (by simpa using hdrop)]; rfl
    constructor
    · intro _
      refine ⟨rg.setRangeEnd l.next.2, l.next.2, ?_⟩
      rw [vqLoop_dot rg n count l hch]
      simp [significant]
    · intro h
      simp [significant] at h
      omega
  | cons d r ih =>
    intro tail fuel count rg l hJ hc hdrop hall hfirst hfuel hc0 hcount
    obtain ⟨n, rfl⟩ : ∃ n, fuel = n + 1 := ⟨fuel - 1, by simp at hfuel; omega⟩
    have hfuel1 : r.length + 1 ≤ n := by simp at hfuel; omega
    have hdrop0 : l.source.drop (l.cursor + 1).toNat = d :: (r ++ MiddleDot :: tail) := by
      simpa using hdrop
    have hch : l.next.1 = d := by
      rw [next_char_of_drop l hJ hc _ hdrop0]; rfl
    have hJ1 := (next_spec l hJ hc).2
    have hcur := next_cursor l
    have hdrop1 := next_drop l hc d (r ++ MiddleDot :: tail) hdrop0
    have hall1 : ∀ x ∈ r, isWhiteSpace x = true ∨ isIdentifierChar x false = true :=
      fun x hx => hall x (List.mem_cons_of_mem _ hx)
    cases hw : isWhiteSpace d with
    | true =>
      rw [vqLoop_ws rg n count l (by rw [hch]; exact hw), significant_cons_ws d r hw]
      have := ih tail n count rg l.next.2 hJ1 (by rw [hcur]; omega) hdrop1 hall1
        (by rw [significant_cons_ws d r hw] at hfirst; exact hfirst) hfuel1 hc0 hcount
      rw [next_chBuffer] at this
      exact this
    | false =>
      have hp : isIdentifierChar d (decide (count = 0)) = true := by
        by_cases h0 : count = 0
        · rw [decide_eq_true h0]
          exact hfirst h0 d (by rw [significant_cons d r hw]; rfl)
        · rw [decide_eq_false h0]
          rcases hall d (List.mem_cons_self _ _) with h | h
          · rw [hw] at h; cases h
          · exact h
      rw [significant_cons d r hw]
      simp only [List.length_cons, Nat.cast_add, Nat.cast_one]
      by_cases hlt : count + 1 ≤ 32
      · rw [vqLoop_char rg n count l (by rw [hch]; exact hp) hlt, hch]
        have hJ2 : (l.next.2.pushBuffer [d]).buffered := hJ1
        have := ih tail n (count + 1) rg (l.next.2.pushBuffer [d]) hJ2
          (by show -1 ≤ l.next.2.cursor; rw [hcur]; omega) hdrop1 hall1
          (by intro h; omega) hfuel1 (by omega) hlt
        have hbuf : (l.next.2.pushBuffer [d]).chBuffer = l.chBuffer ++ [d] := by
          show l.next.2.chBuffer ++ [d] = l.chBuffer ++ [d]
          rw [next_chBuffer]
        rw [hbuf, List.append_assoc, List.singleton_append] at this
        constructor
        · intro h; exact this.1 (by omega)
        · intro h; exact this.2 (by omega)
      · constructor
        · intro h; omega
        · intro _
          exact ⟨_, vqLoop_over rg n count l (by rw [hch]; exact hp) (by omega)⟩

theorem keyword_nonempty : ∀ e ∈ KeywordTypeMap, e.2 ≠ [] := by decide

/-- A keyword that starts in a text starts with the first rune of the text. -/
theorem startsKeyword_head (c : Char) (rest : List Char) (h : startsKeyword (c :: rest) = true) :
    c ∈ KeywordTypeMap.map (fun e => e.2.headD EOF) := by
  unfold startsKeyword at h
  rw [List.any_eq_true] at h
  obtain ⟨e, he, hp⟩ := h
  rw [List.mem_map]
  refine ⟨e, he, ?_⟩
  have hne := keyword_nonempty e he
  cases hk : e.2 with
  | nil => exact absurd hk hne
  | cons x xs =>
    rw [hk] at hp
    simp only [List.isPrefixOf, Bool.and_eq_true, beq_iff_eq] at hp
    rw [← hp.1]
    rfl

theorem terminator_facts (c : Char) (rest : List Char) (h : Contains c terminators = true) :
    isWhiteSpace c = false ∧ isNumber c = false ∧ startsKeyword (c :: rest) = false
      ∧ c ≠ GlyphZHU := by
  have hw : ∀ k ∈ terminators, isWhiteSpace k = false := by decide
  have hn : ∀ k ∈ terminators, isNumber k = false := by decide
  have hk : ∀ k ∈ terminators, k ∉ KeywordTypeMap.map (fun e => e.2.headD EOF) := by decide
  have hz : ∀ k ∈ terminators, k ≠ GlyphZHU := by decide
  have hm := mem_of_Contains c terminators h
  refine ⟨hw c hm, hn c hm, ?_, hz c hm⟩
  cases hs : startsKeyword (c :: rest) with
  | false => rfl
  | true => exact absurd (startsKeyword_head c rest hs) (hk c hm)

theorem rune_facts (b : Bool) (d : Char) (rest : List Char)
    (h : identifierRune b d rest = true) :
    isIdentifierChar d b = true ∧ startsKeyword (d :: rest) = false
      ∧ startsComment (d :: rest) = false := by
  simp only [identifierRune, Bool.and_eq_true, Bool.not_eq_true'] at h
  exact ⟨h.1.1, h.1.2, h.2⟩

theorem startsComment_zhu (rest : List Char) (h : startsComment (GlyphZHU :: rest) = false) :
    ((rest.dropWhile (fun d => isNumber d || isWhiteSpace d)).head? == some Colon) = false := by
  simpa [startsComment] using h

theorem idLoop_terminator (fuel : Nat) (count : Int) (rg : TokenRange) (l : Lexer)
    (hc : -1 ≤ l.cursor) (h : Contains l.next.1 terminators = true) :
    Lexer.parseIdentifierLoop (fuel + 1) count rg l
      = some (.ok (NewIdentifierToken l.chBuffer rg), l.next.2.rebase l.cursor) := by
  obtain ⟨hw, _, hk, hz⟩ := terminator_facts _
    (l.next.2.source.drop (l.next.2.cursor + 1).toNat) h
  rw [parseIdentifierLoop_succ]
  dsimp only
  rw [if_neg (by rw [hw]; decide),
    parseKeyword_none_of_text l.next.2 _ false _ (by rw [next_cursor]; omega) rfl hk]
  simp only [Option.isSome_none, Bool.false_eq_true, if_false, if_neg hz, h, if_true]
  rw [show (l.next.2.rebase l.cursor).chBuffer = l.chBuffer from next_chBuffer l]

/-- One round of the loop of `parseIdentifier` on a rune of the identifier:
the rune is pushed, or refused as the 33rd one, and the lexer is left behind
that rune. -/
theorem idLoop_rune (fuel : Nat) (count : Int) (rg : TokenRange) (l : Lexer)
    (hJ : l.buffered) (hc : -1 ≤ l.cursor) (d : Char) (rest : List Char)
    (hdrop : l.source.drop (l.cursor + 1).toNat = d :: rest)
    (h : identifierRune false d rest = true)
    (hfuel : (rest.takeWhile (fun d => isNumber d || isWhiteSpace d)).length + 1 ≤ fuel) :
    ∃ l3 : Lexer, l3.buffered ∧ l3.cursor = l.cursor + 1 ∧ l3.source = l.source
      ∧ l3.chBuffer = l.chBuffer ∧
      (count < 32 → Lexer.parseIdentifierLoop (fuel + 1) count rg l
        = Lexer.parseIdentifierLoop fuel (count + 1) (rg.setRangeEnd (l3.pushBuffer [d]))
            (l3.pushBuffer [d])) ∧
      (32 ≤ count → Lexer.parseIdentifierLoop (fuel + 1) count rg l
        = some (.error (IdentifierExceedLength 32), l3)) := by
  obtain ⟨hid, hk, hcm⟩ := rune_facts _ _ _ h
  obtain ⟨_, _, hw, ht⟩ := idRest_facts _ hid
  have hch : l.next.1 = d := by
    rw [next_char_of_drop l hJ hc _ hdrop]; rfl
  have hJ1 := (next_spec l hJ hc).2
  have hcur := next_cursor l
  have hdrop1 := next_drop l hc d rest hdrop
  have hr1 : l.next.2.reads l.source (-1) := ⟨hJ1, by rw [hcur]; omega, next_source l⟩
  have hkw := parseKeyword_none_of_text l.next.2 d false rest (by rw [hcur]; omega) hdrop1 hk
  have hcn : count < 32 → ¬ count ≥ maxIdentifierLength := by
    intro h1; unfold maxIdentifierLength; omega
  have hco : 32 ≤ count → count ≥ maxIdentifierLength := by
    intro h1; unfold maxIdentifierLength; omega
  by_cases hz : d = GlyphZHU
  · obtain ⟨note1, l2, hv⟩ := validateComment_none_of_text rest fuel [] l.next.2 hJ1
      (by rw [hcur]; omega) hdrop1 (startsComment_zhu rest (by rw [← hz]; exact hcm)) hfuel
    have hp := validateComment_pos _ _ _ _ _ hv
    obtain ⟨h1, _, h3⟩ := validateComment_keeps l.source (-1) (le_refl _) _ _ _ _ _ hr1 hv
    have h4 := reads_rebase h1 (l.cursor + 1) (-1) (by omega) (by omega)
    refine ⟨l2.rebase (l.cursor + 1), h4.1, rfl, h4.2.2, ?_, ?_, ?_⟩
    · show l2.chBuffer = l.chBuffer
      rw [h3, next_chBuffer]
    · intro hlt
      rw [parseIdentifierLoop_succ]
      dsimp only
      rw [hch, if_neg (by rw [hw]; decide), hkw]
      simp only [Option.isSome_none, Bool.false_eq_true, if_false, if_pos hz, hv, ht, hid,
        if_true, if_neg (hcn hlt)]
    · intro hge
      rw [parseIdentifierLoop_succ]
      dsimp only
      rw [hch, if_neg (by rw [hw]; decide), hkw]
      simp only [Option.isSome_none, Bool.false_eq_true, if_false, if_pos hz, hv, ht, hid,
        if_true, if_pos (hco hge)]
      rfl
  · refine ⟨l.next.2, hJ1, hcur, next_source l, next_chBuffer l, ?_, ?_⟩
    · intro hlt
      rw [parseIdentifierLoop_succ]
      dsimp only
      rw [hch, if_neg (by rw [hw]; decide), hkw]
      simp only [Option.isSome_none, Bool.false_eq_true, if_false, if_neg hz, ht, hid,
        if_true, if_neg (hcn hlt)]
    · intro hge
      rw [parseIdentifierLoop_succ]
      dsimp only
      rw [hch, if_neg (by rw [hw]; decide), hkw]
      simp only [Option.isSome_none, Bool.false_eq_true, if_false, if_neg hz, ht, hid,
        if_true, if_pos (hco hge)]
      rfl

theorem takeWhile_append_le (p : Char → Bool) (tail : List Char)
    (ht : p (tail.headD EOF) = false) :
    ∀ r : List Char, (List.takeWhile p (r ++ tail)).length ≤ r.length := by
  intro r
  induction r with
  | nil =>
    cases tail with
    | nil => simp
    | cons t ts =>
      have : p t = false := ht
      simp [List.takeWhile_cons, this]
  | cons x xs ih =>
    simp only [List.cons_append, List.takeWhile_cons, List.length_cons]
    split
    · simp only [List.length_cons]; omega
    · simp

theorem numws_terminator (tail : List Char)
    (hterm : Contains (tail.headD EOF) terminators = true) :
    (fun d => isNumber d || isWhiteSpace d) (tail.headD EOF) = false := by
  obtain ⟨hw, hn, _, _⟩ := terminator_facts _ [] hterm
  show (isNumber (tail.headD EOF) || isWhiteSpace (tail.headD EOF)) = false
  rw [hw, hn]; rfl

/-- The loop of `parseIdentifier` over the rest of a plain identifier that a
terminator follows. -/
theorem idLoop_run : ∀ (s tail : List Char) (fuel : Nat) (count : Int) (rg : TokenRange)
    (l : Lexer), l.buffered → -1 ≤ l.cursor →
    l.source.drop (l.cursor + 1).toNat = s ++ tail →
    identifierRest s tail = true →
    Contains (tail.headD EOF) terminators = true →
    s.length + 1 ≤ fuel → count ≤ 32 →
    (count + (significant s).length ≤ 32 → ∃ rg1 l1,
      Lexer.parseIdentifierLoop fuel count rg l
        = some (.ok (NewIdentifierToken (l.chBuffer ++ significant s) rg1), l1)) ∧
    (32 < count + (significant s).length → ∃ l1,
      Lexer.parseIdentifierLoop fuel count rg l
        = some (.error (IdentifierExceedLength 32), l1)) := by
  intro s
  induction s with
  | nil =>
    intro tail fuel count rg l hJ hc hdrop _ hterm hfuel hcount
    obtain ⟨n, rfl⟩ : ∃ n, fuel = n + 1 := ⟨fuel - 1, by simp at hfuel; omega⟩
    have hch : l.next.1 = tail.headD EOF := next_char_of_drop l hJ hc _ (by simpa using hdrop)
    constructor
    · intro _
      refine ⟨rg, l.next.2.rebase l.cursor, ?_⟩
      rw [idLoop_terminator n count rg l hc (by rw [hch]; exact hterm)]
      simp [significant]
    · intro h
      simp [significant] at h
      omega
  | cons d r ih =>
    intro tail fuel count rg l hJ hc hdrop hall hterm hfuel hcount
    obtain ⟨n, rfl⟩ : ∃ n, fuel = n + 1 := ⟨fuel - 1, by simp at hfuel; omega⟩
    have hfuel1 : r.length + 1 ≤ n := by simp at hfuel; omega
    have hdrop0 : l.source.drop (l.cursor + 1).toNat = d :: (r ++ tail) := by
      simpa using hdrop
    have hch : l.next.1 = d := by
      rw [next_char_of_drop l hJ hc _ hdrop0]; rfl
    have hJ1 := (next_spec l hJ hc).2
    have hcur := next_cursor l
    have hdrop1 := next_drop l hc d (r ++ tail) hdrop0
    simp only [identifierRest, Bool.and_eq_true, Bool.or_eq_true] at hall
    obtain ⟨hd, hall1⟩ := hall
    cases hw : isWhiteSpace d with
    | true =>
      rw [idLoop_ws n count rg l (by rw [hch]; exact hw), significant_cons_ws d r hw]
      have := ih tail n count rg l.next.2 hJ1 (by rw [hcur]; omega) hdrop1 hall1 hterm hfuel1
        hcount
      rw [next_chBuffer] at this
      exact this
    | false =>
      have hp : identifierRune false d (r ++ tail) = true := by
        rcases hd with h | h
        · rw [hw] at h; cases h
        · exact h
      have hlen := takeWhile_append_le (fun d => isNumber d || isWhiteSpace d) tail
        (numws_terminator tail hterm) r
      obtain ⟨l3, hJ3, hc3, hs3, hb3, hpush, hover⟩ := idLoop_rune n count rg l hJ hc d
        (r ++ tail) hdrop0 hp (by omega)
      rw [significant_cons d r hw]
      simp only [List.length_cons, Nat.cast_add, Nat.cast_one]
      by_cases hlt : count < 32
      · rw [hpush hlt]
        have hJ4 : (l3.pushBuffer [d]).buffered := hJ3
        have hdrop3 : (l3.pushBuffer [d]).source.drop ((l3.pushBuffer [d]).cursor + 1).toNat
            = r ++ tail := by
          show l3.source.drop (l3.cursor + 1).toNat = r ++ tail
          rw [hs3, hc3, ← hcur, ← next_source l]
          exact hdrop1
        have := ih tail n (count + 1) (rg.setRangeEnd (l3.pushBuffer [d]))
          (l3.pushBuffer [d]) hJ4 (by show -1 ≤ l3.cursor; rw [hc3]; omega)
          hdrop3 hall1 hterm hfuel1 (by omega)
        have hbuf : (l3.pushBuffer [d]).chBuffer = l.chBuffer ++ [d] := by
          show l3.chBuffer ++ [d] = l.chBuffer ++ [d]
          rw [hb3]
        rw [hbuf, List.append_assoc, List.singleton_append] at this
        constructor
        · intro h; exact this.1 (by omega)
        · intro h; exact this.2 (by omega)
      · constructor
        · intro h; omega
        · intro _
          exact ⟨_, hover (by omega)⟩

/-- The dispatch of `NextToken` on the first rune of an identifier: the glyph
of a comment and the glyphs that keywords start with are tried as such first,
and `parseIdentifier` takes over behind the rune. -/
theorem nextTokenHead_identifier (n : Nat) (l0 : Lexer) (hJ : l0.buffered)
    (hc : -1 ≤ l0.cursor) (c : Char) (rest : List Char)
    (hdrop : l0.source.drop (l0.cursor + 1).toNat = c :: rest)
    (h : identifierRune true c rest = true)
    (hfuel : (rest.takeWhile (fun d => isNumber d || isWhiteSpace d)).length + 1 ≤ n) :
    ∃ l1 : Lexer, Lexer.nextTokenHead (n + 1) l0 = l1.parseIdentifier n c ∧ l1.buffered
      ∧ l1.cursor = l0.cursor + 1 ∧ l1.source = l0.source := by
  obtain ⟨hid, hk, hcm⟩ := rune_facts _ _ _ h
  obtain ⟨h1, h2, h3, h5, h6, h7, h8, h9⟩ := idFirst_dispatch _ hid
  have hch : l0.next.1 = c := by
    rw [next_char_of_drop l0 hJ hc _ hdrop]; rfl
  have hJ1 := (next_spec l0 hJ hc).2
  have hcur := next_cursor l0
  have hdrop1 := next_drop l0 hc c rest hdrop
  have hr1 : l0.next.2.reads l0.source (-1) := ⟨hJ1, by rw [hcur]; omega, next_source l0⟩
  rw [nextTokenHead_succ]
  dsimp only
  rw [hch, if_neg h1, if_neg h2, if_neg h3]
  by_cases hz : c = GlyphZHU
  · obtain ⟨note1, l2, hv⟩ := validateComment_none_of_text rest n [] l0.next.2 hJ1
      (by rw [hcur]; omega) hdrop1 (startsComment_zhu rest (by rw [← hz]; exact hcm)) hfuel
    have hp := validateComment_pos _ _ _ _ _ hv
    obtain ⟨h4, _, _⟩ := validateComment_keeps l0.source (-1) (le_refl _) _ _ _ _ _ hr1 hv
    have h10 := reads_rebase h4 l0.next.2.cursor (-1) (by omega) (by omega)
    refine ⟨l2.rebase l0.next.2.cursor, ?_, h10.1, hcur, h10.2.2⟩
    rw [if_pos hz, hv]
    simp only [Bool.false_eq_true, if_false]
  · refine ⟨l0.next.2, ?_, hJ1, hcur, next_source l0⟩
    rw [if_neg hz, if_neg h5, if_neg h6, if_neg h7, if_neg h8, if_neg h9,
      parseKeyword_none_of_text l0.next.2 c true rest (by rw [hcur]; omega) hdrop1 hk]

/-! ## Quoted texts: the loop of parseString -/

theorem peek_eq_next (l : Lexer) (hJ : l.buffered) (hc : -1 ≤ l.cursor) (h : l.peek ≠ EOF) :
    l.next.1 = l.peek := by
  have hlt : l.cursor + 1 < (l.lineBuffer.length : Int) := by
    by_contra hge
    apply h
    unfold Lexer.peek Lexer.getChar
    rw [if_pos (by omega)]
  rw [(next_spec l hJ hc).1]
  unfold Lexer.peek
  rw [getChar_source l (l.cursor + 1) (by omega) (Or.inl hlt)]

/-- The effect of `parseCRLF`: no error; either the one newline rune is taken
and the reading state is as before, or the pair is taken with one more call of
`next`. -/
theorem parseCRLF_spec (l : Lexer) (ch : Char) (hJ : l.buffered) (hc : -1 ≤ l.cursor) :
    ∃ (nl : List Char) (l1 x : Lexer), l.parseCRLF ch = (.ok nl, l1) ∧
      l1.blocks = x.blocks ∧ l1.readEnd = x.readEnd ∧ l1.lineBuffer = x.lineBuffer ∧
      l1.cursor = x.cursor ∧ l1.chBuffer = x.chBuffer ∧ l1.quoteStack = x.quoteStack ∧
      ((nl = [ch] ∧ x = l) ∨
        (nl = [ch, l.next.1] ∧ x = l.next.2 ∧ (l.next.1 = CR ∨ l.next.1 = LF))) := by
  have hfin : ∀ (y : Lexer) (nl : List Char),
      ∃ l1, (if ¬ Contains (y.NewLine (y.cursor + 1)).peek [SP, TAB, EOF] then
          match (y.NewLine (y.cursor + 1)).SetIndent 0 IdetUnknown with
          | (some err, l3) => ((Except.error err : Except Error (List Char)), l3)
          | (none, l3) => (.ok nl, l3)
        else (.ok nl, y.NewLine (y.cursor + 1))) = (.ok nl, l1) ∧
        l1.blocks = y.blocks ∧ l1.readEnd = y.readEnd ∧ l1.lineBuffer = y.lineBuffer ∧
        l1.cursor = y.cursor ∧ l1.chBuffer = y.chBuffer ∧ l1.quoteStack = y.quoteStack := by
    intro y nl
    by_cases hp : ¬ Contains (y.NewLine (y.cursor + 1)).peek [SP, TAB, EOF]
    · rw [if_pos hp, SetIndent_zero]
      exact ⟨_, rfl, rfl, rfl, rfl, rfl, rfl, rfl⟩
    · rw [if_neg hp]
      exact ⟨_, rfl, rfl, rfl, rfl, rfl, rfl, rfl⟩
  unfold Lexer.parseCRLF
  dsimp only
  by_cases hpair : (ch = CR ∧ l.peek = LF) ∨ (ch = LF ∧ l.peek = CR)
  · have hpe : l.peek ≠ EOF := by
      rcases hpair with ⟨_, h⟩ | ⟨_, h⟩ <;> (rw [h]; decide)
    have hnx := peek_eq_next l hJ hc hpe
    rw [if_pos hpair]
    obtain ⟨l1, h1, e1, e2, e3, e4, e5, e6⟩ :=
      hfin (l.next.2.PushLine (l.next.2.cursor - 1)) [ch, l.peek]
    refine ⟨[ch, l.peek], l1, l.next.2, h1, e1, e2, e3, e4, e5, e6, Or.inr ⟨?_, rfl, ?_⟩⟩
    · rw [hnx]
    · rw [hnx]
      rcases hpair with ⟨_, h⟩ | ⟨_, h⟩
      · right; exact h
      · left; exact h
  · rw [if_neg hpair]
    obtain ⟨l1, h1, e1, e2, e3, e4, e5, e6⟩ := hfin (l.PushLine l.cursor) [ch]
    exact ⟨[ch], l1, l, h1, e1, e2, e3, e4, e5, e6, Or.inl ⟨rfl, rfl⟩⟩

theorem leftQuote_facts (c : Char) (h : Contains c LeftQuotes = true) : c ≠ EOF := by
  have hw : ∀ k ∈ LeftQuotes, k ≠ EOF := by decide
  exact hw c (mem_of_Contains c LeftQuotes h)

theorem rightQuote_facts (c : Char) (h : Contains c RightQuotes = true) :
    c ≠ EOF ∧ Contains c LeftQuotes = false := by
  have hw : ∀ k ∈ RightQuotes, k ≠ EOF ∧ Contains k LeftQuotes = false := by decide
  exact hw c (mem_of_Contains c RightQuotes h)

theorem newline_facts (c : Char) (h : c = CR ∨ c = LF) :
    c ≠ EOF ∧ Contains c LeftQuotes = false ∧ Contains c RightQuotes = false := by
  rcases h with h | h <;> (subst h; decide)

theorem quoteScan_cons (stack : List Char) (c : Char) (rest : List Char) :
    quoteScan stack (c :: rest) = (
    if Contains c LeftQuotes then
      if stack.length = 32 then .full else (quoteScan (c :: stack) rest).cons c
    else if Contains c RightQuotes then
      if QuoteMatchMap (stack.headD (Char.ofNat 0)) = c then
        if stack.tail.length = 0 then .closed [] else (quoteScan stack.tail rest).cons c
      else
        if stack.length = 0 then .closed [] else (quoteScan stack rest).cons c
    else (quoteScan stack rest).cons c) := rfl

theorem quoteScan_plain (stack : List Char) (c : Char) (rest : List Char)
    (h2 : Contains c LeftQuotes = false) (h3 : Contains c RightQuotes = false) :
    quoteScan stack (c :: rest) = (quoteScan stack rest).cons c := by
  rw [quoteScan_cons, h2, h3]
  rfl

theorem cons_closed (c : Char) (o : QuoteOutcome) (body : List Char)
    (h : o.cons c = .closed body) : ∃ b, o = .closed b ∧ body = c :: b := by
  cases o with
  | closed b =>
    simp only [QuoteOutcome.cons, QuoteOutcome.closed.injEq] at h
    exact ⟨b, rfl, h.symm⟩
  | full => cases h
  | unclosed => cases h

theorem cons_full (c : Char) (o : QuoteOutcome) (h : o.cons c = .full) : o = .full := by
  cases o with
  | closed b => cases h
  | full => rfl
  | unclosed => cases h

theorem strLoop_left (firstChar : Char) (rg : TokenRange) (fuel : Nat) (l : Lexer)
    (h : Contains l.next.1 LeftQuotes = true) (hlen : l.quoteStack.length ≠ 32) :
    Lexer.parseStringLoop firstChar rg (fuel + 1) l
      = Lexer.parseStringLoop firstChar rg fuel
          (l.next.2.withQuotes (l.chBuffer ++ [l.next.1]) (l.next.1 :: l.quoteStack)) := by
  have hlen2 : ¬ (l.next.2.pushBuffer [l.next.1]).quoteStack.length = 32 := by
    show ¬ l.next.2.quoteStack.length = 32
    rw [next_quoteStack]; exact hlen
  rw [parseStringLoop_succ]
  dsimp only
  rw [if_neg (leftQuote_facts _ h), if_pos h]
  unfold Lexer.quotePush
  rw [if_neg hlen2]
  simp only [Bool.true_eq_false, if_false]
  have : ({ l.next.2.pushBuffer [l.next.1] with
      quoteStack := l.next.1 :: (l.next.2.pushBuffer [l.next.1]).quoteStack } : Lexer)
      = l.next.2.withQuotes (l.chBuffer ++ [l.next.1]) (l.next.1 :: l.quoteStack) := by
    show l.next.2.withQuotes (l.next.2.chBuffer ++ [l.next.1]) (l.next.1 :: l.next.2.quoteStack)
      = _
    rw [next_chBuffer, next_quoteStack]
  rw [this]

theorem strLoop_full (firstChar : Char) (rg : TokenRange) (fuel : Nat) (l : Lexer)
    (h : Contains l.next.1 LeftQuotes = true) (hlen : l.quoteStack.length = 32) :
    ∃ l1, Lexer.parseStringLoop firstChar rg (fuel + 1) l
      = some (.error (QuoteStackFull 32), l1) := by
  have hlen2 : (l.next.2.pushBuffer [l.next.1]).quoteStack.length = 32 := by
    show l.next.2.quoteStack.length = 32
    rw [next_quoteStack]; exact hlen
  rw [parseStringLoop_succ]
  dsimp only
  rw [if_neg (leftQuote_facts _ h), if_pos h]
  unfold Lexer.quotePush
  rw [if_pos hlen2]
  simp only [if_true]
  exact ⟨_, rfl⟩

theorem strLoop_right (firstChar : Char) (rg : TokenRange) (fuel : Nat) (l : Lexer)
    (h : Contains l.next.1 RightQuotes = true) (st : List Char)
    (hst : st = if QuoteMatchMap (l.quoteStack.headD (Char.ofNat 0)) = l.next.1
      then l.quoteStack.tail else l.quoteStack) :
    (st.length = 0 → ∃ rg1 l1, Lexer.parseStringLoop firstChar rg (fuel + 1) l
      = some (.ok (NewStringToken l.chBuffer firstChar rg1), l1)) ∧
    (st.length ≠ 0 → Lexer.parseStringLoop firstChar rg (fuel + 1) l
      = Lexer.parseStringLoop firstChar rg fuel
          (l.next.2.withQuotes (l.chBuffer ++ [l.next.1]) st)) := by
  obtain ⟨h1, h2⟩ := rightQuote_facts _ h
  have hq : l.next.2.quoteCurrent = l.quoteStack.headD (Char.ofNat 0) := by
    unfold Lexer.quoteCurrent; rw [next_quoteStack]
  by_cases hm : QuoteMatchMap (l.quoteStack.headD (Char.ofNat 0)) = l.next.1
  · rw [if_pos hm] at hst
    have hqs : l.next.2.quotePop.quoteStack = st := by
      show l.next.2.quoteStack.tail = st
      rw [next_quoteStack, hst]
    constructor
    · intro h0
      refine ⟨rg.setRangeEnd l.next.2.quotePop, l.next.2.quotePop, ?_⟩
      rw [parseStringLoop_succ]
      dsimp only
      rw [if_neg h1, h2, hq, if_pos hm]
      simp only [Bool.false_eq_true, if_false, h, if_true]
      rw [if_pos (by rw [hqs]; exact h0)]
      rw [show l.next.2.quotePop.chBuffer = l.chBuffer from next_chBuffer l]
    · intro h0
      rw [parseStringLoop_succ]
      dsimp only
      rw [if_neg h1, h2, hq, if_pos hm]
      simp only [Bool.false_eq_true, if_false, h, if_true]
      rw [if_neg (by rw [hqs]; exact h0)]
      have : l.next.2.quotePop.pushBuffer [l.next.1]
          = l.next.2.withQuotes (l.chBuffer ++ [l.next.1]) st := by
        show l.next.2.withQuotes (l.next.2.chBuffer ++ [l.next.1]) l.next.2.quoteStack.tail = _
        rw [next_quoteStack, next_chBuffer, hst]
      rw [this]
  · rw [if_neg hm] at hst
    have hqs : l.next.2.quoteStack = st := by rw [next_quoteStack, hst]
    constructor
    · intro h0
      refine ⟨rg.setRangeEnd l.next.2, l.next.2, ?_⟩
      rw [parseStringLoop_succ]
      dsimp only
      rw [if_neg h1, h2, hq, if_neg hm]
      simp only [Bool.false_eq_true, if_false, h, if_true]
      rw [if_pos (by rw [hqs]; exact h0), next_chBuffer]
    · intro h0
      rw [parseStringLoop_succ]
      dsimp only
      rw [if_neg h1, h2, hq, if_neg hm]
      simp only [Bool.false_eq_true, if_false, h, if_true]
      rw [if_neg (by rw [hqs]; exact h0)]
      have : l.next.2.pushBuffer [l.next.1]
          = l.next.2.withQuotes (l.chBuffer ++ [l.next.1]) st := by
        show l.next.2.withQuotes (l.next.2.chBuffer ++ [l.next.1]) l.next.2.quoteStack = _
        rw [hqs, next_chBuffer]
      rw [this]

theorem strLoop_plain (firstChar : Char) (rg : TokenRange) (fuel : Nat) (l : Lexer)
    (h1 : l.next.1 ≠ EOF) (h2 : Contains l.next.1 LeftQuotes = false)
    (h3 : Contains l.next.1 RightQuotes = false) (h4 : ¬ (l.next.1 = CR ∨ l.next.1 = LF)) :
    Lexer.parseStringLoop firstChar rg (fuel + 1) l
      = Lexer.parseStringLoop firstChar rg fuel
          (l.next.2.withQuotes (l.chBuffer ++ [l.next.1]) l.quoteStack) := by
  rw [parseStringLoop_succ]
  dsimp only
  rw [if_neg h1, h2, h3]
  simp only [Bool.false_eq_true, if_false, if_neg h4]
  have : l.next.2.pushBuffer [l.next.1]
      = l.next.2.withQuotes (l.chBuffer ++ [l.next.1]) l.quoteStack := by
    show l.next.2.withQuotes (l.next.2.chBuffer ++ [l.next.1]) l.next.2.quoteStack = _
    rw [next_quoteStack, next_chBuffer]
  rw [this]

theorem strLoop_newline (firstChar : Char) (rg : TokenRange) (fuel : Nat) (l : Lexer)
    (hJ : l.buffered) (hc : -1 ≤ l.cursor) (h : l.next.1 = CR ∨ l.next.1 = LF) :
    ∃ (nl : List Char) (l4 x : Lexer),
      Lexer.parseStringLoop firstChar rg (fuel + 1) l
        = Lexer.parseStringLoop firstChar rg fuel l4 ∧
      l4.blocks = x.blocks ∧ l4.readEnd = x.readEnd ∧ l4.lineBuffer = x.lineBuffer ∧
      l4.cursor = x.cursor ∧ l4.chBuffer = l.chBuffer ++ nl ∧ l4.quoteStack = l.quoteStack ∧
      ((nl = [l.next.1] ∧ x = l.next.2) ∨
        (nl = [l.next.1, l.next.2.next.1] ∧ x = l.next.2.next.2
          ∧ (l.next.2.next.1 = CR ∨ l.next.2.next.1 = LF))) := by
  obtain ⟨h1, h2, h3⟩ := newline_facts _ h
  obtain ⟨nl, l1, x, hp, e1, e2, e3, e4, e5, e6, hcase⟩ :=
    parseCRLF_spec l.next.2 l.next.1 (next_spec l hJ hc).2 (by rw [next_cursor]; omega)
  have hx : x.chBuffer = l.chBuffer ∧ x.quoteStack = l.quoteStack := by
    rcases hcase with ⟨_, hx⟩ | ⟨_, hx, _⟩
    · rw [hx]; exact ⟨next_chBuffer l, next_quoteStack l⟩
    · rw [hx, next_chBuffer, next_quoteStack]; exact ⟨next_chBuffer l, next_quoteStack l⟩
  refine ⟨nl, (l1.pushBuffer nl).setScanCursor 0, x, ?_, e1, e2, e3, e4, ?_, ?_, hcase⟩
  · rw [parseStringLoop_succ]
    dsimp only
    rw [if_neg h1, h2, h3]
    simp only [Bool.false_eq_true, if_false, if_pos h, hp, SetIndent_zero]
  · show l1.chBuffer ++ nl = l.chBuffer ++ nl
    rw [e5, hx.1]
  · show l1.quoteStack = l.quoteStack
    rw [e6, hx.2]

/-- The loop of `parseString` follows the nesting of quotes over the runes
behind the cursor. -/
theorem strLoop_run : ∀ (n : Nat) (rest : List Char), rest.length ≤ n →
    ∀ (fuel : Nat) (firstChar : Char) (rg : TokenRange) (l : Lexer),
    l.buffered → -1 ≤ l.cursor → l.source.drop (l.cursor + 1).toNat = rest →
    (∀ c ∈ rest, c ≠ EOF) → rest.length + 1 ≤ fuel →
    (∀ body, quoteScan l.quoteStack rest = .closed body → ∃ rg1 l1,
      Lexer.parseStringLoop firstChar rg fuel l
        = some (.ok (NewStringToken (l.chBuffer ++ body) firstChar rg1), l1)) ∧
    (quoteScan l.quoteStack rest = .full → ∃ l1,
      Lexer.parseStringLoop firstChar rg fuel l = some (.error (QuoteStackFull 32), l1)) := by
  intro n
  induction n with
  | zero =>
    intro rest hlen fuel firstChar rg l _ _ _ _ _
    have : rest = [] := List.length_eq_zero.mp (by omega)
    subst this
    constructor
    · intro body h; cases h
    · intro h; cases h
  | succ n ih =>
    intro rest hlen fuel firstChar rg l hJ hc hdrop hzr hfuel
    cases rest with
    | nil =>
      constructor
      · intro body h; cases h
      · intro h; cases h
    | cons c r =>
      obtain ⟨m, rfl⟩ : ∃ m, fuel = m + 1 := ⟨fuel - 1, by simp at hfuel; omega⟩
      have hrlen : r.length ≤ n := by simp at hlen; omega
      have hfuel1 : r.length + 1 ≤ m := by simp at hfuel; omega
      have hch : l.next.1 = c := by
        rw [next_char_of_drop l hJ hc _ hdrop]; rfl
      have hJ1 := (next_spec l hJ hc).2
      have hcur := next_cursor l
      have hdrop1 := next_drop l hc c r hdrop
      have hE : c ≠ EOF := hzr c (List.mem_cons_self _ _)
      have hzr1 : ∀ x ∈ r, x ≠ EOF := fun x hx => hzr x (List.mem_cons_of_mem _ hx)
      have stepK : ∀ st : List Char,
          (∀ body, quoteScan st r = .closed body → ∃ rg1 l1,
            Lexer.parseStringLoop firstChar rg m (l.next.2.withQuotes (l.chBuffer ++ [c]) st)
              = some (.ok (NewStringToken (l.chBuffer ++ [c] ++ body) firstChar rg1), l1)) ∧
          (quoteScan st r = .full → ∃ l1,
            Lexer.parseStringLoop firstChar rg m (l.next.2.withQuotes (l.chBuffer ++ [c]) st)
              = some (.error (QuoteStackFull 32), l1)) := by
        intro st
        exact ih r hrlen m firstChar rg (l.next.2.withQuotes (l.chBuffer ++ [c]) st)
          (buffered_of_eq l.next.2 _ rfl rfl rfl rfl hJ1)
          (by show -1 ≤ l.next.2.cursor; rw [hcur]; omega)
          (by
            rw [source_of_eq l.next.2 (l.next.2.withQuotes (l.chBuffer ++ [c]) st) rfl rfl]
            exact hdrop1) hzr1 hfuel1
      rw [quoteScan_cons]
      cases hL : Contains c LeftQuotes with
      | true =>
        simp only [if_true]
        by_cases hfull : l.quoteStack.length = 32
        · rw [if_pos hfull]
          constructor
          · intro body h; cases h
          · intro _
            exact strLoop_full firstChar rg m l (by rw [hch]; exact hL) hfull
        · rw [if_neg hfull, strLoop_left firstChar rg m l (by rw [hch]; exact hL) hfull, hch]
          have hrec := stepK (c :: l.quoteStack)
          constructor
          · intro body h
            obtain ⟨b, hb, hbody⟩ := cons_closed c _ body h
            obtain ⟨rg1, l1, h1⟩ := hrec.1 b hb
            refine ⟨rg1, l1, ?_⟩
            rw [h1, hbody, List.append_assoc, List.singleton_append]
          · intro h
            exact hrec.2 (cons_full c _ h)
      | false =>
        simp only [Bool.false_eq_true, if_false]
        cases hR : Contains c RightQuotes with
        | true =>
          simp only [if_true]
          obtain ⟨hclose, hcont⟩ := strLoop_right firstChar rg m l (by rw [hch]; exact hR)
            (if QuoteMatchMap (l.quoteStack.headD (Char.ofNat 0)) = c
              then l.quoteStack.tail else l.quoteStack) (by rw [hch])
          have hgen : ∀ st : List Char,
              st = (if QuoteMatchMap (l.quoteStack.headD (Char.ofNat 0)) = c
                then l.quoteStack.tail else l.quoteStack) →
              (∀ body, (if st.length = 0 then QuoteOutcome.closed []
                  else (quoteScan st r).cons c) = .closed body → ∃ rg1 l1,
                Lexer.parseStringLoop firstChar rg (m + 1) l
                  = some (.ok (NewStringToken (l.chBuffer ++ body) firstChar rg1), l1)) ∧
              ((if st.length = 0 then QuoteOutcome.closed []
                  else (quoteScan st r).cons c) = .full → ∃ l1,
                Lexer.parseStringLoop firstChar rg (m + 1) l
                  = some (.error (QuoteStackFull 32), l1)) := by
            intro st hst
            rw [← hst] at hclose hcont
            by_cases h0 : st.length = 0
            · rw [if_pos h0]
              constructor
              · intro body h
                simp only [QuoteOutcome.closed.injEq] at h
                obtain ⟨rg1, l1, h1⟩ := hclose h0
                refine ⟨rg1, l1, ?_⟩
                rw [h1, ← h, List.append_nil]
              · intro h; cases h
            · rw [if_neg h0, hcont h0, hch]
              have hrec := stepK st
              constructor
              · intro body h
                obtain ⟨b, hb, hbody⟩ := cons_closed c _ body h
                obtain ⟨rg1, l1, h1⟩ := hrec.1 b hb
                refine ⟨rg1, l1, ?_⟩
                rw [h1, hbody, List.append_assoc, List.singleton_append]
              · intro h
                exact hrec.2 (cons_full c _ h)
          by_cases hm : QuoteMatchMap (l.quoteStack.headD (Char.ofNat 0)) = c
          · have := hgen l.quoteStack.tail (by rw [if_pos hm])
            rw [if_pos hm]
            exact this
          · have := hgen l.quoteStack (by rw [if_neg hm])
            rw [if_neg hm]
            exact this
        | false =>
          simp only [Bool.false_eq_true, if_false]
          by_cases hN : c = CR ∨ c = LF
          · obtain ⟨nl, l4, x, hstep, e1, e2, e3, e4, e5, e6, hcase⟩ :=
              strLoop_newline firstChar rg m l hJ hc (by rw [hch]; exact hN)
            rw [hstep]
            rcases hcase with ⟨hnl, hx⟩ | ⟨hnl, hx, hd⟩
            · -- the newline rune alone
              subst hx
              have hrec := ih r hrlen m firstChar rg l4
                (buffered_of_eq l.next.2 l4 e1 e2 e3 e4 hJ1)
                (by rw [e4, hcur]; omega)
                (by rw [source_of_eq l.next.2 l4 e1 e3, e4]; exact hdrop1) hzr1 hfuel1
              rw [e5, e6, hnl, hch] at hrec
              constructor
              · intro body h
                obtain ⟨b, hb, hbody⟩ := cons_closed c _ body h
                obtain ⟨rg1, l1, h1⟩ := hrec.1 b hb
                refine ⟨rg1, l1, ?_⟩
                rw [h1, hbody, List.append_assoc, List.singleton_append]
              · intro h
                exact hrec.2 (cons_full c _ h)
            · -- the pair of newline runes
              subst hx
              have hJ2 := (next_spec l.next.2 hJ1 (by rw [hcur]; omega)).2
              have hd2 : l.next.2.next.1 = r.headD EOF :=
                next_char_of_drop l.next.2 hJ1 (by rw [hcur]; omega) _ hdrop1
              cases r with
              | nil =>
                exfalso
                rw [hd2] at hd
                rcases hd with h | h <;> revert h <;> decide
              | cons d r2 =>
                have hdd : l.next.2.next.1 = d := by rw [hd2]; rfl
                rw [hdd] at hd hnl
                obtain ⟨hd1, hd2', hd3⟩ := newline_facts d hd
                have hdrop2 := next_drop l.next.2 (by rw [hcur]; omega) d r2 hdrop1
                have hcur2 := next_cursor l.next.2
                have hrec := ih r2 (by simp at hrlen; omega) m firstChar rg l4
                  (buffered_of_eq l.next.2.next.2 l4 e1 e2 e3 e4 hJ2)
                  (by rw [e4, hcur2, hcur]; omega)
                  (by rw [source_of_eq l.next.2.next.2 l4 e1 e3, e4]; exact hdrop2)
                  (fun x hx => hzr1 x (List.mem_cons_of_mem _ hx))
                  (by simp at hfuel1; omega)
                rw [e5, e6, hnl, hch] at hrec
                rw [quoteScan_plain l.quoteStack d r2 hd2' hd3]
                constructor
                · intro body h
                  obtain ⟨b, hb, hbody⟩ := cons_closed c _ body h
                  obtain ⟨b2, hb2, hbody2⟩ := cons_closed d _ b hb
                  obtain ⟨rg1, l1, h1⟩ := hrec.1 b2 hb2
                  refine ⟨rg1, l1, ?_⟩
                  rw [h1, hbody, hbody2, List.append_assoc]
                  rfl
                · intro h
                  exact hrec.2 (cons_full d _ (cons_full c _ h))
          · rw [strLoop_plain firstChar rg m l (by rw [hch]; exact hE) (by rw [hch]; exact hL)
              (by rw [hch]; exact hR) (by rw [hch]; exact hN), hch]
            have hrec := stepK l.quoteStack
            constructor
            · intro body h
              obtain ⟨b, hb, hbody⟩ := cons_closed c _ body h
              obtain ⟨rg1, l1, h1⟩ := hrec.1 b hb
              refine ⟨rg1, l1, ?_⟩
              rw [h1, hbody, List.append_assoc, List.singleton_append]
            · intro h
              exact hrec.2 (cons_full c _ h)

theorem nextTokenHead_string (n : Nat) (l0 : Lexer) (h : Contains l0.next.1 LeftQuotes = true) :
    Lexer.nextTokenHead (n + 1) l0 = l0.next.2.parseString n l0.next.1 := by
  have hw : ∀ k ∈ LeftQuotes, k ≠ EOF ∧ ¬ (k = SP ∨ k = TAB) ∧ ¬ (k = CR ∨ k = LF)
      ∧ k ≠ GlyphZHU := by decide
  obtain ⟨h1, h2, h3, h4⟩ := hw _ (mem_of_Contains _ LeftQuotes h)
  rw [nextTokenHead_succ]
  dsimp only
  rw [if_neg h1, if_neg h2, if_neg h3, if_neg h4, if_pos h]

theorem NewStringToken_Literal (buf : List Char) (L : Char) (rg : TokenRange)
    (hL : Contains L LeftQuotes = true) :
    (NewStringToken buf L rg).Literal = L :: buf ++ [QuoteMatchMap L]
      ∧ (NewStringToken buf L rg).TokenType = TypeString := by
  have hm := mem_of_Contains L LeftQuotes hL
  simp only [LeftQuotes, List.mem_cons, List.mem_singleton, List.not_mem_nil, or_false] at hm
  rcases hm with e | e | e | e | e <;> (subst e; exact ⟨rfl, rfl⟩)

theorem getLast?_cons_ne (x : Char) (xs : List Char) (h : xs ≠ []) :
    (x :: xs).getLast? = xs.getLast? := by
  cases xs with
  | nil => exact absurd rfl h
  | cons y ys => simp [List.getLast?]

theorem quoteScan_closing : ∀ (rest stack body : List Char) (L : Char),
    stack.getLast? = some L → quoteScan stack rest = .closed body →
    ∃ tail, rest = body ++ QuoteMatchMap L :: tail := by
  intro rest
  induction rest with
  | nil => intro stack body L _ h; cases h
  | cons c r ih =>
    intro stack body L hlast h
    have hne : stack ≠ [] := by
      intro e; rw [e] at hlast; cases hlast
    rw [quoteScan_cons] at h
    have hrec : ∀ st : List Char, st.getLast? = some L →
        (quoteScan st r).cons c = .closed body → ∃ tail, c :: r = body ++ QuoteMatchMap L :: tail := by
      intro st hst hh
      obtain ⟨b, hb, hbody⟩ := cons_closed c _ body hh
      obtain ⟨tail, ht⟩ := ih st b L hst hb
      exact ⟨tail, by rw [hbody, ht]; rfl⟩
    cases hLq : Contains c LeftQuotes with
    | true =>
      rw [hLq] at h
      simp only [if_true] at h
      by_cases hfull : stack.length = 32
      · rw [if_pos hfull] at h; cases h
      · rw [if_neg hfull] at h
        exact hrec (c :: stack) (by rw [getLast?_cons_ne c stack hne]; exact hlast) h
    | false =>
      rw [hLq] at h
      simp only [Bool.false_eq_true, if_false] at h
      cases hR : Contains c RightQuotes with
      | true =>
        rw [hR] at h
        simp only [if_true] at h
        cases stack with
        | nil => exact absurd rfl hne
        | cons x xs =>
          simp only [List.headD_cons, List.tail_cons, List.length_cons] at h
          by_cases hm : QuoteMatchMap x = c
          · rw [if_pos hm] at h
            by_cases h0 : xs.length = 0
            · rw [if_pos h0] at h
              simp only [QuoteOutcome.closed.injEq] at h
              have hxs : xs = [] := List.length_eq_zero.mp h0
              rw [hxs] at hlast
              simp only [List.getLast?_singleton, Option.some.injEq] at hlast
              exact ⟨r, by rw [← h, ← hlast, hm]; rfl⟩
            · rw [if_neg h0] at h
              have hxne : xs ≠ [] := fun e => h0 (by rw [e]; rfl)
              exact hrec xs (by rw [getLast?_cons_ne x xs hxne] at hlast; exact hlast) h
          · rw [if_neg hm, if_neg (by omega)] at h
            exact hrec (x :: xs) hlast h
      | false =>
        rw [hR] at h
        simp only [Bool.false_eq_true, if_false] at h
        exact hrec stack hlast h

theorem quoteScan_lefts (L : Char) (hL : Contains L LeftQuotes = true) (tail : List Char) :
    ∀ (k : Nat) (stack : List Char), stack.length + k = 32 →
      quoteScan stack (List.replicate (k + 1) L ++ tail) = .full := by
  intro k
  induction k with
  | zero =>
    intro stack h
    show quoteScan stack (L :: ([] ++ tail)) = .full
    rw [quoteScan_cons, hL]
    simp only [if_true]
    rw [if_pos (by omega)]
  | succ k ih =>
    intro stack h
    show quoteScan stack (L :: (List.replicate (k + 1) L ++ tail)) = .full
    rw [quoteScan_cons, hL]
    simp only [if_true]
    rw [if_neg (by omega), ih (L :: stack) (by simp only [List.length_cons]; omega)]
    rfl

set_option maxRecDepth 16384 in
theorem quoteScan_depth32 : ∀ k ∈ LeftQuotes,
    quoteScan [k] (List.replicate 31 k ++ List.replicate 32 (QuoteMatchMap k))
      = .closed (List.replicate 31 k ++ List.replicate 31 (QuoteMatchMap k)) := by
  decide

/-! ## Whitespace in front of a token -/

theorem next_scanState (l : Lexer) : l.next.2.scanState = l.scanState := by
  unfold Lexer.next Lexer.Read
  dsimp only
  split_ifs <;> (try split) <;> rfl

theorem whitespace_dispatch (c : Char) (h : isWhiteSpace c = true) :
    c ≠ EOF ∧ ¬ (c = CR ∨ c = LF) ∧ c ≠ GlyphZHU ∧ ¬ (Contains c LeftQuotes = true)
      ∧ c ≠ MiddleDot := by
  have hw : ∀ k ∈ WhiteSpaces, k ≠ EOF ∧ ¬ (k = CR ∨ k = LF) ∧ k ≠ GlyphZHU
      ∧ ¬ (Contains k LeftQuotes = true) ∧ k ≠ MiddleDot := by decide
  exact hw c (mem_of_Contains c WhiteSpaces h)

/-- The loop of `consumeWhiteSpace` in front of a text that does not start
with whitespace: it takes some of the whitespace, as far as `peek` shows it. -/
theorem consumeWhiteSpace_run : ∀ (ws : List Char) (fuel : Nat) (l : Lexer) (rest : List Char),
    l.buffered → -1 ≤ l.cursor → (∀ c ∈ ws, isWhiteSpace c = true) →
    isWhiteSpace (rest.headD EOF) = false →
    l.source.drop (l.cursor + 1).toNat = ws ++ rest → ws.length + 1 ≤ fuel →
    ∃ (pre post : List Char) (l1 : Lexer), ws = pre ++ post ∧
      Lexer.consumeWhiteSpace fuel l = some l1 ∧ l1.buffered ∧ -1 ≤ l1.cursor ∧
      l1.source = l.source ∧ l1.source.drop (l1.cursor + 1).toNat = post ++ rest ∧
      l1.scanState = l.scanState ∧ l1.quoteStack = l.quoteStack := by
  intro ws
  induction ws with
  | nil =>
    intro fuel l rest hJ hc _ hrest hdrop hfuel
    obtain ⟨n, rfl⟩ : ∃ n, fuel = n + 1 := ⟨fuel - 1, by simp at hfuel; omega⟩
    refine ⟨[], [], l, rfl, ?_, hJ, hc, rfl, hdrop, rfl, rfl⟩
    rw [consumeWhiteSpace_succ]
    by_cases hp : isWhiteSpace l.peek = true
    · exfalso
      have hpe := (whitespace_dispatch _ hp).1
      have hnx := peek_eq_next l hJ hc hpe
      have hch : l.next.1 = rest.headD EOF := next_char_of_drop l hJ hc _ (by simpa using hdrop)
      rw [← hnx, hch, hrest] at hp
      cases hp
    · rw [if_neg hp]
  | cons c ws ih =>
    intro fuel l rest hJ hc hall hrest hdrop hfuel
    obtain ⟨n, rfl⟩ : ∃ n, fuel = n + 1 := ⟨fuel - 1, by simp at hfuel; omega⟩
    rw [consumeWhiteSpace_succ]
    by_cases hp : isWhiteSpace l.peek = true
    · rw [if_pos hp]
      have hdrop0 : l.source.drop (l.cursor + 1).toNat = c :: (ws ++ rest) := by
        simpa using hdrop
      obtain ⟨pre, post, l1, e, hrun, h1, h2, h3, h4, h5, h6⟩ := ih n l.next.2 rest
        (next_spec l hJ hc).2 (by rw [next_cursor]; omega)
        (fun x hx => hall x (List.mem_cons_of_mem _ hx)) hrest
        (next_drop l hc c (ws ++ rest) hdrop0) (by simp at hfuel; omega)
      refine ⟨c :: pre, post, l1, by rw [e]; rfl, hrun, h1, h2, ?_, h4, ?_, ?_⟩
      · rw [h3, next_source]
      · rw [h5, next_scanState]
      · rw [h6, next_quoteStack]
    · rw [if_neg hp]
      exact ⟨[], c :: ws, l, rfl, rfl, hJ, hc, rfl, hdrop, rfl, rfl⟩

/-- Whitespace in front of a token, not at the indent stage of a line, is
skipped by `NextToken` before it looks at the token. -/
theorem nextTokenHead_skip : ∀ (n : Nat) (ws : List Char), ws.length ≤ n →
    ∀ (fuel : Nat) (l0 : Lexer) (rest : List Char), l0.buffered → -1 ≤ l0.cursor →
    (ws = [] ∨ l0.onIndentStage = false) → (∀ c ∈ ws, isWhiteSpace c = true) →
    isWhiteSpace (rest.headD EOF) = false →
    l0.source.drop (l0.cursor + 1).toNat = ws ++ rest → ws.length + 1 ≤ fuel →
    ∃ (fuel1 : Nat) (l1 : Lexer), fuel ≤ fuel1 + ws.length ∧
      Lexer.nextTokenHead fuel l0 = Lexer.nextTokenHead fuel1 l1 ∧ l1.buffered ∧
      -1 ≤ l1.cursor ∧ l1.source = l0.source ∧ l1.source.drop (l1.cursor + 1).toNat = rest ∧
      l1.quoteStack = l0.quoteStack := by
  intro n
  induction n with
  | zero =>
    intro ws hlen fuel l0 rest hJ hc _ _ _ hdrop _
    have : ws = [] := List.length_eq_zero.mp (by omega)
    subst this
    exact ⟨fuel, l0, by simp, rfl, hJ, hc, rfl, by simpa using hdrop, rfl⟩
  | succ n ih =>
    intro ws hlen fuel l0 rest hJ hc hst hall hrest hdrop hfuel
    cases ws with
    | nil => exact ⟨fuel, l0, by simp, rfl, hJ, hc, rfl, by simpa using hdrop, rfl⟩
    | cons c ws1 =>
      obtain ⟨f, rfl⟩ : ∃ f, fuel = f + 1 := ⟨fuel - 1, by simp at hfuel; omega⟩
      have hst0 : l0.onIndentStage = false := by
        rcases hst with h | h
        · cases h
        · exact h
      have hwc : isWhiteSpace c = true := hall c (List.mem_cons_self _ _)
      obtain ⟨h1, h3, h4, h5, h6⟩ := whitespace_dispatch c hwc
      have hdrop0 : l0.source.drop (l0.cursor + 1).toNat = c :: (ws1 ++ rest) := by
        simpa using hdrop
      have hch : l0.next.1 = c := by
        rw [next_char_of_drop l0 hJ hc _ hdrop0]; rfl
      have hJ1 := (next_spec l0 hJ hc).2
      have hcur := next_cursor l0
      have hst1 : l0.next.2.onIndentStage = false := by
        unfold Lexer.onIndentStage at hst0 ⊢
        rw [next_scanState]; exact hst0
      obtain ⟨pre, post, l1, e, hrun, hJ2, hc2, hs2, hd2, hsc2, hq2⟩ :=
        consumeWhiteSpace_run ws1 f l0.next.2 rest hJ1 (by rw [hcur]; omega)
          (fun x hx => hall x (List.mem_cons_of_mem _ hx)) hrest
          (next_drop l0 hc c (ws1 ++ rest) hdrop0) (by simp at hfuel; omega)
      have hstep : Lexer.nextTokenHead (f + 1) l0 = Lexer.nextTokenHead f l1 := by
        rw [nextTokenHead_succ]
        dsimp only
        rw [hch, if_neg h1]
        by_cases hS : c = SP ∨ c = TAB
        · rw [if_pos hS, hst1]
          simp only [Bool.false_eq_true, if_false, hrun]
        · rw [if_neg hS, if_neg h3, if_neg h4, if_neg h5, if_neg h6, if_pos hwc, hrun]
      have hplen : post.length ≤ ws1.length := by rw [e, List.length_append]; omega
      obtain ⟨fuel1, l2, hf, hrec, hJ3, hc3, hs3, hd3, hq3⟩ := ih post
        (by simp only [List.length_cons] at hlen; omega) f l1 rest hJ2 hc2
        (Or.inr (by
          unfold Lexer.onIndentStage at hst1 ⊢
          rw [hsc2]; exact hst1))
        (fun x hx => hall x (List.mem_cons_of_mem _ (by rw [e]; exact List.mem_append_right _ hx)))
        hrest hd2 (by simp only [List.length_cons] at hfuel; omega)
      refine ⟨fuel1, l2, ?_, by rw [hstep, hrec], hJ3, hc3, ?_, hd3, ?_⟩
      · simp only [List.length_cons]; omega
      · rw [hs3, hs2, next_source]
      · rw [hq3, hq2, next_quoteStack]

/-- The start of `NextToken` in front of whitespace that is not at the indent
stage of a line: the whitespace is skipped, and the lexer looks at the rune
behind it with its reading state and quote stack. -/
theorem NextToken_skip (l : Lexer) (hJ : l.buffered) (hc : -1 ≤ l.cursor)
    (ws rest : List Char) (hst : ws = [] ∨ l.onIndentStage = false)
    (hall : ∀ c ∈ ws, isWhiteSpace c = true) (hrest : isWhiteSpace (rest.headD EOF) = false)
    (hb : l.source.drop (l.cursor + 1).toNat = ws ++ rest) (fuel : Nat)
    (hfuel : ws.length + 1 ≤ fuel) :
    ∃ (fuel1 : Nat) (l1 : Lexer), fuel ≤ fuel1 + ws.length ∧
      l.NextToken fuel = Lexer.nextTokenHead fuel1 l1 ∧ l1.buffered ∧ -1 ≤ l1.cursor ∧
      l1.source = l.source ∧ l1.source.drop (l1.cursor + 1).toNat = rest ∧
      l1.quoteStack = l.quoteStack := by
  obtain ⟨l0, e0, e1, e2, e3, e4, e5, e6⟩ := NextToken_head fuel l
  have hJ0 : l0.buffered := buffered_of_eq l l0 e1 e2 e3 e4 hJ
  have hc0 : -1 ≤ l0.cursor := by rw [e4]; exact hc
  have hs0 : l0.source = l.source := source_of_eq l l0 e1 e3
  obtain ⟨fuel1, l1, hf, hrun, h1, h2, h3, h4, h5⟩ := nextTokenHead_skip ws.length ws
    (le_refl _) fuel l0 rest hJ0 hc0 (hst.imp id e6) hall hrest
    (by rw [hs0, e4]; exact hb) hfuel
  exact ⟨fuel1, l1, hf, by rw [e0, hrun], h1, h2, by rw [h3, hs0], h4, by rw [h5, e5]⟩

/-! ## C21: identifiers -/

/-- A plain identifier behind the cursor of a lexer in any reading state,
with whitespace in front of it. -/
theorem NextToken_plain (l : Lexer) (hJ : l.buffered) (hc : -1 ≤ l.cursor)
    (ws s tail : List Char) (hst : ws = [] ∨ l.onIndentStage = false)
    (hall : ∀ c ∈ ws, isWhiteSpace c = true) (fuel : Nat)
    (hfuel : ws.length + s.length + 3 ≤ fuel)
    (hb : l.source.drop (l.cursor + 1).toNat = ws ++ (s ++ tail))
    (hs : plainIdentifier s tail = true)
    (hterm : Contains (tail.headD EOF) terminators = true) :
    ((significant s).length ≤ 32 → ∃ tok l1,
      l.NextToken fuel = some (.ok tok, l1) ∧
        tok.TokenType = TypeIdentifier ∧ tok.Literal = significant s) ∧
    (32 < (significant s).length → ∃ l1,
      l.NextToken fuel = some (.error (IdentifierExceedLength 32), l1)) := by
  cases s with
  | nil => simp [plainIdentifier] at hs
  | cons c r =>
    simp only [plainIdentifier, Bool.and_eq_true] at hs
    obtain ⟨hrune, hall1⟩ := hs
    obtain ⟨hid, _, _⟩ := rune_facts _ _ _ hrune
    obtain ⟨_, _, _, _, _, hws, _, _⟩ := idFirst_dispatch c hid
    have hwsf : isWhiteSpace c = false := by
      cases h : isWhiteSpace c with
      | false => rfl
      | true => exact absurd h hws
    simp only [List.length_cons] at hfuel
    obtain ⟨fuel1, l0, hf1, e0, hJ0, hc0, _, hdrop0, _⟩ := NextToken_skip l hJ hc ws
      (c :: r ++ tail) hst hall hwsf hb fuel (by omega)
    obtain ⟨n, rfl⟩ : ∃ n, fuel1 = n + 1 := ⟨fuel1 - 1, by omega⟩
    have hdrop0 : l0.source.drop (l0.cursor + 1).toNat = c :: (r ++ tail) := hdrop0
    have hlen := takeWhile_append_le (fun d => isNumber d || isWhiteSpace d) tail
      (numws_terminator tail hterm) r
    obtain ⟨l1, ehead, hJ1, hcur1, hsrc1⟩ := nextTokenHead_identifier n l0 hJ0 hc0 c (r ++ tail)
      hdrop0 hrune (by omega)
    have hdrop1 : l1.source.drop (l1.cursor + 1).toNat = r ++ tail := by
      rw [hsrc1, hcur1]
      have e : (l0.cursor + 1 + 1).toNat = (l0.cursor + 1).toNat + 1 := by omega
      rw [e]
      exact drop_succ_of_drop _ _ _ _ hdrop0
    rw [e0, ehead]
    unfold Lexer.parseIdentifier
    dsimp only
    rw [if_neg (by rw [hid]; decide)]
    have hJ2 : (l1.clearBuffer.pushBuffer [c]).buffered := hJ1
    have hrun := idLoop_run r tail n 1
      ((newTokenRange l1.clearBuffer).setRangeEnd l1.clearBuffer)
      (l1.clearBuffer.pushBuffer [c]) hJ2
      (by show -1 ≤ l1.cursor; rw [hcur1]; omega) hdrop1 hall1 hterm (by omega) (by omega)
    have hbuf : (l1.clearBuffer.pushBuffer [c]).chBuffer = [c] := rfl
    rw [hbuf] at hrun
    rw [significant_cons c r hwsf]
    simp only [List.length_cons, Nat.cast_add, Nat.cast_one] at hrun ⊢
    constructor
    · intro h
      obtain ⟨rg1, l2, h1⟩ := hrun.1 (by omega)
      exact ⟨_, l2, h1, rfl, rfl⟩
    · intro h
      exact hrun.2 (by omega)

/-- A quoted identifier behind the cursor of a lexer in any reading state,
with whitespace in front of it. -/
theorem NextToken_quoted (l : Lexer) (hJ : l.buffered) (hc : -1 ≤ l.cursor)
    (ws s tail : List Char) (hst : ws = [] ∨ l.onIndentStage = false)
    (hall0 : ∀ c ∈ ws, isWhiteSpace c = true) (fuel : Nat)
    (hfuel : ws.length + s.length + 3 ≤ fuel)
    (hb : l.source.drop (l.cursor + 1).toNat = ws ++ MiddleDot :: (s ++ MiddleDot :: tail))
    (hs : quotedIdentifier s = true) :
    ((significant s).length ≤ 32 → ∃ tok l1,
      l.NextToken fuel = some (.ok tok, l1) ∧
        tok.TokenType = TypeVarQuote ∧ tok.Literal = significant s) ∧
    (32 < (significant s).length → ∃ l1,
      l.NextToken fuel = some (.error (IdentifierExceedLength 32), l1)) := by
  obtain ⟨fuel1, l0, hf1, e0, hJ0, hc0, _, hdrop0, _⟩ := NextToken_skip l hJ hc ws
    (MiddleDot :: (s ++ MiddleDot :: tail)) hst hall0
    (show isWhiteSpace MiddleDot = false by decide) hb fuel (by omega)
  obtain ⟨n, rfl⟩ : ∃ n, fuel1 = n + 1 := ⟨fuel1 - 1, by omega⟩
  obtain ⟨m, rfl⟩ : ∃ m, n = m + 1 := ⟨n - 1, by omega⟩
  simp only [quotedIdentifier, Bool.and_eq_true, List.all_eq_true, Bool.or_eq_true] at hs
  obtain ⟨hall, hfirst⟩ := hs
  have hch : l0.next.1 = MiddleDot := by
    rw [next_char_of_drop l0 hJ0 hc0 _ hdrop0]; rfl
  have hJ1 := (next_spec l0 hJ0 hc0).2
  have hdrop1 := next_drop l0 hc0 MiddleDot (s ++ MiddleDot :: tail) hdrop0
  have hcur1 := next_cursor l0
  rw [e0, nextTokenHead_varQuote (m + 1) l0 hch]
  unfold Lexer.parseVarQuote
  dsimp only
  have hJ2 : l0.next.2.clearBuffer.buffered := hJ1
  have hrun := vqLoop_run s tail (m + 1) 0 (newTokenRange l0.next.2.clearBuffer)
    l0.next.2.clearBuffer hJ2 (by show -1 ≤ l0.next.2.cursor; rw [hcur1]; omega) hdrop1 hall
    (by
      intro _ c hc
      cases hsig : significant s with
      | nil => rw [hsig] at hc; cases hc
      | cons x xs =>
        rw [hsig] at hc hfirst
        simp only [List.head?_cons, Option.some.injEq] at hc
        rw [← hc]; exact hfirst)
    (by omega) (by omega) (by omega)
  have hbuf : l0.next.2.clearBuffer.chBuffer = [] := rfl
  rw [hbuf] at hrun
  simp only [List.nil_append, zero_add] at hrun
  constructor
  · intro h
    obtain ⟨rg1, l1, h1⟩ := hrun.1 (by omega)
    exact ⟨_, l1, h1, rfl, rfl⟩
  · intro h
    exact hrun.2 (by omega)

/-- C21: after any number of tokens that `NextToken` has returned since the
lexer was made, an identifier behind the cursor, with or without whitespace in
front of it (whitespace that is not the indent of a line), is returned as one
token whose literal is its characters with the whitespace removed when it has
at most 32 significant characters, and is rejected with
identifier-exceed-length (code 0x2025) when it has 33 or more. A plain
identifier (identifier characters and whitespace, keyword glyphs included, with
no keyword and no comment starting in it, and a terminator or the end of input
behind it) gives an identifier token, a text between two `·` marks a var-quote
token. The source comes in any non-empty blocks, and the result is there for
every fuel of at least the length of the whitespace and the identifier plus 3. -/
theorem NextToken_identifier (blocks : List (List Char)) (hne : ∀ b ∈ blocks, b ≠ [])
    (fuel0 k : Nat) (toks : List Token) (l : Lexer)
    (hl : Lexer.nextTokens fuel0 k (NewLexer blocks) = some (toks, l))
    (ws s tail : List Char) (hst : ws = [] ∨ l.onIndentStage = false)
    (hws : ∀ c ∈ ws, isWhiteSpace c = true) (fuel : Nat)
    (hfuel : ws.length + s.length + 3 ≤ fuel) :
    (IdentifierExceedLength 32).code = 0x2025 ∧
    (blocks.flatten.drop (l.cursor + 1).toNat = ws ++ (s ++ tail) →
      plainIdentifier s tail = true → Contains (tail.headD EOF) terminators = true →
      ((significant s).length ≤ 32 → ∃ tok l1,
        l.NextToken fuel = some (.ok tok, l1) ∧
          tok.TokenType = TypeIdentifier ∧ tok.Literal = significant s) ∧
      (32 < (significant s).length → ∃ l1,
        l.NextToken fuel = some (.error (IdentifierExceedLength 32), l1))) ∧
    (blocks.flatten.drop (l.cursor + 1).toNat = ws ++ MiddleDot :: (s ++ MiddleDot :: tail) →
      quotedIdentifier s = true →
      ((significant s).length ≤ 32 → ∃ tok l1,
        l.NextToken fuel = some (.ok tok, l1) ∧
          tok.TokenType = TypeVarQuote ∧ tok.Literal = significant s) ∧
      (32 < (significant s).length → ∃ l1,
        l.NextToken fuel = some (.error (IdentifierExceedLength 32), l1))) := by
  obtain ⟨⟨hJ, hc, hs⟩, _⟩ := nextTokens_keeps blocks.flatten fuel0 k (NewLexer blocks) toks l
    (NewLexer_reads blocks hne).1 hl
  refine ⟨by decide, ?_, ?_⟩
  · intro hb
    exact NextToken_plain l hJ hc ws s tail hst hws fuel hfuel (by rw [hs]; exact hb)
  · intro hb
    exact NextToken_quoted l hJ hc ws s tail hst hws fuel hfuel (by rw [hs]; exact hb)

/-- C21 on the source `令 变量名-未定，`, behind its first token: a blank stands in
front of the identifier `变量名-未定`, which holds the glyph `定`, with which the
keyword `定义` starts. -/
theorem NextToken_identifier_witness :
    ∃ toks l, Lexer.nextTokens 3 1 (NewLexer ["令 变量名-未定，".toList]) = some (toks, l) ∧
      (" ".toList = [] ∨ l.onIndentStage = false) ∧
      (∀ c ∈ " ".toList, isWhiteSpace c = true) ∧
      ["令 变量名-未定，".toList].flatten.drop (l.cursor + 1).toNat
        = " ".toList ++ ("变量名-未定".toList ++ "，".toList) ∧
      plainIdentifier "变量名-未定".toList "，".toList = true ∧
      ∃ tok l1, l.NextToken 11 = some (.ok tok, l1) ∧
        tok.TokenType = TypeIdentifier ∧ tok.Literal = "变量名-未定".toList :=
  ⟨_, _, rfl, Or.inr rfl, by decide, by decide, by decide,
    ((NextToken_identifier ["令 变量名-未定，".toList] (by decide) 3 1 _ _ rfl
      " ".toList "变量名-未定".toList "，".toList (Or.inr rfl) (by decide) 11 (by decide)).2.1
      (by decide) (by decide) (by decide)).1 (by decide)⟩

/-! ## C22: quoted texts -/

/-- A quoted text behind the cursor of a lexer in any reading state with an
empty quote stack, with whitespace in front of the text. -/
theorem NextToken_quotes (l : Lexer) (hJ : l.buffered) (hc : -1 ≤ l.cursor)
    (hq : l.quoteStack = []) (ws : List Char) (hst : ws = [] ∨ l.onIndentStage = false)
    (hall : ∀ c ∈ ws, isWhiteSpace c = true) (L : Char) (hL : Contains L LeftQuotes = true)
    (rest : List Char) (hb : l.source.drop (l.cursor + 1).toNat = ws ++ L :: rest)
    (hzr : ∀ c ∈ rest, c ≠ EOF) (fuel : Nat) (hfuel : ws.length + rest.length + 3 ≤ fuel) :
    (∀ body, quoteScan [L] rest = .closed body → ∃ tok l1,
      l.NextToken fuel = some (.ok tok, l1) ∧
        tok.TokenType = TypeString ∧ tok.Literal = L :: body ++ [QuoteMatchMap L]) ∧
    (quoteScan [L] rest = .full → ∃ l1,
      l.NextToken fuel = some (.error (QuoteStackFull 32), l1)) := by
  have hLw : isWhiteSpace ((L :: rest).headD EOF) = false := by
    have hw : ∀ k ∈ LeftQuotes, isWhiteSpace k = false := by decide
    exact hw L (mem_of_Contains L LeftQuotes hL)
  obtain ⟨fuel1, l0, hf1, e0, hJ0, hc0, _, hdrop0, e5⟩ := NextToken_skip l hJ hc ws
    (L :: rest) hst hall hLw hb fuel (by omega)
  obtain ⟨n, rfl⟩ : ∃ n, fuel1 = n + 1 := ⟨fuel1 - 1, by omega⟩
  have hqs0 : l0.quoteStack = [] := by rw [e5]; exact hq
  have hch : l0.next.1 = L := by
    rw [next_char_of_drop l0 hJ0 hc0 _ hdrop0]; rfl
  have hJ1 := (next_spec l0 hJ0 hc0).2
  have hdrop1 := next_drop l0 hc0 L rest hdrop0
  have hcur1 := next_cursor l0
  have hstart : (l0.next.2.clearBuffer.quotePush L).2 = l0.next.2.withQuotes [] [L] := by
    have hlen : ¬ l0.next.2.clearBuffer.quoteStack.length = 32 := by
      show ¬ l0.next.2.quoteStack.length = 32
      rw [next_quoteStack, hqs0]; decide
    unfold Lexer.quotePush
    rw [if_neg hlen]
    show l0.next.2.withQuotes [] (L :: l0.next.2.quoteStack) = _
    rw [next_quoteStack, hqs0]
  rw [e0, nextTokenHead_string n l0 (by rw [hch]; exact hL), hch]
  unfold Lexer.parseString
  dsimp only
  rw [hstart]
  have hrun := strLoop_run rest.length rest (le_refl _) n L
    (newTokenRange (l0.next.2.withQuotes [] [L])) (l0.next.2.withQuotes [] [L])
    (buffered_of_eq l0.next.2 _ rfl rfl rfl rfl hJ1)
    (by show -1 ≤ l0.next.2.cursor; rw [hcur1]; omega)
    (by
      rw [source_of_eq l0.next.2 (l0.next.2.withQuotes [] [L]) rfl rfl]
      exact hdrop1) hzr (by omega)
  have hq1 : (l0.next.2.withQuotes [] [L]).quoteStack = [L] := rfl
  have hc1 : (l0.next.2.withQuotes [] [L]).chBuffer = [] := rfl
  rw [hq1, hc1] at hrun
  constructor
  · intro body h
    obtain ⟨rg1, l1, h1⟩ := hrun.1 body h
    have hlit := NewStringToken_Literal ([] ++ body) L rg1 hL
    rw [List.nil_append] at hlit
    exact ⟨_, l1, h1, hlit.2, hlit.1⟩
  · exact hrun.2

/-- C22, as stated, fails where the zero rune U+0000 is in the source, because
the lexer takes that rune for the end of the input. The text `“A␀B”` is
well-nested, and the token returned for it has the literal `“A”`, not the whole
text. In the source `“A␀“B”` the third call of `NextToken` stands before the
well-nested text `“B”` with the quote left open by the first call still on the
stack, and returns the literal `“B””`. -/
theorem NextToken_string_counterexample :
    quoteScan [LeftQuoteIV] ['A', EOF, 'B', RightQuoteIV] = .closed ['A', EOF, 'B'] ∧
    (∃ tok l1, (NewLexer [[LeftQuoteIV, 'A', EOF, 'B', RightQuoteIV]]).NextToken 9
        = some (.ok tok, l1) ∧ tok.TokenType = TypeString
      ∧ tok.Literal = [LeftQuoteIV, 'A', RightQuoteIV]
      ∧ tok.Literal ≠ [LeftQuoteIV, 'A', EOF, 'B', RightQuoteIV]) ∧
    quoteScan [LeftQuoteIV] ['B', RightQuoteIV] = .closed ['B'] ∧
    (∃ t1 t2 t3 l3,
      Lexer.nextTokens 9 3 (NewLexer [[LeftQuoteIV, 'A', EOF, LeftQuoteIV, 'B', RightQuoteIV]])
        = some ([t1, t2, t3], l3) ∧ t1.Literal = [LeftQuoteIV, 'A', RightQuoteIV]
      ∧ t2.TokenType = TypeEOF ∧ t3.TokenType = TypeString
      ∧ t3.Literal = [LeftQuoteIV, 'B', RightQuoteIV, RightQuoteIV]
      ∧ t3.Literal ≠ [LeftQuoteIV, 'B', RightQuoteIV]) :=
  ⟨by decide, ⟨_, _, rfl, rfl, rfl, by decide⟩, by decide,
    ⟨_, _, _, _, rfl, rfl, rfl, rfl, rfl, by decide⟩⟩

theorem not_atEnd_of_drop (l : Lexer) (src : List Char) (hc : -1 ≤ l.cursor)
    (ws : List Char) (c : Char) (rest : List Char)
    (h : src.drop (l.cursor + 1).toNat = ws ++ c :: rest) : ¬ l.atEnd src := by
  intro he
  unfold Lexer.atEnd at he
  have : src.drop (l.cursor + 1).toNat = [] := List.drop_of_length_le (by omega)
  rw [this] at h
  cases ws <;> cases h

theorem mem_of_drop {α : Type} (xs : List α) (n : Nat) (ys : List α) (h : xs.drop n = ys)
    (x : α) (hx : x ∈ ys) : x ∈ xs := by
  rw [← h] at hx
  exact List.mem_of_mem_drop hx

/-- C22, amended: in a source that holds no zero rune U+0000, after any number
of tokens that `NextToken` has returned since the lexer was made, a quoted text
behind the cursor that starts with the left quote `L`, with or without
whitespace in front of it (whitespace that is not the indent of a line), is
read along the bounded nesting of quotes (`quoteScan`: a left quote pushes, a
right quote pops only when it matches the innermost open left quote, every
other rune is text). When the nesting closes the outer level, the text is the
outer pair with the body between them, and the result is one string token whose
literal is that whole text; when a left quote meets the full stack of 32, the
result is the error quote-stack-full (code 0x2023). A text of 33 left quotes in
a row, whatever follows, meets the full stack, and 32 left quotes followed by
their 32 right quotes close. The source comes in any non-empty blocks, and the
result is there for every fuel of at least the length of the rest of the source
plus 3. -/
theorem NextToken_string (blocks : List (List Char)) (hne : ∀ b ∈ blocks, b ≠ [])
    (hz : EOF ∉ blocks.flatten) (fuel0 k : Nat) (toks : List Token) (l : Lexer)
    (hl : Lexer.nextTokens fuel0 k (NewLexer blocks) = some (toks, l))
    (ws : List Char) (hst : ws = [] ∨ l.onIndentStage = false)
    (hws : ∀ c ∈ ws, isWhiteSpace c = true)
    (L : Char) (hL : Contains L LeftQuotes = true) (rest : List Char)
    (hb : blocks.flatten.drop (l.cursor + 1).toNat = ws ++ L :: rest)
    (fuel : Nat) (hfuel : ws.length + rest.length + 3 ≤ fuel) :
    (QuoteStackFull 32).code = 0x2023 ∧
    (∀ body, quoteScan [L] rest = .closed body →
      (∃ tail, L :: rest = (L :: body ++ [QuoteMatchMap L]) ++ tail) ∧
      ∃ tok l1, l.NextToken fuel = some (.ok tok, l1) ∧
        tok.TokenType = TypeString ∧ tok.Literal = L :: body ++ [QuoteMatchMap L]) ∧
    (quoteScan [L] rest = .full → ∃ l1,
      l.NextToken fuel = some (.error (QuoteStackFull 32), l1)) ∧
    (∀ tail, quoteScan [L] (List.replicate 32 L ++ tail) = .full) ∧
    quoteScan [L] (List.replicate 31 L ++ List.replicate 32 (QuoteMatchMap L))
      = .closed (List.replicate 31 L ++ List.replicate 31 (QuoteMatchMap L)) := by
  obtain ⟨hnew, hq0⟩ := NewLexer_reads blocks hne
  obtain ⟨⟨hJ, hc, hs⟩, hstack⟩ := nextTokens_keeps blocks.flatten fuel0 k (NewLexer blocks)
    toks l hnew hl
  have hq : l.quoteStack = [] := by
    rcases hstack hz (Or.inl hq0) with h | h
    · exact h
    · exact absurd h (not_atEnd_of_drop l _ hc ws L rest hb)
  have hzr : ∀ c ∈ rest, c ≠ EOF := by
    intro c hc1 e
    apply hz
    rw [← e]
    exact mem_of_drop _ _ _ hb c
      (List.mem_append_right _ (List.mem_cons_of_mem _ hc1))
  have hq2 := NextToken_quotes l hJ hc hq ws hst hws L hL rest (by rw [hs]; exact hb) hzr
    fuel hfuel
  refine ⟨by decide, ?_, hq2.2, ?_, ?_⟩
  · intro body h
    refine ⟨?_, hq2.1 body h⟩
    obtain ⟨tail, ht⟩ := quoteScan_closing rest [L] body L rfl h
    exact ⟨tail, by rw [ht]; simp⟩
  · intro tail
    exact quoteScan_lefts L hL tail 31 [L] rfl
  · exact quoteScan_depth32 L (mem_of_Contains L LeftQuotes hL)

/-- C22, amended, on the source `令 “LSK”，`, behind its first token, with a
blank in front of the text. -/
theorem NextToken_string_witness :
    ∃ toks l, Lexer.nextTokens 3 1 (NewLexer ["令 “LSK”，".toList]) = some (toks, l) ∧
      EOF ∉ ["令 “LSK”，".toList].flatten ∧
      (" ".toList = [] ∨ l.onIndentStage = false) ∧
      (∀ c ∈ " ".toList, isWhiteSpace c = true) ∧
      ["令 “LSK”，".toList].flatten.drop (l.cursor + 1).toNat
        = " ".toList ++ LeftQuoteIV :: "LSK”，".toList ∧
      quoteScan [LeftQuoteIV] "LSK”，".toList = .closed "LSK".toList ∧
      ∃ tok l1, l.NextToken 9 = some (.ok tok, l1) ∧
        tok.TokenType = TypeString ∧ tok.Literal = "“LSK”".toList :=
  ⟨_, _, rfl, by decide, Or.inr rfl, by decide, by decide, by decide,
    ((NextToken_string ["令 “LSK”，".toList] (by decide) (by decide) 3 1 _ _ rfl
      " ".toList (Or.inr rfl) (by decide) LeftQuoteIV (by decide) "LSK”，".toList
      (by decide) 9 (by decide)).2.1 "LSK".toList (by decide)).2⟩

end Zn
